import Mathlib

/-!
# MP-Gadget patchy UV background (`libgadget/uvbg.c`): shallow embedding

The last sections embed `endrun` (`endrun.c`), the nearest-star update of
`libgadget/winds.c`, `grav_apply_short_range_window` (`longrange.c`) and the
clock table of `walltime.c`.

Conventions of the embedding.

* `float` and `double` values are rationals (`ℚ`).  Where a result depends on
  rounding, in `pos_to_ngp` and in `grav_apply_short_range_window`, every
  binary64 operation rounds to nearest, ties to even (`round_double`); elsewhere
  the arithmetic is exact and the casts between `float`, `double` and small
  integers are the identity.
* C `int` and `ptrdiff_t` values are `Int`.  Signed overflow is undefined in C
  and is not modelled: sums and products are exact, and the theorems on the grids
  carry the bound `2 * (D / 2 + 1) * D * D < 2^31` on the grid dimension `D`,
  under which every index product of the source fits an `int`.  A narrowing
  conversion that the source performs explicitly is modelled by `toInt32`.
* A buffer is a total function `Int → ℚ` from element index to value.  The loop
  of `populate_grids` that derives the SFR is checked against the length of its
  buffers (`sfr_loop_in_bounds`): when it leaves them the result is `none`.
* A path that aborts (`assert`, `endrun`, `abort`) returns `none`; so does the
  conversion of a `double` to `int` when the value does not fit (`double_to_int`).
* A C string is the list of its characters before the terminating zero, and
  `strcmp` is the lexicographic order of such lists; `strcpy` into the arrays
  `tmp[80]` and `Clock.name` of `walltime.c` returns `none` when the string does
  not fit.
* Library calls (`MPI_Reduce`, `qsort`, `bsearch`, the transforms, `sqrtf` and
  the like) are modelled by their contracts or taken as parameters, and so are
  the constants of headers that are not among the sources (`UVBG_DIM`,
  `HYDROGEN_MASSFRAC`, the size of `Clock.name`).
-/

namespace Uvbg

/-! ## Integer helpers -/

/-- Conversion of a wide integer to a 32-bit `int` (two's complement wrap). -/
def toInt32 (x : Int) : Int := (x + 2 ^ 31) % 2 ^ 32 - 2 ^ 31

/-- `nearbyint` in the default rounding mode (ties to even), on exact values. -/
def nearbyint (v : ℚ) : Int :=
  let f := ⌊v⌋
  let d := v - (f : ℚ)
  if d < 1 / 2 then f
  else if 1 / 2 < d then f + 1
  else if f % 2 = 0 then f else f + 1

/-! ## Binary64 arithmetic -/

/-- The conversion `(int)` of a `double`: the value is truncated toward zero; the
conversion is undefined (`none`) when the truncated value is not an `int`. -/
def double_to_int (x : ℚ) : Option Int :=
  let t := if 0 ≤ x then ⌊x⌋ else ⌈x⌉
  if -2 ^ 31 ≤ t ∧ t < 2 ^ 31 then some t else none

/-- The exponent of the binade of `x` in the binary64 format: the integer `e` with
`2^e ≤ |x| < 2^(e+1)`, and -1022 when `|x|` is smaller than `2^(-1022)` (zero and
the subnormal numbers). -/
def double_exponent (x : ℚ) : Int := if x = 0 then -1022 else max (Int.log 2 |x|) (-1022)

/-- The spacing of the binary64 numbers in the binade of `x` (53 significant bits). -/
def double_ulp (x : ℚ) : ℚ := (2 : ℚ) ^ (double_exponent x - 52)

/-- The result of a binary64 operation whose exact value is `x`, in the default
rounding mode (to nearest, ties to even): the multiple of `double_ulp x` nearest
to `x`.  `none` stands for a result that is not a finite number (the rounded
magnitude reaches `2^1024`: overflow to infinity). -/
def round_double (x : ℚ) : Option ℚ :=
  let y := ((nearbyint (x / double_ulp x) : Int) : ℚ) * double_ulp x
  if |y| < 2 ^ 1024 then some y else none

/-- The binary64 quotient `a / b`; division by zero gives no finite number. -/
def double_div (a b : ℚ) : Option ℚ := if b = 0 then none else round_double (a / b)

/-- The binary64 product `a * b`. -/
def double_mul (a b : ℚ) : Option ℚ := round_double (a * b)

/-! ## `assign_slabs` -/

/-- The start-offset loop of `assign_slabs`, iterations `ii = 1 .. n_ranks - 1`:
`slab_ix_start[ii] = slab_ix_start[ii - 1] + slab_nix[ii - 1]`.  The array under
construction is `acc`, its length is the next `ii`. -/
def assign_slabs_loop (slab_nix : List Int) : Nat → List Int → List Int
  | 0, acc => acc
  | k + 1, acc =>
    let ii := acc.length
    assign_slabs_loop slab_nix k (acc ++ [acc.getD (ii - 1) 0 + slab_nix.getD (ii - 1) 0])

/-- The array `slab_ix_start` computed by `assign_slabs` from the gathered widths
`slab_nix` (one entry per rank, at least one rank). -/
def assign_slabs (slab_nix : List Int) : List Int :=
  assign_slabs_loop slab_nix (slab_nix.length - 1) [0]

/-! ## `pos_to_ngp` -/

/-- The binary64 value of `x / side * (double)nx` in `pos_to_ngp`: the quotient
is rounded, then the product. -/
def pos_to_ngp_product (x side : ℚ) (nx : Int) : Option ℚ :=
  match double_div x side with
  | none => none
  | some q => double_mul q (nx : ℚ)

/-- The function `pos_to_ngp`: `nearbyint` rounds the binary64 value of
`x / side * (double)nx` to an integer (ties to even) and `(int)` converts it.
`none` when the product is not a finite number or the conversion is undefined,
and when `assert(ind > -1)` fails. -/
def pos_to_ngp (x side : ℚ) (nx : Int) : Option Int :=
  match pos_to_ngp_product x side nx with
  | none => none
  | some p =>
    match double_to_int ((nearbyint p : Int) : ℚ) with
    | none => none
    | some ind0 =>
      let ind := if ind0 > nx - 1 then 0 else ind0
      if ind > -1 then some ind else none

/-! ## `compare_ptrdiff` and `searchsorted` -/

/-- The comparator `compare_ptrdiff`: the `ptrdiff_t` difference narrowed to `int`. -/
def compare_ptrdiff (a b : Int) : Int := toInt32 (a - b)

/-- The recursive function `searchsorted` specialised to `ptrdiff_t` arrays and
`compare_ptrdiff`.  The first argument bounds the recursion depth; `none` means
the bound was reached. -/
def searchsorted : Nat → Int → List Int → Int → Int → Int → Option Int
  | 0, _, _, _, _, _ => none
  | fuel + 1, val, arr, count, imin, imax =>
    let imin1 := if imax < 0 ∧ imin < 0 then 0 else imin
    let imax1 := if imax < 0 ∧ imin < 0 then count - 1 else imax
    if imax1 - imin1 < 0 then some imax1
    else
      let imid := imin1 + Int.tdiv (imax1 - imin1) 2
      let arr_val := arr.getD imid.toNat 0
      if compare_ptrdiff arr_val val > 0 then
        searchsorted fuel val arr count imin1 (imid - 1)
      else if compare_ptrdiff arr_val val < 0 then
        searchsorted fuel val arr count (imid + 1) imax1
      else some imid

/-- The call `searchsorted(&ix, slab_ix_start, nranks, ..., -1, -1)` of
`populate_grids`; the recursion is at most `nranks + 1` deep. -/
def searchsorted_rank (ix : Int) (slab_ix_start : List Int) : Option Int :=
  searchsorted (slab_ix_start.length + 1) ix slab_ix_start slab_ix_start.length (-1) (-1)

/-! ## `grid_index` -/

/-- The three layouts of `index_type`. -/
inductive index_type
  | INDEX_PADDED
  | INDEX_REAL
  | INDEX_COMPLEX_HERM
  deriving DecidableEq, Repr

/-- The function `grid_index` on the three declared layouts. -/
def grid_index (i j k dim : Int) : index_type → Int
  | .INDEX_PADDED => k + (2 * (Int.tdiv dim 2 + 1)) * (j + dim * i)
  | .INDEX_REAL => k + dim * (j + dim * i)
  | .INDEX_COMPLEX_HERM => k + (Int.tdiv dim 2 + 1) * (j + dim * i)

/-! ## `populate_grids`: ownership tags and mass deposition -/

/-- The fields of `struct particle_data` that `populate_grids` reads or writes. -/
structure particle_data where
  Pos0 : ℚ
  Pos1 : ℚ
  Pos2 : ℚ
  Mass : ℚ
  PType : Int
  IsGarbage : Bool
  Swallowed : Bool
  RegionInd : Int

/-- The test `(!P[ii].IsGarbage) && (!P[ii].Swallowed) && (P[ii].Type < 5)`; the field
`Type` is named `PType` here. -/
def eligible (p : particle_data) : Bool :=
  (!p.IsGarbage) && (!p.Swallowed) && decide (p.PType < 5)

/-- A loop (or a set of ranks) running a step that may abort: the first abort
aborts the whole run. -/
def for_each {α β : Type} (f : α → Option β) : List α → Option (List β)
  | [] => some []
  | a :: rest =>
    match f a with
    | none => none
    | some b =>
      match for_each f rest with
      | none => none
      | some bs => some (b :: bs)

/-- One iteration of the first particle loop of `populate_grids`: the new
`P[ii]`, with `RegionInd` set to the rank found by `searchsorted`, or to -1. -/
def tag_particle (box_size : ℚ) (dim : Int) (slab_ix_start : List Int) (p : particle_data) :
    Option particle_data :=
  if eligible p then
    match pos_to_ngp p.Pos0 box_size dim with
    | none => none
    | some ix =>
      match searchsorted_rank ix slab_ix_start with
      | none => none
      | some r => some { p with RegionInd := r }
  else some { p with RegionInd := -1 }

/-- The value of `buffer_size`: the largest width in `slab_nix` (starting from 0)
times `UVBG_DIM * UVBG_DIM`. -/
def buffer_size (slab_nix : List Int) (dim : Int) : Int :=
  slab_nix.foldl (fun b w => if w > b then toInt32 w else b) 0 * (dim * dim)

/-- The loop `for (ii = 0; ii < grid_n_real; ii++)` that derives the SFR stays
inside its two buffers of `bsize` elements: every index it visits, up to
`grid_n_real - 1 = dim^3 - 1`, is below `bsize`. -/
def sfr_loop_in_bounds (dim bsize : Int) : Prop := dim * dim * dim ≤ max bsize 0

instance sfr_loop_in_bounds_decidable (dim bsize : Int) :
    Decidable (sfr_loop_in_bounds dim bsize) := by
  unfold sfr_loop_in_bounds
  infer_instance

/-- The loop that fills `buffer_mass` for destination rank `i_r` from the
particles of one rank: `buffer_mass[ind] += P[ii].Mass` for every particle with
`RegionInd == i_r`. -/
def fill_buffer_mass (box_size : ℚ) (dim ix_start i_r : Int) :
    List particle_data → (Int → ℚ) → Option (Int → ℚ)
  | [], buffer_mass => some buffer_mass
  | p :: rest, buffer_mass =>
    if p.RegionInd = i_r then
      match pos_to_ngp p.Pos0 box_size dim, pos_to_ngp p.Pos1 box_size dim,
          pos_to_ngp p.Pos2 box_size dim with
      | some ngx, some iy, some iz =>
        let ix := ngx - ix_start
        let ind := grid_index ix iy iz dim index_type.INDEX_REAL
        fill_buffer_mass box_size dim ix_start i_r rest
          (Function.update buffer_mass ind (buffer_mass ind + p.Mass))
      | _, _, _ => none
    else fill_buffer_mass box_size dim ix_start i_r rest buffer_mass

/-- The call `MPI_Reduce(..., MPI_FLOAT, MPI_SUM, i_r, ...)`: the buffer received
by the root is the element-wise sum of the buffers sent by all ranks. -/
def MPI_Reduce_sum (bufs : List (Int → ℚ)) : Int → ℚ :=
  fun i => (bufs.map (fun b => b i)).sum

/-- The mass part of one iteration `i_r` of the destination loop of
`populate_grids`, on all ranks: every rank zeroes `buffer_mass` and fills it from
its own particles, and the sum is reduced onto rank `i_r`.  The result is the
reduced `buffer_mass` held by rank `i_r`. -/
def reduced_buffer_mass (box_size : ℚ) (dim : Int) (slab_ix_start : List Int)
    (tagged : List (List particle_data)) (i_r : Nat) : Option (Int → ℚ) :=
  match for_each (fun ps => fill_buffer_mass box_size dim
      (toInt32 (slab_ix_start.getD i_r 0)) (i_r : Int) ps (fun _ => 0)) tagged with
  | none => none
  | some bufs => some (MPI_Reduce_sum bufs)

/-- The ownership tags and the mass deposition of `populate_grids` on all ranks.
`parts` holds the particle list of every rank; the result is the tagged particle
lists, and for every rank `r` the reduced `buffer_mass` it holds after
iteration `i_r = r`.  Every iteration of the destination loop also runs the loop
that derives the SFR (`derive_sfr`) over `grid_n_real` elements of buffers of
`buffer_size` elements; an iteration in which that loop leaves the buffers has no
defined result (`none`). -/
def populate_grids_mass (box_size : ℚ) (dim : Int) (slab_nix : List Int)
    (parts : List (List particle_data)) :
    Option (List (List particle_data) × List (Int → ℚ)) :=
  let slab_ix_start := assign_slabs slab_nix
  match for_each (for_each (tag_particle box_size dim slab_ix_start)) parts with
  | none => none
  | some tagged =>
    match for_each (fun i_r =>
        if sfr_loop_in_bounds dim (buffer_size slab_nix dim) then
          reduced_buffer_mass box_size dim slab_ix_start tagged i_r
        else none)
        (List.range slab_nix.length) with
    | none => none
    | some bufs => some (tagged, bufs)

/-- The rank and the `INDEX_REAL` cell of that rank's buffer where a particle is
expected to be deposited: rank `r = searchsorted(ngp(x))` and cell
`(ngp(x) - slab_ix_start[r], ngp(y), ngp(z))`. -/
def deposit_target (box_size : ℚ) (dim : Int) (slab_ix_start : List Int) (p : particle_data) :
    Option (Int × Int) :=
  match pos_to_ngp p.Pos0 box_size dim, pos_to_ngp p.Pos1 box_size dim,
      pos_to_ngp p.Pos2 box_size dim with
  | some ngx, some iy, some iz =>
    match searchsorted_rank ngx slab_ix_start with
    | some r =>
      some (r, grid_index (ngx - slab_ix_start.getD r.toNat 0) iy iz dim index_type.INDEX_REAL)
    | none => none
  | _, _, _ => none

/-- The mass expected in cell `i` of the reduced buffer of rank `r`: the sum of
the masses of the eligible particles of `ps` whose `deposit_target` is `(r, i)`. -/
def deposited_mass (box_size : ℚ) (dim : Int) (slab_ix_start : List Int) (r : Nat) (i : Int)
    (ps : List particle_data) : ℚ :=
  ((ps.filter (fun p =>
      eligible p && decide (deposit_target box_size dim slab_ix_start p = some ((r : Int), i)))).map
    particle_data.Mass).sum

/-- The positions of a particle lie in `[0, BoxSize)^3`. -/
def in_box (box_size : ℚ) (p : particle_data) : Prop :=
  (0 ≤ p.Pos0 ∧ p.Pos0 < box_size) ∧ (0 ≤ p.Pos1 ∧ p.Pos1 < box_size) ∧
    (0 ≤ p.Pos2 ∧ p.Pos2 < box_size)

instance in_box_decidable (box_size : ℚ) (p : particle_data) : Decidable (in_box box_size p) := by
  unfold in_box
  infer_instance

/-! ## `find_HII_bubbles` -/

/-- The members of `All` read by `find_HII_bubbles`, together with the constants
it takes from headers that are not part of the sources at hand (`UVBG_DIM` of
`uvbg.h`; `HYDROGEN_MASSFRAC`, `PLANCK` and `PROTONMASS` of `physconst.h`), which
are parameters here. -/
structure global_data where
  BoxSize : ℚ
  Time : ℚ
  Omega0 : ℚ
  OmegaBaryon : ℚ
  RhoCrit : ℚ
  UnitLength_in_cm : ℚ
  UnitMass_in_g : ℚ
  UnitTime_in_s : ℚ
  UVBG_DIM : Int
  HYDROGEN_MASSFRAC : ℚ
  PLANCK : ℚ
  PROTONMASS : ℚ

/-- The constant `M_PI` of `math.h`. -/
def M_PI : ℚ := 3.14159265358979323846

/-- The constant `FLOAT_REL_TOL`. -/
def FLOAT_REL_TOL : ℚ := 1 / 100000

/-- `ReionRBubbleMax`. -/
def ReionRBubbleMax : ℚ := 20.34

/-- `ReionRBubbleMin`. -/
def ReionRBubbleMin : ℚ := 0.4068

/-- `ReionDeltaRFactor`. -/
def ReionDeltaRFactor : ℚ := 1.1

/-- `ReionGammaHaloBias`. -/
def ReionGammaHaloBias : ℚ := 2

/-- `ReionNionPhotPerBary`. -/
def ReionNionPhotPerBary : ℚ := 4000

/-- `redshift = 1.0 / (All.Time) - 1.`. -/
def redshift (All : global_data) : ℚ := 1 / All.Time - 1

/-- `pixel_volume = pow(box_size / (double)UVBG_DIM, 3)`. -/
def pixel_volume (All : global_data) : ℚ := (All.BoxSize / (All.UVBG_DIM : ℚ)) ^ 3

/-- `cell_length_factor`: 0.620350491, or 1.0 when the cell is shorter than 1. -/
def cell_length_factor (All : global_data) : ℚ :=
  if All.BoxSize / (All.UVBG_DIM : ℚ) < 1 then 1 else 0.620350491

/-- `total_n_cells = pow((double)UVBG_DIM, 3)`. -/
def total_n_cells (All : global_data) : ℚ := (All.UVBG_DIM : ℚ) ^ 3

/-- `ReionEfficiency = 1.0 / BaryonFrac * ReionNionPhotPerBary / (1.0 - 0.75 * Y_He)`
with `Y_He = 1.0 - HYDROGEN_MASSFRAC` and `BaryonFrac = OmegaBaryon / Omega0`. -/
def ReionEfficiency (All : global_data) : ℚ :=
  1 / (All.OmegaBaryon / All.Omega0) * ReionNionPhotPerBary
    / (1 - 0.75 * (1 - All.HYDROGEN_MASSFRAC))

/-- The function `RtoM` (its selector `filter` is the constant 0: top hat). -/
def RtoM (All : global_data) (R : ℚ) : ℚ :=
  (4 / 3) * M_PI * R ^ 3 * (All.Omega0 * All.RhoCrit)

/-- `J21_aux_constant` of the pass at radius `R` (with `alpha_uv = 3`). -/
def J21_aux_constant (All : global_data) (R : ℚ) : ℚ :=
  (1 + redshift All) * (1 + redshift All) / (4 * M_PI)
    * 3 * All.PLANCK * 1e21
    * R * All.UnitLength_in_cm * ReionNionPhotPerBary / All.PROTONMASS
    * All.UnitMass_in_g / All.UnitLength_in_cm ^ 3 / All.UnitTime_in_s

/-- The three scratch buffers `deltax_filtered`, `stars_slab_filtered` and
`sfr_filtered`, each seen as an array of `float` (a complex element `ii` occupies
the floats `2 * ii` and `2 * ii + 1`). -/
structure filtered_fields where
  deltax_filtered : Int → ℚ
  stars_slab_filtered : Int → ℚ
  sfr_filtered : Int → ℚ

/-- The grids of `UVBGgrids` written by `find_HII_bubbles` on one rank. -/
structure UVBGgrids_type where
  xHI : Int → ℚ
  J21 : Int → ℚ
  z_at_ionization : Int → ℚ
  J21_at_ionization : Int → ℚ
  deltax_filtered : Int → ℚ
  stars_slab_filtered : Int → ℚ
  sfr_filtered : Int → ℚ
  volume_weighted_global_xHI : ℚ
  mass_weighted_global_xHI : ℚ

/-- The cells `(ix, iy, iz)` visited by the triple loop
`for ix < local_nix, for iy < UVBG_DIM, for iz < UVBG_DIM`, in loop order. -/
def slab_cells (local_nix dim : Int) : List (Int × Int × Int) :=
  (List.product (List.range local_nix.toNat)
    (List.product (List.range dim.toNat) (List.range dim.toNat))).map
    (fun c => ((c.1 : Int), (c.2.1 : Int), (c.2.2 : Int)))

/-- The body of the sanity loop for one cell: the three `fmaxf` clamps at the
padded index of the cell. -/
def sanity_cell (dim : Int) (f : filtered_fields) (c : Int × Int × Int) : filtered_fields :=
  let i_padded := grid_index c.1 c.2.1 c.2.2 dim index_type.INDEX_PADDED
  { deltax_filtered := Function.update f.deltax_filtered i_padded
      (max (f.deltax_filtered i_padded) (-1 + FLOAT_REL_TOL))
    stars_slab_filtered := Function.update f.stars_slab_filtered i_padded
      (max (f.stars_slab_filtered i_padded) 0)
    sfr_filtered := Function.update f.sfr_filtered i_padded
      (max (f.sfr_filtered i_padded) (-1 + FLOAT_REL_TOL)) }

/-- The sanity loop over the local slab. -/
def sanity_checks (dim local_nix : Int) (f : filtered_fields) : filtered_fields :=
  (slab_cells local_nix dim).foldl (sanity_cell dim) f

/-- `density_over_mean` of a cell in the main loop. -/
def density_over_mean_cell (dim : Int) (f : filtered_fields) (c : Int × Int × Int) : ℚ :=
  1 + f.deltax_filtered (grid_index c.1 c.2.1 c.2.2 dim index_type.INDEX_PADDED)

/-- `f_coll_stars` of a cell in the main loop. -/
def f_coll_stars_cell (All : global_data) (f : filtered_fields) (R : ℚ)
    (c : Int × Int × Int) : ℚ :=
  f.stars_slab_filtered (grid_index c.1 c.2.1 c.2.2 All.UVBG_DIM index_type.INDEX_PADDED)
      / (RtoM All R * density_over_mean_cell All.UVBG_DIM f c)
    * (4 / 3) * M_PI * R ^ 3 / pixel_volume All

/-- `sfr_density` of a cell: `(double)(sfr_filtered)[i_padded] / pixel_volume`.
The buffer `sfr_filtered` is indexed here as an array of complex elements, and
the conversion to `double` takes the real part, the float at `2 * i_padded`. -/
def sfr_density_cell (All : global_data) (f : filtered_fields) (c : Int × Int × Int) : ℚ :=
  f.sfr_filtered (2 * grid_index c.1 c.2.1 c.2.2 All.UVBG_DIM index_type.INDEX_PADDED)
    / pixel_volume All

/-- `J21_aux` of a cell: `(float)(sfr_density * J21_aux_constant)`. -/
def J21_aux_cell (All : global_data) (f : filtered_fields) (R : ℚ) (c : Int × Int × Int) : ℚ :=
  sfr_density_cell All f c * J21_aux_constant All R

/-- The body of the main loop of one radius pass for the cell `c = (ix, iy, iz)`;
`f` holds the filtered buffers after the sanity loop. -/
def ionize_cell (All : global_data) (f : filtered_fields) (R : ℚ)
    (flag_last_filter_step : Bool) (local_ix_start : Int) (g : UVBGgrids_type)
    (c : Int × Int × Int) : UVBGgrids_type :=
  let i_real := grid_index c.1 c.2.1 c.2.2 All.UVBG_DIM index_type.INDEX_REAL
  let f_coll_stars := f_coll_stars_cell All f R c
  let J21_aux := J21_aux_cell All f R c
  let g1 : UVBGgrids_type :=
    if f_coll_stars > 1 / ReionEfficiency All then
      let i_grid_real :=
        grid_index (c.1 + local_ix_start) c.2.1 c.2.2 All.UVBG_DIM index_type.INDEX_REAL
      let g0 : UVBGgrids_type :=
        if g.xHI i_real > FLOAT_REL_TOL then
          { g with J21 := Function.update g.J21 i_grid_real J21_aux }
        else g
      { g0 with xHI := Function.update g0.xHI i_real 0 }
    else if flag_last_filter_step = true ∧ g.xHI i_real > FLOAT_REL_TOL then
      { g with xHI := Function.update g.xHI i_real (1 - f_coll_stars * ReionEfficiency All) }
    else g
  if g1.xHI i_real < FLOAT_REL_TOL ∧ g1.z_at_ionization i_real < 0 then
    { g1 with
      z_at_ionization := Function.update g1.z_at_ionization i_real (redshift All)
      J21_at_ionization :=
        Function.update g1.J21_at_ionization i_real (J21_aux * ReionGammaHaloBias) }
  else g1

/-- One iteration of the radius loop after the last-step test: `transform R flag`
is the content of the three scratch buffers after the copies, the calls of
`filter` (skipped on the last step) and the two inverse transforms, all of which
belong to the transform library; then the sanity loop and the main loop run. -/
def radius_pass (All : global_data) (transform : ℚ → Bool → filtered_fields)
    (local_nix local_ix_start : Int) (R : ℚ) (flag_last_filter_step : Bool)
    (g : UVBGgrids_type) : UVBGgrids_type :=
  let f := sanity_checks All.UVBG_DIM local_nix (transform R flag_last_filter_step)
  let g1 : UVBGgrids_type :=
    { g with
      deltax_filtered := f.deltax_filtered
      stars_slab_filtered := f.stars_slab_filtered
      sfr_filtered := f.sfr_filtered }
  (slab_cells local_nix All.UVBG_DIM).foldl
    (ionize_cell All f R flag_last_filter_step local_ix_start) g1

/-- The record of one executed pass: its radius, its `flag_last_filter_step`, and
the grids at the end of the pass. -/
structure pass_record where
  R : ℚ
  flag_last_filter_step : Bool
  grids : UVBGgrids_type

/-- The loop `while (!flag_last_filter_step)`, run for at most the given number of
iterations; `none` when that number is exhausted.  The result lists the passes
in the order of execution; the grids of the last record are the grids after the
loop. -/
def radius_loop (All : global_data) (transform : ℚ → Bool → filtered_fields)
    (local_nix local_ix_start : Int) : Nat → ℚ → UVBGgrids_type → Option (List pass_record)
  | 0, _, _ => none
  | fuel + 1, R, g =>
    let cell := cell_length_factor All * All.BoxSize / (All.UVBG_DIM : ℚ)
    let flag : Bool :=
      decide (R / ReionDeltaRFactor ≤ cell ∨ R / ReionDeltaRFactor ≤ ReionRBubbleMin)
    let R1 := if flag = true then cell else R
    let g1 := radius_pass All transform local_nix local_ix_start R1 flag g
    if flag = true then some [⟨R1, true, g1⟩]
    else
      match radius_loop All transform local_nix local_ix_start fuel
          (R1 / ReionDeltaRFactor) g1 with
      | none => none
      | some rest => some (⟨R1, false, g1⟩ :: rest)

/-- The initialisation of `xHI` (to 1 on the local slab) and of `J21` (to 0 on the
whole grid) at the start of `find_HII_bubbles`. -/
def init_xHI_J21 (All : global_data) (local_nix : Int) (g : UVBGgrids_type) : UVBGgrids_type :=
  { g with
    xHI := fun ii =>
      if 0 ≤ ii ∧ ii < local_nix * All.UVBG_DIM * All.UVBG_DIM then 1 else g.xHI ii
    J21 := fun ii =>
      if 0 ≤ ii ∧ ii < All.UVBG_DIM * All.UVBG_DIM * All.UVBG_DIM then 0 else g.J21 ii }

/-- The first value of `R`: `fmin(ReionRBubbleMax, cell_length_factor * box_size)`. -/
def R_start (All : global_data) : ℚ :=
  min ReionRBubbleMax (cell_length_factor All * All.BoxSize)

/-- The part of `find_HII_bubbles` that one rank runs before the all-reduce of
`J21`: the initialisation and the radius loop (at most 42 iterations). -/
def find_HII_bubbles_passes (All : global_data) (transform : ℚ → Bool → filtered_fields)
    (local_nix local_ix_start : Int) (g : UVBGgrids_type) : Option (List pass_record) :=
  radius_loop All transform local_nix local_ix_start 42 (R_start All)
    (init_xHI_J21 All local_nix g)

/-- The grids after the last pass of a list of passes (`none` for no pass). -/
def final_grids (passes : List pass_record) : Option UVBGgrids_type :=
  match passes.getLast? with
  | none => none
  | some rec => some rec.grids

/-- The three local sums of the statistics loop: the sum of `xHI`, the sum of
`xHI * density_over_mean` and the sum of `density_over_mean` over the local slab. -/
def local_sums (dim local_nix : Int) (g : UVBGgrids_type) : ℚ × ℚ × ℚ :=
  (slab_cells local_nix dim).foldl
    (fun acc c =>
      let i_real := grid_index c.1 c.2.1 c.2.2 dim index_type.INDEX_REAL
      let i_padded := grid_index c.1 c.2.1 c.2.2 dim index_type.INDEX_PADDED
      let density_over_mean := 1 + g.deltax_filtered i_padded
      (acc.1 + g.xHI i_real, acc.2.1 + g.xHI i_real * density_over_mean,
        acc.2.2 + density_over_mean))
    (0, 0, 0)

/-- `MPI_Allreduce(MPI_IN_PLACE, ..., MPI_SUM, ...)` of one scalar: every rank
receives the sum of the values of all ranks. -/
def MPI_Allreduce_sum (vals : List ℚ) : ℚ := vals.sum

/-- The state of one rank at the call of `find_HII_bubbles`: what the transform
library returns for its slab at each pass, and its grids. -/
structure rank_data where
  transform : ℚ → Bool → filtered_fields
  grids : UVBGgrids_type

/-- The part of `find_HII_bubbles` after the radius loop, on the rank with grids
`g`, given the widths and the grids of all ranks after their loops: the
all-reduce of `J21` over the `grid_n_real` entries, the statistics loop of every
rank, the three all-reduces and the two final divisions. -/
def reduce_and_stats (All : global_data) (slab_nix : List Int) (all : List UVBGgrids_type)
    (g : UVBGgrids_type) : UVBGgrids_type :=
  let sums : List (ℚ × ℚ × ℚ) :=
    List.zipWith (fun w gr => local_sums All.UVBG_DIM (toInt32 w) gr) slab_nix all
  let volume_weighted_global_xHI := MPI_Allreduce_sum (sums.map (fun t => t.1))
  let mass_weighted_global_xHI := MPI_Allreduce_sum (sums.map (fun t => t.2.1))
  let mass_weight := MPI_Allreduce_sum (sums.map (fun t => t.2.2))
  { g with
    J21 := fun ii =>
      if 0 ≤ ii ∧ ii < All.UVBG_DIM * All.UVBG_DIM * All.UVBG_DIM then
        MPI_Reduce_sum (all.map (fun gr => gr.J21)) ii
      else g.J21 ii
    volume_weighted_global_xHI := volume_weighted_global_xHI / total_n_cells All
    mass_weighted_global_xHI := mass_weighted_global_xHI / mass_weight }

/-- The passes of `find_HII_bubbles` on the rank with slab width `x.1`, slab start
`x.2.1` and state `x.2.2`. -/
def rank_passes (All : global_data) (x : Int × Int × rank_data) : Option (List pass_record) :=
  find_HII_bubbles_passes All x.2.2.transform (toInt32 x.1) (toInt32 x.2.1) x.2.2.grids

/-- The grids of a rank at the end of its radius loop. -/
def rank_after_loop (All : global_data) (x : Int × Int × rank_data) : Option UVBGgrids_type :=
  match rank_passes All x with
  | none => none
  | some passes => final_grids passes

/-- The function `find_HII_bubbles` on all ranks of the layout
`(slab_nix, slab_ix_start)`, rank `r` holding `ranks[r]`: the grids of every rank
at return. -/
def find_HII_bubbles (All : global_data) (slab_nix slab_ix_start : List Int)
    (ranks : List rank_data) : Option (List UVBGgrids_type) :=
  match for_each (rank_after_loop All) (List.zip slab_nix (List.zip slab_ix_start ranks)) with
  | none => none
  | some after_loop => some (after_loop.map (reduce_and_stats All slab_nix after_loop))

/-! ## `malloc_grids` and `calculate_uvbg` -/

/-- The function `malloc_grids` on the rank with slab width `local_nix`: the
buffers are allocated anew, `z_at_ionization` and `J21_at_ionization` are set to
-999 on the local slab, and the two global fractions to 1.  A fresh allocation
has indeterminate content; here it starts from the content of `g`. -/
def malloc_grids (All : global_data) (local_nix : Int) (g : UVBGgrids_type) : UVBGgrids_type :=
  { g with
    z_at_ionization := fun ii =>
      if 0 ≤ ii ∧ ii < local_nix * All.UVBG_DIM * All.UVBG_DIM then -999
      else g.z_at_ionization ii
    J21_at_ionization := fun ii =>
      if 0 ≤ ii ∧ ii < local_nix * All.UVBG_DIM * All.UVBG_DIM then -999
      else g.J21_at_ionization ii
    volume_weighted_global_xHI := 1
    mass_weighted_global_xHI := 1 }

/-- The function `calculate_uvbg` on all ranks: `assign_slabs`, `malloc_grids`,
then `find_HII_bubbles` (`populate_grids` and the forward transforms feed the
`transform` of each rank; `free_grids` releases the buffers whose last content
is returned here).  The widths `slab_nix` are those reported by the transform
library. -/
def calculate_uvbg (All : global_data) (slab_nix : List Int) (ranks : List rank_data) :
    Option (List UVBGgrids_type) :=
  let slab_ix_start := assign_slabs slab_nix
  let allocated := List.zipWith
    (fun w rk => ({ rk with grids := malloc_grids All w rk.grids } : rank_data)) slab_nix ranks
  find_HII_bubbles All slab_nix slab_ix_start allocated

/-! ## Per-cell view of a radius pass -/

/-- The four values that the main loop holds for one cell: `xHI[i_real]`,
`J21[i_grid_real]`, `z_at_ionization[i_real]` and `J21_at_ionization[i_real]`. -/
structure cell_state where
  xHI : ℚ
  J21 : ℚ
  z_at_ionization : ℚ
  J21_at_ionization : ℚ

/-- The values of the cell `c` of the local slab in the grids `g`. -/
def cell_of (All : global_data) (local_ix_start : Int) (g : UVBGgrids_type)
    (c : Int × Int × Int) : cell_state :=
  { xHI := g.xHI (grid_index c.1 c.2.1 c.2.2 All.UVBG_DIM index_type.INDEX_REAL)
    J21 := g.J21
      (grid_index (c.1 + local_ix_start) c.2.1 c.2.2 All.UVBG_DIM index_type.INDEX_REAL)
    z_at_ionization :=
      g.z_at_ionization (grid_index c.1 c.2.1 c.2.2 All.UVBG_DIM index_type.INDEX_REAL)
    J21_at_ionization :=
      g.J21_at_ionization (grid_index c.1 c.2.1 c.2.2 All.UVBG_DIM index_type.INDEX_REAL) }

/-- The value of `xHI[i_real]` after the ionisation test of the main loop, from
`f_coll_stars` of the cell and the value `x` before. -/
def xHI_update (All : global_data) (f_coll_stars : ℚ) (flag_last_filter_step : Bool) (x : ℚ) : ℚ :=
  if f_coll_stars > 1 / ReionEfficiency All then 0
  else if flag_last_filter_step = true ∧ x > FLOAT_REL_TOL then
    1 - f_coll_stars * ReionEfficiency All
  else x

/-- The effect of the body of the main loop on the four values of its cell. -/
def cell_update (All : global_data) (f : filtered_fields) (R : ℚ) (flag_last_filter_step : Bool)
    (c : Int × Int × Int) (s : cell_state) : cell_state :=
  let x := xHI_update All (f_coll_stars_cell All f R c) flag_last_filter_step s.xHI
  { xHI := x
    J21 :=
      if f_coll_stars_cell All f R c > 1 / ReionEfficiency All ∧ s.xHI > FLOAT_REL_TOL then
        J21_aux_cell All f R c
      else s.J21
    z_at_ionization :=
      if x < FLOAT_REL_TOL ∧ s.z_at_ionization < 0 then redshift All else s.z_at_ionization
    J21_at_ionization :=
      if x < FLOAT_REL_TOL ∧ s.z_at_ionization < 0 then
        J21_aux_cell All f R c * ReionGammaHaloBias
      else s.J21_at_ionization }

/-- The cell `c` belongs to the slab of width `local_nix` of a grid of dimension `dim`. -/
def local_cell (local_nix dim : Int) (c : Int × Int × Int) : Prop :=
  (0 ≤ c.1 ∧ c.1 < local_nix) ∧ (0 ≤ c.2.1 ∧ c.2.1 < dim) ∧ (0 ≤ c.2.2 ∧ c.2.2 < dim)

instance local_cell_decidable (local_nix dim : Int) (c : Int × Int × Int) :
    Decidable (local_cell local_nix dim c) := by
  unfold local_cell
  infer_instance

/-- An example particle set on two ranks: two particles on rank 0, the second of
type 5, and one particle on rank 1. -/
def example_particles : List (List particle_data) :=
  [[⟨1, 2, 3, 5, 1, false, false, 0⟩, ⟨7, 0, 0, 2, 5, false, false, 0⟩],
   [⟨5, 5, 5, 3, 0, false, false, 0⟩]]

/-- The particles of `example_particles` held by a single rank. -/
def gathered_particles : List (List particle_data) :=
  [[⟨1, 2, 3, 5, 1, false, false, 0⟩, ⟨7, 0, 0, 2, 5, false, false, 0⟩,
    ⟨5, 5, 5, 3, 0, false, false, 0⟩]]

/-- The records `passes` are consecutive passes starting from the grids `g`:
the grids of each record are those of `radius_pass` with the radius and flag of
the record, applied to the grids of the record before (to `g` for the first). -/
def pass_chain (All : global_data) (transform : ℚ → Bool → filtered_fields)
    (local_nix local_ix_start : Int) : UVBGgrids_type → List pass_record → Prop
  | _, [] => True
  | g, rec :: rest =>
    rec.grids
        = radius_pass All transform local_nix local_ix_start rec.R rec.flag_last_filter_step g ∧
      pass_chain All transform local_nix local_ix_start rec.grids rest

/-- The filtered buffers read by the main loop of the pass `q`: the output of the
transform library for the radius and flag of `q`, after the sanity loop. -/
def pass_fields (All : global_data) (transform : ℚ → Bool → filtered_fields) (local_nix : Int)
    (q : pass_record) : filtered_fields :=
  sanity_checks All.UVBG_DIM local_nix (transform q.R q.flag_last_filter_step)

/-- `f_coll_stars` of the cell `c` in the pass `q`. -/
def pass_f_coll (All : global_data) (transform : ℚ → Bool → filtered_fields) (local_nix : Int)
    (q : pass_record) (c : Int × Int × Int) : ℚ :=
  f_coll_stars_cell All (pass_fields All transform local_nix q) q.R c

/-- Example parameters: a box of side 1 on a grid of dimension 1 at scale factor 1/2. -/
def example_All : global_data :=
  { BoxSize := 1, Time := 1 / 2, Omega0 := 1, OmegaBaryon := 1, RhoCrit := 1,
    UnitLength_in_cm := 1, UnitMass_in_g := 1, UnitTime_in_s := 1, UVBG_DIM := 1,
    HYDROGEN_MASSFRAC := 0.76, PLANCK := 1, PROTONMASS := 1 }

/-- Filtered buffers with the same value in every element of each buffer. -/
def constant_fields (deltax stars sfr : ℚ) : filtered_fields :=
  { deltax_filtered := fun _ => deltax
    stars_slab_filtered := fun _ => stars
    sfr_filtered := fun _ => sfr }

/-- Grids with the same value `v` in every element and both global fractions `v`. -/
def constant_grids (v : ℚ) : UVBGgrids_type :=
  { xHI := fun _ => v, J21 := fun _ => v, z_at_ionization := fun _ => v,
    J21_at_ionization := fun _ => v, deltax_filtered := fun _ => v,
    stars_slab_filtered := fun _ => v, sfr_filtered := fun _ => v,
    volume_weighted_global_xHI := v, mass_weighted_global_xHI := v }

/-- The sum of a per-cell quantity over the cells of all ranks: rank `r` has the
slab of width `slab_nix[r]` and the grids `grids[r]`. -/
def global_sum (dim : Int) (slab_nix : List Int) (grids : List UVBGgrids_type)
    (f : UVBGgrids_type → Int × Int × Int → ℚ) : ℚ :=
  (List.zipWith (fun w g => ((slab_cells w dim).map (f g)).sum) slab_nix grids).sum

/-- `xHI` of the cell `c` in the grids `g`. -/
def xHI_at (dim : Int) (g : UVBGgrids_type) (c : Int × Int × Int) : ℚ :=
  g.xHI (grid_index c.1 c.2.1 c.2.2 dim index_type.INDEX_REAL)

/-- `1 + delta` of the cell `c` in the grids `g`, `delta` being the element of
`deltax_filtered` at the padded index of the cell. -/
def density_at (dim : Int) (g : UVBGgrids_type) (c : Int × Int × Int) : ℚ :=
  1 + g.deltax_filtered (grid_index c.1 c.2.1 c.2.2 dim index_type.INDEX_PADDED)

/-- Example parameters: a box of side 10 on a grid of dimension 2 at scale factor
1/2; the radius loop makes eight passes. -/
def deep_All : global_data := { example_All with BoxSize := 10, UVBG_DIM := 2 }

/-- The parameters `example_All` at the later scale factor 1 (redshift 0). -/
def later_All : global_data := { example_All with Time := 1 }

/-! ## The radius schedule -/

/-- The value of `R` at the top of iteration `k` of the radius loop when no
iteration before it was the last one: `R` starts at
`fmin(ReionRBubbleMax, cell_length_factor * box_size)` and every iteration ends
with `R /= ReionDeltaRFactor`. -/
def schedule_radius (All : global_data) : Nat → ℚ
  | 0 => R_start All
  | k + 1 => schedule_radius All k / ReionDeltaRFactor

/-- The radius of the native scale, `cell_length_factor * box_size / (double)UVBG_DIM`. -/
def cell_radius (All : global_data) : ℚ :=
  cell_length_factor All * All.BoxSize / (All.UVBG_DIM : ℚ)

/-- Example parameters: a box of side 62 on a grid of dimension 2. -/
def wide_All : global_data := { example_All with BoxSize := 62, UVBG_DIM := 2 }

/-! ## `filter` -/

/-- The functions of the C mathematical library called by `filter`; they are
parameters here. -/
structure math_library where
  sqrtf : ℚ → ℚ
  sinf : ℚ → ℚ
  cosf : ℚ → ℚ
  powf : ℚ → ℚ → ℚ

/-- The value of `kR` in the body of the loops of `filter` for the local mode
`c = (n_x, n_y, n_z)`. -/
def filter_kR (lib : math_library) (All : global_data) (local_ix_start grid_dim : Int) (R : ℚ)
    (c : Int × Int × Int) : ℚ :=
  let middle := Int.tdiv grid_dim 2
  let delta_k : ℚ := 2 * M_PI / All.BoxSize
  let n_x_global := c.1 + local_ix_start
  let k_x : ℚ :=
    if n_x_global > middle then ((n_x_global - grid_dim : Int) : ℚ) * delta_k
    else (n_x_global : ℚ) * delta_k
  let k_y : ℚ :=
    if c.2.1 > middle then ((c.2.1 - grid_dim : Int) : ℚ) * delta_k
    else (c.2.1 : ℚ) * delta_k
  let k_z : ℚ := (c.2.2 : ℚ) * delta_k
  let k_mag := lib.sqrtf (k_x * k_x + k_y * k_y + k_z * k_z)
  k_mag * R

/-- The body of the loops of `filter` for the local mode `c`, with
`filter_type = 0` (real-space top hat): the complex element of `box` at the
`INDEX_COMPLEX_HERM` index of `c` is multiplied by the real window value when
`kR > 1e-4`. -/
def filter_cell (lib : math_library) (All : global_data) (local_ix_start grid_dim : Int)
    (R : ℚ) (box : Int → ℚ × ℚ) (c : Int × Int × Int) : Int → ℚ × ℚ :=
  let kR := filter_kR lib All local_ix_start grid_dim R c
  if kR > 1e-4 then
    let ind := grid_index c.1 c.2.1 c.2.2 grid_dim index_type.INDEX_COMPLEX_HERM
    let w := 3 * (lib.sinf kR / lib.powf kR 3 - lib.cosf kR / lib.powf kR 2)
    Function.update box ind (w * (box ind).1, w * (box ind).2)
  else box

/-- The modes `(n_x, n_y, n_z)` visited by the loops of `filter`
(`n_x < slab_nx`, `n_y < grid_dim`, `n_z <= middle`), in loop order. -/
def kspace_cells (slab_nx grid_dim : Int) : List (Int × Int × Int) :=
  (List.product (List.range slab_nx.toNat)
    (List.product (List.range grid_dim.toNat)
      (List.range (Int.tdiv grid_dim 2 + 1).toNat))).map
    (fun c => ((c.1 : Int), (c.2.1 : Int), (c.2.2 : Int)))

/-- The function `filter` (its local constant `filter_type` is 0): the content of
`box`, an array of complex elements, at return. -/
def filter (lib : math_library) (All : global_data) (box : Int → ℚ × ℚ)
    (local_ix_start slab_nx grid_dim : Int) (R : ℚ) : Int → ℚ × ℚ :=
  (kspace_cells slab_nx grid_dim).foldl (filter_cell lib All local_ix_start grid_dim R) box

/-- The three k-space grids `deltax_unfiltered`, `stars_slab_unfiltered` and
`sfr_unfiltered` of one rank, arrays of complex elements. -/
structure kspace_fields where
  deltax_unfiltered : Int → ℚ × ℚ
  stars_slab_unfiltered : Int → ℚ × ℚ
  sfr_unfiltered : Int → ℚ × ℚ

/-- An array of complex elements seen through a `float` pointer: element `ii`
occupies the floats `2 * ii` (real part) and `2 * ii + 1` (imaginary part). -/
def float_view (box : Int → ℚ × ℚ) : Int → ℚ :=
  fun i => if i % 2 = 0 then (box (i / 2)).1 else (box (i / 2)).2

/-- The three scratch buffers of one pass before the sanity loop: the copies of
the k-space grids, the three calls of `filter` unless this is the last step, and
the inverse transforms of `deltax_filtered` and `stars_slab_filtered`.  The
in-place transform `fftwf_execute_dft_c2r` belongs to the transform library and
is the parameter `c2r`. -/
def scratch_buffers (lib : math_library) (All : global_data)
    (c2r : (Int → ℚ × ℚ) → Int → ℚ) (unfiltered : kspace_fields)
    (local_nix local_ix_start : Int) (R : ℚ) (flag_last_filter_step : Bool) : filtered_fields :=
  let apply := fun (box : Int → ℚ × ℚ) =>
    if flag_last_filter_step = true then box
    else filter lib All box local_ix_start local_nix All.UVBG_DIM R
  { deltax_filtered := c2r (apply unfiltered.deltax_unfiltered)
    stars_slab_filtered := c2r (apply unfiltered.stars_slab_unfiltered)
    sfr_filtered := float_view (apply unfiltered.sfr_unfiltered) }

/-- A stand-in for the mathematical library in examples: `sqrtf` is the identity
and the other functions are constant. -/
def example_library : math_library :=
  { sqrtf := fun x => x, sinf := fun _ => 0, cosf := fun _ => 1, powf := fun _ _ => 1 }

/-- Example k-space grids with the same complex value in every element. -/
def constant_kspace (v : ℚ × ℚ) : kspace_fields :=
  { deltax_unfiltered := fun _ => v, stars_slab_unfiltered := fun _ => v,
    sfr_unfiltered := fun _ => v }

/-! ## `populate_grids`: the stellar mass and the SFR -/

/-- The grids and scratch buffers of one rank that the stellar-mass and SFR part
of `populate_grids` reads or writes: the full grids `UVBGgrids.stars` and
`UVBGgrids.prev_stars`, the padded slabs `UVBGgrids.sfr` and
`UVBGgrids.stars_slab`, and the buffers `buffer_stars_slab` and `buffer_sfr`. -/
structure stars_state where
  stars : Int → ℚ
  prev_stars : Int → ℚ
  sfr : Int → ℚ
  stars_slab : Int → ℚ
  buffer_stars_slab : Int → ℚ
  buffer_sfr : Int → ℚ

/-- The start of an iteration of the destination loop on one rank: the two
buffers are set to 0 over `buffer_size` elements, and `memcpy` copies the
`grid_n_real` elements of `stars` to `prev_stars`. -/
def init_buffers (dim bsize : Int) (s : stars_state) : stars_state :=
  { s with
    buffer_stars_slab := fun ii => if 0 ≤ ii ∧ ii < bsize then 0 else s.buffer_stars_slab ii
    buffer_sfr := fun ii => if 0 ≤ ii ∧ ii < bsize then 0 else s.buffer_sfr ii
    prev_stars := fun ii =>
      if 0 ≤ ii ∧ ii < dim * dim * dim then s.stars ii else s.prev_stars ii }

/-- The receive buffer of the root after `MPI_Reduce(sendbuf, recv + offset, count,
MPI_FLOAT, MPI_SUM, ...)`: the elements `offset .. offset + count - 1` of `recv`
hold the sums of the elements `0 .. count - 1` of the buffers sent by all ranks. -/
def MPI_Reduce_into (recv : Int → ℚ) (offset count : Int) (sent : List (Int → ℚ)) : Int → ℚ :=
  fun ii =>
    if offset ≤ ii ∧ ii < offset + count then MPI_Reduce_sum sent (ii - offset) else recv ii

/-- The loop `buffer_sfr[ii] = (buffer_stars_slab[ii] - buffer_sfr[ii]) * inv_dt` over
`ii < grid_n_real`, on two buffers of `bsize` elements, with `inv_dt = 1 / dt` and
`dt = time_to_present(last_a) - time_to_present(All.Time)`.  When the loop leaves
the buffers the behaviour is undefined: the result is `none`. -/
def derive_sfr (dim bsize : Int) (dt : ℚ) (s : stars_state) : Option stars_state :=
  let inv_dt := 1 / dt
  if sfr_loop_in_bounds dim bsize then
    some { s with
      buffer_sfr := fun ii =>
        if 0 ≤ ii ∧ ii < dim * dim * dim then
          (s.buffer_stars_slab ii - s.buffer_sfr ii) * inv_dt
        else s.buffer_sfr ii }
  else none

/-- The body of the last triple loop of an iteration for the cell `c`: the
assignments to `UVBGgrids.sfr[ind_pad]` and `UVBGgrids.stars_slab[ind_pad]`. -/
def store_cell (dim : Int) (s : stars_state) (c : Int × Int × Int) : stars_state :=
  let ind_real := grid_index c.1 c.2.1 c.2.2 dim index_type.INDEX_REAL
  let ind_pad := grid_index c.1 c.2.1 c.2.2 dim index_type.INDEX_PADDED
  { s with
    sfr := Function.update s.sfr ind_pad (s.buffer_sfr ind_real)
    stars_slab := Function.update s.stars_slab ind_pad (s.buffer_stars_slab ind_real) }

/-- The rest of an iteration `i_r` on the rank `this_rank`, after the buffers of
all ranks were initialised: the two calls of `MPI_Reduce` (the root `i_r`
receives into `stars` and `prev_stars`), the loop of `derive_sfr` on the buffers
of `buffer_size` elements, and on the root the triple loop over its slab. -/
def rank_stars_step (dim : Int) (dt : ℚ) (slab_nix slab_ix_start : List Int)
    (sent_stars sent_sfr : List (Int → ℚ)) (i_r this_rank : Nat) (s : stars_state) :
    Option stars_state :=
  let ix_start := toInt32 (slab_ix_start.getD i_r 0)
  let nix := toInt32 (slab_nix.getD i_r 0)
  let offset := grid_index ix_start 0 0 dim index_type.INDEX_REAL
  let s1 : stars_state :=
    if this_rank = i_r then
      { s with
        stars := MPI_Reduce_into s.stars offset (nix * dim * dim) sent_stars
        prev_stars := MPI_Reduce_into s.prev_stars offset (nix * dim * dim) sent_sfr }
    else s
  match derive_sfr dim (buffer_size slab_nix dim) dt s1 with
  | none => none
  | some s2 =>
    if this_rank = i_r then
      some ((slab_cells (slab_nix.getD i_r 0) dim).foldl (store_cell dim) s2)
    else some s2

/-- One iteration `i_r` of the destination loop of `populate_grids` on all ranks,
for the stellar mass and the SFR; `none` when a rank leaves its buffers. -/
def populate_grids_stars_step (dim : Int) (dt : ℚ) (slab_nix slab_ix_start : List Int)
    (ranks : List stars_state) (i_r : Nat) : Option (List stars_state) :=
  let zeroed := ranks.map (init_buffers dim (buffer_size slab_nix dim))
  let sent_stars := zeroed.map (fun s => s.buffer_stars_slab)
  let sent_sfr := zeroed.map (fun s => s.buffer_sfr)
  for_each
    (fun x => rank_stars_step dim dt slab_nix slab_ix_start sent_stars sent_sfr i_r x.1 x.2)
    (List.zip (List.range zeroed.length) zeroed)

/-- The stellar-mass and SFR part of `populate_grids` on all ranks: the
iterations `i_r = 0, ..., nranks - 1` of the destination loop. -/
def populate_grids_stars (dim : Int) (dt : ℚ) (slab_nix : List Int)
    (ranks : List stars_state) : Option (List stars_state) :=
  (List.range slab_nix.length).foldlM
    (populate_grids_stars_step dim dt slab_nix (assign_slabs slab_nix)) ranks

/-- An example state of one rank at its first call: stellar mass 1 in the cell
with index 0 of `stars`, and 0 in every other element. -/
def example_stars : stars_state :=
  { stars := fun ii => if ii = 0 then 1 else 0
    prev_stars := fun _ => 0, sfr := fun _ => 0, stars_slab := fun _ => 0,
    buffer_stars_slab := fun _ => 0, buffer_sfr := fun _ => 0 }

/-- Example: one particle of mass 1 at the origin on rank 0 and none on rank 1. -/
def origin_particles : List (List particle_data) :=
  [[⟨0, 0, 0, 1, 0, false, false, 0⟩], []]

/-- Example: two ranks with one slab each; the transform of rank 0 returns stellar
mass 1 and SFR 1 in every element, that of rank 1 a density contrast 1 and no
stars. -/
def star_ranks : List rank_data :=
  [⟨fun _ _ => constant_fields 0 1 1, constant_grids 0⟩,
   ⟨fun _ _ => constant_fields 1 0 0, constant_grids 0⟩]

/-- Example filtered buffers on a grid of dimension 2: the float elements 1 and 2
of `sfr_filtered` hold 5 and 7, every other element of the three buffers is 0. -/
def mixed_fields : filtered_fields :=
  { deltax_filtered := fun _ => 0
    stars_slab_filtered := fun _ => 0
    sfr_filtered := fun i => if i = 1 then 5 else if i = 2 then 7 else 0 }

/-! ## `calculate_uvbg` with `populate_grids` and the transforms -/

/-- The constant `M_E` of `math.h`. -/
def M_E : ℚ := 2.7182818284590452354

/-- The body of the loops of `filter` for the local mode `c`, the local constant
`filter_type` of the source being an argument here: the three kernels of the
`switch`, and in the `default` case the call of `endrun` (the result `none`) at
the mode with `n_x = n_y = n_z = 0`. -/
def filter_cell_with_type (lib : math_library) (All : global_data) (filter_type : Int)
    (local_ix_start grid_dim : Int) (R : ℚ) (box : Int → ℚ × ℚ) (c : Int × Int × Int) :
    Option (Int → ℚ × ℚ) :=
  let kR := filter_kR lib All local_ix_start grid_dim R c
  let ind := grid_index c.1 c.2.1 c.2.2 grid_dim index_type.INDEX_COMPLEX_HERM
  if filter_type = 0 then
    some (filter_cell lib All local_ix_start grid_dim R box c)
  else if filter_type = 1 then
    let kR1 := kR * 0.413566994
    if kR1 > 1 then some (Function.update box ind (0, 0)) else some box
  else if filter_type = 2 then
    let kR2 := kR * 0.643
    let w := lib.powf M_E (-kR2 * kR2 / 2)
    some (Function.update box ind (w * (box ind).1, w * (box ind).2))
  else if c.1 = 0 ∧ c.2.1 = 0 ∧ c.2.2 = 0 then none
  else some box

/-- The function `filter` with its local constant `filter_type` as an argument:
the content of `box` at return, or `none` when `endrun` is called. -/
def filter_with_type (lib : math_library) (All : global_data) (filter_type : Int)
    (box : Int → ℚ × ℚ) (local_ix_start slab_nx grid_dim : Int) (R : ℚ) :
    Option (Int → ℚ × ℚ) :=
  (kspace_cells slab_nx grid_dim).foldlM
    (filter_cell_with_type lib All filter_type local_ix_start grid_dim R) box

/-- The real factor by which the kernel `filter_type` (0, 1 or 2) changes the
element of a mode with the given `kR`; 1 stands for an element left as it is and
0 for an element set to 0. -/
def filter_multiplier (lib : math_library) (filter_type : Int) (kR : ℚ) : ℚ :=
  if filter_type = 0 then
    if kR > 1e-4 then 3 * (lib.sinf kR / lib.powf kR 3 - lib.cosf kR / lib.powf kR 2) else 1
  else if filter_type = 1 then
    if kR * 0.413566994 > 1 then 0 else 1
  else lib.powf M_E (-(kR * 0.643) * (kR * 0.643) / 2)

/-- The signed mode number `m` of the index `g` on a grid of dimension `dim`:
`g` when `g <= dim / 2`, and `g - dim` otherwise. -/
def mode_number (g dim : Int) : Int :=
  if g > Int.tdiv dim 2 then g - dim else g

/-! ## `endrun` (endrun.c) -/

/-- What `endrun` does to the outside world, call by call: the two forms of the
`printf` report (`"[ %09.2f ] Task %d: %s"` with the elapsed time, the rank and
the formatted message, and `"[ %09.2f ] %s"` without the rank), `fflush(stdout)`,
`show_backtrace()`, and `MPI_Abort(MPI_COMM_WORLD, errorcode)`. -/
inductive endrun_event
  | printf_task (elapsed : ℚ) (ThisTask : Int) (buf : String)
  | printf_root (elapsed : ℚ) (buf : String)
  | fflush_stdout
  | show_backtrace
  | MPI_Abort (errorcode : Int)
  deriving DecidableEq

/-- The function `init_endrun`: the new value of `_timestart`, the value of
`MPI_Wtime()` at the call. -/
def init_endrun (wtime : ℚ) : ℚ := wtime

/-- The function `endrun` on the rank `ThisTask`: the calls it makes, in order.
`timestart` is `_timestart`, `wtime` the value of `MPI_Wtime()` at the call, and
`buf` the message formatted by `vsprintf`; the argument `where` of the source is
`where_code` here. -/
def endrun (timestart wtime : ℚ) (ThisTask where_code : Int) (buf : String) :
    List endrun_event :=
  if where_code > 0 then
    [endrun_event.printf_task (wtime - timestart) ThisTask buf, endrun_event.fflush_stdout,
      endrun_event.show_backtrace, endrun_event.MPI_Abort where_code]
  else
    (if ThisTask = 0 then
      [endrun_event.printf_root (wtime - timestart) buf, endrun_event.fflush_stdout,
        endrun_event.show_backtrace]
    else []) ++ [endrun_event.MPI_Abort where_code]

/-! ## The nearest-star kick of `sfr_wind_feedback_ngbiter` (winds.c) -/

/-- The entries `StarDistance[PI]`, `StarID[PI]` and `StarKickVelocity[PI]` of one
gas particle slot. -/
structure star_kick where
  StarDistance : ℚ
  StarID : Nat
  StarKickVelocity : ℚ

/-- A candidate kick of one new star for that slot: the distance `r`, the star's
`I->ID` and the kick velocity `v`. -/
structure kick_candidate where
  r : ℚ
  ID : Nat
  v : ℚ

/-- The update between `lock_spinlock` and `unlock_spinlock` in
`sfr_wind_feedback_ngbiter`. -/
def nearest_star_update (s : star_kick) (c : kick_candidate) : star_kick :=
  if s.StarDistance > c.r ∨ (s.StarDistance = c.r ∧ s.StarID < c.ID) then
    { StarDistance := c.r, StarID := c.ID, StarKickVelocity := c.v }
  else s

/-- The slot after the loop of `winds_and_feedback` that sets `StarDistance` to
`tree->BoxSize`; `StarID` and `StarKickVelocity` keep the content of the fresh
allocation, here `ID0` and `v0`. -/
def initial_star_kick (BoxSize : ℚ) (ID0 : Nat) (v0 : ℚ) : star_kick :=
  { StarDistance := BoxSize, StarID := ID0, StarKickVelocity := v0 }

/-! ## `grav_apply_short_range_window` (longrange.c) -/

/-- The macro `NTAB`. -/
def NTAB : Int := 1000

/-- The value of `asmthfac = 0.5 / asmth * (NTAB / 3.0)`: two binary64 quotients
and their binary64 product. -/
def short_range_asmthfac (asmth : ℚ) : Option ℚ :=
  match double_div 0.5 asmth, double_div (NTAB : ℚ) 3.0 with
  | some a, some b => double_mul a b
  | _, _ => none

/-- The function `grav_apply_short_range_window`: the return value and the new
values of `*fac` and `*pot`.  `Asmth` is `All.Asmth[0]`; the two tables filled by
`fill_ntab` (`NTAB` entries each) are arguments.  All products and quotients are
binary64 operations; a new value `none` of `*fac` or `*pot` is a product that is
not a finite number.  The result is `none` when `asmthfac * r` is not a finite
number, when its conversion to `int` is undefined, and when the index lies below
the tables. -/
def grav_apply_short_range_window (Asmth : ℚ)
    (shortrange_table shortrange_table_potential : Int → ℚ) (r fac pot : ℚ) :
    Option (Int × Option ℚ × Option ℚ) :=
  let asmth := Asmth
  match short_range_asmthfac asmth with
  | none => none
  | some asmthfac =>
    match double_mul asmthfac r with
    | none => none
    | some p =>
      match double_to_int p with
      | none => none
      | some tabindex =>
        if tabindex < 0 then none
        else if tabindex < NTAB then
          some (0, double_mul fac (shortrange_table tabindex),
            double_mul pot (shortrange_table_potential tabindex))
        else some (1, some fac, some pot)

/-! ## The clock table (walltime.c) -/

/-- The members `name` and `time` of `struct Clock`; a name is the string without
its terminating zero. -/
structure Clock where
  name : List Char
  time : ℚ

/-- The test `0 == strncmp(parent, name, l)` with `l = strlen(parent)`: the first
`l` characters of `name` are those of `parent`. -/
def strncmp_zero (parent name : List Char) : Bool :=
  decide (name.take parent.length = parent)

/-- The inner loop of `walltime_update_parents` over the clocks after the clock
`i`: `t` grows by the time of each clock until the first clock whose name does
not start with the name of the clock `i`. -/
def sum_children (parent : List Char) : ℚ → List Clock → ℚ
  | t, [] => t
  | t, c :: rest =>
    if strncmp_zero parent c.name = true then sum_children parent (t + c.time) rest else t

/-- The body of the outer loop of `walltime_update_parents` for the index `i`. -/
def update_parent (C : List Clock) (i : Nat) : List Clock :=
  match C[i]? with
  | none => C
  | some ci =>
    let t := sum_children ci.name 0 (C.drop (i + 1))
    if t > 0 then C.set i { ci with time := t } else C

/-- The function `walltime_update_parents` on the table `C[0..N)`. -/
def walltime_update_parents (C : List Clock) : List Clock :=
  (List.range C.length).foldl update_parent C

/-- The sum of the times of every clock of `C` other than the clock `i` whose name
starts with the name `parent`. -/
def descendants_time (parent : List Char) (C : List Clock) (i : Nat) : ℚ :=
  (((C.eraseIdx i).filter (fun c => strncmp_zero parent c.name)).map Clock.time).sum

/-- The clock `i` of the table after the iteration `i` of the outer loop of
`walltime_update_parents`, `ci` being the clock `i` before and `C` the table
before the call. -/
def updated_clock (C : List Clock) (i : Nat) (ci : Clock) : Clock :=
  if sum_children ci.name 0 (C.drop (i + 1)) > 0 then
    { ci with time := sum_children ci.name 0 (C.drop (i + 1)) }
  else ci

/-- An example table: the clocks `/`, `/a`, `/a/b` and `/c`. -/
def example_clocks : List Clock :=
  [⟨['/'], 1⟩, ⟨['/', 'a'], 2⟩, ⟨['/', 'a', '/', 'b'], 3⟩, ⟨['/', 'c'], 0⟩]

/-- The clock table `struct ClockTable`: the entries `C[0..N)` and `AC[0..N)` in
use (`N` is the length of `C`), the capacity `Nmax`, and for every index the
`time` members that the unused entries `C[i]` and `AC[i]` hold in memory. -/
structure ClockTable where
  C : List Clock
  AC : List Clock
  Nmax : Nat
  unused : Nat → ℚ × ℚ

/-- The call `qsort(..., clockcmp)`: the clocks in increasing order of name
(`clockcmp` is `strcmp` of the names). -/
def qsort_clocks (l : List Clock) : List Clock :=
  l.insertionSort (fun a b => a.name ≤ b.name)

/-- The call `bsearch(&dummy, CT->C, CT->N, ..., clockcmp)`: the index of a clock
with the name looked for, `none` for `NULL`. -/
def bsearch_clock (name : List Char) (C : List Clock) : Option Nat :=
  if C.findIdx (fun c => decide (c.name = name)) < C.length then
    some (C.findIdx (fun c => decide (c.name = name)))
  else none

/-- The values of `tmp` at the calls `walltime_clock(tmp)` in the loop of
`walltime_clock_insert`: the part of the name before each `'/'` at a position
`p >= 1`. -/
def ancestor_paths (name : List Char) : List (List Char) :=
  ((List.range name.length).filter (fun p => decide (1 ≤ p) && decide (name[p]? = some '/'))).map
    (fun p => name.take p)

/-- The call `strcpy(dst, src)` into an array `dst` of `size` characters: the
string copied, when it fits with its terminating zero; otherwise the copy runs
past the end of the array and the behaviour is undefined (`none`). -/
def strcpy (size : Nat) (src : List Char) : Option (List Char) :=
  if src.length + 1 ≤ size then some src else none

/-- The first part of `walltime_clock_insert` for a name longer than one
character: the name is copied into `char tmp[80]`, and `walltime_clock` is called
for `"/"` and for the part of `tmp` before each later `'/'`. -/
def walltime_clock_ancestors (clock : List Char → ClockTable → Option (Nat × ClockTable))
    (name : List Char) (ct : ClockTable) : Option ClockTable :=
  if name.length > 1 then
    match strcpy 80 name with
    | none => none
    | some tmp =>
      (['/'] :: ancestor_paths tmp).foldlM
        (fun (t : ClockTable) p => (clock p t).map Prod.snd) ct
  else some ct

/-- The function `walltime_clock_insert`; `clock` stands for `walltime_clock`,
which it calls for `"/"` and for the ancestor paths, and `name_size` is the size
of the member `name` of `struct Clock` (declared in `walltime.h`, a parameter
here).  `none` is `abort()` or a copy that does not fit its array. -/
def walltime_clock_insert (name_size : Nat)
    (clock : List Char → ClockTable → Option (Nat × ClockTable))
    (name : List Char) (ct : ClockTable) : Option ClockTable :=
  if name.head? ≠ some '/' then none
  else
    match walltime_clock_ancestors clock name ct with
    | none => none
    | some ct1 =>
      if ct1.C.length = ct1.Nmax then none
      else
        match strcpy name_size name with
        | none => none
        | some stored =>
          match strcpy name_size stored with
          | none => none
          | some copied =>
            some { ct1 with
              C := qsort_clocks (ct1.C ++ [⟨stored, (ct1.unused ct1.C.length).1⟩])
              AC := qsort_clocks (ct1.AC ++ [⟨copied, (ct1.unused ct1.C.length).2⟩]) }

/-- The function `walltime_clock`, run with at most the given depth of nested
calls: the index returned and the table after the call; `none` when that depth
is exhausted, `abort()` is called, or the name does not fit `dummy.name`. -/
def walltime_clock (name_size : Nat) :
    Nat → List Char → ClockTable → Option (Nat × ClockTable)
  | 0, name, ct =>
    match strcpy name_size name with
    | none => none
    | some dummy =>
      match bsearch_clock dummy ct.C with
      | some i => some (i, ct)
      | none => none
  | fuel + 1, name, ct =>
    match strcpy name_size name with
    | none => none
    | some dummy =>
      match bsearch_clock dummy ct.C with
      | some i => some (i, ct)
      | none =>
        match walltime_clock_insert name_size (walltime_clock name_size fuel) name ct with
        | none => none
        | some ct1 =>
          match bsearch_clock dummy ct1.C with
          | some i => some (i, ct1)
          | none => none

/-- The function `walltime_init` on a table whose memory holds `unused`: `Nmax` is
128, `N` is 0, and the clock `"/"` is inserted. -/
def walltime_init (name_size : Nat) (unused : Nat → ℚ × ℚ) : Option ClockTable :=
  walltime_clock_insert name_size (walltime_clock name_size 0) ['/']
    { C := [], AC := [], Nmax := 128, unused := unused }

/-- A call of the interface: `walltime_clock(name)`, `walltime_add(name, dt)`, or
`walltime_measure(name)` with a name that is not `NULL`, `dt` being the time
measured by the call. -/
inductive walltime_call
  | clock (name : List Char)
  | add (name : List Char) (dt : ℚ)
  | measure (name : List Char) (dt : ℚ)

/-- The name given to a call. -/
def walltime_call.name : walltime_call → List Char
  | .clock name => name
  | .add name _ => name
  | .measure name _ => name

/-- The statement `CT->C[id].time += dt`. -/
def add_time (ct : ClockTable) (id : Nat) (dt : ℚ) : ClockTable :=
  match ct.C[id]? with
  | none => ct
  | some c => { ct with C := ct.C.set id { c with time := c.time + dt } }

/-- One call of the interface on the table `ct`; the depth allowed to
`walltime_clock` is the length of the name. -/
def walltime_step (name_size : Nat) (ct : ClockTable) : walltime_call → Option ClockTable
  | .clock name => (walltime_clock name_size name.length name ct).map Prod.snd
  | .add name dt =>
    (walltime_clock name_size name.length name ct).map (fun r => add_time r.2 r.1 dt)
  | .measure name dt =>
    (walltime_clock name_size name.length name ct).map (fun r => add_time r.2 r.1 dt)

/-- A sequence of calls of the interface after `walltime_init`. -/
def walltime_run (name_size : Nat) (unused : Nat → ℚ × ℚ) (calls : List walltime_call) :
    Option ClockTable :=
  match walltime_init name_size unused with
  | none => none
  | some ct => calls.foldlM (walltime_step name_size) ct

/-- The names stored in the table, in the order of `C`. -/
def clock_names (ct : ClockTable) : List (List Char) := ct.C.map Clock.name

/-- The invariant of the clock table over a set `S` of names: the names of `C`
are strictly increasing, `AC` holds the same names in the same order, every
ancestor path of a stored name is stored, the capacity is 128, and the stored
names belong to `S` and start with `'/'`. -/
def table_inv (S : Finset (List Char)) (ct : ClockTable) : Prop :=
  (clock_names ct).Sorted (· < ·) ∧ ct.AC.map Clock.name = clock_names ct ∧
  (∀ n ∈ clock_names ct, ∀ a ∈ ancestor_paths n, a ∈ clock_names ct) ∧
  ct.Nmax = 128 ∧ ∀ n ∈ clock_names ct, n ∈ S ∧ n.head? = some '/'

/-- An example set of names: `/`, `/a`, `/a/b` and `/c`. -/
def example_names : Finset (List Char) :=
  {['/'], ['/', 'a'], ['/', 'a', '/', 'b'], ['/', 'c']}

/-- A name of 80 characters: `'/'` followed by 79 times `'a'`. -/
def long_name : List Char := '/' :: List.replicate 79 'a'

/-- An example sequence of calls: `walltime_add("/a/b", 2)` and
`walltime_clock("/c")`. -/
def example_calls : List walltime_call :=
  [walltime_call.add ['/', 'a', '/', 'b'] 2, walltime_call.clock ['/', 'c']]

end Uvbg

namespace Uvbg

/-! ## Slab layout (`assign_slabs`) -/

theorem sum_take_succ_getD (l : List Int) (r : Nat) :
    (l.take (r + 1)).sum = (l.take r).sum + l.getD r 0 := by
  induction l generalizing r with
  | nil => simp
  | cons a t ih =>
    cases r with
    | zero => simp
    | succ r => simp [List.take_succ_cons, ih r, add_assoc]

theorem assign_slabs_loop_length (nix : List Int) (k : Nat) (acc : List Int) :
    (assign_slabs_loop nix k acc).length = acc.length + k := by
  induction k generalizing acc with
  | zero => simp [assign_slabs_loop]
  | succ k ih => simp [assign_slabs_loop, ih]; omega

theorem assign_slabs_loop_getD (nix : List Int) (k : Nat) (acc : List Int)
    (hlen : 1 ≤ acc.length)
    (hacc : ∀ r, r < acc.length → acc.getD r 0 = (nix.take r).sum) :
    ∀ r, r < acc.length + k → (assign_slabs_loop nix k acc).getD r 0 = (nix.take r).sum := by
  induction k generalizing acc with
  | zero => simpa [assign_slabs_loop] using hacc
  | succ k ih =>
    intro r hr
    simp only [assign_slabs_loop]
    apply ih
    · simp
    · intro s hs
      simp only [List.length_append, List.length_singleton] at hs
      by_cases hlt : s < acc.length
      · rw [List.getD_append _ _ _ _ hlt]
        exact hacc s hlt
      · have hs' : s = acc.length := by omega
        subst hs'
        rw [List.getD_append_right _ _ _ _ (le_refl _)]
        simp only [Nat.sub_self, List.getD_cons_zero]
        rw [hacc (acc.length - 1) (by omega)]
        have h := sum_take_succ_getD nix (acc.length - 1)
        rw [Nat.sub_add_cancel hlen] at h
        rw [h]
    · simp only [List.length_append, List.length_singleton]
      omega

theorem assign_slabs_length (nix : List Int) (hn : 1 ≤ nix.length) :
    (assign_slabs nix).length = nix.length := by
  simp [assign_slabs, assign_slabs_loop_length]
  omega

theorem assign_slabs_getD (nix : List Int) (hn : 1 ≤ nix.length) (r : Nat)
    (hr : r < nix.length) : (assign_slabs nix).getD r 0 = (nix.take r).sum := by
  unfold assign_slabs
  apply assign_slabs_loop_getD
  · simp
  · intro s hs
    simp only [List.length_singleton, Nat.lt_one_iff] at hs
    subst hs
    simp
  · simp only [List.length_singleton]
    omega

theorem getD_nonneg_of_forall (nix : List Int) (hpos : ∀ w ∈ nix, 0 ≤ w) (r : Nat) :
    0 ≤ nix.getD r 0 := by
  by_cases h : r < nix.length
  · rw [List.getD_eq_getElem _ _ h]
    exact hpos _ (List.getElem_mem h)
  · rw [List.getD_eq_default _ _ (by omega)]

theorem sum_take_mono (nix : List Int) (hpos : ∀ w ∈ nix, 0 ≤ w) (r s : Nat) (h : r ≤ s) :
    (nix.take r).sum ≤ (nix.take s).sum := by
  induction s, h using Nat.le_induction with
  | base => exact le_refl _
  | succ m _ ih =>
    rw [sum_take_succ_getD]
    have := getD_nonneg_of_forall nix hpos m
    omega

theorem sum_take_locate (nix : List Int) (x : Int) (hx : 0 ≤ x) (m : Nat)
    (h : x < (nix.take m).sum) :
    ∃ r, r < m ∧ (nix.take r).sum ≤ x ∧ x < (nix.take r).sum + nix.getD r 0 := by
  induction m with
  | zero => simp at h; omega
  | succ m ih =>
    by_cases hlt : x < (nix.take m).sum
    · obtain ⟨r, hr, h1, h2⟩ := ih hlt
      exact ⟨r, by omega, h1, h2⟩
    · refine ⟨m, by omega, by omega, ?_⟩
      rw [sum_take_succ_getD] at h
      exact h

/-- C3: for at least one rank and gathered widths that are non-negative and sum
to `D`, the offsets of `assign_slabs` start at 0, each next offset adds the
previous width, and the half-open slabs are ordered by rank, pairwise disjoint
and cover exactly `[0, D)`. -/
theorem assign_slabs_partition (nix : List Int) (D : Int)
    (hn : 1 ≤ nix.length) (hpos : ∀ w ∈ nix, 0 ≤ w) (hsum : nix.sum = D) :
    (assign_slabs nix).length = nix.length ∧
    (assign_slabs nix).getD 0 0 = 0 ∧
    (∀ r, r + 1 < nix.length →
      (assign_slabs nix).getD (r + 1) 0 = (assign_slabs nix).getD r 0 + nix.getD r 0) ∧
    (∀ r s, r < s → s < nix.length →
      (assign_slabs nix).getD r 0 + nix.getD r 0 ≤ (assign_slabs nix).getD s 0) ∧
    (∀ r s, r < nix.length → s < nix.length → r ≠ s → ∀ x : Int,
      ¬ (((assign_slabs nix).getD r 0 ≤ x ∧ x < (assign_slabs nix).getD r 0 + nix.getD r 0) ∧
         ((assign_slabs nix).getD s 0 ≤ x ∧ x < (assign_slabs nix).getD s 0 + nix.getD s 0))) ∧
    (∀ x : Int, (0 ≤ x ∧ x < D) ↔
      ∃ r, r < nix.length ∧
        (assign_slabs nix).getD r 0 ≤ x ∧ x < (assign_slabs nix).getD r 0 + nix.getD r 0) := by
  have hord : ∀ r s, r < s → s < nix.length →
      (assign_slabs nix).getD r 0 + nix.getD r 0 ≤ (assign_slabs nix).getD s 0 := by
    intro r s hrs hs
    rw [assign_slabs_getD nix hn r (by omega), assign_slabs_getD nix hn s hs,
      ← sum_take_succ_getD]
    exact sum_take_mono nix hpos (r + 1) s hrs
  refine ⟨assign_slabs_length nix hn, ?_, ?_, hord, ?_, ?_⟩
  · rw [assign_slabs_getD nix hn 0 (by omega)]
    simp
  · intro r hr
    rw [assign_slabs_getD nix hn (r + 1) hr, assign_slabs_getD nix hn r (by omega),
      sum_take_succ_getD]
  · intro r s hr hs hne x hx
    obtain ⟨⟨h1, h2⟩, h3, h4⟩ := hx
    rcases Nat.lt_or_gt_of_ne hne with h | h
    · have := hord r s h hs
      omega
    · have := hord s r h hr
      omega
  · intro x
    constructor
    · rintro ⟨h0, hD⟩
      have hfull : (nix.take nix.length).sum = D := by rw [List.take_length, hsum]
      obtain ⟨r, hr, h1, h2⟩ := sum_take_locate nix x h0 nix.length (by omega)
      exact ⟨r, hr, by rw [assign_slabs_getD nix hn r hr]; exact h1,
        by rw [assign_slabs_getD nix hn r hr]; exact h2⟩
    · rintro ⟨r, hr, h1, h2⟩
      rw [assign_slabs_getD nix hn r hr] at h1 h2
      have h0 : (0 : Int) ≤ (nix.take r).sum := by
        have := sum_take_mono nix hpos 0 r (Nat.zero_le r)
        simpa using this
      have hle : (nix.take (r + 1)).sum ≤ (nix.take nix.length).sum :=
        sum_take_mono nix hpos (r + 1) nix.length hr
      rw [List.take_length, hsum, sum_take_succ_getD] at hle
      omega

/-- Witness for C3 on three ranks with widths 2, 3 and 1 on a grid of dimension 6. -/
theorem assign_slabs_partition_witness :
    (assign_slabs [2, 3, 1]).length = [(2 : Int), 3, 1].length ∧
    (assign_slabs [2, 3, 1]).getD 0 0 = 0 ∧
    (∀ r, r + 1 < [(2 : Int), 3, 1].length →
      (assign_slabs [2, 3, 1]).getD (r + 1) 0
        = (assign_slabs [2, 3, 1]).getD r 0 + [(2 : Int), 3, 1].getD r 0) ∧
    (∀ r s, r < s → s < [(2 : Int), 3, 1].length →
      (assign_slabs [2, 3, 1]).getD r 0 + [(2 : Int), 3, 1].getD r 0
        ≤ (assign_slabs [2, 3, 1]).getD s 0) ∧
    (∀ r s, r < [(2 : Int), 3, 1].length → s < [(2 : Int), 3, 1].length → r ≠ s → ∀ x : Int,
      ¬ (((assign_slabs [2, 3, 1]).getD r 0 ≤ x ∧
            x < (assign_slabs [2, 3, 1]).getD r 0 + [(2 : Int), 3, 1].getD r 0) ∧
         ((assign_slabs [2, 3, 1]).getD s 0 ≤ x ∧
            x < (assign_slabs [2, 3, 1]).getD s 0 + [(2 : Int), 3, 1].getD s 0))) ∧
    (∀ x : Int, (0 ≤ x ∧ x < 6) ↔
      ∃ r, r < [(2 : Int), 3, 1].length ∧
        (assign_slabs [2, 3, 1]).getD r 0 ≤ x ∧
        x < (assign_slabs [2, 3, 1]).getD r 0 + [(2 : Int), 3, 1].getD r 0) :=
  assign_slabs_partition [2, 3, 1] 6 (by decide) (by decide) (by decide)

/-! ## Binary64 rounding -/

theorem nearbyint_cases (v : ℚ) : nearbyint v = ⌊v⌋ ∨ nearbyint v = ⌊v⌋ + 1 := by
  unfold nearbyint
  simp only
  split_ifs <;> simp

theorem nearbyint_near (v : ℚ) : |((nearbyint v : Int) : ℚ) - v| ≤ 1 / 2 := by
  have h1 := Int.floor_le v
  have h2 := Int.lt_floor_add_one v
  unfold nearbyint
  simp only
  rw [abs_le]
  split_ifs with ha hb hc
  · constructor <;> linarith
  · push_cast
    constructor <;> linarith
  · constructor <;> linarith
  · push_cast
    constructor <;> linarith

theorem nearbyint_nonneg (v : ℚ) (hv : 0 ≤ v) : 0 ≤ nearbyint v := by
  have hf : 0 ≤ ⌊v⌋ := Int.floor_nonneg.mpr hv
  rcases nearbyint_cases v with h | h <;> omega

theorem nearbyint_le_of_lt (v : ℚ) (n : Int) (hv : v < n) : nearbyint v ≤ n := by
  have hf : ⌊v⌋ < n := Int.floor_lt.mpr hv
  rcases nearbyint_cases v with h | h <;> omega

theorem nearbyint_intCast (N : Int) : nearbyint (N : ℚ) = N := by
  unfold nearbyint
  simp

theorem nearbyint_le_intCast (v : ℚ) (N : Int) (h : v ≤ N) : nearbyint v ≤ N := by
  rcases lt_or_eq_of_le h with hlt | heq
  · exact nearbyint_le_of_lt v N hlt
  · rw [heq, nearbyint_intCast]

theorem nearbyint_eq_of_near (v : ℚ) (m : Int) (h1 : (m : ℚ) - 1 / 2 < v)
    (h2 : v < (m : ℚ) + 1 / 2) : nearbyint v = m := by
  have hfl : ⌊v⌋ = m - 1 ∨ ⌊v⌋ = m := by
    have a1 : m - 1 ≤ ⌊v⌋ := Int.le_floor.mpr (by push_cast; linarith)
    have a2 : ⌊v⌋ < m + 1 := Int.floor_lt.mpr (by push_cast; linarith)
    omega
  unfold nearbyint
  simp only
  rcases hfl with h | h
  · have hd : ¬ (v - ((⌊v⌋ : Int) : ℚ) < 1 / 2) := by rw [h]; push_cast; linarith
    have hd2 : (1 : ℚ) / 2 < v - ((⌊v⌋ : Int) : ℚ) := by rw [h]; push_cast; linarith
    rw [if_neg hd, if_pos hd2, h]
    ring
  · have hd : v - ((⌊v⌋ : Int) : ℚ) < 1 / 2 := by rw [h]; linarith
    rw [if_pos hd, h]

theorem nearbyint_tie (m : Int) :
    nearbyint ((m : ℚ) + 1 / 2) = if m % 2 = 0 then m else m + 1 := by
  have hfl : ⌊(m : ℚ) + 1 / 2⌋ = m := by
    rw [Int.floor_eq_iff]
    constructor <;> linarith
  unfold nearbyint
  simp only
  rw [hfl]
  have hd : ¬ ((m : ℚ) + 1 / 2 - (m : ℚ) < 1 / 2) := by norm_num
  have hd2 : ¬ ((1 : ℚ) / 2 < (m : ℚ) + 1 / 2 - (m : ℚ)) := by norm_num
  rw [if_neg hd, if_neg hd2]

theorem double_ulp_pos (x : ℚ) : 0 < double_ulp x := by
  unfold double_ulp
  positivity

theorem round_double_nonneg (x y : ℚ) (hx : 0 ≤ x) (h : round_double x = some y) : 0 ≤ y := by
  unfold round_double at h
  simp only at h
  split_ifs at h
  rw [← Option.some.inj h]
  have := nearbyint_nonneg (x / double_ulp x) (div_nonneg hx (double_ulp_pos x).le)
  have h2 : (0 : ℚ) ≤ ((nearbyint (x / double_ulp x) : Int) : ℚ) := by exact_mod_cast this
  exact mul_nonneg h2 (double_ulp_pos x).le

theorem double_exponent_le (x : ℚ) (n : Int) (hx0 : 0 ≤ x) (hxn : x ≤ n) (hn : n < 2 ^ 53) :
    double_exponent x ≤ 52 := by
  unfold double_exponent
  rcases eq_or_lt_of_le hx0 with h0 | hpos
  · rw [if_pos h0.symm]
    norm_num
  · rw [if_neg (ne_of_gt hpos)]
    apply max_le _ (by norm_num)
    rw [abs_of_nonneg hx0]
    have h1 : x < (2 : ℚ) ^ (53 : Int) := by
      have : (n : ℚ) < 2 ^ 53 := by exact_mod_cast hn
      have e : (2 : ℚ) ^ (53 : Int) = 2 ^ 53 := by norm_num
      rw [e]
      linarith
    have := (Int.lt_zpow_iff_log_lt (by norm_num : 1 < 2) hpos).mp h1
    omega

theorem round_double_le_intCast (x : ℚ) (n : Int) (hx0 : 0 ≤ x) (hxn : x ≤ n)
    (hn : n < 2 ^ 53) : ∃ y, round_double x = some y ∧ 0 ≤ y ∧ y ≤ n := by
  have he := double_exponent_le x n hx0 hxn hn
  obtain ⟨k, hk⟩ := Int.eq_ofNat_of_zero_le (by omega : 0 ≤ 52 - double_exponent x)
  have hu : double_ulp x = ((2 : ℚ) ^ k)⁻¹ := by
    unfold double_ulp
    have : double_exponent x - 52 = -(k : Int) := by omega
    rw [this, zpow_neg, zpow_natCast]
  have hupos := double_ulp_pos x
  have hN : (n : ℚ) / double_ulp x = ((n * 2 ^ k : Int) : ℚ) := by
    rw [hu]
    push_cast
    field_simp
  have hle : nearbyint (x / double_ulp x) ≤ n * 2 ^ k := by
    apply nearbyint_le_intCast
    rw [← hN]
    exact div_le_div_of_nonneg_right hxn hupos.le
  have h0 : 0 ≤ nearbyint (x / double_ulp x) :=
    nearbyint_nonneg _ (div_nonneg hx0 hupos.le)
  have hy0 : (0 : ℚ) ≤ ((nearbyint (x / double_ulp x) : Int) : ℚ) * double_ulp x :=
    mul_nonneg (by exact_mod_cast h0) hupos.le
  have hy1 : ((nearbyint (x / double_ulp x) : Int) : ℚ) * double_ulp x ≤ n := by
    have h2 : ((nearbyint (x / double_ulp x) : Int) : ℚ) ≤ (n : ℚ) / double_ulp x := by
      rw [hN]
      exact_mod_cast hle
    calc ((nearbyint (x / double_ulp x) : Int) : ℚ) * double_ulp x
        ≤ (n : ℚ) / double_ulp x * double_ulp x := mul_le_mul_of_nonneg_right h2 hupos.le
      _ = n := by field_simp
  refine ⟨_, ?_, hy0, hy1⟩
  unfold round_double
  simp only
  rw [if_pos]
  rw [abs_of_nonneg hy0]
  have : (n : ℚ) < 2 ^ 53 := by exact_mod_cast hn
  have h3 : (2 : ℚ) ^ 53 ≤ 2 ^ 1024 := by norm_num
  linarith

theorem double_exponent_eq (x : ℚ) (e : Int) (he : -1022 ≤ e) (hlo : (2 : ℚ) ^ e ≤ |x|)
    (hhi : |x| < (2 : ℚ) ^ (e + 1)) : double_exponent x = e := by
  have hpos : 0 < |x| := lt_of_lt_of_le (by positivity) hlo
  have h1 := (Int.zpow_le_iff_le_log (by norm_num : 1 < 2) hpos).mp hlo
  have h2 := (Int.lt_zpow_iff_log_lt (by norm_num : 1 < 2) hpos).mp hhi
  unfold double_exponent
  rw [if_neg (abs_pos.mp hpos), max_eq_left (by omega)]
  omega

theorem round_double_eq (x : ℚ) (e m : Int) (he : -1022 ≤ e) (hlo : (2 : ℚ) ^ e ≤ |x|)
    (hhi : |x| < (2 : ℚ) ^ (e + 1)) (hm : nearbyint (x / (2 : ℚ) ^ (e - 52)) = m)
    (hfin : |(m : ℚ) * (2 : ℚ) ^ (e - 52)| < 2 ^ 1024) :
    round_double x = some ((m : ℚ) * (2 : ℚ) ^ (e - 52)) := by
  unfold round_double double_ulp
  rw [double_exponent_eq x e he hlo hhi]
  simp only
  rw [hm, if_pos hfin]

theorem round_double_exact_value (x : ℚ) (e m : Int) (he : -1022 ≤ e)
    (hlo : (2 : ℚ) ^ e ≤ |x|) (hhi : |x| < (2 : ℚ) ^ (e + 1))
    (hx : x = (m : ℚ) * (2 : ℚ) ^ (e - 52)) (hfin : |x| < 2 ^ 1024) :
    round_double x = some x := by
  have hm : nearbyint (x / (2 : ℚ) ^ (e - 52)) = m := by
    have : x / (2 : ℚ) ^ (e - 52) = (m : ℚ) := by
      rw [hx]
      field_simp
    rw [this, nearbyint_intCast]
  have h := round_double_eq x e m he hlo hhi hm (by rw [← hx]; exact hfin)
  rw [h, ← hx]

theorem round_double_zero : round_double 0 = some 0 := by
  norm_num [round_double, nearbyint]

theorem round_double_error (x y : ℚ) (h : round_double x = some y) :
    |y - x| ≤ double_ulp x / 2 := by
  unfold round_double at h
  simp only at h
  split_ifs at h
  rw [← Option.some.inj h]
  have hu := double_ulp_pos x
  have hn := nearbyint_near (x / double_ulp x)
  have e : ((nearbyint (x / double_ulp x) : Int) : ℚ) * double_ulp x - x
      = (((nearbyint (x / double_ulp x) : Int) : ℚ) - x / double_ulp x) * double_ulp x := by
    field_simp
  rw [e, abs_mul, abs_of_pos hu]
  calc |((nearbyint (x / double_ulp x) : Int) : ℚ) - x / double_ulp x| * double_ulp x
      ≤ 1 / 2 * double_ulp x := mul_le_mul_of_nonneg_right hn hu.le
    _ = double_ulp x / 2 := by ring

theorem double_ulp_le (x B : ℚ) (hx : |x| ≤ B) (hB : (2 : ℚ) ^ (-1022 : Int) ≤ B) :
    double_ulp x ≤ B * (2 : ℚ) ^ (-52 : Int) := by
  have h2e : (2 : ℚ) ^ double_exponent x ≤ B := by
    unfold double_exponent
    by_cases h0 : x = 0
    · rw [if_pos h0]
      exact hB
    · rw [if_neg h0]
      rcases le_total (Int.log 2 |x|) (-1022) with h | h
      · rw [max_eq_right h]
        exact hB
      · rw [max_eq_left h]
        exact le_trans (Int.zpow_log_le_self (by norm_num) (abs_pos.mpr h0)) hx
  unfold double_ulp
  rw [sub_eq_add_neg, zpow_add₀ (by norm_num : (2 : ℚ) ≠ 0)]
  exact mul_le_mul_of_nonneg_right h2e (by positivity)

theorem double_to_int_intCast (t : Int) (h0 : -2 ^ 31 ≤ t) (h1 : t < 2 ^ 31) :
    double_to_int (t : ℚ) = some t := by
  unfold double_to_int
  simp only [Int.floor_intCast, Int.ceil_intCast, ite_self]
  rw [if_pos ⟨h0, h1⟩]

theorem double_to_int_intCast_none (t : Int) (h1 : 2 ^ 31 ≤ t) :
    double_to_int (t : ℚ) = none := by
  unfold double_to_int
  simp only [Int.floor_intCast, Int.ceil_intCast, ite_self]
  rw [if_neg (by omega)]

theorem double_to_int_floor (x : ℚ) (h0 : 0 ≤ x) (h1 : x < 2 ^ 31) :
    double_to_int x = some ⌊x⌋ := by
  unfold double_to_int
  simp only [if_pos h0]
  have hf0 : 0 ≤ ⌊x⌋ := Int.floor_nonneg.mpr h0
  have hf1 : ⌊x⌋ < 2 ^ 31 := Int.floor_lt.mpr (by push_cast; exact h1)
  rw [if_pos ⟨by omega, hf1⟩]

/-! ## Nearest grid point (`pos_to_ngp`) -/

theorem pos_to_ngp_product_eq (x side : ℚ) (nx : Int) (q p : ℚ) (hs : side ≠ 0)
    (hq : round_double (x / side) = some q) (hp : round_double (q * (nx : ℚ)) = some p) :
    pos_to_ngp_product x side nx = some p := by
  unfold pos_to_ngp_product double_div double_mul
  rw [if_neg hs, hq]
  exact hp

theorem pos_to_ngp_product_nonneg (x side : ℚ) (nx : Int) (p : ℚ) (hside : 0 < side)
    (hnx : 0 ≤ nx) (hx : 0 ≤ x) (hp : pos_to_ngp_product x side nx = some p) : 0 ≤ p := by
  unfold pos_to_ngp_product double_div double_mul at hp
  rw [if_neg (ne_of_gt hside)] at hp
  cases hq : round_double (x / side) with
  | none => simp [hq] at hp
  | some q =>
    simp only [hq] at hp
    have hq0 := round_double_nonneg _ _ (div_nonneg hx hside.le) hq
    exact round_double_nonneg _ _ (mul_nonneg hq0 (by exact_mod_cast hnx)) hp

theorem pos_to_ngp_of_product (x side : ℚ) (nx : Int) (p : ℚ)
    (hp : pos_to_ngp_product x side nx = some p) (h0 : 0 ≤ p) (h1 : nearbyint p < 2 ^ 31) :
    pos_to_ngp x side nx = some (if nearbyint p > nx - 1 then 0 else nearbyint p) ∧
    0 ≤ (if nearbyint p > nx - 1 then 0 else nearbyint p) := by
  have hn0 := nearbyint_nonneg p h0
  have hres : 0 ≤ (if nearbyint p > nx - 1 then 0 else nearbyint p) := by
    split_ifs <;> omega
  refine ⟨?_, hres⟩
  unfold pos_to_ngp
  rw [hp]
  simp only
  rw [double_to_int_intCast _ (by omega) h1]
  simp only
  rw [if_pos (by omega)]

theorem pos_to_ngp_undefined (x side : ℚ) (nx : Int) (p : ℚ)
    (hp : pos_to_ngp_product x side nx = some p) (h1 : 2 ^ 31 ≤ nearbyint p) :
    pos_to_ngp x side nx = none := by
  unfold pos_to_ngp
  rw [hp]
  simp only
  rw [double_to_int_intCast_none _ h1]

theorem pos_to_ngp_range (x side : ℚ) (nx : Int) (hnx : 1 ≤ nx) (hnx1 : nx < 2 ^ 31)
    (hside : 0 < side) (hx0 : 0 ≤ x) (hx1 : x < side) :
    ∃ (p : ℚ) (c : Int), pos_to_ngp_product x side nx = some p ∧ 0 ≤ p ∧ p ≤ nx ∧
      pos_to_ngp x side nx = some c ∧ 0 ≤ c ∧ c ≤ nx - 1 ∧ c = nearbyint p % nx := by
  have hq1 : x / side ≤ ((1 : Int) : ℚ) := by
    rw [Int.cast_one, div_le_one hside]
    exact hx1.le
  obtain ⟨q, hq, hq0, hq1'⟩ := round_double_le_intCast (x / side) 1 (div_nonneg hx0 hside.le) hq1
    (by norm_num)
  have hnxq : (0 : ℚ) ≤ (nx : ℚ) := by exact_mod_cast (by omega : (0 : Int) ≤ nx)
  have hqn : q * (nx : ℚ) ≤ (nx : ℚ) := by
    have : q ≤ 1 := by simpa using hq1'
    nlinarith
  obtain ⟨p, hp, hp0, hp1⟩ := round_double_le_intCast (q * nx) nx (mul_nonneg hq0 hnxq) hqn
    (by omega)
  have hprod := pos_to_ngp_product_eq x side nx q p (ne_of_gt hside) hq hp
  have hn1 := nearbyint_le_intCast p nx hp1
  have hn0 := nearbyint_nonneg p hp0
  obtain ⟨h1, h2⟩ := pos_to_ngp_of_product x side nx p hprod hp0 (by omega)
  refine ⟨p, _, hprod, hp0, hp1, h1, h2, ?_, ?_⟩
  · split_ifs <;> omega
  · split_ifs with h
    · have : nearbyint p = nx := by omega
      rw [this, Int.emod_self]
    · rw [Int.emod_eq_of_lt hn0 (by omega)]

theorem pos_to_ngp_product_error (x side : ℚ) (nx : Int) (p : ℚ) (hnx : 1 ≤ nx)
    (hside : 0 < side) (hx0 : 0 ≤ x) (hx1 : x < side)
    (hp : pos_to_ngp_product x side nx = some p) :
    |p - x / side * (nx : ℚ)| ≤ (nx : ℚ) * (2 : ℚ) ^ (-52 : Int) := by
  unfold pos_to_ngp_product double_div double_mul at hp
  rw [if_neg (ne_of_gt hside)] at hp
  cases hq : round_double (x / side) with
  | none => simp [hq] at hp
  | some q =>
    simp only [hq] at hp
    have hnxq : (1 : ℚ) ≤ (nx : ℚ) := by exact_mod_cast hnx
    have hx01 : 0 ≤ x / side := div_nonneg hx0 hside.le
    have hx11 : x / side < 1 := (div_lt_one hside).mpr hx1
    have hq0 := round_double_nonneg _ _ hx01 hq
    obtain ⟨q2, hq2, _, hq1⟩ := round_double_le_intCast (x / side) 1 hx01
      (by rw [Int.cast_one]; exact hx11.le) (by norm_num)
    rw [hq, Option.some.injEq] at hq2
    subst hq2
    rw [Int.cast_one] at hq1
    have e1 := round_double_error _ _ hq
    have u1 := double_ulp_le (x / side) 1 (by rw [abs_of_nonneg hx01]; exact hx11.le)
      (by norm_num)
    have e2 := round_double_error _ _ hp
    have hqn0 : 0 ≤ q * (nx : ℚ) := mul_nonneg hq0 (by linarith)
    have u2 := double_ulp_le (q * (nx : ℚ)) (nx : ℚ)
      (by rw [abs_of_nonneg hqn0]; nlinarith) (by
        have : (2 : ℚ) ^ (-1022 : Int) ≤ 1 := by
          rw [zpow_neg]
          apply inv_le_one_of_one_le₀
          exact one_le_zpow₀ (by norm_num) (by norm_num)
        linarith)
    have hsplit : p - x / side * (nx : ℚ)
        = (p - q * (nx : ℚ)) + (q - x / side) * (nx : ℚ) := by ring
    rw [hsplit]
    have h3 : |(q - x / side) * (nx : ℚ)| ≤ (1 * (2 : ℚ) ^ (-52 : Int) / 2) * (nx : ℚ) := by
      rw [abs_mul, abs_of_nonneg (by linarith : (0 : ℚ) ≤ (nx : ℚ))]
      exact mul_le_mul_of_nonneg_right
        (le_trans e1 (div_le_div_of_nonneg_right u1 (by norm_num))) (by linarith)
    have h4 : |p - q * (nx : ℚ)| ≤ (nx : ℚ) * (2 : ℚ) ^ (-52 : Int) / 2 :=
      le_trans e2 (div_le_div_of_nonneg_right u2 (by norm_num))
    calc |p - q * (nx : ℚ) + (q - x / side) * (nx : ℚ)|
        ≤ |p - q * (nx : ℚ)| + |(q - x / side) * (nx : ℚ)| := abs_add _ _
      _ ≤ (nx : ℚ) * (2 : ℚ) ^ (-52 : Int) / 2
          + (1 * (2 : ℚ) ^ (-52 : Int) / 2) * (nx : ℚ) := add_le_add h4 h3
      _ = (nx : ℚ) * (2 : ℚ) ^ (-52 : Int) := by ring

theorem pos_to_ngp_origin (side : ℚ) (nx : Int) (hside : 0 < side) (hnx : 1 ≤ nx)
    (hnx1 : nx < 2 ^ 31) : pos_to_ngp 0 side nx = some 0 := by
  have hprod : pos_to_ngp_product 0 side nx = some 0 :=
    pos_to_ngp_product_eq 0 side nx 0 0 (ne_of_gt hside)
      (by rw [zero_div]; exact round_double_zero) (by rw [zero_mul]; exact round_double_zero)
  have hn : nearbyint (0 : ℚ) = 0 := by
    have h := nearbyint_intCast 0
    simpa using h
  have h := (pos_to_ngp_of_product 0 side nx 0 hprod le_rfl (by rw [hn]; norm_num)).1
  rw [hn, if_neg (by omega)] at h
  exact h

theorem round_double_three_tenths :
    round_double ((5404319552844595 / 18014398509481984 : ℚ) / 1)
      = some (5404319552844595 / 18014398509481984) := by
  have h := round_double_exact_value (5404319552844595 / 18014398509481984) (-2)
    5404319552844595 (by norm_num)
    (by rw [abs_of_nonneg (by norm_num)]; norm_num)
    (by rw [abs_of_nonneg (by norm_num)]; norm_num) (by norm_num)
    (by rw [abs_of_nonneg (by norm_num)]; norm_num)
  simpa using h

theorem round_double_three_halves :
    round_double ((5404319552844595 / 18014398509481984 : ℚ) * ((5 : Int) : ℚ))
      = some (3 / 2) := by
  have h := round_double_eq ((5404319552844595 / 18014398509481984 : ℚ) * ((5 : Int) : ℚ)) 0
    6755399441055744 (by norm_num)
    (by rw [abs_of_nonneg (by norm_num)]; norm_num)
    (by rw [abs_of_nonneg (by norm_num)]; norm_num)
    (by apply nearbyint_eq_of_near <;> norm_num)
    (by rw [abs_of_nonneg (by norm_num)]; norm_num)
  rw [h]
  norm_num

theorem nearbyint_three_halves : nearbyint (3 / 2 : ℚ) = 2 := by
  have h := nearbyint_tie 1
  norm_num at h
  exact h

theorem round_double_pow29 : round_double ((4294967296 : ℚ) / 8) = some 536870912 := by
  have h := round_double_exact_value ((4294967296 : ℚ) / 8) 29 4503599627370496
    (by norm_num) (by rw [abs_of_nonneg (by norm_num)]; norm_num)
    (by rw [abs_of_nonneg (by norm_num)]; norm_num) (by norm_num)
    (by rw [abs_of_nonneg (by norm_num)]; norm_num)
  rw [h]
  norm_num

theorem round_double_pow31 :
    round_double ((536870912 : ℚ) * ((4 : Int) : ℚ)) = some 2147483648 := by
  have h := round_double_exact_value ((536870912 : ℚ) * ((4 : Int) : ℚ)) 31 4503599627370496
    (by norm_num) (by rw [abs_of_nonneg (by norm_num)]; norm_num)
    (by rw [abs_of_nonneg (by norm_num)]; norm_num) (by norm_num)
    (by rw [abs_of_nonneg (by norm_num)]; norm_num)
  rw [h]
  norm_num

theorem nearbyint_pow31 : nearbyint (2147483648 : ℚ) = 2147483648 := by
  have h := nearbyint_intCast 2147483648
  simpa using h

/-- Counterexample to C5 as stated.  The position `x = 5404319552844595 / 2^54`
(the binary64 number nearest to 0.3) in a box of side 1 with 5 cells: the
binary64 product `x / side * nx` is exactly 1.5, `nearbyint` gives 2 and
`pos_to_ngp` returns 2, while `x / side * nx` is below 1.5 and the only integer
within `1/2` of it is 1, which is not congruent to 2 modulo 5.  And at
`x = 2^32 ≥ 0` in a box of side 8 with 4 cells the product is `2^31`, whose
conversion to `int` is undefined: the function has no result there. -/
theorem pos_to_ngp_nearest_counterexample :
    (1 : Int) ≤ 5 ∧ (0 : ℚ) < 1 ∧
    (0 : ℚ) ≤ 5404319552844595 / 18014398509481984 ∧
    (5404319552844595 / 18014398509481984 : ℚ) < 1 ∧
    pos_to_ngp (5404319552844595 / 18014398509481984) 1 5 = some 2 ∧
    (∀ n : Int,
      |(n : ℚ) - (5404319552844595 / 18014398509481984 : ℚ) / 1 * ((5 : Int) : ℚ)| ≤ 1 / 2 →
      n = 1 ∧ ¬ (2 ≡ n [ZMOD 5])) ∧
    (0 : ℚ) ≤ 4294967296 ∧ pos_to_ngp 4294967296 8 4 = none := by
  have hprod : pos_to_ngp_product (5404319552844595 / 18014398509481984) 1 5 = some (3 / 2) :=
    pos_to_ngp_product_eq _ 1 5 _ _ (by norm_num) round_double_three_tenths
      round_double_three_halves
  have hprod2 : pos_to_ngp_product 4294967296 8 4 = some 2147483648 :=
    pos_to_ngp_product_eq 4294967296 8 4 _ _ (by norm_num) round_double_pow29 round_double_pow31
  refine ⟨by norm_num, by norm_num, by norm_num, by norm_num, ?_, ?_, by norm_num, ?_⟩
  · have h := (pos_to_ngp_of_product _ 1 5 (3 / 2) hprod (by norm_num)
      (by rw [nearbyint_three_halves]; norm_num)).1
    rw [nearbyint_three_halves, if_neg (by norm_num)] at h
    exact h
  · intro n hn1
    rw [abs_le] at hn1
    have h1 : (0 : ℚ) < n := by
      have := hn1.1
      norm_num at this
      linarith
    have h2 : (n : ℚ) < 2 := by
      have := hn1.2
      norm_num at this
      linarith
    have h3 : 0 < n := by exact_mod_cast h1
    have h4 : n < 2 := by exact_mod_cast h2
    have h5 : n = 1 := by omega
    subst h5
    exact ⟨rfl, by decide⟩
  · exact pos_to_ngp_undefined 4294967296 8 4 2147483648 hprod2
      (by rw [nearbyint_pow31]; norm_num)

/-- C5 (amended): for `1 ≤ nx < 2^31`, `side > 0` and `0 ≤ x < side`, the binary64
value `p` of `x / side * nx` is finite and within `nx * 2^(-52)` of the exact
value, and `pos_to_ngp` returns a cell index `c` in `[0, nx - 1]` that equals
`n mod nx` for the integer `n = nearbyint p`, which lies within `1/2` of `p`; and
the assertion `ind > -1` holds for every position `y ≥ 0` whose product `p` is
finite and rounds to an integer below `2^31`. -/
theorem pos_to_ngp_nearest (x side : ℚ) (nx : Int) (hnx : 1 ≤ nx) (hint : nx < 2 ^ 31)
    (hside : 0 < side) (hx0 : 0 ≤ x) (hx1 : x < side) :
    (∃ (p : ℚ) (c n : Int), pos_to_ngp_product x side nx = some p ∧
      |p - x / side * (nx : ℚ)| ≤ (nx : ℚ) * (2 : ℚ) ^ (-52 : Int) ∧
      pos_to_ngp x side nx = some c ∧ 0 ≤ c ∧ c ≤ nx - 1 ∧
      n = nearbyint p ∧ |(n : ℚ) - p| ≤ 1 / 2 ∧ c ≡ n [ZMOD nx] ∧ c = n % nx) ∧
    (∀ y p : ℚ, 0 ≤ y → pos_to_ngp_product y side nx = some p → nearbyint p < 2 ^ 31 →
      ∃ c : Int, pos_to_ngp y side nx = some c ∧ -1 < c) := by
  constructor
  · obtain ⟨p, c, hp, hp0, hp1, hc, hc0, hc1, hmod⟩ :=
      pos_to_ngp_range x side nx hnx hint hside hx0 hx1
    refine ⟨p, c, nearbyint p, hp, pos_to_ngp_product_error x side nx p hnx hside hx0 hx1 hp,
      hc, hc0, hc1, rfl, nearbyint_near p, ?_, hmod⟩
    rw [hmod]
    exact Int.mod_modEq _ _
  · intro y p hy hp hlt
    have hp0 := pos_to_ngp_product_nonneg y side nx p hside (by omega) hy hp
    obtain ⟨h1, h2⟩ := pos_to_ngp_of_product y side nx p hp hp0 hlt
    exact ⟨_, h1, by omega⟩

/-- Witness for C5 (amended) at `x = 7/2` in a box of side 8 with 4 cells. -/
theorem pos_to_ngp_nearest_witness :
    ∃ (p : ℚ) (c n : Int), pos_to_ngp_product (7 / 2) 8 4 = some p ∧
      |p - (7 / 2 : ℚ) / 8 * ((4 : Int) : ℚ)| ≤ ((4 : Int) : ℚ) * (2 : ℚ) ^ (-52 : Int) ∧
      pos_to_ngp (7 / 2) 8 4 = some c ∧ 0 ≤ c ∧ c ≤ 4 - 1 ∧
      n = nearbyint p ∧ |(n : ℚ) - p| ≤ 1 / 2 ∧ c ≡ n [ZMOD 4] ∧ c = n % 4 :=
  (pos_to_ngp_nearest (7 / 2) 8 4 (by decide) (by norm_num) (by norm_num) (by norm_num)
    (by norm_num)).1

/-! ## Owning-rank lookup (`searchsorted`) -/

theorem toInt32_of_range (x : Int) (h1 : -2 ^ 31 ≤ x) (h2 : x < 2 ^ 31) : toInt32 x = x := by
  unfold toInt32
  omega

theorem compare_ptrdiff_exact (a b : Int) (ha0 : 0 ≤ a) (ha1 : a < 2 ^ 31) (hb0 : 0 ≤ b)
    (hb1 : b < 2 ^ 31) : compare_ptrdiff a b = a - b := by
  unfold compare_ptrdiff
  apply toInt32_of_range <;> omega

theorem searchsorted_inv (arr : List Int) (val : Int)
    (hinc : ∀ i j, i < j → j < arr.length → arr.getD i 0 < arr.getD j 0)
    (hlo : ∀ i, i < arr.length → 0 ≤ arr.getD i 0)
    (hhi : ∀ i, i < arr.length → arr.getD i 0 < 2 ^ 31)
    (hv0 : 0 ≤ val) (hv1 : val < 2 ^ 31) :
    ∀ (fuel : Nat) (imin imax : Int), 0 ≤ imin → imax < arr.length → imin ≤ imax + 1 →
      imax - imin + 2 ≤ fuel →
      (∀ j : Nat, (j : Int) < imin → arr.getD j 0 < val) →
      (∀ j : Nat, imax < (j : Int) → j < arr.length → val < arr.getD j 0) →
      ∃ r : Int, searchsorted fuel val arr arr.length imin imax = some r ∧
        -1 ≤ r ∧ r < arr.length ∧
        (∀ j : Nat, (j : Int) ≤ r → arr.getD j 0 ≤ val) ∧
        (∀ j : Nat, r < (j : Int) → j < arr.length → val < arr.getD j 0) := by
  intro fuel
  induction fuel with
  | zero => intro imin imax h0 h1 h2 h3; omega
  | succ fuel ih =>
    intro imin imax h0 h1 h2 h3 hbelow habove
    have hno : ¬ (imax < 0 ∧ imin < 0) := by omega
    simp only [searchsorted, if_neg hno]
    by_cases hdone : imax - imin < 0
    · rw [if_pos hdone]
      refine ⟨imax, rfl, by omega, h1, ?_, habove⟩
      intro j hj
      exact le_of_lt (hbelow j (by omega))
    · rw [if_neg hdone]
      have hdiv : Int.tdiv (imax - imin) 2 = (imax - imin) / 2 :=
        Int.tdiv_eq_ediv (by omega) (by omega)
      rw [hdiv]
      have hmid0 : 0 ≤ imin + (imax - imin) / 2 := by omega
      have hmid1 : imin + (imax - imin) / 2 ≤ imax := by omega
      have hmid2 : imin ≤ imin + (imax - imin) / 2 := by omega
      obtain ⟨m, hm⟩ := Int.eq_ofNat_of_zero_le hmid0
      have hmlen : m < arr.length := by omega
      rw [hm, Int.toNat_ofNat]
      rw [compare_ptrdiff_exact _ _ (hlo m hmlen) (hhi m hmlen) hv0 hv1]
      by_cases hgt : arr.getD m 0 - val > 0
      · rw [if_pos hgt]
        obtain ⟨r, hr, hr1, hr2, hr3, hr4⟩ := ih imin ((m : Int) - 1) h0 (by omega) (by omega)
          (by omega) hbelow (by
            intro j hj hjl
            by_cases hjm : j = m
            · subst hjm; omega
            · have : arr.getD m 0 < arr.getD j 0 := hinc m j (by omega) hjl
              omega)
        exact ⟨r, hr, hr1, hr2, hr3, hr4⟩
      · rw [if_neg hgt]
        by_cases hlt : arr.getD m 0 - val < 0
        · rw [if_pos hlt]
          obtain ⟨r, hr, hr1, hr2, hr3, hr4⟩ := ih ((m : Int) + 1) imax (by omega) h1
            (by omega) (by omega) (by
              intro j hj
              by_cases hjm : j = m
              · subst hjm; omega
              · have : arr.getD j 0 < arr.getD m 0 := hinc j m (by omega) hmlen
                omega) habove
          exact ⟨r, hr, hr1, hr2, hr3, hr4⟩
        · rw [if_neg hlt]
          have heq : arr.getD m 0 = val := by omega
          refine ⟨(m : Int), rfl, by omega, by omega, ?_, ?_⟩
          · intro j hj
            by_cases hjm : j = m
            · subst hjm; omega
            · have : arr.getD j 0 < arr.getD m 0 := hinc j m (by omega) hmlen
              omega
          · intro j hj hjl
            have : arr.getD m 0 < arr.getD j 0 := hinc m j (by omega) hjl
            omega

theorem searchsorted_rank_largest (start : List Int) (ix : Int) (hlen : 1 ≤ start.length)
    (h0 : start.getD 0 0 = 0)
    (hinc : ∀ i j, i < j → j < start.length → start.getD i 0 < start.getD j 0)
    (hhi : ∀ i, i < start.length → start.getD i 0 < 2 ^ 31)
    (hix0 : 0 ≤ ix) (hix1 : ix < 2 ^ 31) :
    ∃ r : Nat, searchsorted_rank ix start = some (r : Int) ∧ r < start.length ∧
      start.getD r 0 ≤ ix ∧ (∀ j, j < start.length → start.getD j 0 ≤ ix → j ≤ r) := by
  have hlo : ∀ i, i < start.length → 0 ≤ start.getD i 0 := by
    intro i hi
    rcases Nat.eq_zero_or_pos i with hz | hp
    · subst hz; omega
    · have := hinc 0 i hp hi
      omega
  unfold searchsorted_rank
  have hinit : searchsorted (start.length + 1) ix start start.length (-1) (-1)
      = searchsorted (start.length + 1) ix start start.length 0 ((start.length : Int) - 1) := by
    simp [searchsorted]
  rw [hinit]
  obtain ⟨r, hr, hr1, hr2, hr3, hr4⟩ := searchsorted_inv start ix hinc hlo hhi hix0 hix1
    (start.length + 1) 0 ((start.length : Int) - 1) (le_refl _) (by omega) (by omega)
    (by push_cast; omega) (by intro j hj; omega) (by intro j hj hjl; omega)
  have hr0 : 0 ≤ r := by
    by_contra hneg
    have := hr4 0 (by omega) (by omega)
    omega
  obtain ⟨n, hn⟩ := Int.eq_ofNat_of_zero_le hr0
  subst hn
  refine ⟨n, hr, by omega, hr3 n (le_refl _), ?_⟩
  intro j hj hle
  by_contra hjn
  have := hr4 j (by omega) hj
  omega

/-- C4: for a strictly increasing array of slab starts with `start[0] = 0` and a
query `ix ≥ 0`, both offsets in a grid of `int` dimension (so below `2^31`, as at
the one call of `searchsorted`, in `populate_grids`), `searchsorted` called with
`imin = imax = -1` returns the largest index `r` with `start[r] ≤ ix`; when the
array is the layout of positive widths `nix` and `ix` is below their sum,
`start[r] ≤ ix < start[r] + nix[r]`, so the local index `ix - start[r]` lies in
`[0, nix[r])`. -/
theorem searchsorted_owner (start : List Int) (ix : Int) (hlen : 1 ≤ start.length)
    (h0 : start.getD 0 0 = 0)
    (hinc : ∀ i j, i < j → j < start.length → start.getD i 0 < start.getD j 0)
    (hhi : ∀ i, i < start.length → start.getD i 0 < 2 ^ 31)
    (hix0 : 0 ≤ ix) (hix1 : ix < 2 ^ 31) :
    ∃ r : Nat, searchsorted_rank ix start = some (r : Int) ∧ r < start.length ∧
      start.getD r 0 ≤ ix ∧ (∀ j, j < start.length → start.getD j 0 ≤ ix → j ≤ r) ∧
      (∀ nix : List Int, start = assign_slabs nix → (∀ w ∈ nix, 0 < w) → ix < nix.sum →
        ix < start.getD r 0 + nix.getD r 0 ∧
        0 ≤ ix - start.getD r 0 ∧ ix - start.getD r 0 < nix.getD r 0) := by
  obtain ⟨r, hr, hrlen, hle, hmax⟩ :=
    searchsorted_rank_largest start ix hlen h0 hinc hhi hix0 hix1
  refine ⟨r, hr, hrlen, hle, hmax, ?_⟩
  intro nix hstart hpos hD
  have hn : 1 ≤ nix.length := by
    rcases Nat.eq_zero_or_pos nix.length with hz | hp
    · rw [List.length_eq_zero] at hz
      subst hz
      simp at hD
      omega
    · exact hp
  have hsl : start.length = nix.length := by rw [hstart]; exact assign_slabs_length nix hn
  have hupper : ix < start.getD r 0 + nix.getD r 0 := by
    have hr' : r < nix.length := by omega
    by_cases hlast : r + 1 < nix.length
    · have hnext : start.getD (r + 1) 0 = start.getD r 0 + nix.getD r 0 := by
        rw [hstart, assign_slabs_getD nix hn (r + 1) hlast, assign_slabs_getD nix hn r hr',
          sum_take_succ_getD]
      by_contra hcon
      have := hmax (r + 1) (by omega) (by omega)
      omega
    · have hrl : r + 1 = nix.length := by omega
      have hfull : (nix.take (r + 1)).sum = nix.sum := by rw [hrl, List.take_length]
      rw [sum_take_succ_getD] at hfull
      rw [hstart, assign_slabs_getD nix hn r hr']
      omega
  exact ⟨hupper, by omega, by omega⟩

/-- Witness for C4 on the layout of widths 2, 3, 1 and the query 4. -/
theorem searchsorted_owner_witness :
    ∃ r : Nat, searchsorted_rank 4 [0, 2, 5] = some (r : Int) ∧ r < [(0 : Int), 2, 5].length ∧
      [(0 : Int), 2, 5].getD r 0 ≤ 4 ∧
      (∀ j, j < [(0 : Int), 2, 5].length → [(0 : Int), 2, 5].getD j 0 ≤ 4 → j ≤ r) ∧
      (∀ nix : List Int, [(0 : Int), 2, 5] = assign_slabs nix → (∀ w ∈ nix, 0 < w) →
        4 < nix.sum →
        4 < [(0 : Int), 2, 5].getD r 0 + nix.getD r 0 ∧
        0 ≤ 4 - [(0 : Int), 2, 5].getD r 0 ∧ 4 - [(0 : Int), 2, 5].getD r 0 < nix.getD r 0) :=
  searchsorted_owner [0, 2, 5] 4 (by decide) (by decide)
    (by
      intro i j hij hj
      simp only [List.length_cons, List.length_nil] at hj
      interval_cases j <;> interval_cases i <;> simp)
    (by
      intro i hi
      simp only [List.length_cons, List.length_nil] at hi
      interval_cases i <;> simp)
    (by decide) (by decide)

/-! ## Mass deposition (`populate_grids`) -/

theorem assign_slabs_ordered (nix : List Int) (hn : 1 ≤ nix.length) (hpos : ∀ w ∈ nix, 0 ≤ w)
    (r s : Nat) (hrs : r < s) (hs : s < nix.length) :
    (assign_slabs nix).getD r 0 + nix.getD r 0 ≤ (assign_slabs nix).getD s 0 := by
  rw [assign_slabs_getD nix hn r (by omega), assign_slabs_getD nix hn s hs,
    ← sum_take_succ_getD]
  exact sum_take_mono nix hpos (r + 1) s hrs

theorem assign_slabs_end_le (nix : List Int) (hn : 1 ≤ nix.length) (hpos : ∀ w ∈ nix, 0 ≤ w)
    (r : Nat) (hr : r < nix.length) :
    (assign_slabs nix).getD r 0 + nix.getD r 0 ≤ nix.sum := by
  rw [assign_slabs_getD nix hn r hr, ← sum_take_succ_getD]
  have h := sum_take_mono nix hpos (r + 1) nix.length hr
  rwa [List.take_length] at h

theorem getD_pos_of_forall (nix : List Int) (hpos : ∀ w ∈ nix, 0 < w) (r : Nat)
    (hr : r < nix.length) : 0 < nix.getD r 0 := by
  rw [List.getD_eq_getElem _ _ hr]
  exact hpos _ (List.getElem_mem hr)

theorem searchsorted_rank_slab (nix : List Int) (D ix : Int) (hpos : ∀ w ∈ nix, 0 < w)
    (hsum : nix.sum = D) (hD : D < 2 ^ 31) (hix0 : 0 ≤ ix) (hix1 : ix < D) :
    ∃ r : Nat, searchsorted_rank ix (assign_slabs nix) = some (r : Int) ∧ r < nix.length ∧
      (assign_slabs nix).getD r 0 ≤ ix ∧ ix < (assign_slabs nix).getD r 0 + nix.getD r 0 := by
  have hn : 1 ≤ nix.length := by
    rcases Nat.eq_zero_or_pos nix.length with hz | hp
    · rw [List.length_eq_zero] at hz
      subst hz
      simp at hsum
      omega
    · exact hp
  have hnn : ∀ w ∈ nix, 0 ≤ w := fun w hw => le_of_lt (hpos w hw)
  have hlen := assign_slabs_length nix hn
  obtain ⟨r, hr, hrlen, hle, hmax⟩ := searchsorted_rank_largest (assign_slabs nix) ix
    (by omega) (by rw [assign_slabs_getD nix hn 0 (by omega)]; simp)
    (by
      intro i j hij hj
      rw [hlen] at hj
      have h1 := assign_slabs_ordered nix hn hnn i j hij hj
      have h2 := getD_pos_of_forall nix hpos i (by omega)
      omega)
    (by
      intro i hi
      rw [hlen] at hi
      have h1 := assign_slabs_end_le nix hn hnn i hi
      have h2 := getD_pos_of_forall nix hpos i hi
      omega)
    hix0 (by omega)
  rw [hlen] at hrlen hmax
  refine ⟨r, hr, hrlen, hle, ?_⟩
  by_cases hlast : r + 1 < nix.length
  · have hnext : (assign_slabs nix).getD (r + 1) 0
        = (assign_slabs nix).getD r 0 + nix.getD r 0 := by
      rw [assign_slabs_getD nix hn (r + 1) hlast, assign_slabs_getD nix hn r hrlen,
        sum_take_succ_getD]
    by_contra hcon
    have := hmax (r + 1) hlast (by omega)
    omega
  · have hrl : r + 1 = nix.length := by omega
    have hfull : (nix.take (r + 1)).sum = nix.sum := by rw [hrl, List.take_length]
    rw [sum_take_succ_getD] at hfull
    rw [assign_slabs_getD nix hn r hrlen]
    omega

theorem for_each_map {α β : Type} (f : α → Option β) (g : α → β) (l : List α)
    (h : ∀ a ∈ l, f a = some (g a)) : for_each f l = some (l.map g) := by
  induction l with
  | nil => rfl
  | cons a t ih =>
    have ha := h a (List.mem_cons_self a t)
    have ht := ih (fun b hb => h b (List.mem_cons_of_mem a hb))
    simp [for_each, ha, ht]

theorem for_each_some {α β : Type} (f : α → Option β) (l : List α)
    (h : ∀ a ∈ l, ∃ b, f a = some b) :
    ∃ bs, for_each f l = some bs ∧ List.Forall₂ (fun a b => f a = some b) l bs := by
  induction l with
  | nil => exact ⟨[], rfl, List.Forall₂.nil⟩
  | cons a t ih =>
    obtain ⟨b, hb⟩ := h a (List.mem_cons_self a t)
    obtain ⟨bs, hbs, hrel⟩ := ih (fun c hc => h c (List.mem_cons_of_mem a hc))
    exact ⟨b :: bs, by simp [for_each, hb, hbs], List.Forall₂.cons hb hrel⟩

theorem for_each_forall₂ {α β γ : Type} (R : α → β → Prop) (f : β → Option γ) (g : α → γ)
    (l : List α) (l2 : List β) (hrel : List.Forall₂ R l l2)
    (h : ∀ a b, a ∈ l → R a b → f b = some (g a)) : for_each f l2 = some (l.map g) := by
  induction hrel with
  | nil => rfl
  | @cons a b t t2 hab _ ih =>
    have ha := h a b (List.mem_cons_self a t) hab
    have ht := ih (fun c d hc hcd => h c d (List.mem_cons_of_mem a hc) hcd)
    simp [for_each, ha, ht]

theorem deposit_facts (box : ℚ) (D : Int) (nix : List Int) (p : particle_data)
    (hbox : 0 < box) (hD1 : 1 ≤ D) (hD : D < 2 ^ 31) (hpos : ∀ w ∈ nix, 0 < w)
    (hsum : nix.sum = D) (hp : in_box box p) :
    ∃ (cx cy cz : Int) (r : Nat),
      pos_to_ngp p.Pos0 box D = some cx ∧ pos_to_ngp p.Pos1 box D = some cy ∧
      pos_to_ngp p.Pos2 box D = some cz ∧
      searchsorted_rank cx (assign_slabs nix) = some (r : Int) ∧ r < nix.length ∧
      0 ≤ cx - (assign_slabs nix).getD r 0 ∧ cx - (assign_slabs nix).getD r 0 < nix.getD r 0 ∧
      0 ≤ cy ∧ cy < D ∧ 0 ≤ cz ∧ cz < D ∧
      0 ≤ (assign_slabs nix).getD r 0 ∧ (assign_slabs nix).getD r 0 < 2 ^ 31 := by
  obtain ⟨⟨hx0, hx1⟩, ⟨hy0, hy1⟩, ⟨hz0, hz1⟩⟩ := hp
  obtain ⟨_, cx, _, _, _, hcx, hcx0, hcx1, _⟩ := pos_to_ngp_range p.Pos0 box D hD1 hD hbox hx0 hx1
  obtain ⟨_, cy, _, _, _, hcy, hcy0, hcy1, _⟩ := pos_to_ngp_range p.Pos1 box D hD1 hD hbox hy0 hy1
  obtain ⟨_, cz, _, _, _, hcz, hcz0, hcz1, _⟩ := pos_to_ngp_range p.Pos2 box D hD1 hD hbox hz0 hz1
  obtain ⟨r, hr, hrlen, hle, hlt⟩ :=
    searchsorted_rank_slab nix D cx hpos hsum hD hcx0 (by omega)
  have hn : 1 ≤ nix.length := by omega
  have hnn : ∀ w ∈ nix, 0 ≤ w := fun w hw => le_of_lt (hpos w hw)
  have hs0 : 0 ≤ (assign_slabs nix).getD r 0 := by
    rw [assign_slabs_getD nix hn r hrlen]
    have := sum_take_mono nix hnn 0 r (Nat.zero_le r)
    simpa using this
  exact ⟨cx, cy, cz, r, hcx, hcy, hcz, hr, hrlen, by omega, by omega, hcy0, by omega, hcz0,
    by omega, hs0, by omega⟩

theorem deposited_mass_nil (box : ℚ) (D : Int) (start : List Int) (r : Nat) (i : Int) :
    deposited_mass box D start r i [] = 0 := by
  simp [deposited_mass]

theorem deposited_mass_cons (box : ℚ) (D : Int) (start : List Int) (r : Nat) (i : Int)
    (p : particle_data) (ps : List particle_data) :
    deposited_mass box D start r i (p :: ps) =
      (if eligible p = true ∧ deposit_target box D start p = some ((r : Int), i)
        then p.Mass else 0) + deposited_mass box D start r i ps := by
  unfold deposited_mass
  by_cases h : eligible p = true ∧ deposit_target box D start p = some ((r : Int), i)
  · rw [if_pos h, List.filter_cons_of_pos (by simpa using h)]
    simp
  · rw [if_neg h, List.filter_cons_of_neg (by simpa using h)]
    simp

theorem deposited_mass_append (box : ℚ) (D : Int) (start : List Int) (r : Nat) (i : Int)
    (ps qs : List particle_data) :
    deposited_mass box D start r i (ps ++ qs) =
      deposited_mass box D start r i ps + deposited_mass box D start r i qs := by
  simp [deposited_mass]

theorem deposit_target_eq (box : ℚ) (D : Int) (start : List Int) (p : particle_data)
    (cx cy cz : Int) (r : Nat)
    (hcx : pos_to_ngp p.Pos0 box D = some cx) (hcy : pos_to_ngp p.Pos1 box D = some cy)
    (hcz : pos_to_ngp p.Pos2 box D = some cz)
    (hr : searchsorted_rank cx start = some (r : Int)) :
    deposit_target box D start p
      = some ((r : Int), grid_index (cx - start.getD r 0) cy cz D index_type.INDEX_REAL) := by
  unfold deposit_target
  rw [hcx, hcy, hcz]
  simp only [hr, Int.toNat_ofNat]

theorem fill_buffer_mass_spec (box : ℚ) (D : Int) (nix : List Int)
    (hbox : 0 < box) (hD1 : 1 ≤ D) (hD : D < 2 ^ 31) (hpos : ∀ w ∈ nix, 0 < w)
    (hsum : nix.sum = D) (i_r : Nat) (hir : i_r < nix.length)
    (ps ps2 : List particle_data)
    (hrel : List.Forall₂ (fun p q => tag_particle box D (assign_slabs nix) p = some q) ps ps2)
    (hrange : ∀ p ∈ ps, in_box box p) (buf : Int → ℚ) :
    fill_buffer_mass box D (toInt32 ((assign_slabs nix).getD i_r 0)) (i_r : Int) ps2 buf
      = some (fun i => buf i + deposited_mass box D (assign_slabs nix) i_r i ps) := by
  induction hrel generalizing buf with
  | nil =>
    simp [fill_buffer_mass, deposited_mass_nil]
  | @cons p q t t2 hpq _ ih =>
    obtain ⟨cx, cy, cz, r, hcx, hcy, hcz, hr, hrlen, h1, h2, h3, h4, h5, h6, h7, h8⟩ :=
      deposit_facts box D nix p hbox hD1 hD hpos hsum (hrange p (List.mem_cons_self p t))
    have ht := fun b => ih (fun c hc => hrange c (List.mem_cons_of_mem p hc)) b
    have htarget := deposit_target_eq box D (assign_slabs nix) p cx cy cz r hcx hcy hcz hr
    by_cases he : eligible p = true
    · have hq : q = { p with RegionInd := (r : Int) } := by
        simp only [tag_particle, if_pos he, hcx, hr] at hpq
        exact (Option.some.inj hpq).symm
      subst hq
      by_cases hri : r = i_r
      · subst hri
        have hcast : toInt32 ((assign_slabs nix).getD r 0) = (assign_slabs nix).getD r 0 :=
          toInt32_of_range _ (by omega) h8
        simp only [fill_buffer_mass, if_true, hcx, hcy, hcz, hcast]
        rw [hcast] at ht
        rw [ht]
        congr 1
        funext i
        rw [deposited_mass_cons, htarget]
        by_cases hi : i = grid_index (cx - (assign_slabs nix).getD r 0) cy cz D
            index_type.INDEX_REAL
        · subst hi
          simp [he]
          ring
        · have hne : ¬ (eligible p = true ∧
              some ((r : Int), grid_index (cx - (assign_slabs nix).getD r 0) cy cz D
                index_type.INDEX_REAL) = some ((r : Int), i)) := by
            rintro ⟨_, hcon⟩
            simp only [Option.some.injEq, Prod.mk.injEq, true_and] at hcon
            exact hi hcon.symm
          rw [if_neg hne, Function.update_noteq hi]
          ring
      · have hne1 : ¬ ((r : Int) = (i_r : Int)) := by omega
        simp only [fill_buffer_mass, if_neg hne1]
        rw [ht]
        congr 1
        funext i
        rw [deposited_mass_cons, htarget]
        have hne : ¬ (eligible p = true ∧
            some ((r : Int), grid_index (cx - (assign_slabs nix).getD r 0) cy cz D
              index_type.INDEX_REAL) = some ((i_r : Int), i)) := by
          rintro ⟨_, hcon⟩
          simp only [Option.some.injEq, Prod.mk.injEq] at hcon
          omega
        rw [if_neg hne]
        ring
    · have hq : q = { p with RegionInd := -1 } := by
        simp only [tag_particle, if_neg he] at hpq
        exact (Option.some.inj hpq).symm
      subst hq
      have hne1 : ¬ ((-1 : Int) = (i_r : Int)) := by omega
      simp only [fill_buffer_mass, if_neg hne1]
      rw [ht]
      congr 1
      funext i
      rw [deposited_mass_cons]
      have hne : ¬ (eligible p = true ∧
          deposit_target box D (assign_slabs nix) p = some ((i_r : Int), i)) := by
        rintro ⟨hcon, _⟩
        exact he hcon
      rw [if_neg hne]
      ring

theorem for_each_rel {α β : Type} (f : α → Option β) (l : List α) (bs : List β)
    (h : for_each f l = some bs) : List.Forall₂ (fun a b => f a = some b) l bs := by
  induction l generalizing bs with
  | nil =>
    simp only [for_each, Option.some.injEq] at h
    subst h
    exact List.Forall₂.nil
  | cons a t ih =>
    simp only [for_each] at h
    cases hfa : f a with
    | none => simp [hfa] at h
    | some b =>
      cases hft : for_each f t with
      | none => simp [hfa, hft] at h
      | some bt =>
        simp only [hfa, hft, Option.some.injEq] at h
        subst h
        exact List.Forall₂.cons hfa (ih bt hft)

theorem tag_particle_some (box : ℚ) (D : Int) (nix : List Int) (p : particle_data)
    (hbox : 0 < box) (hD1 : 1 ≤ D) (hD : D < 2 ^ 31) (hpos : ∀ w ∈ nix, 0 < w)
    (hsum : nix.sum = D) (hp : in_box box p) :
    ∃ q, tag_particle box D (assign_slabs nix) p = some q := by
  obtain ⟨cx, cy, cz, r, hcx, _, _, hr, _⟩ := deposit_facts box D nix p hbox hD1 hD hpos hsum hp
  by_cases he : eligible p = true
  · exact ⟨{ p with RegionInd := (r : Int) }, by simp only [tag_particle, if_pos he, hcx, hr]⟩
  · exact ⟨{ p with RegionInd := -1 }, by simp only [tag_particle, if_neg he]⟩

theorem MPI_Reduce_sum_deposited (box : ℚ) (D : Int) (start : List Int) (r : Nat)
    (parts : List (List particle_data)) :
    MPI_Reduce_sum (parts.map (fun ps => fun i => 0 + deposited_mass box D start r i ps))
      = fun i => deposited_mass box D start r i parts.flatten := by
  funext i
  induction parts with
  | nil => simp [MPI_Reduce_sum, deposited_mass_nil]
  | cons ps t ih =>
    simp only [MPI_Reduce_sum, List.map_cons, List.sum_cons, List.flatten_cons,
      deposited_mass_append] at ih ⊢
    rw [ih]
    ring

theorem reduced_buffer_mass_spec (box : ℚ) (D : Int) (nix : List Int)
    (hbox : 0 < box) (hD1 : 1 ≤ D) (hD : D < 2 ^ 31) (hpos : ∀ w ∈ nix, 0 < w)
    (hsum : nix.sum = D) (parts tagged : List (List particle_data))
    (hrel : List.Forall₂
      (fun ps qs => for_each (tag_particle box D (assign_slabs nix)) ps = some qs) parts tagged)
    (hrange : ∀ ps ∈ parts, ∀ p ∈ ps, in_box box p) (i_r : Nat) (hir : i_r < nix.length) :
    reduced_buffer_mass box D (assign_slabs nix) tagged i_r
      = some (fun i => deposited_mass box D (assign_slabs nix) i_r i parts.flatten) := by
  have h := for_each_forall₂
    (fun ps qs => for_each (tag_particle box D (assign_slabs nix)) ps = some qs)
    (fun qs => fill_buffer_mass box D (toInt32 ((assign_slabs nix).getD i_r 0)) (i_r : Int) qs
      (fun _ => 0))
    (fun ps => fun i => 0 + deposited_mass box D (assign_slabs nix) i_r i ps)
    parts tagged hrel
    (fun ps qs hps hpq =>
      fill_buffer_mass_spec box D nix hbox hD1 hD hpos hsum i_r hir ps qs
        (for_each_rel _ ps qs hpq) (hrange ps hps) (fun _ => 0))
  unfold reduced_buffer_mass
  rw [h]
  simp only
  rw [MPI_Reduce_sum_deposited]

theorem foldl_max_ge (l : List Int) (hl : ∀ w ∈ l, 0 ≤ w ∧ w < 2 ^ 31) (acc : Int) :
    acc ≤ l.foldl (fun b w => if w > b then toInt32 w else b) acc ∧
    ∀ w ∈ l, w ≤ l.foldl (fun b w => if w > b then toInt32 w else b) acc := by
  induction l generalizing acc with
  | nil => simp
  | cons a t ih =>
    have ha := hl a (List.mem_cons_self a t)
    have hcast : toInt32 a = a := toInt32_of_range a (by omega) ha.2
    have ht := ih (fun w hw => hl w (List.mem_cons_of_mem a hw))
      (if a > acc then toInt32 a else acc)
    simp only [List.foldl_cons]
    refine ⟨?_, ?_⟩
    · refine le_trans ?_ ht.1
      split_ifs <;> omega
    · intro w hw
      rcases List.mem_cons.mp hw with h | h
      · subst h
        refine le_trans ?_ ht.1
        split_ifs <;> omega
      · exact ht.2 w h

theorem real_index_bounds (a b c N D : Int) (ha0 : 0 ≤ a) (ha1 : a < N) (hb0 : 0 ≤ b)
    (hb1 : b < D) (hc0 : 0 ≤ c) (hc1 : c < D) :
    0 ≤ grid_index a b c D index_type.INDEX_REAL ∧
    grid_index a b c D index_type.INDEX_REAL < N * (D * D) := by
  simp only [grid_index]
  have hD : 0 < D := by omega
  have h1 : 0 ≤ D * a := by positivity
  have h2 : 0 ≤ D * (b + D * a) := by positivity
  have h3 : D * a ≤ D * (N - 1) := by nlinarith
  have h4 : D * (b + D * a) ≤ D * (D - 1 + D * (N - 1)) := by nlinarith
  constructor
  · omega
  · nlinarith

theorem dim_int_range (D : Int) (hD1 : 1 ≤ D) (hD : 2 * (D / 2 + 1) * (D * D) < 2 ^ 31) :
    D < 2 ^ 31 := by
  have h1 : 0 ≤ D / 2 := by omega
  have h2 : D ≤ D * D := by nlinarith
  have h3 : 0 ≤ D / 2 * (D * D) := mul_nonneg h1 (mul_self_nonneg D)
  nlinarith

theorem width_bounds (nix : List Int) (D : Int) (hpos : ∀ w ∈ nix, 0 ≤ w) (hsum : nix.sum = D)
    (w : Int) (hw : w ∈ nix) : 0 ≤ w ∧ w ≤ D := by
  refine ⟨hpos w hw, ?_⟩
  obtain ⟨k, hk, hkw⟩ := List.getElem_of_mem hw
  have hn : 1 ≤ nix.length := by omega
  have hnn : ∀ w ∈ nix, 0 ≤ w := hpos
  have h1 := assign_slabs_end_le nix hn hnn k hk
  have h2 : 0 ≤ (assign_slabs nix).getD k 0 := by
    rw [assign_slabs_getD nix hn k hk]
    have := sum_take_mono nix hnn 0 k (Nat.zero_le k)
    simpa using this
  rw [List.getD_eq_getElem _ _ hk, hkw] at h1
  omega

theorem buffer_size_ge (nix : List Int) (D : Int) (hpos : ∀ w ∈ nix, 0 ≤ w)
    (hsum : nix.sum = D) (hD : D < 2 ^ 31) (r : Nat) (hr : r < nix.length) :
    nix.getD r 0 * (D * D) ≤ buffer_size nix D := by
  have h := (foldl_max_ge nix (fun w hw => by
    have := width_bounds nix D hpos hsum w hw
    omega) 0).2 (nix.getD r 0) (by
      rw [List.getD_eq_getElem _ _ hr]
      exact List.getElem_mem hr)
  unfold buffer_size
  exact mul_le_mul_of_nonneg_right h (mul_self_nonneg D)

theorem deposit_cell (box : ℚ) (D : Int) (nix : List Int) (p : particle_data)
    (hbox : 0 < box) (hD1 : 1 ≤ D) (hD : D < 2 ^ 31) (hpos : ∀ w ∈ nix, 0 < w)
    (hsum : nix.sum = D) (hp : in_box box p) :
    ∃ (cx cy cz : Int) (r : Nat) (i : Int),
      pos_to_ngp p.Pos0 box D = some cx ∧ pos_to_ngp p.Pos1 box D = some cy ∧
      pos_to_ngp p.Pos2 box D = some cz ∧
      searchsorted_rank cx (assign_slabs nix) = some (r : Int) ∧
      i = grid_index (cx - (assign_slabs nix).getD r 0) cy cz D index_type.INDEX_REAL ∧
      deposit_target box D (assign_slabs nix) p = some ((r : Int), i) ∧
      r < nix.length ∧ 0 ≤ i ∧ i < nix.getD r 0 * (D * D) ∧ i < buffer_size nix D := by
  obtain ⟨cx, cy, cz, r, hcx, hcy, hcz, hr, hrlen, h1, h2, h3, h4, h5, h6, _, _⟩ :=
    deposit_facts box D nix p hbox hD1 hD hpos hsum hp
  have hb := real_index_bounds (cx - (assign_slabs nix).getD r 0) cy cz (nix.getD r 0) D
    h1 h2 h3 h4 h5 h6
  have hsz := buffer_size_ge nix D (fun w hw => le_of_lt (hpos w hw)) hsum hD r hrlen
  exact ⟨cx, cy, cz, r, _, hcx, hcy, hcz, hr, rfl,
    deposit_target_eq box D (assign_slabs nix) p cx cy cz r hcx hcy hcz hr, hrlen, hb.1, hb.2,
    lt_of_lt_of_le hb.2 hsz⟩

theorem deposited_total (box : ℚ) (D : Int) (nix : List Int)
    (hbox : 0 < box) (hD1 : 1 ≤ D) (hD : D < 2 ^ 31) (hpos : ∀ w ∈ nix, 0 < w)
    (hsum : nix.sum = D) (ps : List particle_data) (hrange : ∀ p ∈ ps, in_box box p) :
    ∑ r ∈ Finset.range nix.length, ∑ i ∈ Finset.Ico 0 (buffer_size nix D),
        deposited_mass box D (assign_slabs nix) r i ps
      = ((ps.filter eligible).map particle_data.Mass).sum := by
  induction ps with
  | nil => simp [deposited_mass_nil]
  | cons p t ih =>
    have ht := ih (fun q hq => hrange q (List.mem_cons_of_mem p hq))
    simp_rw [deposited_mass_cons, Finset.sum_add_distrib]
    rw [ht]
    by_cases he : eligible p = true
    · obtain ⟨cx, cy, cz, r0, i0, _, _, _, _, _, htarget, hr0, hi0, _, hi1⟩ :=
        deposit_cell box D nix p hbox hD1 hD hpos hsum (hrange p (List.mem_cons_self p t))
      have hterm : ∀ (r : Nat) (i : Int),
          (if eligible p = true ∧
              deposit_target box D (assign_slabs nix) p = some ((r : Int), i)
            then p.Mass else 0)
          = if r = r0 then (if i = i0 then p.Mass else 0) else 0 := by
        intro r i
        rw [htarget]
        by_cases hr : r = r0
        · subst hr
          by_cases hi : i = i0
          · subst hi
            simp [he]
          · have : ¬ (i0 = i) := fun h => hi h.symm
            simp [he, hi, this]
        · have : ¬ ((r0 : Int) = (r : Int)) := by omega
          simp [hr, this]
      have hinner : ∀ r : Nat,
          (∑ i ∈ Finset.Ico 0 (buffer_size nix D),
            if eligible p = true ∧
                deposit_target box D (assign_slabs nix) p = some ((r : Int), i)
              then p.Mass else 0)
          = if r = r0 then p.Mass else 0 := by
        intro r
        simp_rw [hterm]
        by_cases hr : r = r0
        · rw [if_pos hr]
          simp only [if_pos hr]
          rw [Finset.sum_ite_eq' (Finset.Ico 0 (buffer_size nix D)) i0,
            if_pos (Finset.mem_Ico.mpr ⟨hi0, hi1⟩)]
        · simp [hr]
      simp_rw [hinner]
      rw [Finset.sum_ite_eq' (Finset.range nix.length) r0, if_pos (Finset.mem_range.mpr hr0),
        List.filter_cons_of_pos he]
      simp
    · have hterm : ∀ (r : Nat) (i : Int),
          (if eligible p = true ∧
              deposit_target box D (assign_slabs nix) p = some ((r : Int), i)
            then p.Mass else 0) = 0 := by
        intro r i
        rw [if_neg (fun h => he h.1)]
      simp_rw [hterm]
      rw [List.filter_cons_of_neg he]
      simp

/-- Deposition when the loop that derives the SFR stays inside its buffers
(`sfr_loop_in_bounds`): for a box of positive side, a grid dimension `D ≥ 1` whose
`int` index products do not overflow, slab widths that are positive and sum to
`D`, and particles of any number of ranks with positions in `[0, BoxSize)^3`, the
deposition of `populate_grids` returns; every eligible particle has exactly one
target: cell `(ngp(x) - slab_ix_start[r], ngp(y), ngp(z))` of its owning rank `r`,
inside that rank's buffer; every cell `i` of the reduced buffer of rank `r` holds
the sum of the masses of the eligible particles with target `(r, i)`; and the sum
of all cells of all reduced buffers equals the sum of the eligible particle
masses. -/
theorem populate_grids_mass_conservation (box : ℚ) (D : Int) (nix : List Int)
    (parts : List (List particle_data))
    (hbox : 0 < box) (hD1 : 1 ≤ D) (hD : D < 2 ^ 31) (hpos : ∀ w ∈ nix, 0 < w)
    (hsum : nix.sum = D) (hfit : sfr_loop_in_bounds D (buffer_size nix D))
    (hrange : ∀ ps ∈ parts, ∀ p ∈ ps, in_box box p) :
    ∃ (tagged : List (List particle_data)) (bufs : List (Int → ℚ)),
      populate_grids_mass box D nix parts = some (tagged, bufs) ∧
      bufs.length = nix.length ∧
      (∀ ps ∈ parts, ∀ p ∈ ps, eligible p = true →
        ∃ (cx cy cz : Int) (r : Nat) (i : Int),
          pos_to_ngp p.Pos0 box D = some cx ∧ pos_to_ngp p.Pos1 box D = some cy ∧
          pos_to_ngp p.Pos2 box D = some cz ∧
          searchsorted_rank cx (assign_slabs nix) = some (r : Int) ∧
          i = grid_index (cx - (assign_slabs nix).getD r 0) cy cz D index_type.INDEX_REAL ∧
          deposit_target box D (assign_slabs nix) p = some ((r : Int), i) ∧
          r < nix.length ∧ 0 ≤ i ∧ i < nix.getD r 0 * (D * D) ∧ i < buffer_size nix D) ∧
      (∀ r, r < nix.length → ∀ i : Int, 0 ≤ i → i < buffer_size nix D →
        bufs.getD r (fun _ => 0) i
          = deposited_mass box D (assign_slabs nix) r i parts.flatten) ∧
      ∑ r ∈ Finset.range nix.length, ∑ i ∈ Finset.Ico 0 (buffer_size nix D),
          bufs.getD r (fun _ => 0) i
        = ((parts.flatten.filter eligible).map particle_data.Mass).sum := by
  obtain ⟨tagged, htag, hrel⟩ := for_each_some
    (for_each (tag_particle box D (assign_slabs nix))) parts (fun ps hps => by
      obtain ⟨qs, hqs, _⟩ := for_each_some (tag_particle box D (assign_slabs nix)) ps
        (fun p hp => tag_particle_some box D nix p hbox hD1 hD hpos hsum (hrange ps hps p hp))
      exact ⟨qs, hqs⟩)
  have hbufs := for_each_map (reduced_buffer_mass box D (assign_slabs nix) tagged)
    (fun r => fun i => deposited_mass box D (assign_slabs nix) r i parts.flatten)
    (List.range nix.length) (fun r hr =>
      reduced_buffer_mass_spec box D nix hbox hD1 hD hpos hsum parts tagged hrel hrange r
        (List.mem_range.mp hr))
  have hget : ∀ r, r < nix.length → ∀ i : Int,
      ((List.range nix.length).map
        (fun r => fun i => deposited_mass box D (assign_slabs nix) r i parts.flatten)).getD r
          (fun _ => 0) i
        = deposited_mass box D (assign_slabs nix) r i parts.flatten := by
    intro r hr i
    rw [List.getD_eq_getElem _ _ (by simpa using hr)]
    simp
  refine ⟨tagged, _, ?_, ?_, ?_, fun r hr i _ _ => hget r hr i, ?_⟩
  · simp only [populate_grids_mass, htag, if_pos hfit, hbufs]
  · simp
  · intro ps hps p hp _
    exact deposit_cell box D nix p hbox hD1 hD hpos hsum (hrange ps hps p hp)
  · rw [← deposited_total box D nix hbox hD1 hD hpos hsum parts.flatten (by
      intro p hp
      obtain ⟨ps, hps, hpp⟩ := List.mem_flatten.mp hp
      exact hrange ps hps p hpp)]
    apply Finset.sum_congr rfl
    intro r hr
    apply Finset.sum_congr rfl
    intro i _
    exact hget r (Finset.mem_range.mp hr) i

theorem example_particles_in_box : ∀ ps ∈ example_particles, ∀ p ∈ ps, in_box 8 p := by
  intro ps hps p hp
  simp only [example_particles, List.mem_cons, List.mem_singleton, List.not_mem_nil,
    or_false] at hps
  rcases hps with h | h
  · subst h
    simp only [List.mem_cons, List.mem_singleton, List.not_mem_nil, or_false] at hp
    rcases hp with h | h <;> subst h <;> norm_num [in_box]
  · subst h
    simp only [List.mem_cons, List.mem_singleton, List.not_mem_nil, or_false] at hp
    subst hp
    norm_num [in_box]

theorem gathered_particles_in_box : ∀ ps ∈ gathered_particles, ∀ p ∈ ps, in_box 8 p := by
  intro ps hps p hp
  simp only [gathered_particles, List.mem_singleton] at hps
  subst hps
  simp only [List.mem_cons, List.mem_singleton, List.not_mem_nil, or_false] at hp
  rcases hp with h | h | h <;> subst h <;> norm_num [in_box]

/-- Example of the deposition on one rank that holds the whole grid of dimension 4
in a box of side 8: the cells of the reduced buffer sum to the mass of the two
eligible particles of `gathered_particles`. -/
theorem populate_grids_mass_conservation_example :
    ∃ (tagged : List (List particle_data)) (bufs : List (Int → ℚ)),
      populate_grids_mass 8 4 [4] gathered_particles = some (tagged, bufs) ∧
      bufs.length = 1 ∧
      ∑ r ∈ Finset.range 1, ∑ i ∈ Finset.Ico 0 (buffer_size [4] 4),
          bufs.getD r (fun _ => 0) i
        = ((gathered_particles.flatten.filter eligible).map particle_data.Mass).sum := by
  obtain ⟨tagged, bufs, h1, h2, _, _, h5⟩ :=
    populate_grids_mass_conservation 8 4 [4] gathered_particles (by norm_num) (by decide)
      (by norm_num) (by decide) (by decide) (by decide) gathered_particles_in_box
  exact ⟨tagged, bufs, h1, h2, h5⟩

/-- C2, at the failing input: two ranks, a box of side 2 and a grid of dimension 2
split into two slabs of width 1 (positive widths that partition `[0, 2)`), one
eligible particle of mass 1 at the origin on rank 0.  The particle is tagged for
rank 0 and its target is cell 0 of the buffer of rank 0, but the iteration
`i_r = 0` of the destination loop also runs the loop that derives the SFR over
`grid_n_real = 8` elements of buffers of `buffer_size = 4` elements: that loop
leaves the buffers and the deposition of `populate_grids` has no defined
result. -/
theorem populate_grids_mass_overrun :
    (∀ w ∈ [(1 : Int), 1], 0 < w) ∧ [(1 : Int), 1].sum = 2 ∧
    (∀ ps ∈ origin_particles, ∀ p ∈ ps, in_box 2 p ∧ eligible p = true) ∧
    ((origin_particles.flatten.filter eligible).map particle_data.Mass).sum = 1 ∧
    for_each (for_each (tag_particle 2 2 (assign_slabs [1, 1]))) origin_particles
      = some origin_particles ∧
    deposit_target 2 2 (assign_slabs [1, 1]) ⟨0, 0, 0, 1, 0, false, false, 0⟩ = some (0, 0) ∧
    buffer_size [1, 1] 2 = 4 ∧
    ¬ sfr_loop_in_bounds 2 (buffer_size [1, 1] 2) ∧
    populate_grids_mass 2 2 [1, 1] origin_particles = none := by
  have hn : pos_to_ngp 0 2 2 = some 0 :=
    pos_to_ngp_origin 2 2 (by norm_num) (by norm_num) (by norm_num)
  have hs : searchsorted_rank 0 (assign_slabs [1, 1]) = some 0 := by decide
  have ht : tag_particle 2 2 (assign_slabs [1, 1]) ⟨0, 0, 0, 1, 0, false, false, 0⟩
      = some ⟨0, 0, 0, 1, 0, false, false, 0⟩ := by
    simp [tag_particle, eligible, hn, hs]
  have hfit : ¬ sfr_loop_in_bounds 2 (buffer_size [1, 1] 2) := by decide
  have htag : for_each (for_each (tag_particle 2 2 (assign_slabs [1, 1]))) origin_particles
      = some origin_particles := by
    simp only [origin_particles, for_each, ht]
  refine ⟨by decide, by decide, ?_, ?_, htag, ?_, by decide, hfit, ?_⟩
  · intro ps hps p hp
    simp only [origin_particles, List.mem_cons, List.mem_singleton, List.not_mem_nil,
      or_false] at hps
    rcases hps with h | h
    · subst h
      simp only [List.mem_singleton] at hp
      subst hp
      refine ⟨by norm_num [in_box], by simp [eligible]⟩
    · subst h
      simp at hp
  · simp [origin_particles, eligible]
  · have h := deposit_target_eq 2 2 (assign_slabs [1, 1]) ⟨0, 0, 0, 1, 0, false, false, 0⟩
      0 0 0 0 hn hn hn hs
    rw [h]
    decide
  · simp only [populate_grids_mass, htag]
    simp only [if_neg hfit, List.range_succ, List.range_zero, List.length_cons,
      List.length_nil, List.nil_append, List.cons_append, for_each]

/-! ## Cells of a slab and their indices -/

theorem mem_slab_cells (n D : Int) (c : Int × Int × Int) :
    c ∈ slab_cells n D ↔ local_cell n D c := by
  obtain ⟨i, j, k⟩ := c
  simp only [slab_cells, local_cell, List.mem_map, Prod.mk.injEq, Prod.exists,
    List.pair_mem_product, List.mem_range]
  constructor
  · rintro ⟨a, b, d, ⟨ha, hb, hd⟩, rfl, rfl, rfl⟩
    omega
  · rintro ⟨⟨h1, h2⟩, ⟨h3, h4⟩, h5, h6⟩
    exact ⟨i.toNat, j.toNat, k.toNat, by omega, by omega, by omega, by omega⟩

theorem nodup_slab_cells (n D : Int) : (slab_cells n D).Nodup := by
  unfold slab_cells
  apply List.Nodup.map
  · rintro ⟨a, b, d⟩ ⟨a2, b2, d2⟩ h
    simp only [Prod.mk.injEq] at h ⊢
    omega
  · exact List.Nodup.product (List.nodup_range _)
      (List.Nodup.product (List.nodup_range _) (List.nodup_range _))

theorem stride_inj (S a b a2 b2 : Int) (hb0 : 0 ≤ b) (hb1 : b < S) (hc0 : 0 ≤ b2)
    (hc1 : b2 < S) (h : b + S * a = b2 + S * a2) : a = a2 ∧ b = b2 := by
  have hS : S ≠ 0 := by omega
  have h1 : (b + S * a) % S = (b2 + S * a2) % S := by rw [h]
  rw [Int.add_mul_emod_self_left, Int.add_mul_emod_self_left, Int.emod_eq_of_lt hb0 hb1,
    Int.emod_eq_of_lt hc0 hc1] at h1
  subst h1
  have h2 : S * a = S * a2 := by omega
  exact ⟨mul_left_cancel₀ hS h2, rfl⟩

theorem real_index_inj (D : Int) (i j k i2 j2 k2 : Int) (hj0 : 0 ≤ j) (hj1 : j < D)
    (hk0 : 0 ≤ k) (hk1 : k < D) (hj2 : 0 ≤ j2) (hj3 : j2 < D) (hk2 : 0 ≤ k2) (hk3 : k2 < D)
    (h : grid_index i j k D index_type.INDEX_REAL = grid_index i2 j2 k2 D index_type.INDEX_REAL) :
    i = i2 ∧ j = j2 ∧ k = k2 := by
  simp only [grid_index] at h
  obtain ⟨h1, h2⟩ := stride_inj D _ k _ k2 hk0 hk1 hk2 hk3 h
  obtain ⟨h3, h4⟩ := stride_inj D _ j _ j2 hj0 hj1 hj2 hj3 h1
  exact ⟨h3, h4, h2⟩

theorem padded_index_inj (D : Int) (i j k i2 j2 k2 : Int) (hj0 : 0 ≤ j) (hj1 : j < D)
    (hk0 : 0 ≤ k) (hk1 : k < D) (hj2 : 0 ≤ j2) (hj3 : j2 < D) (hk2 : 0 ≤ k2) (hk3 : k2 < D)
    (h : grid_index i j k D index_type.INDEX_PADDED
      = grid_index i2 j2 k2 D index_type.INDEX_PADDED) :
    i = i2 ∧ j = j2 ∧ k = k2 := by
  simp only [grid_index] at h
  have hdiv : Int.tdiv D 2 = D / 2 := Int.tdiv_eq_ediv (by omega) (by omega)
  rw [hdiv] at h
  obtain ⟨h1, h2⟩ := stride_inj (2 * (D / 2 + 1)) _ k _ k2 hk0 (by omega) hk2 (by omega) h
  obtain ⟨h3, h4⟩ := stride_inj D _ j _ j2 hj0 hj1 hj2 hj3 h1
  exact ⟨h3, h4, h2⟩

theorem foldl_pointwise {σ κ τ : Type} [DecidableEq κ] (obs : σ → κ → τ) (body : σ → κ → σ)
    (upd : κ → τ → τ) (P : κ → Prop)
    (h_self : ∀ g c, P c → obs (body g c) c = upd c (obs g c))
    (h_other : ∀ g c c2, P c → P c2 → c ≠ c2 → obs (body g c) c2 = obs g c2)
    (cs : List κ) (hnd : cs.Nodup) (hP : ∀ c ∈ cs, P c) (g : σ) (c : κ) (hc : P c) :
    obs (cs.foldl body g) c = if c ∈ cs then upd c (obs g c) else obs g c := by
  induction cs generalizing g with
  | nil => simp
  | cons a t ih =>
    have hnd2 := List.nodup_cons.mp hnd
    rw [List.foldl_cons, ih hnd2.2 (fun d hd => hP d (List.mem_cons_of_mem a hd))]
    by_cases hca : c = a
    · subst hca
      rw [if_neg hnd2.1, if_pos (List.mem_cons_self c t)]
      exact h_self g c hc
    · rw [h_other g a c (hP a (List.mem_cons_self a t)) hc (fun h => hca h.symm)]
      by_cases hct : c ∈ t
      · rw [if_pos hct, if_pos (List.mem_cons_of_mem a hct)]
      · rw [if_neg hct, if_neg (by
          intro h
          rcases List.mem_cons.mp h with h | h
          · exact hca h
          · exact hct h)]

/-! ## One radius pass, cell by cell -/

theorem sanity_checks_cell (D n : Int) (f : filtered_fields) (c : Int × Int × Int)
    (hc : local_cell n D c) :
    (sanity_checks D n f).deltax_filtered
        (grid_index c.1 c.2.1 c.2.2 D index_type.INDEX_PADDED)
      = max (f.deltax_filtered (grid_index c.1 c.2.1 c.2.2 D index_type.INDEX_PADDED))
          (-1 + FLOAT_REL_TOL) ∧
    (sanity_checks D n f).stars_slab_filtered
        (grid_index c.1 c.2.1 c.2.2 D index_type.INDEX_PADDED)
      = max (f.stars_slab_filtered (grid_index c.1 c.2.1 c.2.2 D index_type.INDEX_PADDED)) 0 := by
  have h := foldl_pointwise
    (fun (f : filtered_fields) (c : Int × Int × Int) =>
      (f.deltax_filtered (grid_index c.1 c.2.1 c.2.2 D index_type.INDEX_PADDED),
        f.stars_slab_filtered (grid_index c.1 c.2.1 c.2.2 D index_type.INDEX_PADDED)))
    (sanity_cell D)
    (fun _ v => (max v.1 (-1 + FLOAT_REL_TOL), max v.2 0))
    (local_cell n D)
    (by
      intro g c _
      simp [sanity_cell])
    (by
      intro g c c2 hc hc2 hne
      have hidx : grid_index c2.1 c2.2.1 c2.2.2 D index_type.INDEX_PADDED
          ≠ grid_index c.1 c.2.1 c.2.2 D index_type.INDEX_PADDED := by
        intro h
        obtain ⟨h1, h2, h3⟩ := padded_index_inj D _ _ _ _ _ _ hc2.2.1.1 hc2.2.1.2 hc2.2.2.1
          hc2.2.2.2 hc.2.1.1 hc.2.1.2 hc.2.2.1 hc.2.2.2 h
        exact hne (Prod.ext h1.symm (Prod.ext h2.symm h3.symm))
      simp [sanity_cell, Function.update_noteq hidx])
    (slab_cells n D) (nodup_slab_cells n D) (fun d hd => (mem_slab_cells n D d).mp hd) f c hc
  rw [if_pos ((mem_slab_cells n D c).mpr hc)] at h
  simp only [Prod.mk.injEq] at h
  exact h

theorem ionize_cell_self (All : global_data) (f : filtered_fields) (R : ℚ) (last : Bool)
    (start : Int) (g : UVBGgrids_type) (c : Int × Int × Int) :
    cell_of All start (ionize_cell All f R last start g c) c
      = cell_update All f R last c (cell_of All start g c) := by
  cases last <;>
  by_cases h1 : f_coll_stars_cell All f R c > 1 / ReionEfficiency All <;>
  by_cases h2 : g.xHI (grid_index c.1 c.2.1 c.2.2 All.UVBG_DIM index_type.INDEX_REAL)
      > FLOAT_REL_TOL <;>
  simp [ionize_cell, cell_of, cell_update, xHI_update, h1, h2] <;>
  split_ifs <;> simp_all

theorem ionize_cell_other (All : global_data) (f : filtered_fields) (R : ℚ) (last : Bool)
    (n start : Int) (g : UVBGgrids_type) (c c2 : Int × Int × Int)
    (hc : local_cell n All.UVBG_DIM c) (hc2 : local_cell n All.UVBG_DIM c2) (hne : c ≠ c2) :
    cell_of All start (ionize_cell All f R last start g c) c2 = cell_of All start g c2 := by
  have hreal : grid_index c2.1 c2.2.1 c2.2.2 All.UVBG_DIM index_type.INDEX_REAL
      ≠ grid_index c.1 c.2.1 c.2.2 All.UVBG_DIM index_type.INDEX_REAL := by
    intro h
    obtain ⟨h1, h2, h3⟩ := real_index_inj All.UVBG_DIM _ _ _ _ _ _ hc2.2.1.1 hc2.2.1.2
      hc2.2.2.1 hc2.2.2.2 hc.2.1.1 hc.2.1.2 hc.2.2.1 hc.2.2.2 h
    exact hne (Prod.ext h1.symm (Prod.ext h2.symm h3.symm))
  have hgrid : grid_index (c2.1 + start) c2.2.1 c2.2.2 All.UVBG_DIM index_type.INDEX_REAL
      ≠ grid_index (c.1 + start) c.2.1 c.2.2 All.UVBG_DIM index_type.INDEX_REAL := by
    intro h
    obtain ⟨h1, h2, h3⟩ := real_index_inj All.UVBG_DIM _ _ _ _ _ _ hc2.2.1.1 hc2.2.1.2
      hc2.2.2.1 hc2.2.2.2 hc.2.1.1 hc.2.1.2 hc.2.2.1 hc.2.2.2 h
    exact hne (Prod.ext (by omega) (Prod.ext h2.symm h3.symm))
  simp only [ionize_cell, cell_of]
  split_ifs <;> simp [Function.update_noteq hreal, Function.update_noteq hgrid]

theorem radius_pass_cell (All : global_data) (tr : ℚ → Bool → filtered_fields)
    (n start : Int) (R : ℚ) (last : Bool) (g : UVBGgrids_type) (c : Int × Int × Int)
    (hc : local_cell n All.UVBG_DIM c) :
    cell_of All start (radius_pass All tr n start R last g) c
      = cell_update All (sanity_checks All.UVBG_DIM n (tr R last)) R last c
          (cell_of All start g c) := by
  have h := foldl_pointwise (cell_of All start)
    (ionize_cell All (sanity_checks All.UVBG_DIM n (tr R last)) R last start)
    (cell_update All (sanity_checks All.UVBG_DIM n (tr R last)) R last)
    (local_cell n All.UVBG_DIM)
    (fun g c _ => ionize_cell_self All _ R last start g c)
    (fun g c c2 hc hc2 hne => ionize_cell_other All _ R last n start g c c2 hc hc2 hne)
    (slab_cells n All.UVBG_DIM) (nodup_slab_cells n All.UVBG_DIM)
    (fun d hd => (mem_slab_cells n All.UVBG_DIM d).mp hd)
  unfold radius_pass
  simp only
  rw [h _ c hc, if_pos ((mem_slab_cells n All.UVBG_DIM c).mpr hc)]
  rfl

/-! ## The radius loop -/

theorem radius_loop_some (All : global_data) (tr : ℚ → Bool → filtered_fields)
    (n start : Int) (fuel : Nat) (hfuel : 1 ≤ fuel) (R : ℚ)
    (hR : R ≤ ReionRBubbleMin * ReionDeltaRFactor ^ fuel) (g : UVBGgrids_type) :
    ∃ passes, radius_loop All tr n start fuel R g = some passes := by
  induction fuel generalizing R g with
  | zero => omega
  | succ fuel ih =>
    simp only [radius_loop]
    generalize hfl : decide (R / ReionDeltaRFactor
        ≤ cell_length_factor All * All.BoxSize / (All.UVBG_DIM : ℚ) ∨
      R / ReionDeltaRFactor ≤ ReionRBubbleMin) = flag
    cases flag with
    | true =>
      simp only [if_true]
      exact ⟨_, rfl⟩
    | false =>
      simp only [decide_eq_false_iff_not, not_or, not_le] at hfl
      have hpos : (0 : ℚ) < ReionDeltaRFactor := by norm_num [ReionDeltaRFactor]
      rcases Nat.eq_zero_or_pos fuel with h0 | h1
      · subst h0
        exfalso
        have : R / ReionDeltaRFactor ≤ ReionRBubbleMin := by
          rw [div_le_iff₀ hpos]
          simpa using hR
        linarith [hfl.2]
      · obtain ⟨rest, hrest⟩ := ih h1 (R / ReionDeltaRFactor) (by
          rw [div_le_iff₀ hpos]
          calc R ≤ ReionRBubbleMin * ReionDeltaRFactor ^ (fuel + 1) := hR
            _ = ReionRBubbleMin * ReionDeltaRFactor ^ fuel * ReionDeltaRFactor := by ring)
          (radius_pass All tr n start R false g)
        simp only [Bool.false_eq_true, if_false, hrest]
        exact ⟨_, rfl⟩

theorem radius_loop_chain (All : global_data) (tr : ℚ → Bool → filtered_fields)
    (n start : Int) (fuel : Nat) (R : ℚ) (g : UVBGgrids_type) (passes : List pass_record)
    (h : radius_loop All tr n start fuel R g = some passes) :
    pass_chain All tr n start g passes ∧
    ∃ pre rec, passes = pre ++ [rec] ∧ rec.flag_last_filter_step = true ∧
      rec.R = cell_length_factor All * All.BoxSize / (All.UVBG_DIM : ℚ) ∧
      ∀ q ∈ pre, q.flag_last_filter_step = false := by
  induction fuel generalizing R g passes with
  | zero => simp [radius_loop] at h
  | succ fuel ih =>
    simp only [radius_loop] at h
    generalize hfl : decide (R / ReionDeltaRFactor
        ≤ cell_length_factor All * All.BoxSize / (All.UVBG_DIM : ℚ) ∨
      R / ReionDeltaRFactor ≤ ReionRBubbleMin) = flag at h
    cases flag with
    | true =>
      simp only [if_true, Option.some.injEq] at h
      subst h
      exact ⟨⟨rfl, trivial⟩, [], _, rfl, rfl, rfl, by simp⟩
    | false =>
      simp only [Bool.false_eq_true, if_false] at h
      cases hrest : radius_loop All tr n start fuel (R / ReionDeltaRFactor)
          (radius_pass All tr n start R false g) with
      | none => simp [hrest] at h
      | some rest =>
        simp only [hrest, Option.some.injEq] at h
        subst h
        obtain ⟨hchain, pre, rec, hsplit, hlast, hR, hpre⟩ := ih _ _ rest hrest
        refine ⟨⟨rfl, hchain⟩, _ :: pre, rec, by rw [hsplit]; rfl, hlast, hR, ?_⟩
        intro q hq
        rcases List.mem_cons.mp hq with hq | hq
        · subst hq; rfl
        · exact hpre q hq

theorem R_start_le (All : global_data) :
    R_start All ≤ ReionRBubbleMin * ReionDeltaRFactor ^ 42 := by
  have h : R_start All ≤ ReionRBubbleMax := min_le_left _ _
  have h2 : ReionRBubbleMax ≤ ReionRBubbleMin * ReionDeltaRFactor ^ 42 := by
    norm_num [ReionRBubbleMax, ReionRBubbleMin, ReionDeltaRFactor]
  exact le_trans h h2

theorem find_HII_bubbles_passes_some (All : global_data) (tr : ℚ → Bool → filtered_fields)
    (n start : Int) (g : UVBGgrids_type) :
    ∃ passes, find_HII_bubbles_passes All tr n start g = some passes ∧
      pass_chain All tr n start (init_xHI_J21 All n g) passes ∧
      ∃ pre rec, passes = pre ++ [rec] ∧ rec.flag_last_filter_step = true ∧
        rec.R = cell_length_factor All * All.BoxSize / (All.UVBG_DIM : ℚ) ∧
        ∀ q ∈ pre, q.flag_last_filter_step = false := by
  obtain ⟨passes, hp⟩ := radius_loop_some All tr n start 42 (by omega) (R_start All)
    (R_start_le All) (init_xHI_J21 All n g)
  exact ⟨passes, hp, radius_loop_chain All tr n start 42 _ _ passes hp⟩

/-! ## Invariants along the passes of one call -/

theorem chain_walk (All : global_data) (tr : ℚ → Bool → filtered_fields) (n start : Int)
    (Inv : UVBGgrids_type → Prop) (ok : pass_record → Prop)
    (hstep : ∀ g q,
      q.grids = radius_pass All tr n start q.R q.flag_last_filter_step g → Inv g → ok q →
        Inv q.grids) :
    ∀ (pre : List pass_record) (g : UVBGgrids_type) (rest : List pass_record),
      pass_chain All tr n start g (pre ++ rest) → Inv g → (∀ q ∈ pre, ok q) →
      (∀ q ∈ pre, Inv q.grids) ∧ ∃ g2, pass_chain All tr n start g2 rest ∧ Inv g2 := by
  intro pre
  induction pre with
  | nil =>
    intro g rest hchain hinv _
    exact ⟨by simp, g, hchain, hinv⟩
  | cons a t ih =>
    intro g rest hchain hinv hok
    obtain ⟨ha, htail⟩ := hchain
    have hinva := hstep g a ha hinv (hok a (List.mem_cons_self a t))
    obtain ⟨h1, h2⟩ := ih a.grids rest htail hinva
      (fun q hq => hok q (List.mem_cons_of_mem a hq))
    refine ⟨?_, h2⟩
    intro q hq
    rcases List.mem_cons.mp hq with h | h
    · subst h; exact hinva
    · exact h1 q h

theorem pass_cell (All : global_data) (tr : ℚ → Bool → filtered_fields) (n start : Int)
    (c : Int × Int × Int) (hc : local_cell n All.UVBG_DIM c) (g : UVBGgrids_type)
    (q : pass_record)
    (hq : q.grids = radius_pass All tr n start q.R q.flag_last_filter_step g) :
    cell_of All start q.grids c
      = cell_update All (pass_fields All tr n q) q.R q.flag_last_filter_step c
          (cell_of All start g c) := by
  rw [hq]
  exact radius_pass_cell All tr n start q.R q.flag_last_filter_step g c hc

theorem real_index_local (n D : Int) (c : Int × Int × Int) (hc : local_cell n D c) :
    0 ≤ grid_index c.1 c.2.1 c.2.2 D index_type.INDEX_REAL ∧
    grid_index c.1 c.2.1 c.2.2 D index_type.INDEX_REAL < n * D * D := by
  have h := real_index_bounds c.1 c.2.1 c.2.2 n D hc.1.1 hc.1.2 hc.2.1.1 hc.2.1.2 hc.2.2.1
    hc.2.2.2
  rw [mul_assoc]
  exact h

theorem redshift_nonneg (All : global_data) (ha0 : 0 < All.Time) (ha1 : All.Time ≤ 1) :
    0 ≤ redshift All := by
  unfold redshift
  have : 1 ≤ 1 / All.Time := by
    rw [le_div_iff₀ ha0]
    linarith
  linarith

theorem split_last_mem {α : Type} (a b pre : List α) (q lr : α)
    (h : a ++ q :: b = pre ++ [lr]) : lr ∈ q :: b ∧ ∀ x ∈ a, x ∈ pre := by
  rcases List.append_eq_append_iff.mp h with ⟨m, h1, h2⟩ | ⟨m, h1, h2⟩
  · constructor
    · rw [h2]
      simp
    · intro x hx
      rw [h1]
      exact List.mem_append_left _ hx
  · cases m with
    | nil =>
      simp only [List.nil_append, List.cons.injEq] at h2
      constructor
      · rw [h2.1]
        exact List.mem_cons_self _ _
      · intro x hx
        rw [h1] at hx
        simpa using hx
    | cons y t =>
      exfalso
      have hlen := congrArg List.length h2
      simp at hlen

theorem malloc_sentinel (All : global_data) (n start : Int) (g_prev : UVBGgrids_type)
    (c : Int × Int × Int) (hc : local_cell n All.UVBG_DIM c) :
    (cell_of All start (init_xHI_J21 All n (malloc_grids All n g_prev)) c).z_at_ionization
        = -999 ∧
    (cell_of All start (init_xHI_J21 All n (malloc_grids All n g_prev)) c).J21_at_ionization
        = -999 := by
  have hidx := real_index_local n All.UVBG_DIM c hc
  simp only [cell_of, init_xHI_J21, malloc_grids]
  rw [if_pos hidx, if_pos hidx]
  exact ⟨rfl, rfl⟩

theorem FLOAT_REL_TOL_pos : 0 < FLOAT_REL_TOL := by norm_num [FLOAT_REL_TOL]

theorem M_PI_pos : 0 < M_PI := by norm_num [M_PI]

theorem toInt32_one : toInt32 1 = 1 := by decide

theorem toInt32_zero : toInt32 0 = 0 := by decide

theorem grid_index_global (n start D : Int) (c : Int × Int × Int) (hc : local_cell n D c)
    (hstart : 0 ≤ start) (hend : start + n ≤ D) :
    0 ≤ grid_index (c.1 + start) c.2.1 c.2.2 D index_type.INDEX_REAL ∧
    grid_index (c.1 + start) c.2.1 c.2.2 D index_type.INDEX_REAL < D * D * D := by
  have h := real_index_bounds (c.1 + start) c.2.1 c.2.2 D D (by have := hc.1.1; omega)
    (by have := hc.1.2; omega) hc.2.1.1 hc.2.1.2 hc.2.2.1 hc.2.2.2
  rw [mul_assoc]
  exact h

theorem sanity_checks_sfr (D n : Int) (f : filtered_fields) (c : Int × Int × Int)
    (hc : local_cell n D c) :
    (sanity_checks D n f).sfr_filtered (grid_index c.1 c.2.1 c.2.2 D index_type.INDEX_PADDED)
      = max (f.sfr_filtered (grid_index c.1 c.2.1 c.2.2 D index_type.INDEX_PADDED))
          (-1 + FLOAT_REL_TOL) := by
  have h := foldl_pointwise
    (fun (f : filtered_fields) (c : Int × Int × Int) =>
      f.sfr_filtered (grid_index c.1 c.2.1 c.2.2 D index_type.INDEX_PADDED))
    (sanity_cell D)
    (fun _ v => max v (-1 + FLOAT_REL_TOL))
    (local_cell n D)
    (by
      intro g c _
      simp [sanity_cell])
    (by
      intro g c c2 hc hc2 hne
      have hidx : grid_index c2.1 c2.2.1 c2.2.2 D index_type.INDEX_PADDED
          ≠ grid_index c.1 c.2.1 c.2.2 D index_type.INDEX_PADDED := by
        intro h
        obtain ⟨h1, h2, h3⟩ := padded_index_inj D _ _ _ _ _ _ hc2.2.1.1 hc2.2.1.2 hc2.2.2.1
          hc2.2.2.2 hc.2.1.1 hc.2.1.2 hc.2.2.1 hc.2.2.2 h
        exact hne (Prod.ext h1.symm (Prod.ext h2.symm h3.symm))
      simp [sanity_cell, Function.update_noteq hidx])
    (slab_cells n D) (nodup_slab_cells n D) (fun d hd => (mem_slab_cells n D d).mp hd) f c hc
  rw [if_pos ((mem_slab_cells n D c).mpr hc)] at h
  exact h

theorem ReionEfficiency_pos (All : global_data) (h0 : 0 < All.Omega0)
    (hb : 0 < All.OmegaBaryon) (hX0 : 0 ≤ All.HYDROGEN_MASSFRAC) :
    0 < ReionEfficiency All := by
  unfold ReionEfficiency
  have hden : (0 : ℚ) < 1 - 0.75 * (1 - All.HYDROGEN_MASSFRAC) := by
    norm_num
    linarith
  have hfrac : 0 < All.OmegaBaryon / All.Omega0 := div_pos hb h0
  have hn : (0 : ℚ) < ReionNionPhotPerBary := by norm_num [ReionNionPhotPerBary]
  exact div_pos (mul_pos (one_div_pos.mpr hfrac) hn) hden

/-! ## A call with eight passes (`deep_All`) -/

theorem radius_loop_first (All : global_data) (tr : ℚ → Bool → filtered_fields)
    (n start : Int) (fuel : Nat) (R : ℚ) (g : UVBGgrids_type) (passes : List pass_record)
    (hflag : ¬ (R / ReionDeltaRFactor
        ≤ cell_length_factor All * All.BoxSize / (All.UVBG_DIM : ℚ) ∨
      R / ReionDeltaRFactor ≤ ReionRBubbleMin))
    (h : radius_loop All tr n start (fuel + 1) R g = some passes) :
    ∃ rec rest, passes = rec :: rest ∧ rest ≠ [] ∧ rec.R = R ∧
      rec.flag_last_filter_step = false ∧
      rec.grids = radius_pass All tr n start R false g := by
  simp only [radius_loop] at h
  generalize hfl : decide (R / ReionDeltaRFactor
      ≤ cell_length_factor All * All.BoxSize / (All.UVBG_DIM : ℚ) ∨
    R / ReionDeltaRFactor ≤ ReionRBubbleMin) = flag at h
  cases flag with
  | true =>
    simp only [decide_eq_true_eq] at hfl
    exact absurd hfl hflag
  | false =>
    simp only [Bool.false_eq_true, if_false] at h
    cases hrest : radius_loop All tr n start fuel (R / ReionDeltaRFactor)
        (radius_pass All tr n start R false g) with
    | none => simp [hrest] at h
    | some rest =>
      simp only [hrest, Option.some.injEq] at h
      subst h
      obtain ⟨_, pre, rec, hsplit, _⟩ := radius_loop_chain All tr n start fuel _ _ rest hrest
      refine ⟨_, rest, rfl, ?_, rfl, rfl, rfl⟩
      rw [hsplit]
      simp

theorem deep_R_start : R_start deep_All = 6.20350491 := by
  norm_num [R_start, cell_length_factor, deep_All, example_All, ReionRBubbleMax]

theorem deep_cell_radius : cell_radius deep_All = 3.101752455 := by
  norm_num [cell_radius, cell_length_factor, deep_All, example_All]

theorem deep_first_flag :
    ¬ (R_start deep_All / ReionDeltaRFactor
        ≤ cell_length_factor deep_All * deep_All.BoxSize / (deep_All.UVBG_DIM : ℚ) ∨
      R_start deep_All / ReionDeltaRFactor ≤ ReionRBubbleMin) := by
  have h := deep_cell_radius
  unfold cell_radius at h
  rw [deep_R_start, h]
  norm_num [ReionDeltaRFactor, ReionRBubbleMin]

theorem deep_f_coll (n : Int) (s : ℚ) (q : pass_record) (c : Int × Int × Int)
    (hc : local_cell n deep_All.UVBG_DIM c) (hR : q.R ≠ 0) :
    pass_f_coll deep_All (fun _ _ => constant_fields 0 1 s) n q c = 1 / 125 := by
  unfold pass_f_coll pass_fields f_coll_stars_cell density_over_mean_cell
  rw [(sanity_checks_cell deep_All.UVBG_DIM n _ c hc).1,
    (sanity_checks_cell deep_All.UVBG_DIM n _ c hc).2]
  have hR3 : q.R ^ 3 ≠ 0 := pow_ne_zero 3 hR
  norm_num [constant_fields, RtoM, M_PI, pixel_volume, FLOAT_REL_TOL, deep_All, example_All]
  field_simp
  ring

theorem deep_threshold : 1 / ReionEfficiency deep_All < 1 / 125 := by
  norm_num [ReionEfficiency, ReionNionPhotPerBary, deep_All, example_All]

theorem deep_first_pass (tr : ℚ → Bool → filtered_fields) (n start : Int) (g : UVBGgrids_type)
    (passes : List pass_record)
    (h : find_HII_bubbles_passes deep_All tr n start g = some passes) :
    ∃ rec rest, passes = rec :: rest ∧ rest ≠ [] ∧ rec.R = R_start deep_All ∧
      rec.flag_last_filter_step = false ∧
      rec.grids = radius_pass deep_All tr n start (R_start deep_All) false
        (init_xHI_J21 deep_All n g) :=
  radius_loop_first deep_All tr n start 41 (R_start deep_All) _ passes deep_first_flag h

theorem deep_first_crossed (s : ℚ) (n : Int) (rec : pass_record)
    (c : Int × Int × Int) (hc : local_cell n deep_All.UVBG_DIM c)
    (hR : rec.R = R_start deep_All) :
    pass_f_coll deep_All (fun _ _ => constant_fields 0 1 s) n rec c
      > 1 / ReionEfficiency deep_All := by
  rw [deep_f_coll n s rec c hc (by rw [hR, deep_R_start]; norm_num)]
  exact deep_threshold

theorem crossing_J21 (All : global_data) (tr : ℚ → Bool → filtered_fields)
    (n start : Int) (c : Int × Int × Int) (hc : local_cell n All.UVBG_DIM c)
    (g : UVBGgrids_type) (pre : List pass_record) (rec : pass_record)
    (post : List pass_record) (hchain : pass_chain All tr n start g (pre ++ rec :: post))
    (hinit : (cell_of All start g c).xHI = 1 ∧ (cell_of All start g c).J21 = 0)
    (hflags : ∀ q ∈ pre, q.flag_last_filter_step = false)
    (hno : ∀ q ∈ pre, ¬ pass_f_coll All tr n q c > 1 / ReionEfficiency All)
    (hcross : pass_f_coll All tr n rec c > 1 / ReionEfficiency All) :
    ∀ q ∈ rec :: post,
      (cell_of All start q.grids c).J21
        = sfr_density_cell All (pass_fields All tr n rec) c * J21_aux_constant All rec.R := by
  have hbefore := chain_walk All tr n start
    (fun g => (cell_of All start g c).xHI = 1 ∧ (cell_of All start g c).J21 = 0)
    (fun q => q.flag_last_filter_step = false ∧
      ¬ pass_f_coll All tr n q c > 1 / ReionEfficiency All)
    (by
      intro g q hq hinv hok
      rw [pass_cell All tr n start c hc g q hq]
      have h1 : ¬ f_coll_stars_cell All (pass_fields All tr n q) q.R c
          > 1 / ReionEfficiency All := hok.2
      simp only [cell_update, xHI_update, h1, hok.1, false_and, if_false, Bool.false_eq_true]
      exact hinv)
  have hafter := fun (v : ℚ) => chain_walk All tr n start
    (fun g => (cell_of All start g c).xHI = 0 ∧ (cell_of All start g c).J21 = v)
    (fun _ => True)
    (by
      intro g q hq hinv _
      rw [pass_cell All tr n start c hc g q hq]
      have hx : ¬ (cell_of All start g c).xHI > FLOAT_REL_TOL := by
        rw [hinv.1]
        exact not_lt.mpr (le_of_lt FLOAT_REL_TOL_pos)
      simp only [cell_update, xHI_update, hx, and_false, if_false]
      refine ⟨?_, hinv.2⟩
      split_ifs with h1
      · rfl
      · exact hinv.1)
  obtain ⟨_, g2, hchain2, hinv2⟩ := hbefore pre _ (rec :: post) hchain hinit
    (fun q hq => ⟨hflags q hq, hno q hq⟩)
  obtain ⟨hrec, hpost⟩ := hchain2
  have hrecv : (cell_of All start rec.grids c).xHI = 0 ∧
      (cell_of All start rec.grids c).J21
        = sfr_density_cell All (pass_fields All tr n rec) c * J21_aux_constant All rec.R := by
    rw [pass_cell All tr n start c hc g2 rec hrec]
    have hx : (cell_of All start g2 c).xHI > FLOAT_REL_TOL := by
      rw [hinv2.1]
      norm_num [FLOAT_REL_TOL]
    have hcross2 : f_coll_stars_cell All (pass_fields All tr n rec) rec.R c
        > 1 / ReionEfficiency All := hcross
    simp only [cell_update, xHI_update, hcross2, hx, and_self, if_true]
    exact ⟨trivial, rfl⟩
  have hrest := (hafter _ post rec.grids [] (by simpa using hpost) hrecv
    (fun _ _ => trivial)).1
  intro q hq
  rcases List.mem_cons.mp hq with h | h
  · subst h; exact hrecv.2
  · exact (hrest q h).2

theorem deep_sfr_density (n : Int) (d st s : ℚ) (hn : 0 < n) (hs : -1 + FLOAT_REL_TOL ≤ s) :
    sfr_density_cell deep_All (sanity_checks deep_All.UVBG_DIM n (constant_fields d st s))
      (0, 0, 0) = s / 125 := by
  have hc : local_cell n deep_All.UVBG_DIM (0, 0, 0) := by
    refine ⟨⟨le_refl 0, hn⟩, by decide, by decide⟩
  have h := sanity_checks_sfr deep_All.UVBG_DIM n (constant_fields d st s) (0, 0, 0) hc
  have hidx : 2 * grid_index 0 0 0 deep_All.UVBG_DIM index_type.INDEX_PADDED
      = grid_index 0 0 0 deep_All.UVBG_DIM index_type.INDEX_PADDED := by decide
  unfold sfr_density_cell
  rw [hidx, h]
  simp only [constant_fields, max_eq_left hs]
  norm_num [pixel_volume, deep_All, example_All]

theorem deep_J21_aux_constant (R : ℚ) :
    J21_aux_constant deep_All R = 3 * 10 ^ 21 * 4000 / M_PI * R := by
  norm_num [J21_aux_constant, redshift, ReionNionPhotPerBary, deep_All, example_All]
  ring

theorem init_cell (All : global_data) (n start : Int) (g : UVBGgrids_type)
    (c : Int × Int × Int) (hc : local_cell n All.UVBG_DIM c) (hstart : 0 ≤ start)
    (hend : start + n ≤ All.UVBG_DIM) :
    (cell_of All start (init_xHI_J21 All n g) c).xHI = 1 ∧
    (cell_of All start (init_xHI_J21 All n g) c).J21 = 0 := by
  have hidx := real_index_local n All.UVBG_DIM c hc
  have hgidx := grid_index_global n start All.UVBG_DIM c hc hstart hend
  simp only [cell_of, init_xHI_J21]
  rw [if_pos hidx, if_pos hgidx]
  exact ⟨rfl, rfl⟩

theorem cell_length_factor_pos (All : global_data) : 0 < cell_length_factor All := by
  unfold cell_length_factor
  split_ifs <;> norm_num

theorem pixel_volume_pos (All : global_data) (hbox : 0 < All.BoxSize)
    (hD : 0 < All.UVBG_DIM) : 0 < pixel_volume All := by
  unfold pixel_volume
  have : (0 : ℚ) < (All.UVBG_DIM : ℚ) := by exact_mod_cast hD
  positivity

theorem pass_density_pos (All : global_data) (tr : ℚ → Bool → filtered_fields) (n : Int)
    (q : pass_record) (c : Int × Int × Int) (hc : local_cell n All.UVBG_DIM c) :
    0 < density_over_mean_cell All.UVBG_DIM (pass_fields All tr n q) c := by
  unfold density_over_mean_cell pass_fields
  rw [(sanity_checks_cell All.UVBG_DIM n _ c hc).1]
  have h := le_max_right
    ((tr q.R q.flag_last_filter_step).deltax_filtered
      (grid_index c.1 c.2.1 c.2.2 All.UVBG_DIM index_type.INDEX_PADDED))
    (-1 + FLOAT_REL_TOL)
  have := FLOAT_REL_TOL_pos
  linarith

theorem pass_stars_nonneg (All : global_data) (tr : ℚ → Bool → filtered_fields) (n : Int)
    (q : pass_record) (c : Int × Int × Int) (hc : local_cell n All.UVBG_DIM c) :
    0 ≤ (pass_fields All tr n q).stars_slab_filtered
      (grid_index c.1 c.2.1 c.2.2 All.UVBG_DIM index_type.INDEX_PADDED) := by
  unfold pass_fields
  rw [(sanity_checks_cell All.UVBG_DIM n _ c hc).2]
  exact le_max_right _ _

theorem pass_f_coll_nonneg (All : global_data) (tr : ℚ → Bool → filtered_fields) (n : Int)
    (q : pass_record) (c : Int × Int × Int) (hc : local_cell n All.UVBG_DIM c)
    (hM : 0 < All.Omega0 * All.RhoCrit) (hbox : 0 < All.BoxSize) (hR : 0 < q.R) :
    0 ≤ pass_f_coll All tr n q c := by
  have hD : 0 < All.UVBG_DIM := lt_of_le_of_lt hc.2.1.1 hc.2.1.2
  have hpv := pixel_volume_pos All hbox hD
  have hdom := pass_density_pos All tr n q c hc
  have hstars := pass_stars_nonneg All tr n q c hc
  have hpi := M_PI_pos
  have hRtoM : 0 < RtoM All q.R := by
    unfold RtoM
    positivity
  unfold pass_f_coll f_coll_stars_cell
  positivity

theorem pass_f_coll_zero (All : global_data) (tr : ℚ → Bool → filtered_fields) (n : Int)
    (q : pass_record) (c : Int × Int × Int) (hc : local_cell n All.UVBG_DIM c)
    (hstars : (tr q.R q.flag_last_filter_step).stars_slab_filtered
      (grid_index c.1 c.2.1 c.2.2 All.UVBG_DIM index_type.INDEX_PADDED) = 0) :
    pass_f_coll All tr n q c = 0 := by
  unfold pass_f_coll f_coll_stars_cell pass_fields
  rw [(sanity_checks_cell All.UVBG_DIM n _ c hc).2, hstars]
  simp

theorem last_pass_R_pos (All : global_data) (hbox : 0 < All.BoxSize) (hD : 0 < All.UVBG_DIM) :
    0 < cell_length_factor All * All.BoxSize / (All.UVBG_DIM : ℚ) := by
  have := cell_length_factor_pos All
  have : (0 : ℚ) < (All.UVBG_DIM : ℚ) := by exact_mod_cast hD
  positivity

theorem xHI_zero_stays (All : global_data) (tr : ℚ → Bool → filtered_fields) (n start : Int)
    (c : Int × Int × Int) (hc : local_cell n All.UVBG_DIM c) (g : UVBGgrids_type)
    (post : List pass_record) (hchain : pass_chain All tr n start g post)
    (h0 : (cell_of All start g c).xHI = 0) :
    ∀ q ∈ post, (cell_of All start q.grids c).xHI = 0 :=
  (chain_walk All tr n start
    (fun g => (cell_of All start g c).xHI = 0) (fun _ => True)
    (by
      intro g q hq hinv _
      rw [pass_cell All tr n start c hc g q hq]
      have hx : ¬ (cell_of All start g c).xHI > FLOAT_REL_TOL := by
        rw [hinv]
        exact not_lt.mpr (le_of_lt FLOAT_REL_TOL_pos)
      simp only [cell_update, xHI_update, hx, and_false, if_false]
      split_ifs with h1
      · rfl
      · exact hinv)
    post g [] (by simpa using hchain) h0 (fun _ _ => trivial)).1

theorem xHI_one_stays (All : global_data) (tr : ℚ → Bool → filtered_fields) (n start : Int)
    (c : Int × Int × Int) (hc : local_cell n All.UVBG_DIM c) (g : UVBGgrids_type)
    (pre post : List pass_record) (hchain : pass_chain All tr n start g (pre ++ post))
    (h1 : (cell_of All start g c).xHI = 1)
    (hok : ∀ q ∈ pre, q.flag_last_filter_step = false ∧
      ¬ pass_f_coll All tr n q c > 1 / ReionEfficiency All) :
    (∀ q ∈ pre, (cell_of All start q.grids c).xHI = 1) ∧
    ∃ g2, pass_chain All tr n start g2 post ∧ (cell_of All start g2 c).xHI = 1 :=
  chain_walk All tr n start
    (fun g => (cell_of All start g c).xHI = 1)
    (fun q => q.flag_last_filter_step = false ∧
      ¬ pass_f_coll All tr n q c > 1 / ReionEfficiency All)
    (by
      intro g q hq hinv hok
      rw [pass_cell All tr n start c hc g q hq]
      have h1 : ¬ f_coll_stars_cell All (pass_fields All tr n q) q.R c
          > 1 / ReionEfficiency All := hok.2
      simp only [cell_update, xHI_update, h1, hok.1, false_and, if_false, Bool.false_eq_true]
      exact hinv)
    pre g post hchain h1 hok

theorem final_xHI_crossed (All : global_data) (tr : ℚ → Bool → filtered_fields)
    (n start : Int) (c : Int × Int × Int) (hc : local_cell n All.UVBG_DIM c)
    (g : UVBGgrids_type) (pre : List pass_record) (lr : pass_record)
    (hchain : pass_chain All tr n start g (pre ++ [lr]))
    (hex : ∃ q ∈ pre ++ [lr], pass_f_coll All tr n q c > 1 / ReionEfficiency All) :
    (cell_of All start lr.grids c).xHI = 0 := by
  obtain ⟨q, hq, hcross⟩ := hex
  obtain ⟨a, b, hab⟩ := List.append_of_mem hq
  rw [hab] at hchain
  obtain ⟨_, g2, hchain2, _⟩ := chain_walk All tr n start (fun _ => True) (fun _ => True)
    (fun _ _ _ _ _ => trivial) a _ (q :: b) hchain trivial (fun _ _ => trivial)
  obtain ⟨hrec, hpost⟩ := hchain2
  have hq0 : (cell_of All start q.grids c).xHI = 0 := by
    rw [pass_cell All tr n start c hc g2 q hrec]
    have hcross2 : f_coll_stars_cell All (pass_fields All tr n q) q.R c
        > 1 / ReionEfficiency All := hcross
    simp only [cell_update, xHI_update, hcross2, if_true]
  have hrest := xHI_zero_stays All tr n start c hc q.grids b hpost hq0
  have hmem := (split_last_mem a b pre q lr hab.symm).1
  rcases List.mem_cons.mp hmem with h | h
  · rw [h]; exact hq0
  · exact hrest lr h

theorem final_xHI_uncrossed (All : global_data) (tr : ℚ → Bool → filtered_fields)
    (n start : Int) (c : Int × Int × Int) (hc : local_cell n All.UVBG_DIM c)
    (g : UVBGgrids_type) (pre : List pass_record) (lr : pass_record)
    (hchain : pass_chain All tr n start g (pre ++ [lr]))
    (hinit : (cell_of All start g c).xHI = 1)
    (hflags : ∀ q ∈ pre, q.flag_last_filter_step = false)
    (hlast : lr.flag_last_filter_step = true)
    (hno : ∀ q ∈ pre ++ [lr], ¬ pass_f_coll All tr n q c > 1 / ReionEfficiency All) :
    (cell_of All start lr.grids c).xHI
      = 1 - pass_f_coll All tr n lr c * ReionEfficiency All := by
  obtain ⟨_, g2, hchain2, hinv2⟩ := xHI_one_stays All tr n start c hc g pre [lr] hchain hinit
    (fun q hq => ⟨hflags q hq, hno q (List.mem_append_left _ hq)⟩)
  obtain ⟨hrec, _⟩ := hchain2
  rw [pass_cell All tr n start c hc g2 lr hrec]
  have h1 : ¬ f_coll_stars_cell All (pass_fields All tr n lr) lr.R c
      > 1 / ReionEfficiency All := hno lr (by simp)
  have hx : (cell_of All start g2 c).xHI > FLOAT_REL_TOL := by
    rw [hinv2]
    norm_num [FLOAT_REL_TOL]
  simp only [cell_update, xHI_update, h1, hlast, hx, and_self, if_true, if_false]
  rfl

theorem init_xHI_one (All : global_data) (n start : Int) (g : UVBGgrids_type)
    (c : Int × Int × Int) (hc : local_cell n All.UVBG_DIM c) :
    (cell_of All start (init_xHI_J21 All n g) c).xHI = 1 := by
  have hidx := real_index_local n All.UVBG_DIM c hc
  simp only [cell_of, init_xHI_J21]
  rw [if_pos hidx]

/-- C8: with `Omega0 * RhoCrit > 0` and `BoxSize > 0`, the radius loop runs to
its end with exactly one pass, the last, at the native cell scale with the flag
set; for every local cell, after the last pass `xHI = 0` if
`f_coll > 1 / ReionEfficiency` held in some pass, and otherwise
`xHI = 1 - f_coll * ReionEfficiency` with `f_coll` of the last pass; at the end of
every earlier pass `xHI` is 0 or 1; and the final `xHI` lies in `[0, 1]`. -/
theorem final_neutral_fraction (All : global_data) (tr : ℚ → Bool → filtered_fields)
    (n start : Int) (g : UVBGgrids_type) (c : Int × Int × Int)
    (hM : 0 < All.Omega0 * All.RhoCrit) (hbox : 0 < All.BoxSize)
    (hc : local_cell n All.UVBG_DIM c) :
    ∃ pre lr, find_HII_bubbles_passes All tr n start g = some (pre ++ [lr]) ∧
      lr.flag_last_filter_step = true ∧
      lr.R = cell_length_factor All * All.BoxSize / (All.UVBG_DIM : ℚ) ∧
      (∀ q ∈ pre, q.flag_last_filter_step = false) ∧
      ((∃ q ∈ pre ++ [lr], pass_f_coll All tr n q c > 1 / ReionEfficiency All) →
        (cell_of All start lr.grids c).xHI = 0) ∧
      ((∀ q ∈ pre ++ [lr], ¬ pass_f_coll All tr n q c > 1 / ReionEfficiency All) →
        (cell_of All start lr.grids c).xHI
          = 1 - pass_f_coll All tr n lr c * ReionEfficiency All) ∧
      (∀ q ∈ pre, (cell_of All start q.grids c).xHI = 0 ∨
        (cell_of All start q.grids c).xHI = 1) ∧
      (0 ≤ (cell_of All start lr.grids c).xHI ∧ (cell_of All start lr.grids c).xHI ≤ 1) := by
  obtain ⟨passes, hp, hchain, pre, lr, hsplit, hlast, hR, hflags⟩ :=
    find_HII_bubbles_passes_some All tr n start g
  subst hsplit
  have hD : 0 < All.UVBG_DIM := lt_of_le_of_lt hc.2.1.1 hc.2.1.2
  have hinit := init_xHI_one All n start g c hc
  have hbinary := chain_walk All tr n start
    (fun g => (cell_of All start g c).xHI = 0 ∨ (cell_of All start g c).xHI = 1)
    (fun q => q.flag_last_filter_step = false)
    (by
      intro g q hq hinv hok
      rw [pass_cell All tr n start c hc g q hq]
      simp only [cell_update, xHI_update, hok, false_and, if_false, Bool.false_eq_true]
      split_ifs with h1
      · exact Or.inl rfl
      · exact hinv)
  have hcase1 := final_xHI_crossed All tr n start c hc _ pre lr hchain
  have hcase2 := final_xHI_uncrossed All tr n start c hc _ pre lr hchain hinit hflags hlast
  refine ⟨pre, lr, hp, hlast, hR, hflags, hcase1, hcase2, ?_, ?_⟩
  · exact (hbinary pre _ [lr] hchain (Or.inr hinit) hflags).1
  · by_cases hex : ∃ q ∈ pre ++ [lr], pass_f_coll All tr n q c > 1 / ReionEfficiency All
    · rw [hcase1 hex]
      norm_num
    · have hno : ∀ q ∈ pre ++ [lr], ¬ pass_f_coll All tr n q c > 1 / ReionEfficiency All :=
        fun q hq hcross => hex ⟨q, hq, hcross⟩
      rw [hcase2 hno]
      have hf0 := pass_f_coll_nonneg All tr n lr c hc hM hbox (by
        rw [hR]; exact last_pass_R_pos All hbox hD)
      have hf1 : pass_f_coll All tr n lr c ≤ 1 / ReionEfficiency All :=
        not_lt.mp (hno lr (by simp))
      rcases lt_trichotomy (ReionEfficiency All) 0 with heff | heff | heff
      · exfalso
        have : 1 / ReionEfficiency All < 0 := one_div_neg.mpr heff
        linarith
      · rw [heff]
        norm_num
      · have h3 : pass_f_coll All tr n lr c * ReionEfficiency All ≤ 1 := by
          rw [le_div_iff₀ heff] at hf1
          exact hf1
        have h4 : 0 ≤ pass_f_coll All tr n lr c * ReionEfficiency All :=
          mul_nonneg hf0 (le_of_lt heff)
        constructor <;> linarith

/-- Witness for C8 on `example_All`, one cell, and a transform that returns zero
fields. -/
theorem final_neutral_fraction_witness :
    ∃ pre lr, find_HII_bubbles_passes example_All (fun _ _ => constant_fields 0 0 0) 1 0
        (constant_grids 0) = some (pre ++ [lr]) ∧
      (0 ≤ (cell_of example_All 0 lr.grids (0, 0, 0)).xHI ∧
        (cell_of example_All 0 lr.grids (0, 0, 0)).xHI ≤ 1) := by
  obtain ⟨pre, lr, h1, _, _, _, _, _, _, h8⟩ := final_neutral_fraction example_All
    (fun _ _ => constant_fields 0 0 0) 1 0 (constant_grids 0) (0, 0, 0)
    (by norm_num [example_All]) (by norm_num [example_All])
    (by simp [local_cell, example_All])
  exact ⟨pre, lr, h1, h8⟩

/-! ## All ranks: the statistics of `find_HII_bubbles` -/

theorem for_each_some_mem {α β : Type} (f : α → Option β) (l : List α)
    (h : ∀ a ∈ l, ∃ b, f a = some b) :
    ∃ bs, for_each f l = some bs ∧ List.Forall₂ (fun a b => a ∈ l ∧ f a = some b) l bs := by
  induction l with
  | nil => exact ⟨[], rfl, List.Forall₂.nil⟩
  | cons a t ih =>
    obtain ⟨b, hb⟩ := h a (List.mem_cons_self a t)
    obtain ⟨bs, hbs, hrel⟩ := ih (fun c hc => h c (List.mem_cons_of_mem a hc))
    refine ⟨b :: bs, by simp [for_each, hb, hbs], List.Forall₂.cons ⟨List.mem_cons_self a t, hb⟩ ?_⟩
    exact List.Forall₂.imp (fun x y hxy => ⟨List.mem_cons_of_mem a hxy.1, hxy.2⟩) hrel

theorem local_sums_foldl (D : Int) (g : UVBGgrids_type) (cs : List (Int × Int × Int))
    (acc : ℚ × ℚ × ℚ) :
    cs.foldl
      (fun acc c =>
        let i_real := grid_index c.1 c.2.1 c.2.2 D index_type.INDEX_REAL
        let i_padded := grid_index c.1 c.2.1 c.2.2 D index_type.INDEX_PADDED
        let density_over_mean := 1 + g.deltax_filtered i_padded
        (acc.1 + g.xHI i_real, acc.2.1 + g.xHI i_real * density_over_mean,
          acc.2.2 + density_over_mean))
      acc
    = (acc.1 + (cs.map (xHI_at D g)).sum,
       acc.2.1 + (cs.map (fun c => xHI_at D g c * density_at D g c)).sum,
       acc.2.2 + (cs.map (density_at D g)).sum) := by
  induction cs generalizing acc with
  | nil => simp
  | cons a t ih =>
    rw [List.foldl_cons, ih]
    simp only [List.map_cons, List.sum_cons, xHI_at, density_at, Prod.mk.injEq]
    refine ⟨by ring, by ring, by ring⟩

theorem local_sums_eq (D n : Int) (g : UVBGgrids_type) :
    local_sums D n g
      = (((slab_cells n D).map (xHI_at D g)).sum,
         ((slab_cells n D).map (fun c => xHI_at D g c * density_at D g c)).sum,
         ((slab_cells n D).map (density_at D g)).sum) := by
  unfold local_sums
  rw [local_sums_foldl]
  simp

theorem foldl_preserve {σ κ τ : Type} (proj : σ → τ) (body : σ → κ → σ)
    (h : ∀ g c, proj (body g c) = proj g) (cs : List κ) (g : σ) :
    proj (cs.foldl body g) = proj g := by
  induction cs generalizing g with
  | nil => rfl
  | cons a t ih => rw [List.foldl_cons, ih, h]

theorem ionize_cell_deltax (All : global_data) (f : filtered_fields) (R : ℚ) (last : Bool)
    (start : Int) (g : UVBGgrids_type) (c : Int × Int × Int) :
    (ionize_cell All f R last start g c).deltax_filtered = g.deltax_filtered := by
  simp only [ionize_cell]
  split_ifs <;> rfl

theorem radius_pass_deltax (All : global_data) (tr : ℚ → Bool → filtered_fields)
    (n start : Int) (R : ℚ) (last : Bool) (g : UVBGgrids_type) :
    (radius_pass All tr n start R last g).deltax_filtered
      = (sanity_checks All.UVBG_DIM n (tr R last)).deltax_filtered := by
  unfold radius_pass
  simp only
  rw [foldl_preserve (fun g => g.deltax_filtered) _
    (fun g c => ionize_cell_deltax All _ R last start g c)]

theorem pass_chain_last (All : global_data) (tr : ℚ → Bool → filtered_fields) (n start : Int)
    (pre : List pass_record) (lr : pass_record) (g : UVBGgrids_type)
    (hchain : pass_chain All tr n start g (pre ++ [lr])) :
    ∃ g2, lr.grids = radius_pass All tr n start lr.R lr.flag_last_filter_step g2 := by
  obtain ⟨_, g2, hchain2, _⟩ := chain_walk All tr n start (fun _ => True) (fun _ => True)
    (fun _ _ _ _ _ => trivial) pre g [lr] hchain trivial (fun _ _ => trivial)
  exact ⟨g2, hchain2.1⟩

theorem final_grids_append (pre : List pass_record) (lr : pass_record) :
    final_grids (pre ++ [lr]) = some lr.grids := by
  simp [final_grids]

theorem rank_after_loop_some (All : global_data) (x : Int × Int × rank_data) :
    ∃ pre lr, rank_passes All x = some (pre ++ [lr]) ∧
      rank_after_loop All x = some lr.grids ∧
      pass_chain All x.2.2.transform (toInt32 x.1) (toInt32 x.2.1)
        (init_xHI_J21 All (toInt32 x.1) x.2.2.grids) (pre ++ [lr]) ∧
      lr.flag_last_filter_step = true ∧
      lr.R = cell_length_factor All * All.BoxSize / (All.UVBG_DIM : ℚ) ∧
      ∀ q ∈ pre, q.flag_last_filter_step = false := by
  obtain ⟨passes, hp, hchain, pre, lr, hsplit, hlast, hR, hflags⟩ :=
    find_HII_bubbles_passes_some All x.2.2.transform (toInt32 x.1) (toInt32 x.2.1) x.2.2.grids
  subst hsplit
  refine ⟨pre, lr, hp, ?_, hchain, hlast, hR, hflags⟩
  unfold rank_after_loop
  have hp2 : rank_passes All x = some (pre ++ [lr]) := hp
  rw [hp2]
  exact final_grids_append pre lr

theorem zipWith_congr_left {α β γ : Type} (f g : α → β → γ) (l1 : List α) (l2 : List β)
    (h : ∀ a ∈ l1, ∀ b, f a b = g a b) : List.zipWith f l1 l2 = List.zipWith g l1 l2 := by
  induction l1 generalizing l2 with
  | nil => simp
  | cons a t ih =>
    cases l2 with
    | nil => simp
    | cons b t2 =>
      simp only [List.zipWith_cons_cons]
      rw [h a (List.mem_cons_self a t) b,
        ih t2 (fun c hc d => h c (List.mem_cons_of_mem a hc) d)]

theorem slab_cells_length (w D : Int) (hw : 0 ≤ w) (hD : 0 ≤ D) :
    ((slab_cells w D).length : Int) = w * (D * D) := by
  have h1 : ∀ (a b : List Nat), (a.product b).length = a.length * b.length :=
    fun a b => List.length_product a b
  have h2 : ∀ (a : List Nat) (b : List (Nat × Nat)), (a.product b).length = a.length * b.length :=
    fun a b => List.length_product a b
  simp only [slab_cells, List.length_map, h1, h2, List.length_range]
  push_cast
  rw [Int.toNat_of_nonneg hw, Int.toNat_of_nonneg hD]

theorem cell_count (nix : List Int) (D : Int) (hpos : ∀ w ∈ nix, 0 ≤ w) (hD : 0 ≤ D) :
    (nix.map (fun w => ((slab_cells w D).length : Int))).sum = nix.sum * (D * D) := by
  induction nix with
  | nil => simp
  | cons a t ih =>
    simp only [List.map_cons, List.sum_cons]
    rw [ih (fun w hw => hpos w (List.mem_cons_of_mem a hw)),
      slab_cells_length a D (hpos a (List.mem_cons_self a t)) hD]
    ring

theorem width_int32 (nix : List Int) (D : Int) (hpos : ∀ w ∈ nix, 0 ≤ w) (hsum : nix.sum = D)
    (hD : D < 2 ^ 31) (w : Int) (hw : w ∈ nix) : toInt32 w = w := by
  have h0 := hpos w hw
  have hle : w ≤ nix.sum := List.single_le_sum hpos w hw
  exact toInt32_of_range w (by omega) (by omega)

theorem find_HII_bubbles_some (All : global_data) (nix starts : List Int)
    (ranks : List rank_data) :
    ∃ after, find_HII_bubbles All nix starts ranks
        = some (after.map (reduce_and_stats All nix after)) ∧
      List.Forall₂
        (fun x g => x ∈ List.zip nix (List.zip starts ranks) ∧ rank_after_loop All x = some g)
        (List.zip nix (List.zip starts ranks)) after := by
  obtain ⟨after, h1, h2⟩ := for_each_some_mem (rank_after_loop All)
    (List.zip nix (List.zip starts ranks)) (fun x _ => by
      obtain ⟨_, lr, _, h, _⟩ := rank_after_loop_some All x
      exact ⟨lr.grids, h⟩)
  exact ⟨after, by simp only [find_HII_bubbles, h1], h2⟩

theorem zip_length_layout (nix : List Int) (ranks : List rank_data) (hn : 1 ≤ nix.length)
    (hranks : ranks.length = nix.length) :
    (List.zip nix (List.zip (assign_slabs nix) ranks)).length = nix.length := by
  simp only [List.length_zip, assign_slabs_length nix hn, hranks]
  simp

theorem global_sum_reduce (All : global_data) (nix : List Int) (all after : List UVBGgrids_type)
    (f : UVBGgrids_type → Int × Int × Int → ℚ)
    (hf : ∀ g, f (reduce_and_stats All nix all g) = f g) :
    global_sum All.UVBG_DIM nix (after.map (reduce_and_stats All nix all)) f
      = (List.zipWith (fun w g => ((slab_cells w All.UVBG_DIM).map (f g)).sum) nix after).sum := by
  unfold global_sum
  rw [List.zipWith_map_right]
  simp only [hf]

theorem stats_sums (All : global_data) (nix : List Int) (after : List UVBGgrids_type)
    (hcast : ∀ w ∈ nix, toInt32 w = w) :
    List.zipWith (fun w gr => local_sums All.UVBG_DIM (toInt32 w) gr) nix after
      = List.zipWith (fun w g =>
          (((slab_cells w All.UVBG_DIM).map (xHI_at All.UVBG_DIM g)).sum,
           ((slab_cells w All.UVBG_DIM).map
              (fun c => xHI_at All.UVBG_DIM g c * density_at All.UVBG_DIM g c)).sum,
           ((slab_cells w All.UVBG_DIM).map (density_at All.UVBG_DIM g)).sum)) nix after := by
  apply zipWith_congr_left
  intro w hw g
  rw [hcast w hw, local_sums_eq]

theorem reduce_and_stats_values (All : global_data) (nix : List Int)
    (after : List UVBGgrids_type) (hcast : ∀ w ∈ nix, toInt32 w = w) (g : UVBGgrids_type) :
    (reduce_and_stats All nix after g).volume_weighted_global_xHI
      = global_sum All.UVBG_DIM nix (after.map (reduce_and_stats All nix after))
          (xHI_at All.UVBG_DIM) / (All.UVBG_DIM : ℚ) ^ 3 ∧
    (reduce_and_stats All nix after g).mass_weighted_global_xHI
      = global_sum All.UVBG_DIM nix (after.map (reduce_and_stats All nix after))
          (fun g c => xHI_at All.UVBG_DIM g c * density_at All.UVBG_DIM g c)
        / global_sum All.UVBG_DIM nix (after.map (reduce_and_stats All nix after))
          (density_at All.UVBG_DIM) := by
  rw [global_sum_reduce All nix after after (xHI_at All.UVBG_DIM) (fun _ => rfl),
    global_sum_reduce All nix after after
      (fun g c => xHI_at All.UVBG_DIM g c * density_at All.UVBG_DIM g c) (fun _ => rfl),
    global_sum_reduce All nix after after (density_at All.UVBG_DIM) (fun _ => rfl)]
  simp only [reduce_and_stats, MPI_Allreduce_sum, total_n_cells, stats_sums All nix after hcast,
    List.map_zipWith, and_self]

theorem final_density (All : global_data) (x : Int × Int × rank_data) (g : UVBGgrids_type)
    (hcast : toInt32 x.1 = x.1) (hg : rank_after_loop All x = some g) (c : Int × Int × Int)
    (hc : local_cell x.1 All.UVBG_DIM c) :
    density_at All.UVBG_DIM g c
      = 1 + max ((x.2.2.transform
            (cell_length_factor All * All.BoxSize / (All.UVBG_DIM : ℚ)) true).deltax_filtered
          (grid_index c.1 c.2.1 c.2.2 All.UVBG_DIM index_type.INDEX_PADDED))
        (-1 + FLOAT_REL_TOL) := by
  obtain ⟨pre, lr, _, hlr, hchain, hlast, hR, _⟩ := rank_after_loop_some All x
  rw [hlr] at hg
  have hg2 : lr.grids = g := Option.some.inj hg
  obtain ⟨g2, hpass⟩ := pass_chain_last All _ _ _ pre lr _ hchain
  rw [hcast, hlast, hR] at hpass
  unfold density_at
  rw [← hg2, hpass, radius_pass_deltax, (sanity_checks_cell All.UVBG_DIM x.1 _ c hc).1]

/-- C10: for slab widths that are non-negative and sum to `D` (a grid dimension
`D ≥ 1` whose `int` index products do not overflow), one rank per slab, `find_HII_bubbles` returns on every rank
`volume_weighted_global_xHI` equal to the sum of `xHI` over the cells of all
ranks divided by `D^3`, and `mass_weighted_global_xHI` equal to the sum of
`xHI * (1 + delta)` divided by the sum of `1 + delta` over the same cells; the
slabs have `D^3` cells in total, and `delta` of a cell is the density contrast
returned for the last (unfiltered) pass clamped below at `-1 + 1e-5`. -/
theorem global_statistics (All : global_data) (nix : List Int) (ranks : List rank_data)
    (hD1 : 1 ≤ All.UVBG_DIM)
    (hD : 2 * (All.UVBG_DIM / 2 + 1) * (All.UVBG_DIM * All.UVBG_DIM) < 2 ^ 31)
    (hpos : ∀ w ∈ nix, 0 ≤ w)
    (hsum : nix.sum = All.UVBG_DIM) (hranks : ranks.length = nix.length) :
    ∃ out, find_HII_bubbles All nix (assign_slabs nix) ranks = some out ∧
      out.length = nix.length ∧
      (nix.map (fun w => ((slab_cells w All.UVBG_DIM).length : Int))).sum
        = All.UVBG_DIM * All.UVBG_DIM * All.UVBG_DIM ∧
      (∀ g ∈ out,
        g.volume_weighted_global_xHI
          = global_sum All.UVBG_DIM nix out (xHI_at All.UVBG_DIM) / (All.UVBG_DIM : ℚ) ^ 3 ∧
        g.mass_weighted_global_xHI
          = global_sum All.UVBG_DIM nix out
              (fun g c => xHI_at All.UVBG_DIM g c * density_at All.UVBG_DIM g c)
            / global_sum All.UVBG_DIM nix out (density_at All.UVBG_DIM)) ∧
      List.Forall₂
        (fun x g => ∀ c, local_cell x.1 All.UVBG_DIM c →
          density_at All.UVBG_DIM g c
            = 1 + max ((x.2.2.transform
                  (cell_length_factor All * All.BoxSize / (All.UVBG_DIM : ℚ)) true).deltax_filtered
                (grid_index c.1 c.2.1 c.2.2 All.UVBG_DIM index_type.INDEX_PADDED))
              (-1 + FLOAT_REL_TOL))
        (List.zip nix (List.zip (assign_slabs nix) ranks)) out := by
  have hn : 1 ≤ nix.length := by
    rcases Nat.eq_zero_or_pos nix.length with hz | hp
    · rw [List.length_eq_zero] at hz
      subst hz
      simp at hsum
      omega
    · exact hp
  have hcast := width_int32 nix All.UVBG_DIM hpos hsum
    (dim_int_range All.UVBG_DIM hD1 hD)
  obtain ⟨after, hout, hrel⟩ := find_HII_bubbles_some All nix (assign_slabs nix) ranks
  refine ⟨_, hout, ?_, ?_, ?_, ?_⟩
  · rw [List.length_map, ← hrel.length_eq, zip_length_layout nix ranks hn hranks]
  · rw [cell_count nix All.UVBG_DIM hpos (by omega), hsum]
    ring
  · intro g hg
    obtain ⟨g0, _, rfl⟩ := List.mem_map.mp hg
    exact reduce_and_stats_values All nix after hcast g0
  · rw [List.forall₂_map_right_iff]
    refine List.Forall₂.imp ?_ hrel
    rintro x g0 ⟨hx, hg0⟩ c hc
    have hxw : x.1 ∈ nix := (List.of_mem_zip (show (x.1, x.2) ∈ _ from hx)).1
    have h := final_density All x g0 (hcast x.1 hxw) hg0 c hc
    exact h

theorem slab_sum_const (w dim : Int) (f : Int × Int × Int → ℚ) (v : ℚ)
    (h : ∀ c, local_cell w dim c → f c = v) :
    ((slab_cells w dim).map f).sum = v * ((slab_cells w dim).length : ℚ) := by
  rw [List.map_congr_left (fun c hc => h c ((mem_slab_cells w dim c).mp hc))]
  simp only [List.map_const', List.sum_replicate, smul_eq_mul]
  ring

theorem global_sum_pair (dim w0 w1 : Int) (g0 g1 : UVBGgrids_type)
    (f : UVBGgrids_type → Int × Int × Int → ℚ) (v0 v1 : ℚ)
    (h0 : ∀ c, local_cell w0 dim c → f g0 c = v0)
    (h1 : ∀ c, local_cell w1 dim c → f g1 c = v1) :
    global_sum dim [w0, w1] [g0, g1] f
      = v0 * ((slab_cells w0 dim).length : ℚ) + v1 * ((slab_cells w1 dim).length : ℚ) := by
  unfold global_sum
  simp only [List.zipWith_cons_cons, List.zipWith_nil_right, List.sum_cons, List.sum_nil,
    add_zero]
  rw [slab_sum_const w0 dim (f g0) v0 h0, slab_sum_const w1 dim (f g1) v1 h1]

theorem deep_rank_crossed (s : ℚ) (start : Int) (g0 g : UVBGgrids_type)
    (h : rank_after_loop deep_All (1, start, ⟨fun _ _ => constant_fields 0 1 s, g0⟩) = some g)
    (c : Int × Int × Int) (hc : local_cell 1 deep_All.UVBG_DIM c) :
    xHI_at deep_All.UVBG_DIM g c = 0 := by
  obtain ⟨pre, lr, hp, hafter, hchain, _, _, _⟩ :=
    rank_after_loop_some deep_All (1, start, ⟨fun _ _ => constant_fields 0 1 s, g0⟩)
  rw [hafter, Option.some.injEq] at h
  simp only [rank_passes, toInt32_one] at hp
  simp only [toInt32_one] at hchain
  obtain ⟨rec, rest, hsplit, _, hR, _, _⟩ := deep_first_pass _ 1 _ _ _ hp
  have hx := final_xHI_crossed deep_All _ 1 _ c hc _ pre lr hchain
    ⟨rec, by rw [hsplit]; simp, deep_first_crossed s 1 rec c hc hR⟩
  rw [← h]
  exact hx

theorem deep_rank_neutral (d s : ℚ) (start : Int) (g0 g : UVBGgrids_type)
    (h : rank_after_loop deep_All (1, start, ⟨fun _ _ => constant_fields d 0 s, g0⟩) = some g)
    (c : Int × Int × Int) (hc : local_cell 1 deep_All.UVBG_DIM c) :
    xHI_at deep_All.UVBG_DIM g c = 1 := by
  obtain ⟨pre, lr, hp, hafter, hchain, hlast, _, hflags⟩ :=
    rank_after_loop_some deep_All (1, start, ⟨fun _ _ => constant_fields d 0 s, g0⟩)
  rw [hafter, Option.some.injEq] at h
  simp only [toInt32_one] at hchain
  have hzero : ∀ q, pass_f_coll deep_All (fun _ _ => constant_fields d 0 s) 1 q c = 0 :=
    fun q => pass_f_coll_zero deep_All _ 1 q c hc rfl
  have hx := final_xHI_uncrossed deep_All _ 1 _ c hc _ pre lr hchain
    (init_xHI_one deep_All 1 _ _ c hc) hflags hlast (by
      intro q _
      rw [hzero q]
      exact not_lt.mpr (le_of_lt (one_div_pos.mpr (ReionEfficiency_pos deep_All
        (by norm_num [deep_All, example_All]) (by norm_num [deep_All, example_All])
        (by norm_num [deep_All, example_All])))))
  rw [hzero lr] at hx
  rw [← h]
  unfold xHI_at
  simp only [cell_of] at hx
  rw [hx]
  ring

/-- Witness for C10 on `deep_All` (a box of side 10 on a grid of dimension 2) with
two ranks holding one slab of four cells each: the cells of rank 0 end ionised
(`xHI = 0`, `1 + delta = 1`) and those of rank 1 neutral (`xHI = 1`,
`1 + delta = 2`), and both ranks return `volume_weighted_global_xHI = 4/8` and
`mass_weighted_global_xHI = 8/12`. -/
theorem global_statistics_witness :
    ∃ out, find_HII_bubbles deep_All [1, 1] (assign_slabs [1, 1]) star_ranks = some out ∧
      out.length = 2 ∧
      ([(1 : Int), 1].map (fun w => ((slab_cells w deep_All.UVBG_DIM).length : Int))).sum = 8 ∧
      ∀ g ∈ out, g.volume_weighted_global_xHI = 1 / 2 ∧ g.mass_weighted_global_xHI = 2 / 3 := by
  obtain ⟨out, h1, h2, h3, h4, h5⟩ := global_statistics deep_All [1, 1] star_ranks
    (by decide) (by decide) (by decide) (by decide) rfl
  obtain ⟨after, hout, hrel⟩ := find_HII_bubbles_some deep_All [1, 1] (assign_slabs [1, 1])
    star_ranks
  rw [hout, Option.some.injEq] at h1
  have hz : List.zip [(1 : Int), 1] (List.zip (assign_slabs [1, 1]) star_ranks)
      = [(1, 0, ⟨fun _ _ => constant_fields 0 1 1, constant_grids 0⟩),
         (1, 1, ⟨fun _ _ => constant_fields 1 0 0, constant_grids 0⟩)] := rfl
  rw [hz] at hrel h5
  obtain ⟨a0, a1, rfl⟩ : ∃ a0 a1, after = [a0, a1] := by
    have hl := hrel.length_eq
    match after, hl with
    | [a0, a1], _ => exact ⟨a0, a1, rfl⟩
  subst h1
  have hr0 := (List.forall₂_cons.mp hrel).1.2
  have hr1 := (List.forall₂_cons.mp (List.forall₂_cons.mp hrel).2).1.2
  simp only [List.map_cons, List.map_nil] at h2 h4 h5
  have hd0 := (List.forall₂_cons.mp h5).1
  have hd1 := (List.forall₂_cons.mp (List.forall₂_cons.mp h5).2).1
  have hx0 : ∀ c, local_cell 1 deep_All.UVBG_DIM c →
      xHI_at deep_All.UVBG_DIM (reduce_and_stats deep_All [1, 1] [a0, a1] a0) c = 0 :=
    fun c hc => deep_rank_crossed 1 0 _ a0 hr0 c hc
  have hx1 : ∀ c, local_cell 1 deep_All.UVBG_DIM c →
      xHI_at deep_All.UVBG_DIM (reduce_and_stats deep_All [1, 1] [a0, a1] a1) c = 1 :=
    fun c hc => deep_rank_neutral 1 0 1 _ a1 hr1 c hc
  have hden0 : ∀ c, local_cell 1 deep_All.UVBG_DIM c →
      density_at deep_All.UVBG_DIM (reduce_and_stats deep_All [1, 1] [a0, a1] a0) c = 1 := by
    intro c hc
    rw [hd0 c hc]
    norm_num [constant_fields, FLOAT_REL_TOL]
  have hden1 : ∀ c, local_cell 1 deep_All.UVBG_DIM c →
      density_at deep_All.UVBG_DIM (reduce_and_stats deep_All [1, 1] [a0, a1] a1) c = 2 := by
    intro c hc
    rw [hd1 c hc]
    norm_num [constant_fields, FLOAT_REL_TOL]
  have hlen : ((slab_cells 1 deep_All.UVBG_DIM).length : ℚ) = 4 := by
    have : (slab_cells 1 deep_All.UVBG_DIM).length = 4 := by decide
    rw [this]
    norm_num
  refine ⟨_, hout, h2, h3.trans (by decide), ?_⟩
  intro g hg
  obtain ⟨hv, hm⟩ := h4 g hg
  rw [hv, hm,
    global_sum_pair deep_All.UVBG_DIM 1 1 _ _ (xHI_at deep_All.UVBG_DIM) 0 1 hx0 hx1,
    global_sum_pair deep_All.UVBG_DIM 1 1 _ _
      (fun g c => xHI_at deep_All.UVBG_DIM g c * density_at deep_All.UVBG_DIM g c) 0 2
      (fun c hc => by simp only [hx0 c hc, zero_mul])
      (fun c hc => by simp only [hx1 c hc, hden1 c hc, one_mul]),
    global_sum_pair deep_All.UVBG_DIM 1 1 _ _ (density_at deep_All.UVBG_DIM) 1 2 hden0 hden1,
    hlen]
  have hD : (deep_All.UVBG_DIM : ℚ) = 2 := by norm_num [deep_All, example_All]
  rw [hD]
  norm_num

/-! ## The fully neutral scenario -/

theorem foldl_preserve_mem {σ κ τ : Type} (proj : σ → τ) (body : σ → κ → σ) (cs : List κ)
    (h : ∀ g c, c ∈ cs → proj (body g c) = proj g) (g : σ) :
    proj (cs.foldl body g) = proj g := by
  induction cs generalizing g with
  | nil => rfl
  | cons a t ih =>
    rw [List.foldl_cons, ih (fun g c hc => h g c (List.mem_cons_of_mem a hc)),
      h g a (List.mem_cons_self a t)]

theorem ionize_cell_J21_keep (All : global_data) (f : filtered_fields) (R : ℚ) (last : Bool)
    (start : Int) (g : UVBGgrids_type) (c : Int × Int × Int)
    (h : ¬ f_coll_stars_cell All f R c > 1 / ReionEfficiency All) :
    (ionize_cell All f R last start g c).J21 = g.J21 := by
  simp only [ionize_cell, h, if_false]
  split_ifs <;> rfl

theorem radius_pass_J21_keep (All : global_data) (tr : ℚ → Bool → filtered_fields)
    (n start : Int) (R : ℚ) (last : Bool) (g : UVBGgrids_type)
    (h : ∀ c, local_cell n All.UVBG_DIM c →
      ¬ f_coll_stars_cell All (sanity_checks All.UVBG_DIM n (tr R last)) R c
        > 1 / ReionEfficiency All) :
    (radius_pass All tr n start R last g).J21 = g.J21 := by
  unfold radius_pass
  simp only
  rw [foldl_preserve_mem (fun g => g.J21) _ _ (fun g c hc =>
    ionize_cell_J21_keep All _ R last start g c (h c ((mem_slab_cells n All.UVBG_DIM c).mp hc)))]

theorem neutral_rank (All : global_data) (x : Int × Int × rank_data) (g0 : UVBGgrids_type)
    (heff : 0 < ReionEfficiency All) (hcast : toInt32 x.1 = x.1)
    (hstars : ∀ R flag c, local_cell x.1 All.UVBG_DIM c →
      (x.2.2.transform R flag).stars_slab_filtered
        (grid_index c.1 c.2.1 c.2.2 All.UVBG_DIM index_type.INDEX_PADDED) = 0)
    (hg : rank_after_loop All x = some g0) :
    (∀ c, local_cell x.1 All.UVBG_DIM c →
      xHI_at All.UVBG_DIM g0 c = 1 ∧
      (x.2.2.grids.z_at_ionization
          (grid_index c.1 c.2.1 c.2.2 All.UVBG_DIM index_type.INDEX_REAL) = -999 →
        g0.z_at_ionization
          (grid_index c.1 c.2.1 c.2.2 All.UVBG_DIM index_type.INDEX_REAL) = -999)) ∧
    (∀ ii : Int, 0 ≤ ii ∧ ii < All.UVBG_DIM * All.UVBG_DIM * All.UVBG_DIM → g0.J21 ii = 0) := by
  obtain ⟨pre, lr, _, hlr, hchain, hlast, hR, hflags⟩ := rank_after_loop_some All x
  rw [hlr] at hg
  have hg2 : lr.grids = g0 := Option.some.inj hg
  subst hg2
  rw [hcast] at hchain
  have hinv : 0 < 1 / ReionEfficiency All := one_div_pos.mpr heff
  have hno : ∀ (q : pass_record) (c : Int × Int × Int), local_cell x.1 All.UVBG_DIM c →
      ¬ pass_f_coll All x.2.2.transform x.1 q c > 1 / ReionEfficiency All := by
    intro q c hc
    rw [pass_f_coll_zero All x.2.2.transform x.1 q c hc (hstars _ _ c hc)]
    exact not_lt.mpr (le_of_lt hinv)
  constructor
  · intro c hc
    have hinit := init_xHI_one All x.1 (toInt32 x.2.1) x.2.2.grids c hc
    have hlast1 : (cell_of All (toInt32 x.2.1) lr.grids c).xHI = 1 := by
      rw [final_xHI_uncrossed All x.2.2.transform x.1 (toInt32 x.2.1) c hc _ pre lr hchain hinit
        hflags hlast (fun q _ => hno q c hc),
        pass_f_coll_zero All x.2.2.transform x.1 lr c hc (hstars _ _ c hc)]
      ring
    have hpre1 := (xHI_one_stays All x.2.2.transform x.1 (toInt32 x.2.1) c hc _ pre [lr] hchain
      hinit (fun q hq => ⟨hflags q hq, hno q c hc⟩)).1
    refine ⟨hlast1, ?_⟩
    intro hz
    have hwalk := chain_walk All x.2.2.transform x.1 (toInt32 x.2.1)
      (fun g => (cell_of All (toInt32 x.2.1) g c).z_at_ionization = -999)
      (fun q => ¬ (cell_of All (toInt32 x.2.1) q.grids c).xHI < FLOAT_REL_TOL)
      (by
        intro g q hq hinv2 hok
        have hcell := pass_cell All x.2.2.transform x.1 (toInt32 x.2.1) c hc g q hq
        have hx : ¬ (cell_update All (pass_fields All x.2.2.transform x.1 q) q.R
            q.flag_last_filter_step c (cell_of All (toInt32 x.2.1) g c)).xHI < FLOAT_REL_TOL := by
          rw [← hcell]; exact hok
        rw [hcell]
        simp only [cell_update] at hx ⊢
        rw [if_neg (fun h => hx h.1)]
        exact hinv2)
      (pre ++ [lr]) (init_xHI_J21 All x.1 x.2.2.grids) [] (by simpa using hchain) hz
      (by
        intro q hq
        have hq1 : (cell_of All (toInt32 x.2.1) q.grids c).xHI = 1 := by
          rcases List.mem_append.mp hq with h | h
          · exact hpre1 q h
          · rw [List.mem_singleton.mp h]; exact hlast1
        rw [hq1]
        norm_num [FLOAT_REL_TOL])
    exact hwalk.1 lr (by simp)
  · intro ii hii
    have hwalk := chain_walk All x.2.2.transform x.1 (toInt32 x.2.1)
      (fun g => g.J21 ii = 0) (fun _ => True)
      (by
        intro g q hq hinv2 _
        rw [hq, radius_pass_J21_keep All x.2.2.transform x.1 (toInt32 x.2.1) q.R
          q.flag_last_filter_step g (fun c hc => hno q c hc)]
        exact hinv2)
      (pre ++ [lr]) _ [] (by simpa using hchain)
      (by
        simp only [init_xHI_J21]
        rw [if_pos hii])
      (fun _ _ => trivial)
    exact hwalk.1 lr (by simp)

theorem forall₂_of_zip {α β γ : Type} (P : α → β → γ → Prop) :
    ∀ (m1 : List α) (m2 : List β) (m3 : List γ), m1.length ≤ m2.length →
      List.Forall₂ (fun x c => P x.1 x.2 c) (List.zip m1 m2) m3 →
      List.Forall₂ (fun a c => ∃ b, P a b c) m1 m3 := by
  intro m1
  induction m1 with
  | nil =>
    intro m2 m3 _ hf
    simp only [List.zip_nil_left, List.forall₂_nil_left_iff] at hf
    subst hf
    exact List.Forall₂.nil
  | cons a t ih =>
    intro m2 m3 hl hf
    cases m2 with
    | nil => simp at hl
    | cons b t2 =>
      simp only [List.zip_cons_cons] at hf
      cases hf with
      | cons hhead htail =>
        exact List.Forall₂.cons ⟨b, hhead⟩ (ih t2 _ (by simpa using hl) htail)

theorem forall₂_mem_right {α β : Type} (R : α → β → Prop) (l1 : List α) (l2 : List β)
    (h : List.Forall₂ R l1 l2) : ∀ b ∈ l2, ∃ a, a ∈ l1 ∧ R a b := by
  induction h with
  | nil => simp
  | @cons a b t1 t2 hab _ ih =>
    intro c hc
    rcases List.mem_cons.mp hc with h | h
    · subst h
      exact ⟨a, List.mem_cons_self a t1, hab⟩
    · obtain ⟨a2, ha2, hr⟩ := ih c h
      exact ⟨a2, List.mem_cons_of_mem a ha2, hr⟩

theorem global_sum_le (D : Int) (nix : List Int) (grids : List UVBGgrids_type)
    (f f2 : UVBGgrids_type → Int × Int × Int → ℚ)
    (h : List.Forall₂ (fun w g => ∀ c, local_cell w D c → f g c ≤ f2 g c) nix grids) :
    global_sum D nix grids f ≤ global_sum D nix grids f2 := by
  unfold global_sum
  induction h with
  | nil => simp
  | @cons w g t1 t2 hwg _ ih =>
    simp only [List.zipWith_cons_cons, List.sum_cons]
    have h1 : ((slab_cells w D).map (f g)).sum ≤ ((slab_cells w D).map (f2 g)).sum :=
      List.sum_le_sum (fun c hc => hwg c ((mem_slab_cells w D c).mp hc))
    linarith

theorem global_sum_congr (D : Int) (nix : List Int) (grids : List UVBGgrids_type)
    (f f2 : UVBGgrids_type → Int × Int × Int → ℚ)
    (h : List.Forall₂ (fun w g => ∀ c, local_cell w D c → f g c = f2 g c) nix grids) :
    global_sum D nix grids f = global_sum D nix grids f2 :=
  le_antisymm
    (global_sum_le D nix grids f f2 (List.Forall₂.imp (fun _ _ hw c hc => le_of_eq (hw c hc)) h))
    (global_sum_le D nix grids f2 f (List.Forall₂.imp (fun _ _ hw c hc => ge_of_eq (hw c hc)) h))

theorem global_sum_const (D : Int) (nix : List Int) (grids : List UVBGgrids_type) (k : ℚ)
    (h : nix.length = grids.length) :
    global_sum D nix grids (fun _ _ => k)
      = k * (((nix.map (fun w => ((slab_cells w D).length : Int))).sum : Int) : ℚ) := by
  unfold global_sum
  induction nix generalizing grids with
  | nil => simp
  | cons w t ih =>
    cases grids with
    | nil => simp at h
    | cons g t2 =>
      simp only [List.zipWith_cons_cons, List.sum_cons, List.map_cons]
      rw [ih t2 (by simpa using h)]
      simp only [List.map_const', List.sum_replicate, smul_eq_mul]
      push_cast
      ring

/-- C9: for slab widths that are non-negative and sum to `D` (a grid dimension
`D ≥ 1` whose `int` index products do not overflow), one rank per slab,
`Omega0 * RhoCrit > 0` with a critical density `RhoCrit > 0`, `OmegaBaryon > 0`,
`BoxSize > 0`, a hydrogen mass fraction `≥ 0`, and a stellar-mass field returned
as zero in every element on every pass of every rank, `find_HII_bubbles` returns;
every local cell of every rank has `xHI = 1` and keeps the `z_at_ionization = -999`
that `malloc_grids` gave it; on every rank every `J21` entry of the grid is 0 and
both `volume_weighted_global_xHI` and `mass_weighted_global_xHI` are 1. -/
theorem fully_neutral (All : global_data) (nix : List Int) (ranks : List rank_data)
    (hD1 : 1 ≤ All.UVBG_DIM)
    (hD : 2 * (All.UVBG_DIM / 2 + 1) * (All.UVBG_DIM * All.UVBG_DIM) < 2 ^ 31)
    (hpos : ∀ w ∈ nix, 0 ≤ w)
    (hsum : nix.sum = All.UVBG_DIM) (hranks : ranks.length = nix.length)
    (hOR : 0 < All.Omega0 * All.RhoCrit) (hRho : 0 < All.RhoCrit)
    (hb : 0 < All.OmegaBaryon) (_ : 0 < All.BoxSize) (hX0 : 0 ≤ All.HYDROGEN_MASSFRAC)
    (hstars : ∀ rk ∈ ranks, ∀ R flag i, (rk.transform R flag).stars_slab_filtered i = 0) :
    ∃ out, find_HII_bubbles All nix (assign_slabs nix) ranks = some out ∧
      out.length = nix.length ∧
      List.Forall₂
        (fun x g => ∀ c, local_cell x.1 All.UVBG_DIM c →
          xHI_at All.UVBG_DIM g c = 1 ∧
          (x.2.2.grids.z_at_ionization
              (grid_index c.1 c.2.1 c.2.2 All.UVBG_DIM index_type.INDEX_REAL) = -999 →
            g.z_at_ionization
              (grid_index c.1 c.2.1 c.2.2 All.UVBG_DIM index_type.INDEX_REAL) = -999))
        (List.zip nix (List.zip (assign_slabs nix) ranks)) out ∧
      ∀ g ∈ out,
        (∀ ii : Int, 0 ≤ ii ∧ ii < All.UVBG_DIM * All.UVBG_DIM * All.UVBG_DIM → g.J21 ii = 0) ∧
        g.volume_weighted_global_xHI = 1 ∧ g.mass_weighted_global_xHI = 1 := by
  have hn : 1 ≤ nix.length := by
    rcases Nat.eq_zero_or_pos nix.length with hz | hp
    · rw [List.length_eq_zero] at hz
      subst hz
      simp at hsum
      omega
    · exact hp
  have h0 : 0 < All.Omega0 := by
    by_contra h
    push_neg at h
    nlinarith
  have heff := ReionEfficiency_pos All h0 hb hX0
  have hcast := width_int32 nix All.UVBG_DIM hpos hsum
    (dim_int_range All.UVBG_DIM hD1 hD)
  obtain ⟨after, hout, hrel⟩ := find_HII_bubbles_some All nix (assign_slabs nix) ranks
  have hlen : after.length = nix.length := by
    rw [← hrel.length_eq, zip_length_layout nix ranks hn hranks]
  have hfacts : ∀ x g0, x ∈ List.zip nix (List.zip (assign_slabs nix) ranks) →
      rank_after_loop All x = some g0 →
      (∀ c, local_cell x.1 All.UVBG_DIM c →
        xHI_at All.UVBG_DIM g0 c = 1 ∧
        (x.2.2.grids.z_at_ionization
            (grid_index c.1 c.2.1 c.2.2 All.UVBG_DIM index_type.INDEX_REAL) = -999 →
          g0.z_at_ionization
            (grid_index c.1 c.2.1 c.2.2 All.UVBG_DIM index_type.INDEX_REAL) = -999)) ∧
      (∀ ii : Int, 0 ≤ ii ∧ ii < All.UVBG_DIM * All.UVBG_DIM * All.UVBG_DIM → g0.J21 ii = 0) ∧
      (∀ c, local_cell x.1 All.UVBG_DIM c → FLOAT_REL_TOL ≤ density_at All.UVBG_DIM g0 c) := by
    intro x g0 hx hg0
    have hx1 := List.of_mem_zip (show (x.1, x.2) ∈ _ from hx)
    have hx2 := List.of_mem_zip (show (x.2.1, x.2.2) ∈ _ from hx1.2)
    have hnr := neutral_rank All x g0 heff (hcast x.1 hx1.1)
      (fun R flag c _ => hstars x.2.2 hx2.2 R flag _) hg0
    refine ⟨hnr.1, hnr.2, ?_⟩
    intro c hc
    rw [final_density All x g0 (hcast x.1 hx1.1) hg0 c hc]
    have := le_max_right
      ((x.2.2.transform (cell_length_factor All * All.BoxSize / (All.UVBG_DIM : ℚ))
        true).deltax_filtered
        (grid_index c.1 c.2.1 c.2.2 All.UVBG_DIM index_type.INDEX_PADDED))
      (-1 + FLOAT_REL_TOL)
    linarith
  have hrel2 : List.Forall₂
      (fun w g => ∀ c, local_cell w All.UVBG_DIM c →
        xHI_at All.UVBG_DIM g c = 1 ∧ FLOAT_REL_TOL ≤ density_at All.UVBG_DIM g c)
      nix (after.map (reduce_and_stats All nix after)) := by
    rw [List.forall₂_map_right_iff]
    have h1 := forall₂_of_zip
      (fun (w : Int) (b : Int × rank_data) (g0 : UVBGgrids_type) =>
        (w, b) ∈ List.zip nix (List.zip (assign_slabs nix) ranks) ∧
          rank_after_loop All (w, b) = some g0)
      nix (List.zip (assign_slabs nix) ranks) after
      (by simp [List.length_zip, assign_slabs_length nix hn, hranks])
      (List.Forall₂.imp (fun _ _ h => h) hrel)
    refine List.Forall₂.imp ?_ h1
    rintro w g0 ⟨b, hmem, hg0⟩ c hc
    exact ⟨((hfacts (w, b) g0 hmem hg0).1 c hc).1, (hfacts (w, b) g0 hmem hg0).2.2 c hc⟩
  have hcount : (((nix.map (fun w => ((slab_cells w All.UVBG_DIM).length : Int))).sum : Int) : ℚ)
      = (All.UVBG_DIM : ℚ) ^ 3 := by
    rw [cell_count nix All.UVBG_DIM hpos (by omega), hsum]
    push_cast
    ring
  have hDq : (0 : ℚ) < (All.UVBG_DIM : ℚ) := by exact_mod_cast (by omega : (0 : Int) < All.UVBG_DIM)
  have hlen2 : nix.length = (after.map (reduce_and_stats All nix after)).length := by
    rw [List.length_map, hlen]
  refine ⟨_, hout, by rw [List.length_map, hlen], ?_, ?_⟩
  · rw [List.forall₂_map_right_iff]
    refine List.Forall₂.imp ?_ hrel
    rintro x g0 ⟨hx, hg0⟩ c hc
    exact (hfacts x g0 hx hg0).1 c hc
  · intro g hg
    obtain ⟨g0, _, rfl⟩ := List.mem_map.mp hg
    have hvals := reduce_and_stats_values All nix after hcast g0
    refine ⟨?_, ?_, ?_⟩
    · intro ii hii
      simp only [reduce_and_stats, MPI_Reduce_sum]
      rw [if_pos hii]
      apply List.sum_eq_zero
      intro v hv
      simp only [List.map_map, List.mem_map, Function.comp_apply] at hv
      obtain ⟨g1, hg1, rfl⟩ := hv
      obtain ⟨x, hx, _, hxg⟩ := forall₂_mem_right _ _ _ hrel g1 hg1
      exact (hfacts x g1 hx hxg).2.1 ii hii
    · rw [hvals.1, global_sum_congr All.UVBG_DIM nix _ (xHI_at All.UVBG_DIM) (fun _ _ => 1)
        (List.Forall₂.imp (fun _ _ hw c hc => (hw c hc).1) hrel2),
        global_sum_const All.UVBG_DIM nix _ 1 hlen2, hcount]
      field_simp
    · rw [hvals.2, global_sum_congr All.UVBG_DIM nix _
        (fun g c => xHI_at All.UVBG_DIM g c * density_at All.UVBG_DIM g c)
        (density_at All.UVBG_DIM)
        (List.Forall₂.imp (fun _ _ hw c hc => by simp only [(hw c hc).1, one_mul]) hrel2)]
      have hlow := global_sum_le All.UVBG_DIM nix _ (fun _ _ => FLOAT_REL_TOL)
        (density_at All.UVBG_DIM)
        (List.Forall₂.imp (fun _ _ hw c hc => (hw c hc).2) hrel2)
      rw [global_sum_const All.UVBG_DIM nix _ FLOAT_REL_TOL hlen2, hcount] at hlow
      have hpos2 : 0 < FLOAT_REL_TOL * (All.UVBG_DIM : ℚ) ^ 3 :=
        mul_pos FLOAT_REL_TOL_pos (by positivity)
      exact div_self (ne_of_gt (lt_of_lt_of_le hpos2 hlow))

/-- Witness for C9 on `deep_All` (a box of side 10 on a grid of dimension 2, eight
radius passes) with two ranks holding one slab each, zero fields and the sentinel
in every element of the grids. -/
theorem fully_neutral_witness :
    ∃ out, find_HII_bubbles deep_All [1, 1] (assign_slabs [1, 1])
        [⟨fun _ _ => constant_fields 0 0 0, constant_grids (-999)⟩,
          ⟨fun _ _ => constant_fields 0 0 0, constant_grids (-999)⟩] = some out ∧
      out.length = 2 ∧
      ∀ g ∈ out, (∀ ii : Int, 0 ≤ ii ∧ ii < 8 → g.J21 ii = 0) ∧
        g.volume_weighted_global_xHI = 1 ∧ g.mass_weighted_global_xHI = 1 := by
  obtain ⟨out, h1, h2, _, h4⟩ := fully_neutral deep_All [1, 1]
    [⟨fun _ _ => constant_fields 0 0 0, constant_grids (-999)⟩,
      ⟨fun _ _ => constant_fields 0 0 0, constant_grids (-999)⟩]
    (by norm_num [deep_All, example_All]) (by decide) (by decide)
    (by simp [deep_All, example_All]) (by simp) (by norm_num [deep_All, example_All])
    (by norm_num [deep_All, example_All]) (by norm_num [deep_All, example_All])
    (by norm_num [deep_All, example_All]) (by norm_num [deep_All, example_All])
    (by
      intro rk hrk R flag i
      simp only [List.mem_cons, List.mem_singleton, List.not_mem_nil, or_false, or_self] at hrk
      subst hrk
      rfl)
  exact ⟨out, h1, h2, h4⟩

/-! ## One rank holding the whole grid -/

theorem single_rank_call (All : global_data) (rk : rank_data) :
    ∃ pre lr, find_HII_bubbles All [1] (assign_slabs [1]) [rk]
        = some [reduce_and_stats All [1] [lr.grids] lr.grids] ∧
      pass_chain All rk.transform 1 0 (init_xHI_J21 All 1 rk.grids) (pre ++ [lr]) ∧
      lr.flag_last_filter_step = true ∧
      lr.R = cell_length_factor All * All.BoxSize / (All.UVBG_DIM : ℚ) ∧
      ∀ q ∈ pre, q.flag_last_filter_step = false := by
  obtain ⟨pre, lr, _, hlr, hchain, hlast, hR, hflags⟩ := rank_after_loop_some All (1, 0, rk)
  simp only [toInt32_one, toInt32_zero] at hchain
  refine ⟨pre, lr, ?_, hchain, hlast, hR, hflags⟩
  have hz : List.zip [(1 : Int)] (List.zip (assign_slabs [1]) [rk]) = [(1, 0, rk)] := rfl
  simp only [find_HII_bubbles, hz, for_each, hlr, List.map_cons, List.map_nil]

theorem origin_local (All : global_data) (hD : All.UVBG_DIM = 1) :
    local_cell 1 All.UVBG_DIM (0, 0, 0) := by
  rw [hD]
  simp [local_cell]

/-! ## Two consecutive calls of `calculate_uvbg` on given scratch buffers -/

theorem final_z_of_ionized (All : global_data) (tr : ℚ → Bool → filtered_fields)
    (n start : Int) (c : Int × Int × Int) (hc : local_cell n All.UVBG_DIM c)
    (hz : 0 ≤ redshift All) (g : UVBGgrids_type) (pre : List pass_record) (lr : pass_record)
    (hchain : pass_chain All tr n start g (pre ++ [lr]))
    (hinit : (cell_of All start g c).z_at_ionization = -999)
    (hx : (cell_of All start lr.grids c).xHI < FLOAT_REL_TOL) :
    (cell_of All start lr.grids c).z_at_ionization = redshift All := by
  obtain ⟨_, g2, hchain2, hinv2⟩ := chain_walk All tr n start
    (fun g => (cell_of All start g c).z_at_ionization = -999 ∨
      (cell_of All start g c).z_at_ionization = redshift All)
    (fun _ => True)
    (by
      intro g q hq hinv _
      rw [pass_cell All tr n start c hc g q hq]
      simp only [cell_update]
      split_ifs
      · exact Or.inr rfl
      · exact hinv)
    pre g [lr] hchain (Or.inl hinit) (fun _ _ => trivial)
  have hcell := pass_cell All tr n start c hc g2 lr hchain2.1
  have hx2 : (cell_update All (pass_fields All tr n lr) lr.R lr.flag_last_filter_step c
      (cell_of All start g2 c)).xHI < FLOAT_REL_TOL := by
    rw [← hcell]; exact hx
  rw [hcell]
  simp only [cell_update] at hx2 ⊢
  rcases hinv2 with h | h
  · rw [if_pos ⟨hx2, by rw [h]; norm_num⟩]
  · rw [if_neg (fun hcon => absurd hcon.2 (by rw [h]; exact not_lt.mpr hz))]
    exact h

theorem ionized_call (All : global_data) (tr : ℚ → Bool → filtered_fields)
    (g_prev : UVBGgrids_type) (hD : All.UVBG_DIM = 1) (ha0 : 0 < All.Time)
    (ha1 : All.Time ≤ 1)
    (hcross : f_coll_stars_cell All
        (sanity_checks All.UVBG_DIM 1
          (tr (cell_length_factor All * All.BoxSize / (All.UVBG_DIM : ℚ)) true))
        (cell_length_factor All * All.BoxSize / (All.UVBG_DIM : ℚ)) (0, 0, 0)
      > 1 / ReionEfficiency All) :
    ∃ g, calculate_uvbg All [1] [⟨tr, g_prev⟩] = some [g] ∧
      g.z_at_ionization 0 = redshift All := by
  obtain ⟨pre, lr, hout, hchain, hlast, hR, _⟩ := single_rank_call All
    ⟨tr, malloc_grids All 1 g_prev⟩
  have hc := origin_local All hD
  refine ⟨_, hout, ?_⟩
  have hcross2 : pass_f_coll All tr 1 lr (0, 0, 0) > 1 / ReionEfficiency All := by
    unfold pass_f_coll pass_fields
    rw [hlast, hR]
    exact hcross
  have hx0 := final_xHI_crossed All tr 1 0 (0, 0, 0) hc _ pre lr hchain
    ⟨lr, by simp, hcross2⟩
  have hfinal := final_z_of_ionized All tr 1 0 (0, 0, 0) hc (redshift_nonneg All ha0 ha1) _ pre lr
    hchain (malloc_sentinel All 1 0 g_prev (0, 0, 0) hc).1
    (by rw [hx0]; exact FLOAT_REL_TOL_pos)
  have hidx : grid_index 0 0 0 All.UVBG_DIM index_type.INDEX_REAL = 0 := by
    simp [grid_index]
  simp only [cell_of, hidx] at hfinal
  exact hfinal

theorem example_crossing (All : global_data) (hD : All.UVBG_DIM = 1) (hbox : All.BoxSize = 1)
    (h0 : All.Omega0 = 1) (hb : All.OmegaBaryon = 1) (hr : All.RhoCrit = 1)
    (hX : All.HYDROGEN_MASSFRAC = 0.76) :
    f_coll_stars_cell All
        (sanity_checks All.UVBG_DIM 1
          ((fun _ _ => constant_fields 0 1 0)
            (cell_length_factor All * All.BoxSize / (All.UVBG_DIM : ℚ)) true))
        (cell_length_factor All * All.BoxSize / (All.UVBG_DIM : ℚ)) (0, 0, 0)
      > 1 / ReionEfficiency All := by
  have hc := origin_local All hD
  unfold f_coll_stars_cell density_over_mean_cell
  rw [(sanity_checks_cell All.UVBG_DIM 1 _ (0, 0, 0) hc).1,
    (sanity_checks_cell All.UVBG_DIM 1 _ (0, 0, 0) hc).2]
  norm_num [constant_fields, RtoM, M_PI, pixel_volume, cell_length_factor, FLOAT_REL_TOL,
    ReionEfficiency, ReionNionPhotPerBary, hD, hbox, h0, hb, hr, hX]

/-- The passes of `calculate_uvbg` on scratch buffers that hold stellar mass above
the ionisation threshold, a content that `populate_grids` does not produce (it
leaves the stellar mass slab at 0, see `calculate_uvbg_populated_neutral`): on one
rank holding a grid of dimension 1, the call at scale factor 1/2 ends with
`z_at_ionization = 1` in the cell; the next call, at scale factor 1 on the grids
left by the first, ends with `z_at_ionization = 0` in the same cell, because
`malloc_grids` sets the entry to -999 before the passes. -/
theorem history_overwritten :
    ∃ g1 g2,
      calculate_uvbg example_All [1] [⟨fun _ _ => constant_fields 0 1 0, constant_grids 0⟩]
        = some [g1] ∧
      g1.z_at_ionization 0 = 1 ∧
      calculate_uvbg later_All [1] [⟨fun _ _ => constant_fields 0 1 0, g1⟩] = some [g2] ∧
      g2.z_at_ionization 0 = 0 := by
  obtain ⟨g1, h1, hz1⟩ := ionized_call example_All (fun _ _ => constant_fields 0 1 0)
    (constant_grids 0) rfl (by norm_num [example_All]) (by norm_num [example_All])
    (example_crossing example_All rfl rfl rfl rfl rfl rfl)
  obtain ⟨g2, h2, hz2⟩ := ionized_call later_All (fun _ _ => constant_fields 0 1 0)
    g1 rfl (by norm_num [later_All, example_All]) (by norm_num [later_All, example_All])
    (example_crossing later_All rfl rfl rfl rfl rfl rfl)
  refine ⟨g1, g2, h1, ?_, h2, ?_⟩
  · rw [hz1]
    norm_num [redshift, example_All]
  · rw [hz2]
    norm_num [redshift, later_All, example_All]

/-! ## The three layouts of `grid_index` -/

theorem stride_bounds (S a b N : Int) (hb0 : 0 ≤ b) (hb1 : b < S) (ha0 : 0 ≤ a) (ha1 : a < N) :
    0 ≤ b + S * a ∧ b + S * a < S * N := by
  have hS : 0 ≤ S := by omega
  have h1 : 0 ≤ S * a := mul_nonneg hS ha0
  have h2 : S * (a + 1) ≤ S * N := mul_le_mul_of_nonneg_left (by omega) hS
  rw [mul_add, mul_one] at h2
  omega

theorem stride_split (S m N : Int) (hS : 0 < S) (hm0 : 0 ≤ m) (hm1 : m < S * N) :
    ∃ a b, (0 ≤ a ∧ a < N) ∧ (0 ≤ b ∧ b < S) ∧ b + S * a = m := by
  refine ⟨m / S, m % S, ⟨Int.ediv_nonneg hm0 hS.le, ?_⟩,
    ⟨Int.emod_nonneg m hS.ne', Int.emod_lt_of_pos m hS⟩, Int.emod_add_ediv m S⟩
  exact Int.ediv_lt_of_lt_mul hS (by rw [mul_comm]; exact hm1)

theorem layout_bounds (S K dim n i j k : Int) (hK : K ≤ S) (hi0 : 0 ≤ i) (hi1 : i < n)
    (hj0 : 0 ≤ j) (hj1 : j < dim) (hk0 : 0 ≤ k) (hk1 : k < K) :
    0 ≤ k + S * (j + dim * i) ∧ k + S * (j + dim * i) < S * (dim * n) := by
  obtain ⟨h1, h2⟩ := stride_bounds dim i j n hj0 hj1 hi0 hi1
  exact stride_bounds S (j + dim * i) k (dim * n) hk0 (by omega) h1 h2

theorem layout_onto (S dim n m : Int) (hS : 0 < S) (hdim : 0 < dim) (hm0 : 0 ≤ m)
    (hm1 : m < S * (dim * n)) :
    ∃ i j k, (0 ≤ i ∧ i < n) ∧ (0 ≤ j ∧ j < dim) ∧ (0 ≤ k ∧ k < S) ∧
      k + S * (j + dim * i) = m := by
  obtain ⟨a, k, ha, hk, hm⟩ := stride_split S m (dim * n) hS hm0 hm1
  obtain ⟨i, j, hi, hj, hij⟩ := stride_split dim a n hdim ha.1 ha.2
  exact ⟨i, j, k, hi, hj, hk, by rw [hij]; exact hm⟩

theorem layout_inj (S dim i j k i2 j2 k2 : Int) (hj0 : 0 ≤ j) (hj1 : j < dim)
    (hk0 : 0 ≤ k) (hk1 : k < S) (hj2 : 0 ≤ j2) (hj3 : j2 < dim) (hk2 : 0 ≤ k2) (hk3 : k2 < S)
    (h : k + S * (j + dim * i) = k2 + S * (j2 + dim * i2)) : i = i2 ∧ j = j2 ∧ k = k2 := by
  obtain ⟨h1, h2⟩ := stride_inj S _ k _ k2 hk0 hk1 hk2 hk3 h
  obtain ⟨h3, h4⟩ := stride_inj dim _ j _ j2 hj0 hj1 hj2 hj3 h1
  exact ⟨h3, h4, h2⟩

/-- C20: for `dim >= 1` and slab width `n >= 1`, `grid_index` with `INDEX_REAL` maps
`[0,n) x [0,dim) x [0,dim)` one-to-one onto `[0, n*dim^2)`; with `INDEX_COMPLEX_HERM`
it maps `[0,n) x [0,dim) x [0,dim/2]` one-to-one onto `[0, n*dim*(dim/2+1))`; with
`INDEX_PADDED` it maps `[0,n) x [0,dim) x [0,dim)` one-to-one into
`[0, 2*n*dim*(dim/2+1))`, and `padded(i,j,k) = 2*herm(i,j,0) + k`. -/
theorem grid_index_layouts (dim n : Int) (hdim : 1 ≤ dim) (_ : 1 ≤ n) :
    (∀ i j k, 0 ≤ i ∧ i < n → 0 ≤ j ∧ j < dim → 0 ≤ k ∧ k < dim →
      (0 ≤ grid_index i j k dim index_type.INDEX_REAL ∧
        grid_index i j k dim index_type.INDEX_REAL < n * dim ^ 2) ∧
      ∀ i2 j2 k2, 0 ≤ i2 ∧ i2 < n → 0 ≤ j2 ∧ j2 < dim → 0 ≤ k2 ∧ k2 < dim →
        grid_index i j k dim index_type.INDEX_REAL
          = grid_index i2 j2 k2 dim index_type.INDEX_REAL →
        i = i2 ∧ j = j2 ∧ k = k2) ∧
    (∀ m, 0 ≤ m ∧ m < n * dim ^ 2 →
      ∃ i j k, (0 ≤ i ∧ i < n) ∧ (0 ≤ j ∧ j < dim) ∧ (0 ≤ k ∧ k < dim) ∧
        grid_index i j k dim index_type.INDEX_REAL = m) ∧
    (∀ i j k, 0 ≤ i ∧ i < n → 0 ≤ j ∧ j < dim → 0 ≤ k ∧ k ≤ dim / 2 →
      (0 ≤ grid_index i j k dim index_type.INDEX_COMPLEX_HERM ∧
        grid_index i j k dim index_type.INDEX_COMPLEX_HERM < n * dim * (dim / 2 + 1)) ∧
      ∀ i2 j2 k2, 0 ≤ i2 ∧ i2 < n → 0 ≤ j2 ∧ j2 < dim → 0 ≤ k2 ∧ k2 ≤ dim / 2 →
        grid_index i j k dim index_type.INDEX_COMPLEX_HERM
          = grid_index i2 j2 k2 dim index_type.INDEX_COMPLEX_HERM →
        i = i2 ∧ j = j2 ∧ k = k2) ∧
    (∀ m, 0 ≤ m ∧ m < n * dim * (dim / 2 + 1) →
      ∃ i j k, (0 ≤ i ∧ i < n) ∧ (0 ≤ j ∧ j < dim) ∧ (0 ≤ k ∧ k ≤ dim / 2) ∧
        grid_index i j k dim index_type.INDEX_COMPLEX_HERM = m) ∧
    (∀ i j k, 0 ≤ i ∧ i < n → 0 ≤ j ∧ j < dim → 0 ≤ k ∧ k < dim →
      (0 ≤ grid_index i j k dim index_type.INDEX_PADDED ∧
        grid_index i j k dim index_type.INDEX_PADDED < 2 * n * dim * (dim / 2 + 1)) ∧
      grid_index i j k dim index_type.INDEX_PADDED
        = 2 * grid_index i j 0 dim index_type.INDEX_COMPLEX_HERM + k ∧
      ∀ i2 j2 k2, 0 ≤ i2 ∧ i2 < n → 0 ≤ j2 ∧ j2 < dim → 0 ≤ k2 ∧ k2 < dim →
        grid_index i j k dim index_type.INDEX_PADDED
          = grid_index i2 j2 k2 dim index_type.INDEX_PADDED →
        i = i2 ∧ j = j2 ∧ k = k2) := by
  have hdiv : Int.tdiv dim 2 = dim / 2 := Int.tdiv_eq_ediv (by omega) (by omega)
  have hhalf : 0 ≤ dim / 2 := by omega
  simp only [grid_index, hdiv]
  refine ⟨?_, ?_, ?_, ?_, ?_⟩
  · intro i j k hi hj hk
    refine ⟨?_, ?_⟩
    · have h := layout_bounds dim dim dim n i j k le_rfl hi.1 hi.2 hj.1 hj.2 hk.1 hk.2
      have e : n * dim ^ 2 = dim * (dim * n) := by ring
      rw [e]
      exact h
    · intro i2 j2 k2 _ hj2 hk2 h
      exact layout_inj dim dim i j k i2 j2 k2 hj.1 hj.2 hk.1 hk.2 hj2.1 hj2.2 hk2.1 hk2.2 h
  · intro m hm
    have e : n * dim ^ 2 = dim * (dim * n) := by ring
    rw [e] at hm
    exact layout_onto dim dim n m (by omega) (by omega) hm.1 hm.2
  · intro i j k hi hj hk
    refine ⟨?_, ?_⟩
    · have h := layout_bounds (dim / 2 + 1) (dim / 2 + 1) dim n i j k le_rfl hi.1 hi.2 hj.1 hj.2
        hk.1 (by omega)
      have e : n * dim * (dim / 2 + 1) = (dim / 2 + 1) * (dim * n) := by ring
      rw [e]
      exact h
    · intro i2 j2 k2 _ hj2 hk2 h
      exact layout_inj (dim / 2 + 1) dim i j k i2 j2 k2 hj.1 hj.2 hk.1 (by omega) hj2.1 hj2.2
        hk2.1 (by omega) h
  · intro m hm
    have e : n * dim * (dim / 2 + 1) = (dim / 2 + 1) * (dim * n) := by ring
    rw [e] at hm
    obtain ⟨i, j, k, hi, hj, hk, h⟩ :=
      layout_onto (dim / 2 + 1) dim n m (by omega) (by omega) hm.1 hm.2
    exact ⟨i, j, k, hi, hj, ⟨hk.1, by omega⟩, h⟩
  · intro i j k hi hj hk
    refine ⟨?_, ?_, ?_⟩
    · have h := layout_bounds (2 * (dim / 2 + 1)) dim dim n i j k (by omega) hi.1 hi.2 hj.1 hj.2
        hk.1 hk.2
      have e : 2 * n * dim * (dim / 2 + 1) = 2 * (dim / 2 + 1) * (dim * n) := by ring
      rw [e]
      exact h
    · ring
    · intro i2 j2 k2 _ hj2 hk2 h
      exact layout_inj (2 * (dim / 2 + 1)) dim i j k i2 j2 k2 hj.1 hj.2 hk.1 (by omega) hj2.1
        hj2.2 hk2.1 (by omega) h

theorem grid_index_layouts_witness :
    grid_index 1 2 3 4 index_type.INDEX_REAL = 27 ∧
    (∃ i j k, (0 ≤ i ∧ i < 2) ∧ (0 ≤ j ∧ j < 4) ∧ (0 ≤ k ∧ k ≤ (4 : Int) / 2) ∧
      grid_index i j k 4 index_type.INDEX_COMPLEX_HERM = 23) ∧
    grid_index 1 2 3 4 index_type.INDEX_PADDED
      = 2 * grid_index 1 2 0 4 index_type.INDEX_COMPLEX_HERM + 3 :=
  ⟨by decide,
    (grid_index_layouts 4 2 (by decide) (by decide)).2.2.2.1 23 (by decide),
    ((grid_index_layouts 4 2 (by decide) (by decide)).2.2.2.2 1 2 3 (by decide) (by decide)
      (by decide)).2.1⟩

/-! ## The collapsed fraction -/

/-- C18: for `R > 0`, `pixel_volume > 0`, `Omega0 * RhoCrit > 0` and `1 + delta > 0`,
`f_coll_stars` of a cell is `stars_filtered / (RtoM(R) * (1 + delta)) * (4/3) * pi * R^3
/ pixel_volume` with `RtoM(R) = (4/3) * pi * R^3 * Omega0 * RhoCrit`, and so equals
`stars_filtered / ((1 + delta) * Omega0 * RhoCrit * pixel_volume)`, whatever `R` is. -/
theorem f_coll_stars_closed_form (All : global_data) (f : filtered_fields) (R : ℚ)
    (c : Int × Int × Int) (hR : 0 < R) (hpv : 0 < pixel_volume All)
    (hrho : 0 < All.Omega0 * All.RhoCrit)
    (hdelta : 0 < 1 + f.deltax_filtered
      (grid_index c.1 c.2.1 c.2.2 All.UVBG_DIM index_type.INDEX_PADDED)) :
    f_coll_stars_cell All f R c
      = f.stars_slab_filtered
            (grid_index c.1 c.2.1 c.2.2 All.UVBG_DIM index_type.INDEX_PADDED)
          / (RtoM All R * (1 + f.deltax_filtered
              (grid_index c.1 c.2.1 c.2.2 All.UVBG_DIM index_type.INDEX_PADDED)))
          * (4 / 3) * M_PI * R ^ 3 / pixel_volume All ∧
    RtoM All R = (4 / 3) * M_PI * R ^ 3 * All.Omega0 * All.RhoCrit ∧
    f_coll_stars_cell All f R c
      = f.stars_slab_filtered
            (grid_index c.1 c.2.1 c.2.2 All.UVBG_DIM index_type.INDEX_PADDED)
          / ((1 + f.deltax_filtered
              (grid_index c.1 c.2.1 c.2.2 All.UVBG_DIM index_type.INDEX_PADDED))
            * All.Omega0 * All.RhoCrit * pixel_volume All) := by
  have hpi : M_PI ≠ 0 := (M_PI_pos).ne'
  have hR0 : R ≠ 0 := hR.ne'
  have hpv0 : pixel_volume All ≠ 0 := hpv.ne'
  have hd0 := hdelta.ne'
  have hO : All.Omega0 ≠ 0 := left_ne_zero_of_mul hrho.ne'
  have hC : All.RhoCrit ≠ 0 := right_ne_zero_of_mul hrho.ne'
  refine ⟨rfl, by unfold RtoM; ring, ?_⟩
  unfold f_coll_stars_cell RtoM density_over_mean_cell
  field_simp
  ring

theorem f_coll_stars_closed_form_witness :
    f_coll_stars_cell example_All (constant_fields 1 3 0) 2 (0, 0, 0) = 3 / 2 ∧
    f_coll_stars_cell example_All (constant_fields 1 3 0) 5 (0, 0, 0) = 3 / 2 := by
  have h2 := (f_coll_stars_closed_form example_All (constant_fields 1 3 0) 2 (0, 0, 0)
    (by norm_num) (by norm_num [pixel_volume, example_All]) (by norm_num [example_All])
    (by norm_num [constant_fields])).2.2
  have h5 := (f_coll_stars_closed_form example_All (constant_fields 1 3 0) 5 (0, 0, 0)
    (by norm_num) (by norm_num [pixel_volume, example_All]) (by norm_num [example_All])
    (by norm_num [constant_fields])).2.2
  rw [h2, h5]
  norm_num [constant_fields, example_All, pixel_volume]

/-! ## The radius schedule and the stop rule -/

theorem schedule_radius_eq (All : global_data) (k : Nat) :
    schedule_radius All k = R_start All / ReionDeltaRFactor ^ k := by
  induction k with
  | zero => simp [schedule_radius]
  | succ k ih =>
    rw [schedule_radius, ih, div_div, pow_succ]

theorem radius_loop_schedule (All : global_data) (tr : ℚ → Bool → filtered_fields)
    (n start : Int) (fuel : Nat) (R : ℚ) (g : UVBGgrids_type) (passes : List pass_record)
    (h : radius_loop All tr n start fuel R g = some passes) :
    ∃ pre lr, passes = pre ++ [lr] ∧ pre.length + 1 ≤ fuel ∧
      (∀ k q, pre[k]? = some q →
        q.R = R / ReionDeltaRFactor ^ k ∧ q.flag_last_filter_step = false ∧
        max ReionRBubbleMin (cell_radius All) < R / ReionDeltaRFactor ^ k / ReionDeltaRFactor) ∧
      lr.flag_last_filter_step = true ∧ lr.R = cell_radius All ∧
      R / ReionDeltaRFactor ^ pre.length / ReionDeltaRFactor
        ≤ max ReionRBubbleMin (cell_radius All) := by
  induction fuel generalizing R g passes with
  | zero => simp [radius_loop] at h
  | succ fuel ih =>
    simp only [radius_loop] at h
    generalize hfl : decide (R / ReionDeltaRFactor
        ≤ cell_length_factor All * All.BoxSize / (All.UVBG_DIM : ℚ) ∨
      R / ReionDeltaRFactor ≤ ReionRBubbleMin) = flag at h
    cases flag with
    | true =>
      simp only [if_true, Option.some.injEq] at h
      subst h
      simp only [decide_eq_true_eq] at hfl
      refine ⟨[], _, rfl, by simp, by simp, rfl, rfl, ?_⟩
      simp only [List.length_nil, pow_zero, div_one, le_max_iff, cell_radius]
      tauto
    | false =>
      simp only [Bool.false_eq_true, if_false] at h
      simp only [decide_eq_false_iff_not, not_or, not_le] at hfl
      cases hrest : radius_loop All tr n start fuel (R / ReionDeltaRFactor)
          (radius_pass All tr n start R false g) with
      | none => simp [hrest] at h
      | some rest =>
        simp only [hrest, Option.some.injEq] at h
        subst h
        obtain ⟨pre, lr, hsplit, hlen, hpre, hflag, hR, hstop⟩ := ih _ _ rest hrest
        refine ⟨_ :: pre, lr, by rw [hsplit]; rfl, by simp only [List.length_cons]; omega, ?_,
          hflag, hR, ?_⟩
        · intro k q hq
          cases k with
          | zero =>
            simp only [List.getElem?_cons_zero, Option.some.injEq] at hq
            subst hq
            simp only [pow_zero, div_one, max_lt_iff, cell_radius]
            exact ⟨trivial, trivial, hfl.2, hfl.1⟩
          | succ k =>
            simp only [List.getElem?_cons_succ] at hq
            obtain ⟨h1, h2, h3⟩ := hpre k q hq
            have e : R / ReionDeltaRFactor / ReionDeltaRFactor ^ k
                = R / ReionDeltaRFactor ^ (k + 1) := by
              rw [div_div, ← pow_succ']
            rw [e] at h1 h3
            exact ⟨h1, h2, h3⟩
        · rw [List.length_cons, pow_succ', ← div_div]
          exact hstop

/-- Counterexample to C11 as stated: for a box of side 62 on a grid of dimension
2 the first radius of the schedule is 20.34, which is larger than
`max(R_min, cell_size)` (about 19.23), and yet the pass at that radius is the
forced last pass: the loop makes one pass only, with `flag_last_filter_step`
set, at `R = cell_size`. -/
theorem radius_schedule_counterexample :
    schedule_radius wide_All 0 > max ReionRBubbleMin (cell_radius wide_All) ∧
    ∃ lr, find_HII_bubbles_passes wide_All (fun _ _ => constant_fields 0 0 0) 2 0
        (constant_grids 0) = some [lr] ∧
      lr.flag_last_filter_step = true ∧ lr.R = cell_radius wide_All := by
  have hcell : cell_radius wide_All = 19.230865221 := by
    norm_num [cell_radius, cell_length_factor, wide_All, example_All]
  have hstart : R_start wide_All = 20.34 := by
    norm_num [R_start, cell_length_factor, wide_All, example_All, ReionRBubbleMax]
  refine ⟨?_, ?_⟩
  · rw [schedule_radius, hstart, hcell]
    norm_num [ReionRBubbleMin]
  · obtain ⟨passes, hp, _⟩ := find_HII_bubbles_passes_some wide_All
      (fun _ _ => constant_fields 0 0 0) 2 0 (constant_grids 0)
    obtain ⟨pre, lr, hsplit, _, hpre, hflag, hR, _⟩ := radius_loop_schedule wide_All
      (fun _ _ => constant_fields 0 0 0) 2 0 42 (R_start wide_All)
      (init_xHI_J21 wide_All 2 (constant_grids 0)) passes hp
    have hnil : pre = [] := by
      cases pre with
      | nil => rfl
      | cons q t =>
        exfalso
        have h0 := (hpre 0 q (by simp)).2.2
        rw [hstart, hcell] at h0
        norm_num [ReionRBubbleMin, ReionDeltaRFactor] at h0
    subst hnil
    rw [List.nil_append] at hsplit
    subst hsplit
    exact ⟨lr, hp, hflag, hR⟩

/-- C11, amended: the radius of iteration `k` of the schedule is
`min(R_max, cell_length_factor * box_size) / 1.1^k`; the loop makes the passes
`pre` followed by one last pass `lr`: every pass of `pre` runs at its radius `R`
of the schedule with `flag_last_filter_step` unset (a filtered pass) and has
`R / 1.1 > max(R_min, cell_size)`, and the last pass, with the flag set and run
at `cell_size`, comes at the first radius `R` of the schedule with
`R / 1.1 <= max(R_min, cell_size)`. -/
theorem radius_schedule (All : global_data) (tr : ℚ → Bool → filtered_fields)
    (n start : Int) (g : UVBGgrids_type) :
    schedule_radius All 0 = min ReionRBubbleMax (cell_length_factor All * All.BoxSize) ∧
    (∀ k, schedule_radius All (k + 1) = schedule_radius All k / ReionDeltaRFactor) ∧
    ReionRBubbleMax = 20.34 ∧ ReionRBubbleMin = 0.4068 ∧ ReionDeltaRFactor = 1.1 ∧
    ∃ pre lr, find_HII_bubbles_passes All tr n start g = some (pre ++ [lr]) ∧
      (∀ k q, pre[k]? = some q →
        q.R = schedule_radius All k ∧ q.flag_last_filter_step = false ∧
        schedule_radius All k / ReionDeltaRFactor > max ReionRBubbleMin (cell_radius All)) ∧
      lr.flag_last_filter_step = true ∧ lr.R = cell_radius All ∧
      schedule_radius All pre.length / ReionDeltaRFactor
        ≤ max ReionRBubbleMin (cell_radius All) := by
  refine ⟨rfl, fun _ => rfl, rfl, rfl, rfl, ?_⟩
  obtain ⟨passes, hp, _⟩ := find_HII_bubbles_passes_some All tr n start g
  obtain ⟨pre, lr, hsplit, _, hpre, hflag, hR, hstop⟩ :=
    radius_loop_schedule All tr n start 42 (R_start All) _ passes hp
  subst hsplit
  refine ⟨pre, lr, hp, ?_, hflag, hR, ?_⟩
  · intro k q hq
    rw [schedule_radius_eq]
    exact hpre k q hq
  · rw [schedule_radius_eq]
    exact hstop

/-- C12: for a box size `> 0` and a grid dimension `>= 1` the radius loop ends
after at least 1 and at most 42 passes, where 42 is the least `k` with
`1.1^k >= 20.34 / 0.4068`; the last pass, and only the last, has
`flag_last_filter_step` set; it runs at `R = cell_length_factor * box_size /
UVBG_DIM` on the plain copies of the k-space grids (no call of `filter`), and
every earlier pass runs on the grids returned by `filter` at the radius of that
pass. -/
theorem radius_loop_terminates (lib : math_library) (All : global_data)
    (c2r : (Int → ℚ × ℚ) → Int → ℚ) (unf : kspace_fields) (n start : Int) (g : UVBGgrids_type)
    (_ : 0 < All.BoxSize) (_ : 1 ≤ All.UVBG_DIM) :
    ReionDeltaRFactor ^ 41 < ReionRBubbleMax / ReionRBubbleMin ∧
    ReionRBubbleMax / ReionRBubbleMin ≤ ReionDeltaRFactor ^ 42 ∧
    ∃ pre lr,
      find_HII_bubbles_passes All (scratch_buffers lib All c2r unf n start) n start g
        = some (pre ++ [lr]) ∧
      1 ≤ (pre ++ [lr]).length ∧ (pre ++ [lr]).length ≤ 42 ∧
      pass_chain All (scratch_buffers lib All c2r unf n start) n start (init_xHI_J21 All n g)
        (pre ++ [lr]) ∧
      lr.flag_last_filter_step = true ∧
      lr.R = cell_length_factor All * All.BoxSize / (All.UVBG_DIM : ℚ) ∧
      scratch_buffers lib All c2r unf n start lr.R lr.flag_last_filter_step
        = { deltax_filtered := c2r unf.deltax_unfiltered
            stars_slab_filtered := c2r unf.stars_slab_unfiltered
            sfr_filtered := float_view unf.sfr_unfiltered } ∧
      ∀ q ∈ pre, q.flag_last_filter_step = false ∧
        scratch_buffers lib All c2r unf n start q.R q.flag_last_filter_step
          = { deltax_filtered :=
                c2r (filter lib All unf.deltax_unfiltered start n All.UVBG_DIM q.R)
              stars_slab_filtered :=
                c2r (filter lib All unf.stars_slab_unfiltered start n All.UVBG_DIM q.R)
              sfr_filtered :=
                float_view (filter lib All unf.sfr_unfiltered start n All.UVBG_DIM q.R) } := by
  refine ⟨by norm_num [ReionDeltaRFactor, ReionRBubbleMax, ReionRBubbleMin],
    by norm_num [ReionDeltaRFactor, ReionRBubbleMax, ReionRBubbleMin], ?_⟩
  obtain ⟨passes, hp, hchain, _⟩ :=
    find_HII_bubbles_passes_some All (scratch_buffers lib All c2r unf n start) n start g
  obtain ⟨pre, lr, hsplit, hlen, hpre, hflag, hR, _⟩ :=
    radius_loop_schedule All _ n start 42 (R_start All) _ passes hp
  subst hsplit
  refine ⟨pre, lr, hp, by simp, by simpa using hlen, hchain, hflag, hR, ?_, ?_⟩
  · simp [scratch_buffers, hflag]
  · intro q hq
    obtain ⟨k, hk⟩ := List.getElem?_of_mem hq
    have hq2 := (hpre k q hk).2.1
    exact ⟨hq2, by simp [scratch_buffers, hq2]⟩

theorem deep_pass_count (tr : ℚ → Bool → filtered_fields) (n start : Int) (g : UVBGgrids_type)
    (pre : List pass_record) (lr : pass_record)
    (h : find_HII_bubbles_passes deep_All tr n start g = some (pre ++ [lr])) :
    pre.length = 7 := by
  obtain ⟨pre2, lr2, hsplit, hlen, hpre, _, _, hstop⟩ :=
    radius_loop_schedule deep_All tr n start 42 (R_start deep_All) _ _ h
  obtain ⟨hp, _⟩ := List.append_inj' hsplit rfl
  subst hp
  rw [deep_R_start, deep_cell_radius] at hstop
  have hmax : max ReionRBubbleMin (3.101752455 : ℚ) = 3.101752455 := by
    norm_num [ReionRBubbleMin]
  rw [hmax] at hstop
  by_contra hne
  rcases Nat.lt_or_gt_of_ne hne with hlt | hgt
  · have hd : (0 : ℚ) < ReionDeltaRFactor := by norm_num [ReionDeltaRFactor]
    have hpow : (ReionDeltaRFactor : ℚ) ^ pre.length ≤ ReionDeltaRFactor ^ 6 :=
      pow_le_pow_right₀ (by norm_num [ReionDeltaRFactor]) (by omega)
    have hpos : (0 : ℚ) < ReionDeltaRFactor ^ pre.length := pow_pos hd _
    rw [div_div, div_le_iff₀ (mul_pos hpos hd)] at hstop
    have : (6.20350491 : ℚ) ≤ 3.101752455 * (ReionDeltaRFactor ^ 6 * ReionDeltaRFactor) :=
      le_trans hstop (mul_le_mul_of_nonneg_left
        (mul_le_mul_of_nonneg_right hpow hd.le) (by norm_num))
    norm_num [ReionDeltaRFactor] at this
  · obtain ⟨q, hq⟩ : ∃ q, pre[7]? = some q :=
      ⟨pre[7], List.getElem?_eq_getElem (by omega)⟩
    have h7 := (hpre 7 q hq).2.2
    rw [deep_R_start, deep_cell_radius, hmax] at h7
    norm_num [ReionDeltaRFactor] at h7

/-- Witness for C12 on `deep_All`, a box of side 10 on a grid of dimension 2 held
by one rank: the loop makes eight passes; the seven earlier passes have
`flag_last_filter_step` unset and run on the grids returned by `filter` at their
radius, and the eighth runs at `R = cell_size` on the plain copies. -/
theorem radius_loop_terminates_witness :
    ∃ pre lr, find_HII_bubbles_passes deep_All
        (scratch_buffers example_library deep_All float_view (constant_kspace (0, 0)) 2 0)
        2 0 (constant_grids 0) = some (pre ++ [lr]) ∧
      pre.length = 7 ∧ (pre ++ [lr]).length ≤ 42 ∧
      lr.flag_last_filter_step = true ∧ lr.R = cell_radius deep_All ∧
      ∀ q ∈ pre, q.flag_last_filter_step = false ∧
        scratch_buffers example_library deep_All float_view (constant_kspace (0, 0)) 2 0
            q.R q.flag_last_filter_step
          = { deltax_filtered := float_view
                (filter example_library deep_All (constant_kspace (0, 0)).deltax_unfiltered 0 2
                  deep_All.UVBG_DIM q.R)
              stars_slab_filtered := float_view
                (filter example_library deep_All (constant_kspace (0, 0)).stars_slab_unfiltered
                  0 2 deep_All.UVBG_DIM q.R)
              sfr_filtered := float_view
                (filter example_library deep_All (constant_kspace (0, 0)).sfr_unfiltered 0 2
                  deep_All.UVBG_DIM q.R) } := by
  obtain ⟨_, _, pre, lr, h1, _, h3, _, h5, h6, _, h8⟩ :=
    radius_loop_terminates example_library deep_All float_view (constant_kspace (0, 0)) 2 0
      (constant_grids 0) (by norm_num [deep_All, example_All])
      (by norm_num [deep_All, example_All])
  exact ⟨pre, lr, h1, deep_pass_count _ 2 0 _ pre lr h1, h3, h5, h6, h8⟩

/-! ## The sanity loop -/

theorem sanity_checks_clamped (D n : Int) (f : filtered_fields) (c : Int × Int × Int)
    (hc : local_cell n D c) :
    -1 + FLOAT_REL_TOL ≤ (sanity_checks D n f).deltax_filtered
      (grid_index c.1 c.2.1 c.2.2 D index_type.INDEX_PADDED) ∧
    0 ≤ (sanity_checks D n f).stars_slab_filtered
      (grid_index c.1 c.2.1 c.2.2 D index_type.INDEX_PADDED) ∧
    -1 + FLOAT_REL_TOL ≤ (sanity_checks D n f).sfr_filtered
      (grid_index c.1 c.2.1 c.2.2 D index_type.INDEX_PADDED) := by
  obtain ⟨h1, h2⟩ := sanity_checks_cell D n f c hc
  rw [h1, h2, sanity_checks_sfr D n f c hc]
  exact ⟨le_max_right _ _, le_max_right _ _, le_max_right _ _⟩

/-- C13, at the failing input: on a slab of one cell whose element of
`sfr_filtered` holds -1/2 before the sanity loop, the loop leaves -1/2 in that
element (its bound for the SFR is `-1 + FLOAT_REL_TOL`, not 0), so the filtered
SFR value of the local cell `(0, 0, 0)` is negative after the sanity loop, while
the density contrast and the stellar mass are clamped as the claim says. -/
theorem sanity_sfr_negative :
    local_cell 1 1 (0, 0, 0) ∧
    (sanity_checks 1 1 (constant_fields (-2) (-3) (-1 / 2))).sfr_filtered
        (grid_index 0 0 0 1 index_type.INDEX_PADDED) = -1 / 2 ∧
    (sanity_checks 1 1 (constant_fields (-2) (-3) (-1 / 2))).sfr_filtered
        (grid_index 0 0 0 1 index_type.INDEX_PADDED) < 0 ∧
    (sanity_checks 1 1 (constant_fields (-2) (-3) (-1 / 2))).deltax_filtered
        (grid_index 0 0 0 1 index_type.INDEX_PADDED) = -1 + 1 / 100000 ∧
    (sanity_checks 1 1 (constant_fields (-2) (-3) (-1 / 2))).stars_slab_filtered
        (grid_index 0 0 0 1 index_type.INDEX_PADDED) = 0 := by
  have hc : local_cell 1 1 (0, 0, 0) := by decide
  have h1 := sanity_checks_cell 1 1 (constant_fields (-2) (-3) (-1 / 2)) (0, 0, 0) hc
  have h2 := sanity_checks_sfr 1 1 (constant_fields (-2) (-3) (-1 / 2)) (0, 0, 0) hc
  simp only at h1 h2
  refine ⟨hc, ?_⟩
  rw [h1.1, h1.2, h2]
  norm_num [constant_fields, FLOAT_REL_TOL]

/-! ## The ownership tags of `populate_grids` -/

theorem tag_particle_frame (box : ℚ) (D : Int) (start : List Int) (p q : particle_data)
    (h : tag_particle box D start p = some q) :
    (q.Pos0 = p.Pos0 ∧ q.Pos1 = p.Pos1 ∧ q.Pos2 = p.Pos2 ∧ q.Mass = p.Mass ∧
      q.PType = p.PType ∧ q.IsGarbage = p.IsGarbage ∧ q.Swallowed = p.Swallowed) ∧
    (p.IsGarbage = false ∧ p.Swallowed = false ∧ p.PType < 5 →
      ∃ ix, pos_to_ngp p.Pos0 box D = some ix ∧
        searchsorted_rank ix start = some q.RegionInd) ∧
    (¬ (p.IsGarbage = false ∧ p.Swallowed = false ∧ p.PType < 5) → q.RegionInd = -1) := by
  have hel : eligible p = true ↔ (p.IsGarbage = false ∧ p.Swallowed = false ∧ p.PType < 5) := by
    simp [eligible, and_assoc]
  unfold tag_particle at h
  by_cases he : eligible p = true
  · rw [if_pos he] at h
    cases hx : pos_to_ngp p.Pos0 box D with
    | none => simp [hx] at h
    | some ix =>
      cases hr : searchsorted_rank ix start with
      | none => simp [hx, hr] at h
      | some r =>
        simp only [hx, hr, Option.some.injEq] at h
        subst h
        exact ⟨⟨rfl, rfl, rfl, rfl, rfl, rfl, rfl⟩, fun _ => ⟨ix, rfl, hr⟩,
          fun hne => absurd (hel.mp he) hne⟩
  · rw [if_neg he] at h
    simp only [Option.some.injEq] at h
    subst h
    exact ⟨⟨rfl, rfl, rfl, rfl, rfl, rfl, rfl⟩, fun hq => absurd (hel.mpr hq) he, fun _ => rfl⟩

/-- C17: for a box of positive side, a grid dimension `D ≥ 1` whose `int` index
products do not overflow, positive slab widths that sum to `D` and particles with
positions in `[0, BoxSize)^3`, the tagging loop of `populate_grids` returns, and
`populate_grids` returns these tagged particles whenever the loop that derives the
SFR stays inside its buffers; every particle keeps its position, mass, type,
`IsGarbage` and `Swallowed`; its `RegionInd` is the rank returned by `searchsorted`
for `pos_to_ngp(Pos[0])` when the particle is not garbage, not swallowed and of
type below 5, and -1 otherwise. -/
theorem populate_grids_particle_frame (box : ℚ) (D : Int) (nix : List Int)
    (parts : List (List particle_data))
    (hbox : 0 < box) (hD1 : 1 ≤ D) (hD : 2 * (D / 2 + 1) * (D * D) < 2 ^ 31)
    (hpos : ∀ w ∈ nix, 0 < w) (hsum : nix.sum = D)
    (hrange : ∀ ps ∈ parts, ∀ p ∈ ps, in_box box p) :
    ∃ (tagged : List (List particle_data)),
      for_each (for_each (tag_particle box D (assign_slabs nix))) parts = some tagged ∧
      (sfr_loop_in_bounds D (buffer_size nix D) →
        ∃ bufs : List (Int → ℚ), populate_grids_mass box D nix parts = some (tagged, bufs)) ∧
      List.Forall₂ (List.Forall₂ (fun p q =>
        (q.Pos0 = p.Pos0 ∧ q.Pos1 = p.Pos1 ∧ q.Pos2 = p.Pos2 ∧ q.Mass = p.Mass ∧
          q.PType = p.PType ∧ q.IsGarbage = p.IsGarbage ∧ q.Swallowed = p.Swallowed) ∧
        (p.IsGarbage = false ∧ p.Swallowed = false ∧ p.PType < 5 →
          ∃ ix, pos_to_ngp p.Pos0 box D = some ix ∧
            searchsorted_rank ix (assign_slabs nix) = some q.RegionInd) ∧
        (¬ (p.IsGarbage = false ∧ p.Swallowed = false ∧ p.PType < 5) → q.RegionInd = -1)))
        parts tagged := by
  have hD31 := dim_int_range D hD1 hD
  obtain ⟨tagged, htag, hrel⟩ := for_each_some
    (for_each (tag_particle box D (assign_slabs nix))) parts (fun ps hps => by
      obtain ⟨qs, hqs, _⟩ := for_each_some (tag_particle box D (assign_slabs nix)) ps
        (fun p hp => tag_particle_some box D nix p hbox hD1 hD31 hpos hsum (hrange ps hps p hp))
      exact ⟨qs, hqs⟩)
  have hbufs := for_each_map (reduced_buffer_mass box D (assign_slabs nix) tagged)
    (fun r => fun i => deposited_mass box D (assign_slabs nix) r i parts.flatten)
    (List.range nix.length) (fun r hr =>
      reduced_buffer_mass_spec box D nix hbox hD1 hD31 hpos hsum parts tagged hrel hrange r
        (List.mem_range.mp hr))
  refine ⟨tagged, htag, ?_, ?_⟩
  · intro hfit
    exact ⟨(List.range nix.length).map
      (fun r => fun i => deposited_mass box D (assign_slabs nix) r i parts.flatten),
      by simp only [populate_grids_mass, htag, if_pos hfit, hbufs]⟩
  · refine hrel.imp ?_
    intro ps qs hpq
    refine (for_each_rel _ ps qs hpq).imp ?_
    intro p q h
    exact tag_particle_frame box D (assign_slabs nix) p q h

theorem pos_to_ngp_one_of_eight : pos_to_ngp 1 8 4 = some 0 := by
  have hq : round_double ((1 : ℚ) / 8) = some (1 / 8) :=
    round_double_exact_value (1 / 8) (-3) 4503599627370496 (by norm_num)
      (by rw [abs_of_nonneg (by norm_num)]; norm_num)
      (by rw [abs_of_nonneg (by norm_num)]; norm_num)
      (by norm_num)
      (by rw [abs_of_nonneg (by norm_num)]; norm_num)
  have hp : round_double ((1 / 8 : ℚ) * ((4 : Int) : ℚ)) = some (1 / 2) := by
    have h := round_double_exact_value ((1 / 8 : ℚ) * ((4 : Int) : ℚ)) (-1) 4503599627370496
      (by norm_num)
      (by rw [abs_of_nonneg (by norm_num)]; norm_num)
      (by rw [abs_of_nonneg (by norm_num)]; norm_num)
      (by norm_num)
      (by rw [abs_of_nonneg (by norm_num)]; norm_num)
    rw [h]
    norm_num
  have hprod := pos_to_ngp_product_eq 1 8 4 (1 / 8) (1 / 2) (by norm_num) hq hp
  have hn : nearbyint (1 / 2 : ℚ) = 0 := by
    have h := nearbyint_tie 0
    norm_num at h
    exact h
  have h := (pos_to_ngp_of_product 1 8 4 (1 / 2) hprod (by norm_num) (by rw [hn]; norm_num)).1
  rw [hn, if_neg (by norm_num)] at h
  exact h

theorem pos_to_ngp_five_of_eight : pos_to_ngp 5 8 4 = some 2 := by
  have hq : round_double ((5 : ℚ) / 8) = some (5 / 8) :=
    round_double_exact_value (5 / 8) (-1) 5629499534213120 (by norm_num)
      (by rw [abs_of_nonneg (by norm_num)]; norm_num)
      (by rw [abs_of_nonneg (by norm_num)]; norm_num)
      (by norm_num)
      (by rw [abs_of_nonneg (by norm_num)]; norm_num)
  have hp : round_double ((5 / 8 : ℚ) * ((4 : Int) : ℚ)) = some (5 / 2) := by
    have h := round_double_exact_value ((5 / 8 : ℚ) * ((4 : Int) : ℚ)) 1 5629499534213120
      (by norm_num)
      (by rw [abs_of_nonneg (by norm_num)]; norm_num)
      (by rw [abs_of_nonneg (by norm_num)]; norm_num)
      (by norm_num)
      (by rw [abs_of_nonneg (by norm_num)]; norm_num)
    rw [h]
    norm_num
  have hprod := pos_to_ngp_product_eq 5 8 4 (5 / 8) (5 / 2) (by norm_num) hq hp
  have hn : nearbyint (5 / 2 : ℚ) = 2 := by
    have h := nearbyint_tie 2
    norm_num at h
    exact h
  have h := (pos_to_ngp_of_product 5 8 4 (5 / 2) hprod (by norm_num) (by rw [hn]; norm_num)).1
  rw [hn, if_neg (by norm_num)] at h
  exact h

theorem example_tags (nix : List Int) (r : Int)
    (h0 : searchsorted_rank 0 (assign_slabs nix) = some 0)
    (h2 : searchsorted_rank 2 (assign_slabs nix) = some r) :
    tag_particle 8 4 (assign_slabs nix) ⟨1, 2, 3, 5, 1, false, false, 0⟩
      = some ⟨1, 2, 3, 5, 1, false, false, 0⟩ ∧
    tag_particle 8 4 (assign_slabs nix) ⟨7, 0, 0, 2, 5, false, false, 0⟩
      = some ⟨7, 0, 0, 2, 5, false, false, -1⟩ ∧
    tag_particle 8 4 (assign_slabs nix) ⟨5, 5, 5, 3, 0, false, false, 0⟩
      = some ⟨5, 5, 5, 3, 0, false, false, r⟩ := by
  refine ⟨?_, ?_, ?_⟩
  · simp [tag_particle, eligible, pos_to_ngp_one_of_eight, h0]
  · simp [tag_particle, eligible]
  · simp [tag_particle, eligible, pos_to_ngp_five_of_eight, h2]

/-- Witness for C17 in a box of side 8 with a grid of dimension 4.  On two ranks
with slabs of width 2 the tagging loop gives the particle at `x = 1` (cell 0) the
rank 0, the particle of type 5 the tag -1 and the particle at `x = 5` (cell 2) the
rank 1; on one rank that holds the whole grid `populate_grids` returns, with the
tags 0, -1 and 0.  The other fields are kept. -/
theorem populate_grids_particle_frame_witness :
    for_each (for_each (tag_particle 8 4 (assign_slabs [2, 2]))) example_particles
      = some [[⟨1, 2, 3, 5, 1, false, false, 0⟩, ⟨7, 0, 0, 2, 5, false, false, -1⟩],
          [⟨5, 5, 5, 3, 0, false, false, 1⟩]] ∧
    ∃ bufs : List (Int → ℚ), populate_grids_mass 8 4 [4] gathered_particles
      = some ([[⟨1, 2, 3, 5, 1, false, false, 0⟩, ⟨7, 0, 0, 2, 5, false, false, -1⟩,
          ⟨5, 5, 5, 3, 0, false, false, 0⟩]], bufs) := by
  obtain ⟨t1, ht1, _, _⟩ :=
    populate_grids_particle_frame 8 4 [2, 2] example_particles (by norm_num) (by decide)
      (by decide) (by decide) (by decide) example_particles_in_box
  obtain ⟨t2, ht2, hb2, _⟩ :=
    populate_grids_particle_frame 8 4 [4] gathered_particles (by norm_num) (by decide)
      (by decide) (by decide) (by decide) gathered_particles_in_box
  obtain ⟨bufs, hb⟩ := hb2 (by decide)
  obtain ⟨a1, a2, a3⟩ := example_tags [2, 2] 1 (by decide) (by decide)
  obtain ⟨b1, b2, b3⟩ := example_tags [4] 0 (by decide) (by decide)
  have e1 : for_each (for_each (tag_particle 8 4 (assign_slabs [2, 2]))) example_particles
      = some [[⟨1, 2, 3, 5, 1, false, false, 0⟩, ⟨7, 0, 0, 2, 5, false, false, -1⟩],
          [⟨5, 5, 5, 3, 0, false, false, 1⟩]] := by
    simp only [example_particles, for_each, a1, a2, a3]
  have e2 : for_each (for_each (tag_particle 8 4 (assign_slabs [4]))) gathered_particles
      = some [[⟨1, 2, 3, 5, 1, false, false, 0⟩, ⟨7, 0, 0, 2, 5, false, false, -1⟩,
          ⟨5, 5, 5, 3, 0, false, false, 0⟩]] := by
    simp only [gathered_particles, for_each, b1, b2, b3]
  rw [e2, Option.some.injEq] at ht2
  subst ht2
  exact ⟨e1, bufs, hb⟩

/-! ## The top-hat filter below the tolerance -/

theorem mem_kspace_cells (nx dim : Int) (c : Int × Int × Int) :
    c ∈ kspace_cells nx dim ↔
      (0 ≤ c.1 ∧ c.1 < nx) ∧ (0 ≤ c.2.1 ∧ c.2.1 < dim) ∧
        (0 ≤ c.2.2 ∧ c.2.2 < Int.tdiv dim 2 + 1) := by
  obtain ⟨i, j, k⟩ := c
  simp only [kspace_cells, List.mem_map, Prod.mk.injEq, Prod.exists,
    List.pair_mem_product, List.mem_range]
  constructor
  · rintro ⟨a, b, d, ⟨ha, hb, hd⟩, rfl, rfl, rfl⟩
    omega
  · rintro ⟨⟨h1, h2⟩, ⟨h3, h4⟩, h5, h6⟩
    exact ⟨i.toNat, j.toNat, k.toNat, by omega, by omega, by omega, by omega⟩

theorem filter_cells_unchanged (lib : math_library) (All : global_data) (start dim : Int)
    (R : ℚ) (ind : Int) (cs : List (Int × Int × Int)) (box : Int → ℚ × ℚ)
    (h : ∀ c ∈ cs, grid_index c.1 c.2.1 c.2.2 dim index_type.INDEX_COMPLEX_HERM = ind →
      filter_kR lib All start dim R c ≤ 1e-4) :
    (cs.foldl (filter_cell lib All start dim R) box) ind = box ind := by
  induction cs generalizing box with
  | nil => rfl
  | cons c t ih =>
    rw [List.foldl_cons, ih _ (fun d hd => h d (List.mem_cons_of_mem c hd))]
    unfold filter_cell
    by_cases hk : filter_kR lib All start dim R c > 1e-4
    · have hne : ind ≠ grid_index c.1 c.2.1 c.2.2 dim index_type.INDEX_COMPLEX_HERM := by
        intro he
        exact absurd (h c (List.mem_cons_self c t) he.symm) (not_le.mpr hk)
      simp only [if_pos hk, Function.update_noteq hne]
    · simp only [if_neg hk]

theorem herm_index_inj (dim : Int) (c d : Int × Int × Int) (nx : Int)
    (hc : c ∈ kspace_cells nx dim) (hd : d ∈ kspace_cells nx dim)
    (h : grid_index c.1 c.2.1 c.2.2 dim index_type.INDEX_COMPLEX_HERM
      = grid_index d.1 d.2.1 d.2.2 dim index_type.INDEX_COMPLEX_HERM) : c = d := by
  rw [mem_kspace_cells] at hc hd
  simp only [grid_index] at h
  obtain ⟨h1, h2, h3⟩ := layout_inj (Int.tdiv dim 2 + 1) dim c.1 c.2.1 c.2.2 d.1 d.2.1 d.2.2
    hc.2.1.1 hc.2.1.2 hc.2.2.1 hc.2.2.2 hd.2.1.1 hd.2.1.2 hd.2.2.1 hd.2.2.2 h
  exact Prod.ext h1 (Prod.ext h2 h3)

/-- C15: for every array of complex elements, slab offset, slab width, grid
dimension and radius `R`, `filter` leaves unchanged the element of every mode of
its loops whose `kR` is `<= 1e-4`; with `R = 0` it returns the whole array
unchanged; and when `sqrtf(0) = 0`, the mode with global index `(0, 0, 0)` is
unchanged for every `R`. -/
theorem filter_identity (lib : math_library) (All : global_data) (box : Int → ℚ × ℚ)
    (start nx dim : Int) (R : ℚ) :
    (∀ c ∈ kspace_cells nx dim, filter_kR lib All start dim R c ≤ 1e-4 →
      filter lib All box start nx dim R
          (grid_index c.1 c.2.1 c.2.2 dim index_type.INDEX_COMPLEX_HERM)
        = box (grid_index c.1 c.2.1 c.2.2 dim index_type.INDEX_COMPLEX_HERM)) ∧
    filter lib All box start nx dim 0 = box ∧
    (lib.sqrtf 0 = 0 → ∀ c ∈ kspace_cells nx dim, c.1 + start = 0 → c.2.1 = 0 → c.2.2 = 0 →
      filter_kR lib All start dim R c = 0 ∧
      filter lib All box start nx dim R
          (grid_index c.1 c.2.1 c.2.2 dim index_type.INDEX_COMPLEX_HERM)
        = box (grid_index c.1 c.2.1 c.2.2 dim index_type.INDEX_COMPLEX_HERM)) := by
  have hmode : ∀ c ∈ kspace_cells nx dim, filter_kR lib All start dim R c ≤ 1e-4 →
      filter lib All box start nx dim R
          (grid_index c.1 c.2.1 c.2.2 dim index_type.INDEX_COMPLEX_HERM)
        = box (grid_index c.1 c.2.1 c.2.2 dim index_type.INDEX_COMPLEX_HERM) := by
    intro c hc hk
    unfold filter
    apply filter_cells_unchanged
    intro d hd hind
    rw [herm_index_inj dim d c nx hd hc hind]
    exact hk
  refine ⟨hmode, ?_, ?_⟩
  · funext ind
    unfold filter
    apply filter_cells_unchanged
    intro c _ _
    simp only [filter_kR, mul_zero]
    norm_num
  · intro hsqrt c hc hx hy hz
    have hmid : ¬ (0 : Int) > Int.tdiv dim 2 := by
      have := (mem_kspace_cells nx dim c).mp hc
      omega
    have hk : filter_kR lib All start dim R c = 0 := by
      simp only [filter_kR, hx, hy, hz, if_neg hmid, Int.cast_zero, zero_mul, add_zero, hsqrt]
    refine ⟨hk, hmode c hc ?_⟩
    rw [hk]
    norm_num

/-- Witness for C15: with `sqrtf` the identity, the mode `(0, 0, 0)` of a slab
that starts at 0 keeps its value `(1, 2)` when filtered at `R = 5`. -/
theorem filter_identity_witness :
    filter example_library example_All (fun _ => (1, 2)) 0 1 1 5
        (grid_index 0 0 0 1 index_type.INDEX_COMPLEX_HERM) = (1, 2) :=
  ((filter_identity example_library example_All (fun _ => (1, 2)) 0 1 1 5).2.2 rfl (0, 0, 0)
    (by decide) rfl rfl rfl).2

/-! ## The SFR stored by `populate_grids` -/

theorem store_cells_value (dim n : Int) (s : stars_state) (c : Int × Int × Int)
    (hc : local_cell n dim c) :
    ((slab_cells n dim).foldl (store_cell dim) s).sfr
        (grid_index c.1 c.2.1 c.2.2 dim index_type.INDEX_PADDED)
      = s.buffer_sfr (grid_index c.1 c.2.1 c.2.2 dim index_type.INDEX_REAL) ∧
    ((slab_cells n dim).foldl (store_cell dim) s).stars_slab
        (grid_index c.1 c.2.1 c.2.2 dim index_type.INDEX_PADDED)
      = s.buffer_stars_slab (grid_index c.1 c.2.1 c.2.2 dim index_type.INDEX_REAL) := by
  have h := foldl_pointwise
    (fun (s : stars_state) (c : Int × Int × Int) =>
      (s.sfr (grid_index c.1 c.2.1 c.2.2 dim index_type.INDEX_PADDED),
        s.stars_slab (grid_index c.1 c.2.1 c.2.2 dim index_type.INDEX_PADDED),
        s.buffer_sfr (grid_index c.1 c.2.1 c.2.2 dim index_type.INDEX_REAL),
        s.buffer_stars_slab (grid_index c.1 c.2.1 c.2.2 dim index_type.INDEX_REAL)))
    (store_cell dim)
    (fun _ v => (v.2.2.1, v.2.2.2, v.2.2.1, v.2.2.2))
    (local_cell n dim)
    (by
      intro g c _
      simp [store_cell])
    (by
      intro g c c2 hc hc2 hne
      have hidx : grid_index c2.1 c2.2.1 c2.2.2 dim index_type.INDEX_PADDED
          ≠ grid_index c.1 c.2.1 c.2.2 dim index_type.INDEX_PADDED := by
        intro h
        obtain ⟨h1, h2, h3⟩ := padded_index_inj dim _ _ _ _ _ _ hc2.2.1.1 hc2.2.1.2 hc2.2.2.1
          hc2.2.2.2 hc.2.1.1 hc.2.1.2 hc.2.2.1 hc.2.2.2 h
        exact hne (Prod.ext h1.symm (Prod.ext h2.symm h3.symm))
      simp [store_cell, Function.update_noteq hidx])
    (slab_cells n dim) (nodup_slab_cells n dim) (fun d hd => (mem_slab_cells n dim d).mp hd)
    s c hc
  rw [if_pos ((mem_slab_cells n dim c).mpr hc)] at h
  simp only [Prod.mk.injEq] at h
  exact ⟨h.1, h.2.1⟩

theorem store_cells_buffers (dim : Int) (cs : List (Int × Int × Int)) (s : stars_state) :
    (cs.foldl (store_cell dim) s).buffer_sfr = s.buffer_sfr ∧
    (cs.foldl (store_cell dim) s).buffer_stars_slab = s.buffer_stars_slab :=
  ⟨foldl_preserve (fun s : stars_state => s.buffer_sfr) (store_cell dim) (fun _ _ => rfl) cs s,
    foldl_preserve (fun s : stars_state => s.buffer_stars_slab) (store_cell dim)
      (fun _ _ => rfl) cs s⟩

theorem forall₂_getElem {α β : Type} (R : α → β → Prop) (l1 : List α) (l2 : List β)
    (h : List.Forall₂ R l1 l2) :
    (∀ (i : Nat) (b : β), l2[i]? = some b → ∃ a, l1[i]? = some a ∧ R a b) ∧
    (∀ (i : Nat) (a : α), l1[i]? = some a → ∃ b, l2[i]? = some b ∧ R a b) := by
  induction h with
  | nil => simp
  | @cons a b t1 t2 hab _ ih =>
    refine ⟨?_, ?_⟩
    · intro i b2 hb
      cases i with
      | zero =>
        simp only [List.getElem?_cons_zero, Option.some.injEq] at hb
        subst hb
        exact ⟨a, by simp, hab⟩
      | succ i =>
        simp only [List.getElem?_cons_succ] at hb ⊢
        exact ih.1 i b2 hb
    · intro i a2 ha
      cases i with
      | zero =>
        simp only [List.getElem?_cons_zero, Option.some.injEq] at ha
        subst ha
        exact ⟨b, by simp, hab⟩
      | succ i =>
        simp only [List.getElem?_cons_succ] at ha ⊢
        exact ih.2 i a2 ha

theorem derive_sfr_none (dim bsize : Int) (dt : ℚ) (s : stars_state)
    (h : ¬ sfr_loop_in_bounds dim bsize) : derive_sfr dim bsize dt s = none := by
  unfold derive_sfr
  simp only [if_neg h]

theorem rank_stars_step_root (dim : Int) (dt : ℚ) (nix start : List Int)
    (sent1 sent2 : List (Int → ℚ)) (r : Nat) (s : stars_state)
    (hfit : sfr_loop_in_bounds dim (buffer_size nix dim))
    (hb : nix.getD r 0 * (dim * dim) ≤ buffer_size nix dim) :
    ∃ s2, rank_stars_step dim dt nix start sent1 sent2 r r
        (init_buffers dim (buffer_size nix dim) s) = some s2 ∧
      ∀ c, local_cell (nix.getD r 0) dim c →
        s2.sfr (grid_index c.1 c.2.1 c.2.2 dim index_type.INDEX_PADDED) = 0 ∧
        s2.stars_slab (grid_index c.1 c.2.1 c.2.2 dim index_type.INDEX_PADDED) = 0 := by
  simp only [rank_stars_step, derive_sfr, if_pos hfit, if_true]
  refine ⟨_, rfl, ?_⟩
  intro c hc
  obtain ⟨h0, h1⟩ := real_index_bounds c.1 c.2.1 c.2.2 (nix.getD r 0) dim hc.1.1 hc.1.2
    hc.2.1.1 hc.2.1.2 hc.2.2.1 hc.2.2.2
  have hin : 0 ≤ grid_index c.1 c.2.1 c.2.2 dim index_type.INDEX_REAL ∧
      grid_index c.1 c.2.1 c.2.2 dim index_type.INDEX_REAL < buffer_size nix dim :=
    ⟨h0, by omega⟩
  obtain ⟨e1, e2⟩ := store_cells_value dim (nix.getD r 0)
    { (init_buffers dim (buffer_size nix dim) s) with
      stars := MPI_Reduce_into (init_buffers dim (buffer_size nix dim) s).stars
        (grid_index (toInt32 (start.getD r 0)) 0 0 dim index_type.INDEX_REAL)
        (toInt32 (nix.getD r 0) * dim * dim) sent1
      prev_stars := MPI_Reduce_into (init_buffers dim (buffer_size nix dim) s).prev_stars
        (grid_index (toInt32 (start.getD r 0)) 0 0 dim index_type.INDEX_REAL)
        (toInt32 (nix.getD r 0) * dim * dim) sent2
      buffer_sfr := fun ii =>
        if 0 ≤ ii ∧ ii < dim * dim * dim then
          ((init_buffers dim (buffer_size nix dim) s).buffer_stars_slab ii
            - (init_buffers dim (buffer_size nix dim) s).buffer_sfr ii) * (1 / dt)
        else (init_buffers dim (buffer_size nix dim) s).buffer_sfr ii } c hc
  rw [e1, e2]
  simp only [init_buffers, if_pos hin]
  constructor
  · split_ifs <;> simp
  · trivial

theorem rank_stars_step_other (dim : Int) (dt : ℚ) (nix start : List Int)
    (sent1 sent2 : List (Int → ℚ)) (i_r r : Nat) (s : stars_state)
    (hfit : sfr_loop_in_bounds dim (buffer_size nix dim)) (hne : r ≠ i_r) :
    ∃ s2, rank_stars_step dim dt nix start sent1 sent2 i_r r
        (init_buffers dim (buffer_size nix dim) s) = some s2 ∧
      s2.sfr = s.sfr ∧ s2.stars_slab = s.stars_slab := by
  simp only [rank_stars_step, derive_sfr, if_pos hfit, if_neg hne]
  exact ⟨_, rfl, rfl, rfl⟩

theorem rank_stars_step_some (dim : Int) (dt : ℚ) (nix start : List Int)
    (sent1 sent2 : List (Int → ℚ)) (i_r r : Nat) (s : stars_state)
    (hfit : sfr_loop_in_bounds dim (buffer_size nix dim)) :
    ∃ s2, rank_stars_step dim dt nix start sent1 sent2 i_r r s = some s2 := by
  simp only [rank_stars_step, derive_sfr, if_pos hfit]
  split_ifs <;> exact ⟨_, rfl⟩

theorem populate_grids_stars_step_some (dim : Int) (dt : ℚ) (nix start : List Int)
    (ranks : List stars_state) (i_r : Nat)
    (hfit : sfr_loop_in_bounds dim (buffer_size nix dim)) :
    ∃ out, populate_grids_stars_step dim dt nix start ranks i_r = some out ∧
      out.length = ranks.length ∧
      ∀ (r : Nat) (s2 : stars_state), out[r]? = some s2 →
        ∃ s sent1 sent2, ranks[r]? = some s ∧
          rank_stars_step dim dt nix start sent1 sent2 i_r r
            (init_buffers dim (buffer_size nix dim) s) = some s2 := by
  unfold populate_grids_stars_step
  simp only
  obtain ⟨out, hout, hrel⟩ := for_each_some
    (fun (x : Nat × stars_state) => rank_stars_step dim dt nix start
      ((ranks.map (init_buffers dim (buffer_size nix dim))).map (fun s => s.buffer_stars_slab))
      ((ranks.map (init_buffers dim (buffer_size nix dim))).map (fun s => s.buffer_sfr))
      i_r x.1 x.2)
    (List.zip (List.range (ranks.map (init_buffers dim (buffer_size nix dim))).length)
      (ranks.map (init_buffers dim (buffer_size nix dim))))
    (fun x _ => rank_stars_step_some dim dt nix start _ _ i_r x.1 x.2 hfit)
  refine ⟨out, hout, ?_, ?_⟩
  · rw [← hrel.length_eq]
    simp
  · intro r s2 hs2
    obtain ⟨hget1, _⟩ := forall₂_getElem _ _ _ hrel
    obtain ⟨x, hx, hstep⟩ := hget1 r s2 hs2
    rw [List.getElem?_zip_eq_some] at hx
    obtain ⟨hx1, hx2⟩ := hx
    rw [List.getElem?_map] at hx2
    have hr : x.1 = r := by
      obtain ⟨hlt, heq⟩ := List.getElem?_eq_some.mp hx1
      rw [List.getElem_range] at heq
      exact heq.symm
    cases hs : ranks[r]? with
    | none => simp [hs] at hx2
    | some s =>
      simp only [hs, Option.map_some', Option.some.injEq] at hx2
      refine ⟨s,
        (ranks.map (init_buffers dim (buffer_size nix dim))).map (fun s => s.buffer_stars_slab),
        (ranks.map (init_buffers dim (buffer_size nix dim))).map (fun s => s.buffer_sfr),
        rfl, ?_⟩
      rw [hx2, ← hr]
      exact hstep

theorem populate_grids_stars_fold (dim : Int) (dt : ℚ) (nix : List Int)
    (hfit : sfr_loop_in_bounds dim (buffer_size nix dim))
    (hb : ∀ r, r < nix.length → nix.getD r 0 * (dim * dim) ≤ buffer_size nix dim)
    (todo : List Nat) (htodo : ∀ i ∈ todo, i < nix.length) (ranks : List stars_state)
    (Z : Nat → Prop)
    (hZ : ∀ r s, Z r → ranks[r]? = some s →
      ∀ c, local_cell (nix.getD r 0) dim c →
        s.sfr (grid_index c.1 c.2.1 c.2.2 dim index_type.INDEX_PADDED) = 0 ∧
        s.stars_slab (grid_index c.1 c.2.1 c.2.2 dim index_type.INDEX_PADDED) = 0) :
    ∃ out, todo.foldlM (populate_grids_stars_step dim dt nix (assign_slabs nix)) ranks
        = some out ∧ out.length = ranks.length ∧
      ∀ r s, (Z r ∨ r ∈ todo) → out[r]? = some s →
        ∀ c, local_cell (nix.getD r 0) dim c →
          s.sfr (grid_index c.1 c.2.1 c.2.2 dim index_type.INDEX_PADDED) = 0 ∧
          s.stars_slab (grid_index c.1 c.2.1 c.2.2 dim index_type.INDEX_PADDED) = 0 := by
  induction todo generalizing ranks Z with
  | nil =>
    refine ⟨ranks, rfl, rfl, ?_⟩
    intro r s hr hs
    rcases hr with hr | hr
    · exact hZ r s hr hs
    · simp at hr
  | cons i t ih =>
    obtain ⟨mid, hmid, hlen, hget⟩ :=
      populate_grids_stars_step_some dim dt nix (assign_slabs nix) ranks i hfit
    obtain ⟨out, hout, hlen2, hall⟩ := ih (fun j hj => htodo j (List.mem_cons_of_mem i hj)) mid
      (fun r => Z r ∨ r = i) (by
        intro r2 s2 hr2 hs2 c hc
        obtain ⟨s0, sent1, sent2, hs0, he⟩ := hget r2 s2 hs2
        by_cases hri : r2 = i
        · subst hri
          obtain ⟨s3, h3, hz⟩ := rank_stars_step_root dim dt nix (assign_slabs nix) sent1 sent2
            r2 s0 hfit (hb r2 (htodo r2 (List.mem_cons_self r2 t)))
          rw [h3, Option.some.injEq] at he
          rw [← he]
          exact hz c hc
        · obtain ⟨s3, h3, e1, e2⟩ := rank_stars_step_other dim dt nix (assign_slabs nix) sent1
            sent2 i r2 s0 hfit hri
          rw [h3, Option.some.injEq] at he
          rw [← he, e1, e2]
          rcases hr2 with hr2 | hr2
          · exact hZ r2 s0 hr2 hs0 c hc
          · exact absurd hr2 hri)
    refine ⟨out, ?_, by rw [hlen2, hlen], ?_⟩
    · rw [List.foldlM_cons, hmid]
      exact hout
    · intro r s hr hs
      apply hall r s _ hs
      rcases hr with hr | hr
      · exact Or.inl (Or.inl hr)
      · rcases List.mem_cons.mp hr with h | h
        · exact Or.inl (Or.inr h)
        · exact Or.inr h

theorem populate_grids_stars_none (dim : Int) (dt : ℚ) (nix : List Int)
    (ranks : List stars_state) (hn : 1 ≤ nix.length) (hr : 1 ≤ ranks.length)
    (hfit : ¬ sfr_loop_in_bounds dim (buffer_size nix dim)) :
    populate_grids_stars dim dt nix ranks = none := by
  unfold populate_grids_stars
  obtain ⟨m, hm⟩ : ∃ m, nix.length = m + 1 := ⟨nix.length - 1, by omega⟩
  rw [hm, List.range_succ_eq_map, List.foldlM_cons]
  have hstep : populate_grids_stars_step dim dt nix (assign_slabs nix) ranks 0 = none := by
    unfold populate_grids_stars_step
    simp only
    cases ranks with
    | nil => simp at hr
    | cons s t =>
      simp only [List.map_cons, List.length_cons, List.range_succ_eq_map, List.zip_cons_cons,
        for_each, rank_stars_step, derive_sfr_none _ _ _ _ hfit]
  rw [hstep]
  rfl

theorem populate_grids_stars_zero (dim : Int) (dt : ℚ) (nix : List Int)
    (ranks : List stars_state) (hpos : ∀ w ∈ nix, 0 ≤ w) (hsum : nix.sum = dim)
    (hD : dim < 2 ^ 31) (hfit : sfr_loop_in_bounds dim (buffer_size nix dim)) :
    ∃ out, populate_grids_stars dim dt nix ranks = some out ∧ out.length = ranks.length ∧
      ∀ (r : Nat) (s : stars_state), r < nix.length → out[r]? = some s →
        ∀ c, local_cell (nix.getD r 0) dim c →
          s.sfr (grid_index c.1 c.2.1 c.2.2 dim index_type.INDEX_PADDED) = 0 ∧
          s.stars_slab (grid_index c.1 c.2.1 c.2.2 dim index_type.INDEX_PADDED) = 0 := by
  obtain ⟨out, hout, hlen, hall⟩ := populate_grids_stars_fold dim dt nix hfit
    (fun r hr => buffer_size_ge nix dim hpos hsum hD r hr)
    (List.range nix.length) (fun _ hi => List.mem_range.mp hi) ranks (fun _ => False)
    (fun _ _ h => h.elim)
  exact ⟨out, hout, hlen, fun r s hr hs c hc =>
    hall r s (Or.inr (List.mem_range.mpr hr)) hs c hc⟩

/-- C14, at the failing input: one rank holding a grid of dimension 1 (layout
`[1]`), `dt = 1`, first call with stellar mass 1 in the only cell of the `stars`
grid (and no stellar mass before): `(stars_now - stars_prev) / dt` is 1 for that
cell, and `populate_grids` stores 0 in the `sfr` slab and in `stars_slab`. -/
theorem stored_sfr_zero :
    (example_stars.stars (grid_index 0 0 0 1 index_type.INDEX_REAL) - 0) / 1 = (1 : ℚ) ∧
    ∃ s, populate_grids_stars 1 1 [1] [example_stars] = some [s] ∧
      s.sfr (grid_index 0 0 0 1 index_type.INDEX_PADDED) = 0 ∧
      s.stars_slab (grid_index 0 0 0 1 index_type.INDEX_PADDED) = 0 := by
  refine ⟨by norm_num [example_stars, grid_index], ?_⟩
  obtain ⟨out, hout, hlen, hall⟩ := populate_grids_stars_zero 1 1 [1] [example_stars]
    (by decide) (by decide) (by norm_num) (by decide)
  match out, hlen with
  | [s], _ =>
    exact ⟨s, hout, hall 0 s (by decide) rfl (0, 0, 0) (by decide)⟩

/-! ## A slab layout with a zero width -/

theorem list_sum_single (l : List ℚ) (r : Nat) (v : ℚ) (hr : l[r]? = some v)
    (hz : ∀ s w, s ≠ r → l[s]? = some w → w = 0) : l.sum = v := by
  induction l generalizing r with
  | nil => simp at hr
  | cons a t ih =>
    cases r with
    | zero =>
      simp only [List.getElem?_cons_zero, Option.some.injEq] at hr
      subst hr
      have ht : t.sum = 0 := by
        apply List.sum_eq_zero
        intro w hw
        obtain ⟨k, hk⟩ := List.getElem?_of_mem hw
        exact hz (k + 1) w (by omega) (by simpa using hk)
      rw [List.sum_cons, ht, add_zero]
    | succ r =>
      simp only [List.getElem?_cons_succ] at hr
      have ha : a = 0 := hz 0 a (by omega) (by simp)
      rw [List.sum_cons, ha, zero_add]
      exact ih r hr (fun s w hs hw => hz (s + 1) w (by omega) (by simpa using hw))

theorem real_index_x (D a j k : Int) (hj0 : 0 ≤ j) (hj1 : j < D) (hk0 : 0 ≤ k) (hk1 : k < D) :
    grid_index a j k D index_type.INDEX_REAL / (D * D) = a := by
  have hD : 0 < D := by omega
  obtain ⟨h0, h1⟩ := stride_bounds D j k D hk0 hk1 hj0 hj1
  have e : grid_index a j k D index_type.INDEX_REAL = (k + D * j) + (D * D) * a := by
    simp only [grid_index]
    ring
  rw [e, Int.add_mul_ediv_left _ _ (by positivity), Int.ediv_eq_zero_of_lt h0 h1, zero_add]

theorem ionize_cell_J21_other (All : global_data) (f : filtered_fields) (R : ℚ) (last : Bool)
    (start : Int) (g : UVBGgrids_type) (c : Int × Int × Int) (ii : Int)
    (hne : ii ≠ grid_index (c.1 + start) c.2.1 c.2.2 All.UVBG_DIM index_type.INDEX_REAL) :
    (ionize_cell All f R last start g c).J21 ii = g.J21 ii := by
  simp only [ionize_cell]
  split_ifs <;> simp [Function.update_noteq hne]

theorem radius_pass_J21_other (All : global_data) (tr : ℚ → Bool → filtered_fields)
    (n start : Int) (R : ℚ) (last : Bool) (g : UVBGgrids_type) (ii : Int)
    (hout : ¬ (start ≤ ii / (All.UVBG_DIM * All.UVBG_DIM) ∧
      ii / (All.UVBG_DIM * All.UVBG_DIM) < start + n)) :
    (radius_pass All tr n start R last g).J21 ii = g.J21 ii := by
  unfold radius_pass
  simp only
  rw [foldl_preserve_mem (fun g : UVBGgrids_type => g.J21 ii)
    (ionize_cell All (sanity_checks All.UVBG_DIM n (tr R last)) R last start)
    (slab_cells n All.UVBG_DIM)]
  intro g2 c hc
  have hl := (mem_slab_cells n All.UVBG_DIM c).mp hc
  apply ionize_cell_J21_other
  intro he
  apply hout
  rw [he, real_index_x All.UVBG_DIM (c.1 + start) c.2.1 c.2.2 hl.2.1.1 hl.2.1.2 hl.2.2.1 hl.2.2.2]
  have h1 := hl.1.1
  have h2 := hl.1.2
  exact ⟨by omega, by omega⟩

theorem passes_J21_outside (All : global_data) (tr : ℚ → Bool → filtered_fields)
    (n start : Int) (g : UVBGgrids_type) (passes : List pass_record)
    (h : find_HII_bubbles_passes All tr n start g = some passes) (ii : Int)
    (hii : 0 ≤ ii ∧ ii < All.UVBG_DIM * All.UVBG_DIM * All.UVBG_DIM)
    (hout : ¬ (start ≤ ii / (All.UVBG_DIM * All.UVBG_DIM) ∧
      ii / (All.UVBG_DIM * All.UVBG_DIM) < start + n)) :
    ∀ q ∈ passes, q.grids.J21 ii = 0 := by
  have hchain := (radius_loop_chain All tr n start 42 _ _ passes h).1
  have hw := chain_walk All tr n start (fun g => g.J21 ii = 0) (fun _ => True)
    (fun g q hq hinv _ => by
      show q.grids.J21 ii = 0
      rw [hq, radius_pass_J21_other All tr n start q.R q.flag_last_filter_step g ii hout]
      exact hinv)
    passes (init_xHI_J21 All n g) [] (by rw [List.append_nil]; exact hchain)
    (by simp only [init_xHI_J21, if_pos hii]) (fun _ _ => trivial)
  exact hw.1

theorem rank_after_loop_J21_outside (All : global_data) (x : Int × Int × rank_data)
    (g : UVBGgrids_type) (hg : rank_after_loop All x = some g) (ii : Int)
    (hii : 0 ≤ ii ∧ ii < All.UVBG_DIM * All.UVBG_DIM * All.UVBG_DIM)
    (hout : ¬ (toInt32 x.2.1 ≤ ii / (All.UVBG_DIM * All.UVBG_DIM) ∧
      ii / (All.UVBG_DIM * All.UVBG_DIM) < toInt32 x.2.1 + toInt32 x.1)) :
    g.J21 ii = 0 ∧
    ∀ passes, rank_passes All x = some passes → ∀ q ∈ passes, q.grids.J21 ii = 0 := by
  obtain ⟨pre, lr, hp, hafter, _⟩ := rank_after_loop_some All x
  have hall := passes_J21_outside All x.2.2.transform (toInt32 x.1) (toInt32 x.2.1) x.2.2.grids
    (pre ++ [lr]) hp ii hii hout
  rw [hafter, Option.some.injEq] at hg
  refine ⟨?_, ?_⟩
  · rw [← hg]
    exact hall lr (by simp)
  · intro passes hpasses
    rw [hp, Option.some.injEq] at hpasses
    rw [← hpasses]
    exact hall

theorem zip_layout_getElem (nix : List Int) (ranks : List rank_data) (s : Nat)
    (x : Int × Int × rank_data)
    (hx : (List.zip nix (List.zip (assign_slabs nix) ranks))[s]? = some x) :
    x.1 ∈ nix ∧ x.1 = nix.getD s 0 ∧ x.2.1 = (assign_slabs nix).getD s 0 := by
  rw [List.getElem?_zip_eq_some] at hx
  obtain ⟨h1, h2⟩ := hx
  rw [List.getElem?_zip_eq_some] at h2
  refine ⟨List.getElem?_mem h1, ?_, ?_⟩
  · rw [List.getD_eq_getElem?_getD, h1]
    rfl
  · rw [List.getD_eq_getElem?_getD, h2.1]
    rfl

/-- C19: for slab widths `>= 0` that sum to the grid dimension `D` (with `D ≥ 1`
and `int` index products that do not overflow) and every global cell `ii` of the
grid, there is a rank `r` whose
slab contains the x index `ii / D^2` of the cell; every other rank has `J21[ii] = 0`
at the end of every pass of its radius loop, and after the sum all-reduce every
rank holds in `J21[ii]` the value that rank `r` had at the end of its loop. -/
theorem J21_replicated (All : global_data) (nix : List Int) (ranks : List rank_data)
    (hD1 : 1 ≤ All.UVBG_DIM)
    (hD : 2 * (All.UVBG_DIM / 2 + 1) * (All.UVBG_DIM * All.UVBG_DIM) < 2 ^ 31)
    (hpos : ∀ w ∈ nix, 0 ≤ w)
    (hsum : nix.sum = All.UVBG_DIM) (hranks : ranks.length = nix.length) :
    ∃ after out,
      find_HII_bubbles All nix (assign_slabs nix) ranks = some out ∧
      out.length = nix.length ∧
      List.Forall₂ (fun x g => rank_after_loop All x = some g)
        (List.zip nix (List.zip (assign_slabs nix) ranks)) after ∧
      ∀ ii : Int, 0 ≤ ii ∧ ii < All.UVBG_DIM * All.UVBG_DIM * All.UVBG_DIM →
        ∃ (r : Nat) (gr : UVBGgrids_type), r < nix.length ∧ after[r]? = some gr ∧
          ((assign_slabs nix).getD r 0 ≤ ii / (All.UVBG_DIM * All.UVBG_DIM) ∧
            ii / (All.UVBG_DIM * All.UVBG_DIM) < (assign_slabs nix).getD r 0 + nix.getD r 0) ∧
          (∀ (s : Nat) (x : Int × Int × rank_data), s ≠ r →
            (List.zip nix (List.zip (assign_slabs nix) ranks))[s]? = some x →
            (∀ passes, rank_passes All x = some passes → ∀ q ∈ passes, q.grids.J21 ii = 0) ∧
            ∀ gs, after[s]? = some gs → gs.J21 ii = 0) ∧
          ∀ g ∈ out, g.J21 ii = gr.J21 ii := by
  have hn : 1 ≤ nix.length := by
    cases nix with
    | nil => simp at hsum; omega
    | cons a t => simp
  have hD31 := dim_int_range All.UVBG_DIM hD1 hD
  obtain ⟨after, hout, hrel⟩ := find_HII_bubbles_some All nix (assign_slabs nix) ranks
  have hzl := zip_length_layout nix ranks hn hranks
  have hal : after.length = nix.length := by rw [← hrel.length_eq, hzl]
  obtain ⟨hget1, hget2⟩ := forall₂_getElem _ _ _ hrel
  refine ⟨after, _, hout, by rw [List.length_map, hal], hrel.imp (fun _ _ h => h.2), ?_⟩
  intro ii hii
  have hDD : 0 < All.UVBG_DIM * All.UVBG_DIM := by positivity
  have hix0 : 0 ≤ ii / (All.UVBG_DIM * All.UVBG_DIM) := Int.ediv_nonneg hii.1 hDD.le
  have hix1 : ii / (All.UVBG_DIM * All.UVBG_DIM) < All.UVBG_DIM :=
    Int.ediv_lt_of_lt_mul hDD (by
      have e : All.UVBG_DIM * (All.UVBG_DIM * All.UVBG_DIM)
          = All.UVBG_DIM * All.UVBG_DIM * All.UVBG_DIM := by ring
      rw [e]
      exact hii.2)
  obtain ⟨r, hr, hlo, hhi⟩ := sum_take_locate nix _ hix0 nix.length (by
    rw [List.take_length, hsum]
    exact hix1)
  rw [← assign_slabs_getD nix hn r hr] at hlo hhi
  have hra : r < after.length := by omega
  have hother : ∀ (s : Nat) (x : Int × Int × rank_data), s ≠ r →
      (List.zip nix (List.zip (assign_slabs nix) ranks))[s]? = some x →
      (∀ passes, rank_passes All x = some passes → ∀ q ∈ passes, q.grids.J21 ii = 0) ∧
      ∀ gs, after[s]? = some gs → gs.J21 ii = 0 := by
    intro s x hsr hx
    obtain ⟨hmem, hw, hst⟩ := zip_layout_getElem nix ranks s x hx
    have hs : s < nix.length := by
      rw [← hzl]
      exact (List.getElem?_eq_some.mp hx).1
    have hcw : toInt32 x.1 = x.1 := width_int32 nix All.UVBG_DIM hpos hsum hD31 x.1 hmem
    have hs0 : 0 ≤ (assign_slabs nix).getD s 0 := by
      rw [assign_slabs_getD nix hn s hs]
      have := sum_take_mono nix hpos 0 s (by omega)
      simpa using this
    have hs1 := assign_slabs_end_le nix hn hpos s hs
    have hwn := getD_nonneg_of_forall nix hpos s
    have hcs : toInt32 x.2.1 = x.2.1 := toInt32_of_range _ (by omega) (by omega)
    have houtside : ¬ (toInt32 x.2.1 ≤ ii / (All.UVBG_DIM * All.UVBG_DIM) ∧
        ii / (All.UVBG_DIM * All.UVBG_DIM) < toInt32 x.2.1 + toInt32 x.1) := by
      rw [hcw, hcs, hw, hst]
      rcases Nat.lt_or_gt_of_ne hsr with h | h
      · have := assign_slabs_ordered nix hn hpos s r h hr
        omega
      · have := assign_slabs_ordered nix hn hpos r s h hs
        omega
    obtain ⟨g0, _, _, hg0⟩ := hget2 s x hx
    have hfacts := rank_after_loop_J21_outside All x g0 hg0 ii hii houtside
    refine ⟨hfacts.2, ?_⟩
    intro gs hgs
    obtain ⟨a, ha, _, hga⟩ := hget1 s gs hgs
    rw [hx, Option.some.injEq] at ha
    subst ha
    exact (rank_after_loop_J21_outside All x gs hga ii hii houtside).1
  refine ⟨r, after[r], hr, List.getElem?_eq_getElem hra, ⟨hlo, hhi⟩, hother, ?_⟩
  intro g hg
  obtain ⟨g0, _, rfl⟩ := List.mem_map.mp hg
  simp only [reduce_and_stats, if_pos hii, MPI_Reduce_sum]
  apply list_sum_single _ r
  · simp [List.getElem?_eq_getElem hra]
  · intro s w hsr hw
    simp only [List.getElem?_map, Option.map_eq_some'] at hw
    obtain ⟨b, ⟨gs, hgs, rfl⟩, rfl⟩ := hw
    obtain ⟨x, hx, _⟩ := hget1 s gs hgs
    exact (hother s x hsr hx).2 gs hgs

theorem deep_owner_J21 (s : ℚ) (hs : -1 + FLOAT_REL_TOL ≤ s) (g0 gr : UVBGgrids_type)
    (h : rank_after_loop deep_All (1, 0, ⟨fun _ _ => constant_fields 0 1 s, g0⟩) = some gr) :
    gr.J21 0 = s / 125 * J21_aux_constant deep_All (R_start deep_All) := by
  have hc : local_cell 1 deep_All.UVBG_DIM (0, 0, 0) := by decide
  obtain ⟨pre, lr, hp, hafter, hchain, _, _, _⟩ :=
    rank_after_loop_some deep_All (1, 0, ⟨fun _ _ => constant_fields 0 1 s, g0⟩)
  rw [hafter, Option.some.injEq] at h
  simp only [rank_passes, toInt32_one, toInt32_zero] at hp
  simp only [toInt32_one, toInt32_zero] at hchain
  obtain ⟨rec, rest, hsplit, _, hR, _, _⟩ := deep_first_pass _ 1 0 _ _ hp
  rw [hsplit] at hchain
  have hall := crossing_J21 deep_All _ 1 0 (0, 0, 0) hc _ [] rec rest hchain
    (init_cell deep_All 1 0 g0 (0, 0, 0) hc (le_refl 0) (by decide)) (by simp) (by simp)
    (deep_first_crossed s 1 rec (0, 0, 0) hc hR)
  have hmem : lr ∈ rec :: rest := by
    rw [← hsplit]
    simp
  have hv := hall lr hmem
  unfold pass_fields at hv
  rw [deep_sfr_density 1 0 1 s (by norm_num) hs, hR] at hv
  rw [← h, ← hv]
  rfl

/-- Witness for C19 on `deep_All` (a box of side 10 on a grid of dimension 2) with
two ranks holding one slab each: rank 0, the owner of the global cell 0 (whose SFR
is read from element 0 of `sfr_filtered`), ends its loop with a `J21` entry that
is not 0 in that cell, rank 1 with 0, and after the all-reduce both ranks hold the
value of rank 0. -/
theorem J21_replicated_witness :
    ∃ gr gs out, find_HII_bubbles deep_All [1, 1] (assign_slabs [1, 1]) star_ranks = some out ∧
      out.length = 2 ∧
      rank_after_loop deep_All (1, 0, ⟨fun _ _ => constant_fields 0 1 1, constant_grids 0⟩)
        = some gr ∧
      rank_after_loop deep_All (1, 1, ⟨fun _ _ => constant_fields 1 0 0, constant_grids 0⟩)
        = some gs ∧
      gr.J21 0 ≠ 0 ∧ gs.J21 0 = 0 ∧ ∀ g ∈ out, g.J21 0 = gr.J21 0 := by
  obtain ⟨after, out, h1, h2, hrel, hall⟩ := J21_replicated deep_All [1, 1] star_ranks
    (by decide) (by decide) (by decide) (by decide) rfl
  obtain ⟨hget1, hget2⟩ := forall₂_getElem _ _ _ hrel
  obtain ⟨r, gr, hr, hgr, ⟨hlo, _⟩, hother, hsame⟩ := hall 0 (by decide)
  have hr0 : r = 0 := by
    simp only [List.length_cons, List.length_nil] at hr
    interval_cases r
    · rfl
    · exact absurd hlo (by decide)
  subst hr0
  have hz0 : (List.zip [(1 : Int), 1] (List.zip (assign_slabs [1, 1]) star_ranks))[0]?
      = some (1, 0, ⟨fun _ _ => constant_fields 0 1 1, constant_grids 0⟩) := rfl
  have hz1 : (List.zip [(1 : Int), 1] (List.zip (assign_slabs [1, 1]) star_ranks))[1]?
      = some (1, 1, ⟨fun _ _ => constant_fields 1 0 0, constant_grids 0⟩) := rfl
  obtain ⟨a, ha, hga⟩ := hget1 0 gr hgr
  rw [hz0, Option.some.injEq] at ha
  subst ha
  obtain ⟨gs, hgs, hgs2⟩ := hget2 1 _ hz1
  have hv := deep_owner_J21 1 (by norm_num [FLOAT_REL_TOL]) _ gr hga
  refine ⟨gr, gs, out, h1, h2, hga, hgs2, ?_, (hother 1 _ (by decide) hz1).2 gs hgs, hsame⟩
  rw [hv, deep_J21_aux_constant, deep_R_start]
  have := M_PI_pos
  positivity

/-! ## The slabs written by `populate_grids` -/

/-- C25, at the failing input: on two ranks with slabs of width 1 of a grid of
dimension 2, `buffer_size` is 4 while the loop that derives the SFR runs over
`ii < grid_n_real = 8`; the index 4 is visited and lies past the end of
`buffer_sfr` and `buffer_stars_slab`, so the loop has no defined result, and
neither has `populate_grids`. -/
theorem sfr_loop_past_buffer :
    buffer_size [1, 1] 2 = 4 ∧ ((0 : Int) ≤ 4 ∧ (4 : Int) < 2 * 2 * 2) ∧
    ¬ ((4 : Int) < buffer_size [1, 1] 2) ∧
    ¬ sfr_loop_in_bounds 2 (buffer_size [1, 1] 2) ∧
    (∀ (dt : ℚ) (s : stars_state), derive_sfr 2 (buffer_size [1, 1] 2) dt s = none) ∧
    ∀ (dt : ℚ) (s1 s2 : stars_state), populate_grids_stars 2 dt [1, 1] [s1, s2] = none := by
  have hb : buffer_size [1, 1] 2 = 4 := by decide
  have hfit : ¬ sfr_loop_in_bounds 2 (buffer_size [1, 1] 2) := by decide
  refine ⟨hb, by decide, by rw [hb]; decide, hfit, ?_, ?_⟩
  · intro dt s
    exact derive_sfr_none 2 _ dt s hfit
  · intro dt s1 s2
    exact populate_grids_stars_none 2 dt [1, 1] [s1, s2] (by decide) (by simp) hfit

theorem sanity_checks_sfr_other (D n : Int) (f : filtered_fields) (ii : Int)
    (h : ∀ c, local_cell n D c → ii ≠ grid_index c.1 c.2.1 c.2.2 D index_type.INDEX_PADDED) :
    (sanity_checks D n f).sfr_filtered ii = f.sfr_filtered ii := by
  unfold sanity_checks
  apply foldl_preserve_mem (fun f : filtered_fields => f.sfr_filtered ii) (sanity_cell D)
  intro g c hc
  simp only [sanity_cell]
  exact Function.update_noteq (h c ((mem_slab_cells n D c).mp hc)) _ _

/-- C26, at the failing input: on a grid of dimension 2 held by one rank, for the
local cell `(0, 0, 1)` the sanity loop clamps the float element 1 of
`sfr_filtered` (here 5), while `sfr_density` is formed from the complex element 1,
whose real part is the float element 2 (here 7); and for the local cell
`(1, 1, 1)` the complex index used for the read is 13, past the
`2 * 2 * (2 / 2 + 1) = 8` complex elements of the buffer. -/
theorem sfr_read_mixes_layouts :
    local_cell 2 2 (0, 0, 1) ∧ grid_index 0 0 1 2 index_type.INDEX_PADDED = 1 ∧
    (sanity_checks 2 2 mixed_fields).sfr_filtered 1 = 5 ∧
    sfr_density_cell wide_All (sanity_checks 2 2 mixed_fields) (0, 0, 1)
      = 7 / pixel_volume wide_All ∧
    local_cell 2 2 (1, 1, 1) ∧ grid_index 1 1 1 2 index_type.INDEX_PADDED = 13 ∧
    ¬ ((13 : Int) < 2 * 2 * (2 / 2 + 1)) := by
  have hc : local_cell 2 2 (0, 0, 1) := by decide
  have h1 := sanity_checks_sfr 2 2 mixed_fields (0, 0, 1) hc
  have h2 := sanity_checks_sfr_other 2 2 mixed_fields 2 (by
    intro c hc
    obtain ⟨_, _, h5, h6⟩ := hc
    have hdiv : Int.tdiv 2 2 = 1 := by decide
    simp only [grid_index, hdiv]
    omega)
  have e1 : grid_index 0 0 1 2 index_type.INDEX_PADDED = 1 := by decide
  simp only [e1] at h1
  refine ⟨hc, e1, ?_, ?_, by decide, by decide, by decide⟩
  · rw [h1]
    norm_num [mixed_fields, FLOAT_REL_TOL]
  · simp only [sfr_density_cell]
    have e3 : grid_index 0 0 1 wide_All.UVBG_DIM index_type.INDEX_PADDED = 1 := by decide
    rw [e3]
    norm_num only
    rw [h2]
    simp [mixed_fields]

/-! ## Two consecutive calls, `populate_grids` and the transforms included -/

theorem foldlM_none {σ κ : Type} (f : σ → κ → Option σ) (c0 : κ) (hc0 : ∀ s, f s c0 = none)
    (l : List κ) (hl : c0 ∈ l) (s : σ) : l.foldlM f s = none := by
  induction l generalizing s with
  | nil => simp at hl
  | cons a t ih =>
    rw [List.foldlM_cons]
    by_cases ha : a = c0
    · subst ha
      rw [hc0]
      rfl
    · have ht : c0 ∈ t := by
        rcases List.mem_cons.mp hl with h | h
        · exact absurd h.symm ha
        · exact h
      cases hfa : f s a with
      | none => rfl
      | some s2 => exact ih ht s2

theorem foldlM_some {σ κ : Type} (f : σ → κ → Option σ) (g : σ → κ → σ)
    (l : List κ) (h : ∀ s, ∀ c ∈ l, f s c = some (g s c)) (s : σ) :
    l.foldlM f s = some (l.foldl g s) := by
  induction l generalizing s with
  | nil => rfl
  | cons a t ih =>
    rw [List.foldlM_cons, h s a (List.mem_cons_self a t), List.foldl_cons]
    exact ih (fun s2 c hc => h s2 c (List.mem_cons_of_mem a hc)) (g s a)

theorem filter_with_type_zero (lib : math_library) (All : global_data) (box : Int → ℚ × ℚ)
    (start nx dim : Int) (R : ℚ) :
    filter_with_type lib All 0 box start nx dim R = some (filter lib All box start nx dim R) := by
  unfold filter_with_type filter
  apply foldlM_some
  intro s c _
  simp [filter_cell_with_type]

/-- Counterexample to C21 as stated: with the selector 3 and a slab of width 0 the
loops of `filter` visit no mode, `endrun` is not called and the array is
returned as it was. -/
theorem filter_selector_counterexample :
    filter_with_type example_library example_All 3 (fun _ => (1, 2)) 0 0 1 5
      = some (fun _ => (1, 2)) := by
  simp [filter_with_type, kspace_cells]
  rfl

/-- C21, amended: with the kernel selector as an input, for every selector other
than 0, 1 and 2, every array, every slab offset, every slab of width `>= 1` on a
grid of dimension `>= 1` and every radius, `filter` ends in the call of `endrun`
and returns no field. -/
theorem filter_selector_fatal (lib : math_library) (All : global_data) (filter_type : Int)
    (box : Int → ℚ × ℚ) (start nx dim : Int) (R : ℚ)
    (h0 : filter_type ≠ 0) (h1 : filter_type ≠ 1) (h2 : filter_type ≠ 2)
    (hnx : 1 ≤ nx) (hdim : 1 ≤ dim) :
    filter_with_type lib All filter_type box start nx dim R = none := by
  unfold filter_with_type
  apply foldlM_none _ (0, 0, 0)
  · intro s
    simp [filter_cell_with_type, h0, h1, h2]
  · rw [mem_kspace_cells]
    have hdiv : Int.tdiv dim 2 = dim / 2 := Int.tdiv_eq_ediv (by omega) (by omega)
    rw [hdiv]
    simp only
    omega

/-- Witness for C21, amended: the selector 3 on a slab of width 1 of a grid of
dimension 1. -/
theorem filter_selector_fatal_witness :
    filter_with_type example_library example_All 3 (fun _ => (1, 2)) 0 1 1 5 = none :=
  filter_selector_fatal example_library example_All 3 (fun _ => (1, 2)) 0 1 1 5
    (by decide) (by decide) (by decide) (by decide) (by decide)
/-! ## The multiplier of `filter` and Hermitian symmetry -/

theorem filter_kR_mode (lib : math_library) (All : global_data) (start dim : Int) (R : ℚ)
    (c : Int × Int × Int) :
    filter_kR lib All start dim R c
      = lib.sqrtf (((mode_number (c.1 + start) dim ^ 2 + mode_number c.2.1 dim ^ 2
          + c.2.2 ^ 2 : Int) : ℚ) * (2 * M_PI / All.BoxSize) ^ 2) * R := by
  have e : ∀ g : Int,
      (if g > Int.tdiv dim 2 then ((g - dim : Int) : ℚ) * (2 * M_PI / All.BoxSize)
        else (g : ℚ) * (2 * M_PI / All.BoxSize))
      = ((mode_number g dim : Int) : ℚ) * (2 * M_PI / All.BoxSize) := by
    intro g
    unfold mode_number
    split_ifs <;> rfl
  simp only [filter_kR, e]
  congr 2
  push_cast
  ring

theorem mode_number_partner (g dim : Int) (hdim : 1 ≤ dim) (hg0 : 0 ≤ g) (hg1 : g < dim) :
    mode_number ((dim - g) % dim) dim ^ 2 = mode_number g dim ^ 2 := by
  have hdiv : Int.tdiv dim 2 = dim / 2 := Int.tdiv_eq_ediv (by omega) (by omega)
  have h : mode_number ((dim - g) % dim) dim = - mode_number g dim ∨
      mode_number ((dim - g) % dim) dim = mode_number g dim := by
    rcases eq_or_lt_of_le hg0 with h0 | h0
    · subst h0
      right
      simp
    · have hp : (dim - g) % dim = dim - g := Int.emod_eq_of_lt (by omega) (by omega)
      rw [hp]
      unfold mode_number
      rw [hdiv]
      split_ifs <;> omega
  rcases h with h | h <;> rw [h]
  ring

theorem filter_cell_with_type_value (lib : math_library) (All : global_data) (filter_type : Int)
    (start dim : Int) (R : ℚ) (box : Int → ℚ × ℚ) (c : Int × Int × Int)
    (ht : filter_type = 0 ∨ filter_type = 1 ∨ filter_type = 2) :
    ∃ box2, filter_cell_with_type lib All filter_type start dim R box c = some box2 ∧
      box2 (grid_index c.1 c.2.1 c.2.2 dim index_type.INDEX_COMPLEX_HERM)
        = (filter_multiplier lib filter_type (filter_kR lib All start dim R c)
              * (box (grid_index c.1 c.2.1 c.2.2 dim index_type.INDEX_COMPLEX_HERM)).1,
           filter_multiplier lib filter_type (filter_kR lib All start dim R c)
              * (box (grid_index c.1 c.2.1 c.2.2 dim index_type.INDEX_COMPLEX_HERM)).2) := by
  rcases ht with h | h | h <;> subst h
  · refine ⟨filter_cell lib All start dim R box c, by simp [filter_cell_with_type], ?_⟩
    by_cases hk : filter_kR lib All start dim R c > 1e-4
    · simp [filter_cell, filter_multiplier, hk]
    · simp [filter_cell, filter_multiplier, hk]
  · by_cases hk : filter_kR lib All start dim R c * 0.413566994 > 1
    · exact ⟨Function.update box
        (grid_index c.1 c.2.1 c.2.2 dim index_type.INDEX_COMPLEX_HERM) (0, 0),
        by simp [filter_cell_with_type, hk], by simp [filter_multiplier, hk]⟩
    · exact ⟨box, by simp [filter_cell_with_type, hk], by simp [filter_multiplier, hk]⟩
  · refine ⟨Function.update box (grid_index c.1 c.2.1 c.2.2 dim index_type.INDEX_COMPLEX_HERM)
      (filter_multiplier lib 2 (filter_kR lib All start dim R c)
          * (box (grid_index c.1 c.2.1 c.2.2 dim index_type.INDEX_COMPLEX_HERM)).1,
        filter_multiplier lib 2 (filter_kR lib All start dim R c)
          * (box (grid_index c.1 c.2.1 c.2.2 dim index_type.INDEX_COMPLEX_HERM)).2), ?_, ?_⟩
    · simp [filter_cell_with_type, filter_multiplier]
    · simp

/-- C23: for each of the three kernels, the body of `filter` multiplies both parts
of the element of a mode by one rational factor, which is a function of `kR`;
`kR` of the mode with global index `(gx, gy, gz)` is
`sqrtf((mx^2 + my^2 + gz^2) * delta_k^2) * R` with `m = g` for `g <= dim / 2` and
`m = g - dim` otherwise, where `m ≡ g (mod dim)` and `|m| <= dim / 2` for
`0 <= g < dim`; so for `dim >= 1` and `gx, gy` in `[0, dim)` the modes
`(gx, gy, gz)` and `((dim - gx) mod dim, (dim - gy) mod dim, gz)` have the same
`kR` and the same multiplier. -/
theorem filter_hermitian (lib : math_library) (All : global_data) (filter_type : Int)
    (dim : Int) (R : ℚ) (hdim : 1 ≤ dim)
    (ht : filter_type = 0 ∨ filter_type = 1 ∨ filter_type = 2) :
    (∀ (start : Int) (box : Int → ℚ × ℚ) (c : Int × Int × Int),
      ∃ box2, filter_cell_with_type lib All filter_type start dim R box c = some box2 ∧
        box2 (grid_index c.1 c.2.1 c.2.2 dim index_type.INDEX_COMPLEX_HERM)
          = (filter_multiplier lib filter_type (filter_kR lib All start dim R c)
                * (box (grid_index c.1 c.2.1 c.2.2 dim index_type.INDEX_COMPLEX_HERM)).1,
             filter_multiplier lib filter_type (filter_kR lib All start dim R c)
                * (box (grid_index c.1 c.2.1 c.2.2 dim index_type.INDEX_COMPLEX_HERM)).2)) ∧
    (∀ (start : Int) (c : Int × Int × Int),
      filter_kR lib All start dim R c
        = lib.sqrtf (((mode_number (c.1 + start) dim ^ 2 + mode_number c.2.1 dim ^ 2
            + c.2.2 ^ 2 : Int) : ℚ) * (2 * M_PI / All.BoxSize) ^ 2) * R) ∧
    (∀ g : Int, 0 ≤ g → g < dim →
      mode_number g dim ≡ g [ZMOD dim] ∧ |mode_number g dim| ≤ dim / 2) ∧
    (∀ (start start2 : Int) (c c2 : Int × Int × Int),
      0 ≤ c.1 + start → c.1 + start < dim → 0 ≤ c.2.1 → c.2.1 < dim →
      c2.1 + start2 = (dim - (c.1 + start)) % dim → c2.2.1 = (dim - c.2.1) % dim →
      c2.2.2 = c.2.2 →
      filter_kR lib All start2 dim R c2 = filter_kR lib All start dim R c ∧
      filter_multiplier lib filter_type (filter_kR lib All start2 dim R c2)
        = filter_multiplier lib filter_type (filter_kR lib All start dim R c)) := by
  have hdiv : Int.tdiv dim 2 = dim / 2 := Int.tdiv_eq_ediv (by omega) (by omega)
  refine ⟨fun start box c => filter_cell_with_type_value lib All filter_type start dim R box c ht,
    fun start c => filter_kR_mode lib All start dim R c, ?_, ?_⟩
  · intro g hg0 hg1
    unfold mode_number
    rw [hdiv]
    split_ifs with h
    · refine ⟨?_, ?_⟩
      · rw [Int.modEq_iff_dvd]
        exact ⟨1, by ring⟩
      · rw [abs_le]
        constructor <;> omega
    · refine ⟨Int.ModEq.refl g, ?_⟩
      rw [abs_le]
      constructor <;> omega
  · intro start start2 c c2 hx0 hx1 hy0 hy1 hx hy hz
    have hk : filter_kR lib All start2 dim R c2 = filter_kR lib All start dim R c := by
      rw [filter_kR_mode, filter_kR_mode, hx, hy, hz,
        mode_number_partner (c.1 + start) dim hdim hx0 hx1,
        mode_number_partner c.2.1 dim hdim hy0 hy1]
    exact ⟨hk, by rw [hk]⟩

/-- Witness for C23: on a grid of dimension 4 the modes `(1, 3, 2)` and
`(3, 1, 2)` have the same `kR` at `R = 5`. -/
theorem filter_hermitian_witness :
    filter_kR example_library example_All 0 4 5 (3, 1, 2)
      = filter_kR example_library example_All 0 4 5 (1, 3, 2) :=
  ((filter_hermitian example_library example_All 0 4 5 (by decide) (Or.inl rfl)).2.2.2
    0 0 (1, 3, 2) (3, 1, 2) (by decide) (by decide) (by decide) (by decide) (by decide)
    (by decide) rfl).1

/-! ## The report of `endrun` -/

/-- Counterexample to C22 as stated: called with `where = 0` on rank 1, `endrun`
prints nothing: it only calls `MPI_Abort(MPI_COMM_WORLD, 0)`; and on rank 0 the
report holds the elapsed time and the message but no rank. -/
theorem endrun_report_counterexample :
    endrun 2 10 1 0 "stop" = [endrun_event.MPI_Abort 0] ∧
    endrun 2 10 0 0 "stop"
      = [endrun_event.printf_root 8 "stop", endrun_event.fflush_stdout,
          endrun_event.show_backtrace, endrun_event.MPI_Abort 0] := by
  constructor
  · simp [endrun]
  · norm_num [endrun]

/-- C22, amended: for `where > 0` and every calling rank, `endrun` prints a report
with the elapsed time since `_timestart`, the rank and the formatted message; for
`where <= 0` only rank 0 prints a report, with the elapsed time and the message
and without a rank, and the other ranks print nothing; in every case the last
call is `MPI_Abort(MPI_COMM_WORLD, where)`, and nothing else is called but
`fflush` and `show_backtrace`. -/
theorem endrun_report (timestart wtime : ℚ) (ThisTask where_code : Int) (buf : String) :
    (0 < where_code →
      endrun timestart wtime ThisTask where_code buf
        = [endrun_event.printf_task (wtime - timestart) ThisTask buf,
            endrun_event.fflush_stdout, endrun_event.show_backtrace,
            endrun_event.MPI_Abort where_code]) ∧
    (where_code ≤ 0 → ThisTask = 0 →
      endrun timestart wtime ThisTask where_code buf
        = [endrun_event.printf_root (wtime - timestart) buf, endrun_event.fflush_stdout,
            endrun_event.show_backtrace, endrun_event.MPI_Abort where_code]) ∧
    (where_code ≤ 0 → ThisTask ≠ 0 →
      endrun timestart wtime ThisTask where_code buf = [endrun_event.MPI_Abort where_code]) ∧
    (endrun timestart wtime ThisTask where_code buf).getLast?
      = some (endrun_event.MPI_Abort where_code) := by
  refine ⟨?_, ?_, ?_, ?_⟩
  · intro h
    simp [endrun, h]
  · intro h h0
    have : ¬ where_code > 0 := by omega
    simp [endrun, this, h0]
  · intro h h0
    have : ¬ where_code > 0 := by omega
    simp [endrun, this, h0]
  · unfold endrun
    split_ifs <;> simp

/-- Witness for C22, amended: `where = 3` on rank 5, 8 seconds after
`init_endrun`. -/
theorem endrun_report_witness :
    endrun (init_endrun 2) 10 5 3 "stop"
      = [endrun_event.printf_task (10 - init_endrun 2) 5 "stop", endrun_event.fflush_stdout,
          endrun_event.show_backtrace, endrun_event.MPI_Abort 3] :=
  (endrun_report (init_endrun 2) 10 5 3 "stop").1 (by decide)
/-! ## The nearest-star kick -/

theorem nearest_star_fold (l : List kick_candidate) (s : star_kick) :
    (l.foldl nearest_star_update s = s ∨
      ∃ b ∈ l, l.foldl nearest_star_update s
        = { StarDistance := b.r, StarID := b.ID, StarKickVelocity := b.v }) ∧
    ((l.foldl nearest_star_update s).StarDistance < s.StarDistance ∨
      ((l.foldl nearest_star_update s).StarDistance = s.StarDistance ∧
        s.StarID ≤ (l.foldl nearest_star_update s).StarID)) ∧
    ∀ c ∈ l, (l.foldl nearest_star_update s).StarDistance < c.r ∨
      ((l.foldl nearest_star_update s).StarDistance = c.r ∧
        c.ID ≤ (l.foldl nearest_star_update s).StarID) := by
  induction l generalizing s with
  | nil => simp
  | cons a t ih =>
    rw [List.foldl_cons]
    obtain ⟨h1, h2, h3⟩ := ih (nearest_star_update s a)
    have hstep : (nearest_star_update s a = s ∧
          (s.StarDistance < a.r ∨ (s.StarDistance = a.r ∧ a.ID ≤ s.StarID))) ∨
        (nearest_star_update s a
            = { StarDistance := a.r, StarID := a.ID, StarKickVelocity := a.v } ∧
          (a.r < s.StarDistance ∨ (a.r = s.StarDistance ∧ s.StarID ≤ a.ID))) := by
      unfold nearest_star_update
      by_cases hc : s.StarDistance > a.r ∨ (s.StarDistance = a.r ∧ s.StarID < a.ID)
      · right
        refine ⟨if_pos hc, ?_⟩
        rcases hc with hc | hc
        · exact Or.inl hc
        · exact Or.inr ⟨hc.1.symm, hc.2.le⟩
      · left
        refine ⟨if_neg hc, ?_⟩
        rw [not_or, not_and] at hc
        rcases lt_or_eq_of_le (not_lt.mp hc.1) with h | h
        · exact Or.inl h
        · exact Or.inr ⟨h, not_lt.mp (hc.2 h)⟩
    rcases hstep with ⟨he, hle⟩ | ⟨he, hle⟩
    · rw [he] at h1 h2 h3 ⊢
      refine ⟨?_, h2, ?_⟩
      · rcases h1 with h1 | ⟨b, hb, h1⟩
        · exact Or.inl h1
        · exact Or.inr ⟨b, List.mem_cons_of_mem a hb, h1⟩
      · intro c hc
        rcases List.mem_cons.mp hc with hc | hc
        · subst hc
          rcases h2 with h2 | ⟨h2, h2i⟩ <;> rcases hle with hle | ⟨hle, hlei⟩
          · exact Or.inl (lt_trans h2 hle)
          · exact Or.inl (lt_of_lt_of_eq h2 hle)
          · exact Or.inl (lt_of_eq_of_lt h2 hle)
          · exact Or.inr ⟨h2.trans hle, le_trans hlei h2i⟩
        · exact h3 c hc
    · rw [he] at h1 h2 h3 ⊢
      simp only at h2
      refine ⟨?_, ?_, ?_⟩
      · rcases h1 with h1 | ⟨b, hb, h1⟩
        · exact Or.inr ⟨a, List.mem_cons_self a t, h1⟩
        · exact Or.inr ⟨b, List.mem_cons_of_mem a hb, h1⟩
      · rcases h2 with h2 | ⟨h2, h2i⟩ <;> rcases hle with hle | ⟨hle, hlei⟩
        · exact Or.inl (lt_trans h2 hle)
        · exact Or.inl (lt_of_lt_of_eq h2 hle)
        · exact Or.inl (lt_of_eq_of_lt h2 hle)
        · exact Or.inr ⟨h2.trans hle, le_trans hlei h2i⟩
      · intro c hc
        rcases List.mem_cons.mp hc with hc | hc
        · subst hc
          exact h2
        · exact h3 c hc

theorem nearest_star_best (BoxSize : ℚ) (ID0 : Nat) (v0 : ℚ) (l : List kick_candidate)
    (hne : l ≠ []) (hr : ∀ c ∈ l, c.r < BoxSize) :
    ∃ b ∈ l, l.foldl nearest_star_update (initial_star_kick BoxSize ID0 v0)
        = { StarDistance := b.r, StarID := b.ID, StarKickVelocity := b.v } ∧
      ∀ c ∈ l, b.r < c.r ∨ (b.r = c.r ∧ c.ID ≤ b.ID) := by
  obtain ⟨h1, _, h3⟩ := nearest_star_fold l (initial_star_kick BoxSize ID0 v0)
  rcases h1 with h1 | ⟨b, hb, h1⟩
  · exfalso
    obtain ⟨c, hc⟩ := List.exists_mem_of_ne_nil l hne
    have h := h3 c hc
    rw [h1] at h
    have hcr := hr c hc
    simp only [initial_star_kick] at h
    rcases h with h | h
    · exact absurd (lt_trans h hcr) (lt_irrefl _)
    · rw [h.1] at hcr
      exact absurd hcr (lt_irrefl _)
  · refine ⟨b, hb, h1, ?_⟩
    intro c hc
    have h := h3 c hc
    rw [h1] at h
    exact h

/-- C27: for a gas particle slot that starts with `StarDistance = BoxSize`, and
candidate kicks with `r < BoxSize` and pairwise distinct star IDs, applying the
update of `sfr_wind_feedback_ngbiter` to the candidates in any two orders ends
with the same `StarDistance`, `StarID` and `StarKickVelocity`; when there is a
candidate, these are the `r`, `ID` and `v` of the candidate with the smallest `r`,
the largest `ID` among those of smallest `r`. -/
theorem nearest_star_order_independent (BoxSize : ℚ) (ID0 : Nat) (v0 : ℚ)
    (l l2 : List kick_candidate) (hperm : l.Perm l2) (hr : ∀ c ∈ l, c.r < BoxSize)
    (hid : (l.map kick_candidate.ID).Nodup) :
    l2.foldl nearest_star_update (initial_star_kick BoxSize ID0 v0)
      = l.foldl nearest_star_update (initial_star_kick BoxSize ID0 v0) ∧
    (l ≠ [] → ∃ b ∈ l, l.foldl nearest_star_update (initial_star_kick BoxSize ID0 v0)
        = { StarDistance := b.r, StarID := b.ID, StarKickVelocity := b.v } ∧
      ∀ c ∈ l, b.r < c.r ∨ (b.r = c.r ∧ c.ID ≤ b.ID)) := by
  refine ⟨?_, fun hne => nearest_star_best BoxSize ID0 v0 l hne hr⟩
  by_cases hne : l = []
  · subst hne
    rw [List.Perm.nil_eq hperm]
  · have hne2 : l2 ≠ [] := fun h => hne (by rw [h] at hperm; exact hperm.eq_nil)
    obtain ⟨b, hb, hres, hbest⟩ := nearest_star_best BoxSize ID0 v0 l hne hr
    obtain ⟨b2, hb2, hres2, hbest2⟩ := nearest_star_best BoxSize ID0 v0 l2 hne2
      (fun c hc => hr c (hperm.mem_iff.mpr hc))
    have hb2l : b2 ∈ l := hperm.mem_iff.mpr hb2
    have h1 := hbest b2 hb2l
    have h2 := hbest2 b (hperm.mem_iff.mp hb)
    have hsame : b2.ID = b.ID := by
      rcases h1 with h1 | ⟨h1, h1i⟩ <;> rcases h2 with h2 | ⟨h2, h2i⟩
      · exact absurd (lt_trans h1 h2) (lt_irrefl _)
      · rw [h2] at h1
        exact absurd h1 (lt_irrefl _)
      · rw [h1] at h2
        exact absurd h2 (lt_irrefl _)
      · exact le_antisymm h1i h2i
    have hbb : b2 = b := List.inj_on_of_nodup_map hid hb2l hb hsame
    rw [hres, hres2, hbb]

/-- Witness for C27: three candidates, two of them at the smallest distance 2;
the star with the larger ID, 9, gives the kick in both orders. -/
theorem nearest_star_order_independent_witness :
    List.foldl nearest_star_update (initial_star_kick 10 0 0) [⟨2, 7, 1⟩, ⟨3, 8, 5⟩, ⟨2, 9, 4⟩]
      = List.foldl nearest_star_update (initial_star_kick 10 0 0)
          [⟨2, 9, 4⟩, ⟨2, 7, 1⟩, ⟨3, 8, 5⟩] :=
  (nearest_star_order_independent 10 0 0 [⟨2, 9, 4⟩, ⟨2, 7, 1⟩, ⟨3, 8, 5⟩]
    [⟨2, 7, 1⟩, ⟨3, 8, 5⟩, ⟨2, 9, 4⟩]
    ((List.Perm.swap _ _ _).trans (List.Perm.cons _ (List.Perm.swap _ _ _)))
    (by
      intro c hc
      simp only [List.mem_cons, List.mem_singleton, List.not_mem_nil, or_false] at hc
      rcases hc with h | h | h <;> subst h <;> norm_num)
    (by decide)).1
/-! ## The short-range window lookup -/

theorem short_range_asmthfac_eq (asmth a b c : ℚ) (hs : asmth ≠ 0)
    (ha : round_double (0.5 / asmth) = some a)
    (hb : round_double ((NTAB : ℚ) / 3.0) = some b)
    (hc : round_double (a * b) = some c) : short_range_asmthfac asmth = some c := by
  unfold short_range_asmthfac double_div double_mul
  rw [if_neg hs, if_neg (by norm_num), ha, hb]
  exact hc

theorem short_range_asmthfac_nonneg (asmth c : ℚ) (hs : 0 < asmth)
    (hc : short_range_asmthfac asmth = some c) : 0 ≤ c := by
  unfold short_range_asmthfac double_div double_mul at hc
  rw [if_neg (ne_of_gt hs), if_neg (by norm_num)] at hc
  cases ha : round_double (0.5 / asmth) with
  | none => simp [ha] at hc
  | some a =>
    cases hb : round_double ((NTAB : ℚ) / 3.0) with
    | none => simp [ha, hb] at hc
    | some b =>
      simp only [ha, hb] at hc
      have ha0 := round_double_nonneg _ _ (by positivity) ha
      have hb0 := round_double_nonneg _ _ (by norm_num [NTAB]) hb
      exact round_double_nonneg _ _ (mul_nonneg ha0 hb0) hc

theorem grav_apply_of_product (Asmth : ℚ) (tab tabp : Int → ℚ) (r fac pot a p : ℚ)
    (ha : short_range_asmthfac Asmth = some a) (hp : double_mul a r = some p)
    (h0 : 0 ≤ p) (h1 : p < 2 ^ 31) :
    grav_apply_short_range_window Asmth tab tabp r fac pot
      = if ⌊p⌋ < NTAB then
          some (0, double_mul fac (tab ⌊p⌋), double_mul pot (tabp ⌊p⌋))
        else some (1, some fac, some pot) := by
  unfold grav_apply_short_range_window
  simp only [ha, hp, double_to_int_floor p h0 h1]
  have hf0 : ¬ (⌊p⌋ < 0) := not_lt.mpr (Int.floor_nonneg.mpr h0)
  rw [if_neg hf0]

theorem asmthfac_three :
    short_range_asmthfac 3 = some (7818749353073777 * (2 : ℚ) ^ (-47 : Int)) := by
  have ha : round_double (0.5 / 3) = some (6004799503160661 * (2 : ℚ) ^ (-55 : Int)) := by
    have h := round_double_eq (0.5 / 3) (-3) 6004799503160661 (by norm_num)
      (by rw [abs_of_nonneg (by norm_num)]; norm_num)
      (by rw [abs_of_nonneg (by norm_num)]; norm_num)
      (by apply nearbyint_eq_of_near <;> norm_num)
      (by rw [abs_of_nonneg (by norm_num)]; norm_num)
    rw [h]
    norm_num
  have hb : round_double ((NTAB : ℚ) / 3.0)
      = some (5864062014805333 * (2 : ℚ) ^ (-44 : Int)) := by
    have h := round_double_eq ((NTAB : ℚ) / 3.0) 8 5864062014805333 (by norm_num)
      (by rw [abs_of_nonneg (by norm_num [NTAB])]; norm_num [NTAB])
      (by rw [abs_of_nonneg (by norm_num [NTAB])]; norm_num [NTAB])
      (by apply nearbyint_eq_of_near <;> norm_num [NTAB])
      (by rw [abs_of_nonneg (by norm_num)]; norm_num)
    rw [h]
    norm_num
  have hc : round_double (6004799503160661 * (2 : ℚ) ^ (-55 : Int)
      * (5864062014805333 * (2 : ℚ) ^ (-44 : Int)))
      = some (7818749353073777 * (2 : ℚ) ^ (-47 : Int)) := by
    have h := round_double_eq (6004799503160661 * (2 : ℚ) ^ (-55 : Int)
      * (5864062014805333 * (2 : ℚ) ^ (-44 : Int))) 5 7818749353073777 (by norm_num)
      (by rw [abs_of_nonneg (by norm_num)]; norm_num)
      (by rw [abs_of_nonneg (by norm_num)]; norm_num)
      (by apply nearbyint_eq_of_near <;> norm_num)
      (by rw [abs_of_nonneg (by norm_num)]; norm_num)
    rw [h]
    norm_num
  exact short_range_asmthfac_eq 3 _ _ _ (by norm_num) ha hb hc

theorem product_eighteen : double_mul (7818749353073777 * (2 : ℚ) ^ (-47 : Int)) 18
    = some (8796093022207999 * (2 : ℚ) ^ (-43 : Int)) := by
  unfold double_mul
  have h := round_double_eq (7818749353073777 * (2 : ℚ) ^ (-47 : Int) * 18) 9 8796093022207999
    (by norm_num)
    (by rw [abs_of_nonneg (by norm_num)]; norm_num)
    (by rw [abs_of_nonneg (by norm_num)]; norm_num)
    (by apply nearbyint_eq_of_near <;> norm_num)
    (by rw [abs_of_nonneg (by norm_num)]; norm_num)
  rw [h]
  norm_num

theorem product_nine : double_mul (7818749353073777 * (2 : ℚ) ^ (-47 : Int)) 9
    = some (8796093022207999 * (2 : ℚ) ^ (-44 : Int)) := by
  unfold double_mul
  have h := round_double_eq (7818749353073777 * (2 : ℚ) ^ (-47 : Int) * 9) 8 8796093022207999
    (by norm_num)
    (by rw [abs_of_nonneg (by norm_num)]; norm_num)
    (by rw [abs_of_nonneg (by norm_num)]; norm_num)
    (by apply nearbyint_eq_of_near <;> norm_num)
    (by rw [abs_of_nonneg (by norm_num)]; norm_num)
  rw [h]
  norm_num

/-- Counterexample to C30 as stated: with `Asmth = 3` and `r = 18 = 6 * Asmth` the
binary64 value of `asmthfac * r` is `8796093022207999 / 2^43`, just below 1000,
so the index is 999 (not `floor(r * NTAB / (6 * Asmth)) = 1000`), the table is
applied and 0 is returned, although `r < 6 * Asmth` does not hold. -/
theorem short_range_window_counterexample :
    (0 : ℚ) < 3 ∧ (0 : ℚ) ≤ 18 ∧ ¬ ((18 : ℚ) < 6 * 3) ∧
    ⌊(18 : ℚ) * (NTAB : ℚ) / (6 * 3)⌋ = 1000 ∧
    ∀ (tab tabp : Int → ℚ) (fac pot : ℚ),
      grav_apply_short_range_window 3 tab tabp 18 fac pot
        = some (0, double_mul fac (tab 999), double_mul pot (tabp 999)) := by
  refine ⟨by norm_num, by norm_num, by norm_num, ?_, ?_⟩
  · have : (18 : ℚ) * (NTAB : ℚ) / (6 * 3) = ((1000 : Int) : ℚ) := by norm_num [NTAB]
    rw [this, Int.floor_intCast]
  · intro tab tabp fac pot
    have hfl : ⌊(8796093022207999 * (2 : ℚ) ^ (-43 : Int))⌋ = 999 := by
      rw [Int.floor_eq_iff]
      constructor <;> norm_num
    have h := grav_apply_of_product 3 tab tabp 18 fac pot _ _ asmthfac_three product_eighteen
      (by norm_num) (by norm_num)
    rw [hfl, if_pos (by decide)] at h
    exact h

/-- C30 (amended): for `Asmth > 0` and `r ≥ 0` such that the binary64 value `p` of
`asmthfac * r`, with `asmthfac` the binary64 value of `0.5 / Asmth * (NTAB / 3.0)`,
is finite and below `2^31`: `p ≥ 0`, the table index is `t = floor(p)` with
`0 ≤ t`; `t < NTAB` holds exactly when `p < NTAB`, and then `*fac` is multiplied
by `shortrange_table[t]`, `*pot` by `shortrange_table_potential[t]` and 0 is
returned; otherwise 1 is returned and `*fac` and `*pot` are unchanged. -/
theorem short_range_window (Asmth r fac pot : ℚ) (tab tabp : Int → ℚ)
    (hA : 0 < Asmth) (hr : 0 ≤ r) (a p : ℚ)
    (ha : short_range_asmthfac Asmth = some a) (hp : double_mul a r = some p)
    (hint : p < 2 ^ 31) :
    0 ≤ p ∧ 0 ≤ ⌊p⌋ ∧ (⌊p⌋ < NTAB ↔ p < (NTAB : ℚ)) ∧
    (⌊p⌋ < NTAB →
      grav_apply_short_range_window Asmth tab tabp r fac pot
        = some (0, double_mul fac (tab ⌊p⌋), double_mul pot (tabp ⌊p⌋))) ∧
    (¬ ⌊p⌋ < NTAB →
      grav_apply_short_range_window Asmth tab tabp r fac pot
        = some (1, some fac, some pot)) := by
  have ha0 := short_range_asmthfac_nonneg Asmth a hA ha
  have hp0 : 0 ≤ p := round_double_nonneg _ _ (mul_nonneg ha0 hr) hp
  have h := grav_apply_of_product Asmth tab tabp r fac pot a p ha hp hp0 hint
  refine ⟨hp0, Int.floor_nonneg.mpr hp0, Int.floor_lt, ?_, ?_⟩
  · intro hlt
    rw [h, if_pos hlt]
  · intro hge
    rw [h, if_neg hge]

/-- Witness for C30 (amended): `Asmth = 3`, `r = 9` gives the index 499; with the
tables `t ↦ t` and `t ↦ 2 t`, `*fac = 1` and `*pot = 1` the call returns 0 and
leaves `*fac = 499` and `*pot = 998`. -/
theorem short_range_window_witness :
    grav_apply_short_range_window 3 (fun t => (t : ℚ)) (fun t => 2 * (t : ℚ)) 9 1 1
      = some (0, some 499, some 998) := by
  have hfl : ⌊(8796093022207999 * (2 : ℚ) ^ (-44 : Int))⌋ = 499 := by
    rw [Int.floor_eq_iff]
    constructor <;> norm_num
  have h := (short_range_window 3 9 1 1 (fun t => (t : ℚ)) (fun t => 2 * (t : ℚ))
    (by norm_num) (by norm_num) _ _
    asmthfac_three product_nine (by norm_num)).2.2.2.1
  rw [hfl] at h
  have h2 := h (by decide)
  have ha : double_mul 1 (((499 : Int) : ℚ)) = some 499 := by
    unfold double_mul
    have := round_double_exact_value (1 * ((499 : Int) : ℚ)) 8 (499 * 2 ^ 44) (by norm_num)
      (by rw [abs_of_nonneg (by norm_num)]; norm_num)
      (by rw [abs_of_nonneg (by norm_num)]; norm_num)
      (by norm_num)
      (by rw [abs_of_nonneg (by norm_num)]; norm_num)
    rw [this]
    norm_num
  have hb : double_mul 1 (2 * ((499 : Int) : ℚ)) = some 998 := by
    unfold double_mul
    have := round_double_exact_value (1 * (2 * ((499 : Int) : ℚ))) 9 (499 * 2 ^ 44) (by norm_num)
      (by rw [abs_of_nonneg (by norm_num)]; norm_num)
      (by rw [abs_of_nonneg (by norm_num)]; norm_num)
      (by norm_num)
      (by rw [abs_of_nonneg (by norm_num)]; norm_num)
    rw [this]
    norm_num
  rw [h2]
  simp only [ha, hb]

/-! ## Parent clocks (`walltime_update_parents`) -/

theorem lex_lt_not_start (p x : List Char) (h : x < p) : x.take p.length ≠ p := by
  induction p generalizing x with
  | nil => exact absurd h (List.Lex.not_nil_right _ _)
  | cons a p ih =>
    intro he
    cases x with
    | nil => simp at he
    | cons b x =>
      simp only [List.length_cons, List.take_succ_cons, List.cons.injEq] at he
      obtain ⟨hab, hx⟩ := he
      subst hab
      cases h with
      | cons h2 => exact ih x h2 hx
      | rel h2 => exact lt_irrefl _ h2

theorem lex_between_start (p x y : List Char) (hpx : p < x) (hxy : x < y)
    (hy : y.take p.length = p) : x.take p.length = p := by
  induction p generalizing x y with
  | nil => simp
  | cons a p ih =>
    cases y with
    | nil => simp at hy
    | cons c y =>
      simp only [List.length_cons, List.take_succ_cons, List.cons.injEq] at hy
      obtain ⟨hca, hy⟩ := hy
      subst hca
      cases x with
      | nil => exact absurd hpx (List.Lex.not_nil_right _ _)
      | cons b x =>
        cases hpx with
        | cons h1 =>
          cases hxy with
          | cons h2 =>
            simp only [List.length_cons, List.take_succ_cons, List.cons.injEq, true_and]
            exact ih x y h1 h2 hy
          | rel h2 => exact absurd h2 (lt_irrefl _)
        | rel h1 =>
          cases hxy with
          | cons h2 => exact absurd h1 (lt_irrefl _)
          | rel h2 => exact absurd (lt_trans h1 h2) (lt_irrefl _)

theorem sum_children_takeWhile (p : List Char) (l : List Clock) (t : ℚ) :
    sum_children p t l
      = t + ((l.takeWhile (fun c => strncmp_zero p c.name)).map Clock.time).sum := by
  induction l generalizing t with
  | nil => simp [sum_children]
  | cons c rest ih =>
    by_cases h : strncmp_zero p c.name = true
    · simp only [sum_children, if_pos h, ih, List.takeWhile_cons, h, if_true, List.map_cons,
        List.sum_cons]
      ring
    · simp [sum_children, h, List.takeWhile_cons]

theorem takeWhile_eq_filter_sorted (p : List Char) (l : List Clock)
    (hs : (l.map Clock.name).Sorted (· < ·)) (hp : ∀ c ∈ l, p < c.name) :
    l.takeWhile (fun c => strncmp_zero p c.name) = l.filter (fun c => strncmp_zero p c.name) := by
  induction l with
  | nil => rfl
  | cons c rest ih =>
    simp only [List.map_cons, List.sorted_cons, List.mem_map, forall_exists_index, and_imp,
      forall_apply_eq_imp_iff₂] at hs
    by_cases h : strncmp_zero p c.name = true
    · simp only [List.takeWhile_cons, List.filter_cons, h, if_true]
      rw [ih hs.2 (fun d hd => hp d (List.mem_cons_of_mem c hd))]
    · simp only [List.takeWhile_cons, List.filter_cons, h, if_false, Bool.false_eq_true]
      symm
      rw [List.filter_eq_nil_iff]
      intro y hy hpy
      apply h
      simp only [strncmp_zero, decide_eq_true_eq] at hpy ⊢
      exact lex_between_start p c.name y.name (hp c (List.mem_cons_self c rest)) (hs.1 y hy) hpy

theorem descendants_time_eq (C : List Clock) (hs : (C.map Clock.name).Sorted (· < ·))
    (i : Nat) (ci : Clock) (hi : C[i]? = some ci) :
    descendants_time ci.name C i = sum_children ci.name 0 (C.drop (i + 1)) := by
  obtain ⟨hlt, hget⟩ := List.getElem?_eq_some.mp hi
  have hsplit : C = C.take i ++ ci :: C.drop (i + 1) := by
    rw [← hget, ← List.drop_eq_getElem_cons hlt, List.take_append_drop]
  have hs2 := hs
  rw [hsplit, List.map_append, List.map_cons] at hs2
  have hpw := List.pairwise_append.mp hs2
  obtain ⟨_, htail, hcross⟩ := hpw
  rw [List.pairwise_cons] at htail
  have hbefore : (C.take i).filter (fun c => strncmp_zero ci.name c.name) = [] := by
    rw [List.filter_eq_nil_iff]
    intro y hy hpy
    simp only [strncmp_zero, decide_eq_true_eq] at hpy
    exact lex_lt_not_start ci.name y.name
      (hcross y.name (List.mem_map_of_mem _ hy) ci.name (List.mem_cons_self _ _)) hpy
  have hafter := takeWhile_eq_filter_sorted ci.name (C.drop (i + 1)) htail.2
    (fun c hc => htail.1 c.name (List.mem_map_of_mem _ hc))
  rw [sum_children_takeWhile, hafter, zero_add]
  unfold descendants_time
  rw [List.eraseIdx_eq_take_drop_succ, List.filter_append, hbefore, List.nil_append]

theorem update_parent_fold (C : List Clock) (k : Nat) :
    ((List.range k).foldl update_parent C).length = C.length ∧
    ∀ j : Nat, ((List.range k).foldl update_parent C)[j]?
      = if j < k then (C[j]?).map (updated_clock C j) else C[j]? := by
  induction k with
  | zero => simp
  | succ k ih =>
    obtain ⟨hlen, hget⟩ := ih
    rw [List.range_succ, List.foldl_append, List.foldl_cons, List.foldl_nil]
    generalize (List.range k).foldl update_parent C = L at hlen hget
    have hk : L[k]? = C[k]? := by rw [hget k, if_neg (lt_irrefl k)]
    have hdrop : L.drop (k + 1) = C.drop (k + 1) := by
      apply List.ext_getElem?
      intro m
      rw [List.getElem?_drop, List.getElem?_drop, hget, if_neg (by omega)]
    cases hck : C[k]? with
    | none =>
      have hup : update_parent L k = L := by simp [update_parent, hk, hck]
      rw [hup]
      refine ⟨hlen, ?_⟩
      intro j
      rw [hget j]
      by_cases hj : j < k
      · rw [if_pos hj, if_pos (by omega)]
      · rw [if_neg hj]
        by_cases hjk : j = k
        · subst hjk
          simp [hck]
        · rw [if_neg (by omega)]
    | some ck =>
      have hup : update_parent L k = L.set k (updated_clock C k ck) := by
        simp only [update_parent, hk, hck, hdrop, updated_clock]
        split_ifs with ht
        · rfl
        · apply List.ext_getElem?
          intro m
          rw [List.getElem?_set]
          split_ifs with h1 h2
          · subst h1
            rw [hk, hck]
          · subst h1
            rw [List.getElem?_eq_none (by omega)]
          · rfl
      rw [hup]
      refine ⟨by rw [List.length_set, hlen], ?_⟩
      intro j
      have hkl : k < L.length := by
        rw [hlen]
        exact (List.getElem?_eq_some.mp hck).1
      rw [List.getElem?_set]
      by_cases hjk : k = j
      · subst hjk
        simp [hkl, hck]
      · rw [if_neg hjk, hget j]
        by_cases hj : j < k
        · rw [if_pos hj, if_pos (by omega)]
        · rw [if_neg hj, if_neg (by omega)]

/-- C29: for a clock table sorted strictly increasing by name, after
`walltime_update_parents` the table has the same clocks by name, and the time of
the clock `i` is the sum of the times, as they were before the call, of every
other clock whose name starts with the name of the clock `i` when that sum is
`> 0`, and is its own time before the call otherwise. -/
theorem parent_clock_totals (C : List Clock) (hs : (C.map Clock.name).Sorted (· < ·)) :
    (walltime_update_parents C).length = C.length ∧
    ∀ (i : Nat) (ci : Clock), C[i]? = some ci →
      ∃ di, (walltime_update_parents C)[i]? = some di ∧ di.name = ci.name ∧
        di.time = if descendants_time ci.name C i > 0 then descendants_time ci.name C i
          else ci.time := by
  obtain ⟨hlen, hget⟩ := update_parent_fold C C.length
  refine ⟨hlen, ?_⟩
  intro i ci hi
  have hlt := (List.getElem?_eq_some.mp hi).1
  refine ⟨updated_clock C i ci, ?_, ?_, ?_⟩
  · unfold walltime_update_parents
    rw [hget i, if_pos hlt, hi]
    rfl
  · unfold updated_clock
    split_ifs <;> rfl
  · rw [descendants_time_eq C hs i ci hi]
    unfold updated_clock
    split_ifs <;> rfl

/-- Witness for C29 on `example_clocks`: the clock `/` gets 2 + 3 + 0 = 5 and the
clock `/c`, which has no other clock below it, keeps its time 0. -/
theorem parent_clock_totals_witness :
    (∃ di, (walltime_update_parents example_clocks)[0]? = some di ∧ di.time = 5) ∧
    (∃ di, (walltime_update_parents example_clocks)[3]? = some di ∧ di.time = 0) := by
  have hs : (example_clocks.map Clock.name).Sorted (· < ·) := by
    simp only [example_clocks, List.map_cons, List.map_nil, List.sorted_cons, List.mem_cons,
      List.mem_singleton, List.not_mem_nil, forall_eq_or_imp, forall_eq, false_imp_iff,
      implies_true, and_true, List.sorted_nil, List.sorted_singleton]
    decide
  have h := (parent_clock_totals example_clocks hs).2
  obtain ⟨d0, h0, _, t0⟩ := h 0 ⟨['/'], 1⟩ rfl
  obtain ⟨d3, h3, _, t3⟩ := h 3 ⟨['/', 'c'], 0⟩ rfl
  refine ⟨⟨d0, h0, ?_⟩, ⟨d3, h3, ?_⟩⟩
  · rw [t0]
    norm_num [descendants_time, example_clocks, strncmp_zero]
  · have hac : ¬ ('a' = 'c') := by decide
    rw [t3]
    norm_num [descendants_time, example_clocks, strncmp_zero, List.filter_cons, hac]
/-! ## The clock table (`walltime_clock`, `walltime_clock_insert`) -/

theorem qsort_clocks_names (l : List Clock) :
    ((qsort_clocks l).map Clock.name).Sorted (· ≤ ·) ∧
    ((qsort_clocks l).map Clock.name).Perm (l.map Clock.name) := by
  haveI : IsTotal Clock (fun a b => a.name ≤ b.name) := ⟨fun a b => le_total a.name b.name⟩
  haveI : IsTrans Clock (fun a b => a.name ≤ b.name) :=
    ⟨fun a b c hab hbc => le_trans hab hbc⟩
  refine ⟨?_, ?_⟩
  · have h := List.sorted_insertionSort (fun a b : Clock => a.name ≤ b.name) l
    exact List.pairwise_map.mpr h
  · exact (List.perm_insertionSort (fun a b : Clock => a.name ≤ b.name) l).map Clock.name

theorem bsearch_clock_some (name : List Char) (C : List Clock) (i : Nat)
    (h : bsearch_clock name C = some i) : (C[i]?).map Clock.name = some name := by
  unfold bsearch_clock at h
  split_ifs at h with hlt
  simp only [Option.some.injEq] at h
  subst h
  rw [List.getElem?_eq_getElem hlt]
  have hp := List.findIdx_getElem (w := hlt)
  simp only [decide_eq_true_eq] at hp
  simp [hp]

theorem bsearch_clock_none (name : List Char) (C : List Clock)
    (h : bsearch_clock name C = none) : name ∉ C.map Clock.name := by
  unfold bsearch_clock at h
  split_ifs at h with hlt
  intro hmem
  obtain ⟨c, hc, hcn⟩ := List.mem_map.mp hmem
  exact hlt (List.findIdx_lt_length_of_exists ⟨c, hc, by simp [hcn]⟩)

theorem bsearch_clock_mem (name : List Char) (C : List Clock) (h : name ∈ C.map Clock.name) :
    ∃ i, bsearch_clock name C = some i := by
  cases hb : bsearch_clock name C with
  | none => exact absurd h (bsearch_clock_none name C hb)
  | some i => exact ⟨i, rfl⟩

theorem ancestor_paths_facts (n a : List Char) (hn : n.head? = some '/')
    (ha : a ∈ ancestor_paths n) : a.length < n.length ∧ a.head? = some '/' := by
  simp only [ancestor_paths, List.mem_map, List.mem_filter, List.mem_range, Bool.and_eq_true,
    decide_eq_true_eq] at ha
  obtain ⟨p, ⟨hp, hp1, _⟩, rfl⟩ := ha
  refine ⟨by rw [List.length_take]; omega, ?_⟩
  cases n with
  | nil => simp at hn
  | cons c n =>
    cases p with
    | zero => omega
    | succ p => simpa using hn

theorem names_length_le (S : Finset (List Char)) (names : List (List Char))
    (hs : names.Sorted (· < ·)) (hS : ∀ n ∈ names, n ∈ S) : names.length ≤ S.card := by
  have hnd : names.Nodup := hs.imp (fun h => ne_of_lt h)
  rw [← List.toFinset_card_of_nodup hnd]
  apply Finset.card_le_card
  intro n hn
  exact hS n (List.mem_toFinset.mp hn)

theorem insert_sorted (S : Finset (List Char)) (ct1 : ClockTable) (name : List Char)
    (t1 t2 : ℚ) (hinv : table_inv S ct1) (hnew : name ∉ clock_names ct1) (hS : name ∈ S)
    (hhead : name.head? = some '/')
    (hanc : ∀ a ∈ ancestor_paths name, a ∈ clock_names ct1) :
    table_inv S { ct1 with
        C := qsort_clocks (ct1.C ++ [⟨name, t1⟩])
        AC := qsort_clocks (ct1.AC ++ [⟨name, t2⟩]) } ∧
    ∀ m, m ∈ clock_names { ct1 with
        C := qsort_clocks (ct1.C ++ [⟨name, t1⟩])
        AC := qsort_clocks (ct1.AC ++ [⟨name, t2⟩]) } ↔ m = name ∨ m ∈ clock_names ct1 := by
  obtain ⟨hsorted, hac, hclosed, hmax, hin⟩ := hinv
  obtain ⟨hs1, hp1⟩ := qsort_clocks_names (ct1.C ++ [⟨name, t1⟩])
  obtain ⟨hs2, hp2⟩ := qsort_clocks_names (ct1.AC ++ [⟨name, t2⟩])
  simp only [List.map_append, List.map_cons, List.map_nil] at hp1 hp2
  rw [hac] at hp2
  have hmem : ∀ m, m ∈ (qsort_clocks (ct1.C ++ [⟨name, t1⟩])).map Clock.name
      ↔ m = name ∨ m ∈ clock_names ct1 := by
    intro m
    rw [hp1.mem_iff, List.mem_append, List.mem_singleton]
    exact Or.comm
  have hnd1 : (clock_names ct1 ++ [name]).Nodup := by
    rw [List.nodup_append]
    refine ⟨hsorted.imp (fun h => ne_of_lt h), List.nodup_singleton name, ?_⟩
    intro a ha hb
    rw [List.mem_singleton] at hb
    subst hb
    exact hnew ha
  have hnd : ((qsort_clocks (ct1.C ++ [⟨name, t1⟩])).map Clock.name).Nodup :=
    hp1.nodup_iff.mpr hnd1
  refine ⟨⟨hs1.lt_of_le hnd, ?_, ?_, hmax, ?_⟩, hmem⟩
  · exact List.eq_of_perm_of_sorted (hp2.trans hp1.symm) hs2 hs1
  · intro n hn a ha
    rw [clock_names, hmem] at hn ⊢
    rcases hn with hn | hn
    · subst hn
      exact Or.inr (hanc a ha)
    · exact Or.inr (hclosed n hn a ha)
  · intro n hn
    rw [clock_names, hmem] at hn
    rcases hn with hn | hn
    · subst hn
      exact ⟨hS, hhead⟩
    · exact hin n hn

theorem ancestors_loop (S : Finset (List Char))
    (clock : List Char → ClockTable → Option (Nat × ClockTable)) (B : Nat)
    (hclock : ∀ tmp ct, table_inv S ct → tmp ∈ S → tmp.head? = some '/' → tmp.length ≤ B →
      ∃ i ct2, clock tmp ct = some (i, ct2) ∧ table_inv S ct2 ∧
        (ct2.C[i]?).map Clock.name = some tmp ∧
        (∀ m ∈ clock_names ct, m ∈ clock_names ct2) ∧
        ∀ m ∈ clock_names ct2, m ∈ clock_names ct ∨ m.length ≤ tmp.length)
    (tmps : List (List Char))
    (htmps : ∀ tmp ∈ tmps, tmp ∈ S ∧ tmp.head? = some '/' ∧ tmp.length ≤ B)
    (ct : ClockTable) (hinv : table_inv S ct) :
    ∃ ct1, tmps.foldlM (fun (t : ClockTable) tmp => (clock tmp t).map Prod.snd) ct = some ct1 ∧
      table_inv S ct1 ∧ (∀ m ∈ clock_names ct, m ∈ clock_names ct1) ∧
      (∀ tmp ∈ tmps, tmp ∈ clock_names ct1) ∧
      ∀ m ∈ clock_names ct1, m ∈ clock_names ct ∨ m.length ≤ B := by
  induction tmps generalizing ct with
  | nil => exact ⟨ct, rfl, hinv, fun _ h => h, by simp, fun _ h => Or.inl h⟩
  | cons tmp rest ih =>
    obtain ⟨h1, h2, h3⟩ := htmps tmp (List.mem_cons_self tmp rest)
    obtain ⟨i, ct2, hc, hinv2, hget, hmono, hnew⟩ := hclock tmp ct hinv h1 h2 h3
    obtain ⟨ct1, hfold, hinv1, hmono1, hall, hnew1⟩ :=
      ih (fun t ht => htmps t (List.mem_cons_of_mem tmp ht)) ct2 hinv2
    refine ⟨ct1, ?_, hinv1, fun m hm => hmono1 m (hmono m hm), ?_, ?_⟩
    · rw [List.foldlM_cons, hc]
      exact hfold
    · intro t ht
      rcases List.mem_cons.mp ht with h | h
      · subst h
        apply hmono1
        cases hci : ct2.C[i]? with
        | none => simp [hci] at hget
        | some c =>
          simp only [hci, Option.map_some', Option.some.injEq] at hget
          rw [← hget]
          exact List.mem_map_of_mem _ (List.getElem?_mem hci)
      · exact hall t h
    · intro m hm
      rcases hnew1 m hm with h | h
      · rcases hnew m h with h5 | h5
        · exact Or.inl h5
        · exact Or.inr (le_trans h5 h3)
      · exact Or.inr h

theorem strcpy_fits (size : Nat) (src : List Char) (h : src.length < size) :
    strcpy size src = some src := by
  unfold strcpy
  rw [if_pos (by omega)]

theorem strcpy_overrun (size : Nat) (src : List Char) (h : size ≤ src.length) :
    strcpy size src = none := by
  unfold strcpy
  rw [if_neg (by omega)]

theorem walltime_clock_spec (name_size : Nat) (S : Finset (List Char)) (hcard : S.card < 128)
    (hroot : ['/'] ∈ S) (hclosed : ∀ n ∈ S, ∀ a ∈ ancestor_paths n, a ∈ S)
    (hshort : ∀ n ∈ S, n.length < 80 ∧ n.length < name_size) (fuel : Nat) :
    ∀ name ct, table_inv S ct → name ∈ S → name.head? = some '/' → name.length ≤ fuel →
      ∃ i ct2, walltime_clock name_size fuel name ct = some (i, ct2) ∧ table_inv S ct2 ∧
        (ct2.C[i]?).map Clock.name = some name ∧
        (∀ m ∈ clock_names ct, m ∈ clock_names ct2) ∧
        ∀ m ∈ clock_names ct2, m ∈ clock_names ct ∨ m.length ≤ name.length := by
  induction fuel with
  | zero =>
    intro name ct _ _ hhead hlen
    cases name with
    | nil => simp at hhead
    | cons c t => simp at hlen
  | succ fuel ih =>
    intro name ct hinv hS hhead hlen
    have hcp := strcpy_fits name_size name (hshort name hS).2
    have hcp80 := strcpy_fits 80 name (hshort name hS).1
    cases hb : bsearch_clock name ct.C with
    | some i =>
      refine ⟨i, ct, by simp [walltime_clock, hcp, hb], hinv, bsearch_clock_some name ct.C i hb,
        fun _ h => h, fun _ h => Or.inl h⟩
    | none =>
      have hnotin : name ∉ clock_names ct := bsearch_clock_none name ct.C hb
      have hlen1 : 1 ≤ name.length := by
        cases name with
        | nil => simp at hhead
        | cons c t => simp
      have hloop : ∃ ct1,
          walltime_clock_ancestors (walltime_clock name_size fuel) name ct = some ct1 ∧
          table_inv S ct1 ∧
          (∀ m ∈ clock_names ct, m ∈ clock_names ct1) ∧
          (∀ a ∈ ancestor_paths name, a ∈ clock_names ct1) ∧
          ∀ m ∈ clock_names ct1, m ∈ clock_names ct ∨ m.length < name.length := by
        unfold walltime_clock_ancestors
        by_cases hgt : name.length > 1
        · rw [if_pos hgt, hcp80]
          simp only
          obtain ⟨ct1, hfold, hinv1, hmono, hall, hnew⟩ := ancestors_loop S
            (walltime_clock name_size fuel) (name.length - 1)
            (fun tmp t ht htS hth htl => ih tmp t ht htS hth (by omega))
            (['/'] :: ancestor_paths name)
            (by
              intro tmp htmp
              rcases List.mem_cons.mp htmp with h | h
              · subst h
                exact ⟨hroot, rfl, by simp only [List.length_singleton]; omega⟩
              · obtain ⟨h1, h2⟩ := ancestor_paths_facts name tmp hhead h
                exact ⟨hclosed name hS tmp h, h2, by omega⟩)
            ct hinv
          refine ⟨ct1, hfold, hinv1, hmono, fun a ha => hall a (List.mem_cons_of_mem _ ha), ?_⟩
          intro m hm
          rcases hnew m hm with h | h
          · exact Or.inl h
          · exact Or.inr (by omega)
        · rw [if_neg hgt]
          refine ⟨ct, rfl, hinv, fun _ h => h, ?_, fun _ h => Or.inl h⟩
          intro a ha
          have := (ancestor_paths_facts name a hhead ha).1
          have h2 : a.head? = some '/' := (ancestor_paths_facts name a hhead ha).2
          cases a with
          | nil => simp at h2
          | cons c t =>
            simp only [List.length_cons] at this
            omega
      obtain ⟨ct1, hfold, hinv1, hmono, hanc, hnew⟩ := hloop
      have hnotin1 : name ∉ clock_names ct1 := by
        intro h
        rcases hnew name h with h2 | h2
        · exact hnotin h2
        · exact absurd h2 (lt_irrefl _)
      have hfull : ¬ ct1.C.length = ct1.Nmax := by
        have h1 := names_length_le S (clock_names ct1) hinv1.1 (fun n hn => (hinv1.2.2.2.2 n hn).1)
        rw [hinv1.2.2.2.1]
        simp only [clock_names, List.length_map] at h1
        omega
      obtain ⟨hinv2, hmem2⟩ := insert_sorted S ct1 name (ct1.unused ct1.C.length).1
        (ct1.unused ct1.C.length).2 hinv1 hnotin1 hS hhead hanc
      have hins : walltime_clock_insert name_size (walltime_clock name_size fuel) name ct
          = some { ct1 with
              C := qsort_clocks (ct1.C ++ [⟨name, (ct1.unused ct1.C.length).1⟩])
              AC := qsort_clocks (ct1.AC ++ [⟨name, (ct1.unused ct1.C.length).2⟩]) } := by
        unfold walltime_clock_insert
        rw [if_neg (not_not.mpr hhead), hfold]
        simp only [if_neg hfull, hcp]
      obtain ⟨i, hi⟩ := bsearch_clock_mem name
        (qsort_clocks (ct1.C ++ [(⟨name, (ct1.unused ct1.C.length).1⟩ : Clock)]))
        ((hmem2 name).mpr (Or.inl rfl))
      refine ⟨i, _, by simp only [walltime_clock, hcp, hb, hins, hi], hinv2,
        bsearch_clock_some name _ i hi, ?_, ?_⟩
      · intro m hm
        exact (hmem2 m).mpr (Or.inr (hmono m hm))
      · intro m hm
        rcases (hmem2 m).mp hm with h | h
        · subst h
          exact Or.inr le_rfl
        · rcases hnew m h with h2 | h2
          · exact Or.inl h2
          · exact Or.inr h2.le

theorem walltime_init_value (name_size : Nat) (unused : Nat → ℚ × ℚ) (hsize : 2 ≤ name_size) :
    walltime_init name_size unused
      = some { C := [⟨['/'], (unused 0).1⟩], AC := [⟨['/'], (unused 0).2⟩], Nmax := 128,
               unused := unused } := by
  have hcp : strcpy name_size ['/'] = some ['/'] := strcpy_fits name_size ['/'] (by simpa using hsize)
  simp [walltime_init, walltime_clock_insert, walltime_clock_ancestors, hcp, qsort_clocks]

theorem walltime_init_overrun (name_size : Nat) (unused : Nat → ℚ × ℚ) (hsize : name_size < 2) :
    walltime_init name_size unused = none := by
  have hcp : strcpy name_size ['/'] = none := strcpy_overrun name_size ['/'] (by simp; omega)
  simp [walltime_init, walltime_clock_insert, walltime_clock_ancestors, hcp]

theorem walltime_init_spec (name_size : Nat) (S : Finset (List Char)) (hroot : ['/'] ∈ S)
    (hshort : ∀ n ∈ S, n.length < 80 ∧ n.length < name_size) (unused : Nat → ℚ × ℚ) :
    ∃ ct0, walltime_init name_size unused = some ct0 ∧ table_inv S ct0 ∧
      ['/'] ∈ clock_names ct0 := by
  have hsize : 2 ≤ name_size := by
    have := (hshort ['/'] hroot).2
    simp only [List.length_singleton] at this
    omega
  refine ⟨_, walltime_init_value name_size unused hsize, ?_, by simp [clock_names]⟩
  refine ⟨by simp [clock_names], rfl, ?_, rfl, ?_⟩
  · intro n hn a ha
    simp only [clock_names, List.map_cons, List.map_nil, List.mem_singleton] at hn
    subst hn
    have h := (ancestor_paths_facts ['/'] a rfl ha)
    cases a with
    | nil => simp at h
    | cons c t =>
      simp only [List.length_cons, List.length_nil] at h
      omega
  · intro n hn
    simp only [clock_names, List.map_cons, List.map_nil, List.mem_singleton] at hn
    subst hn
    exact ⟨hroot, rfl⟩

theorem add_time_inv (S : Finset (List Char)) (ct : ClockTable) (id : Nat) (dt : ℚ) :
    clock_names (add_time ct id dt) = clock_names ct ∧
    (table_inv S ct → table_inv S (add_time ct id dt)) := by
  have hnames : clock_names (add_time ct id dt) = clock_names ct := by
    unfold add_time clock_names
    cases hc : ct.C[id]? with
    | none => rfl
    | some c =>
      simp only
      apply List.ext_getElem?
      intro j
      rw [List.getElem?_map, List.getElem?_map, List.getElem?_set]
      split_ifs with h1 h2
      · subst h1
        simp [hc]
      · exact absurd (List.getElem?_eq_some.mp hc).1 (h1 ▸ h2)
      · rfl
  refine ⟨hnames, ?_⟩
  intro hinv
  have hAC : (add_time ct id dt).AC = ct.AC ∧ (add_time ct id dt).Nmax = ct.Nmax := by
    unfold add_time
    cases ct.C[id]? <;> exact ⟨rfl, rfl⟩
  unfold table_inv
  rw [hnames, hAC.1, hAC.2]
  exact hinv

theorem walltime_step_spec (name_size : Nat) (S : Finset (List Char)) (hcard : S.card < 128)
    (hroot : ['/'] ∈ S) (hclosed : ∀ n ∈ S, ∀ a ∈ ancestor_paths n, a ∈ S)
    (hshort : ∀ n ∈ S, n.length < 80 ∧ n.length < name_size)
    (ct : ClockTable) (hinv : table_inv S ct) (c : walltime_call) (hS : c.name ∈ S)
    (hhead : c.name.head? = some '/') :
    ∃ ct2, walltime_step name_size ct c = some ct2 ∧ table_inv S ct2 ∧
      (∀ m ∈ clock_names ct, m ∈ clock_names ct2) ∧ c.name ∈ clock_names ct2 := by
  obtain ⟨i, ct2, hc, hinv2, hget, hmono, _⟩ :=
    walltime_clock_spec name_size S hcard hroot hclosed hshort c.name.length c.name ct hinv hS
      hhead le_rfl
  have hmem : c.name ∈ clock_names ct2 := by
    cases hci : ct2.C[i]? with
    | none => simp [hci] at hget
    | some d =>
      simp only [hci, Option.map_some', Option.some.injEq] at hget
      rw [← hget]
      exact List.mem_map_of_mem _ (List.getElem?_mem hci)
  cases c with
  | clock name =>
    simp only [walltime_call.name] at hc hmem
    exact ⟨ct2, by simp only [walltime_step]; rw [hc]; rfl, hinv2, hmono, hmem⟩
  | add name dt =>
    simp only [walltime_call.name] at hc hmem
    refine ⟨add_time ct2 i dt, by simp only [walltime_step]; rw [hc]; rfl,
      (add_time_inv S ct2 i dt).2 hinv2, ?_, ?_⟩
    · rw [(add_time_inv S ct2 i dt).1]
      exact hmono
    · rw [(add_time_inv S ct2 i dt).1]
      exact hmem
  | measure name dt =>
    simp only [walltime_call.name] at hc hmem
    refine ⟨add_time ct2 i dt, by simp only [walltime_step]; rw [hc]; rfl,
      (add_time_inv S ct2 i dt).2 hinv2, ?_, ?_⟩
    · rw [(add_time_inv S ct2 i dt).1]
      exact hmono
    · rw [(add_time_inv S ct2 i dt).1]
      exact hmem

theorem walltime_calls_spec (name_size : Nat) (S : Finset (List Char)) (hcard : S.card < 128)
    (hroot : ['/'] ∈ S) (hclosed : ∀ n ∈ S, ∀ a ∈ ancestor_paths n, a ∈ S)
    (hshort : ∀ n ∈ S, n.length < 80 ∧ n.length < name_size)
    (calls : List walltime_call)
    (hcalls : ∀ c ∈ calls, c.name ∈ S ∧ c.name.head? = some '/')
    (ct : ClockTable) (hinv : table_inv S ct) :
    ∃ ct2, calls.foldlM (walltime_step name_size) ct = some ct2 ∧ table_inv S ct2 ∧
      (∀ m ∈ clock_names ct, m ∈ clock_names ct2) ∧
      ∀ c ∈ calls, c.name ∈ clock_names ct2 := by
  induction calls generalizing ct with
  | nil => exact ⟨ct, rfl, hinv, fun _ h => h, by simp⟩
  | cons c rest ih =>
    obtain ⟨h1, h2⟩ := hcalls c (List.mem_cons_self c rest)
    obtain ⟨ct1, hstep, hinv1, hmono1, hmem1⟩ :=
      walltime_step_spec name_size S hcard hroot hclosed hshort ct hinv c h1 h2
    obtain ⟨ct2, hfold, hinv2, hmono2, hall⟩ :=
      ih (fun d hd => hcalls d (List.mem_cons_of_mem c hd)) ct1 hinv1
    refine ⟨ct2, by rw [List.foldlM_cons, hstep]; exact hfold, hinv2,
      fun m hm => hmono2 m (hmono1 m hm), ?_⟩
    intro d hd
    rcases List.mem_cons.mp hd with h | h
    · subst h
      exact hmono2 _ hmem1
    · exact hall d h

/-- Counterexample to C28 as stated: the one call `walltime_clock(name)` after
`walltime_init`, with the name `'/'` followed by 79 times `'a'` (80 characters,
starting with `'/'`; two clocks in total), does not return with a well-formed
table, whatever the size of the member `name` of `struct Clock`: the name is not
stored, so `walltime_clock_insert` copies it with `strcpy` into `char tmp[80]`,
which holds at most 79 characters and the terminating zero. -/
theorem clock_table_invariant_counterexample :
    long_name.head? = some '/' ∧ long_name.length = 80 ∧
    strcpy 80 long_name = none ∧
    ∀ (name_size : Nat) (unused : Nat → ℚ × ℚ),
      walltime_run name_size unused [walltime_call.clock long_name] = none := by
  have hlen : long_name.length = 80 := by simp [long_name]
  have h80 : strcpy 80 long_name = none := strcpy_overrun 80 long_name (by omega)
  refine ⟨rfl, hlen, h80, ?_⟩
  intro name_size unused
  unfold walltime_run
  rcases Nat.lt_or_ge name_size 2 with hsize | hsize
  · rw [walltime_init_overrun name_size unused hsize]
  · rw [walltime_init_value name_size unused hsize]
    simp only [List.foldlM_cons, List.foldlM_nil, walltime_step, hlen]
    have hclock : walltime_clock name_size 80 long_name
        { C := [⟨['/'], (unused 0).1⟩], AC := [⟨['/'], (unused 0).2⟩], Nmax := 128,
          unused := unused } = none := by
      rcases Nat.lt_or_ge 80 name_size with hfit | hfit
      · have hcp := strcpy_fits name_size long_name (by omega)
        have hb : bsearch_clock long_name [(⟨['/'], (unused 0).1⟩ : Clock)] = none := by
          cases hb : bsearch_clock long_name [(⟨['/'], (unused 0).1⟩ : Clock)] with
          | none => rfl
          | some i =>
            exfalso
            have hmem : long_name ∈ [(⟨['/'], (unused 0).1⟩ : Clock)].map Clock.name := by
              have h := bsearch_clock_some long_name _ i hb
              cases hci : [(⟨['/'], (unused 0).1⟩ : Clock)][i]? with
              | none => simp [hci] at h
              | some d =>
                simp only [hci, Option.map_some', Option.some.injEq] at h
                rw [← h]
                exact List.mem_map_of_mem _ (List.getElem?_mem hci)
            simp only [List.map_cons, List.map_nil, List.mem_singleton] at hmem
            have := congrArg List.length hmem
            rw [hlen] at this
            simp at this
        have hins : walltime_clock_insert name_size (walltime_clock name_size 79) long_name
            { C := [⟨['/'], (unused 0).1⟩], AC := [⟨['/'], (unused 0).2⟩], Nmax := 128,
              unused := unused } = none := by
          have hhead : long_name.head? = some '/' := rfl
          have hgt : long_name.length > 1 := by rw [hlen]; norm_num
          unfold walltime_clock_insert walltime_clock_ancestors
          rw [if_neg (not_not.mpr hhead), if_pos hgt, h80]
        have e : walltime_clock name_size (79 + 1) long_name
            { C := [⟨['/'], (unused 0).1⟩], AC := [⟨['/'], (unused 0).2⟩], Nmax := 128,
              unused := unused } = none := by
          rw [walltime_clock]
          simp only [hcp, hb, hins]
        exact e
      · have hcp := strcpy_overrun name_size long_name (by omega)
        have e : walltime_clock name_size (79 + 1) long_name
            { C := [⟨['/'], (unused 0).1⟩], AC := [⟨['/'], (unused 0).2⟩], Nmax := 128,
              unused := unused } = none := by
          rw [walltime_clock]
          simp only [hcp]
        exact e
    rw [hclock]
    rfl

/-- C28 (amended): let `S` be a set of fewer than 128 names that holds `"/"`, the
names of all calls and every ancestor path of its names, every name shorter than
80 characters and than the size of the member `name` of `struct Clock`.  After
`walltime_init` and a sequence of calls of `walltime_clock`, `walltime_add` and
`walltime_measure` with names of `S` that start with `'/'`, no call has aborted or
copied a name past its array, the names of `C` are strictly increasing, `AC` holds
the same names at the same indices, `"/"` and every ancestor path of a stored name
are stored, and `walltime_clock(name)` returns an index `i` with
`C[i].name = name` (leaving the table as it is when the name is stored). -/
theorem clock_table_invariant (name_size : Nat) (unused : Nat → ℚ × ℚ)
    (calls : List walltime_call)
    (S : Finset (List Char)) (hcard : S.card < 128) (hroot : ['/'] ∈ S)
    (hclosed : ∀ n ∈ S, ∀ a ∈ ancestor_paths n, a ∈ S)
    (hshort : ∀ n ∈ S, n.length < 80 ∧ n.length < name_size)
    (hcalls : ∀ c ∈ calls, c.name ∈ S ∧ c.name.head? = some '/') :
    ∃ ct, walltime_run name_size unused calls = some ct ∧
      (ct.C.map Clock.name).Sorted (· < ·) ∧
      ct.AC.map Clock.name = ct.C.map Clock.name ∧
      ['/'] ∈ ct.C.map Clock.name ∧
      (∀ n ∈ ct.C.map Clock.name, ∀ a ∈ ancestor_paths n, a ∈ ct.C.map Clock.name) ∧
      (∀ c ∈ calls, c.name ∈ ct.C.map Clock.name) ∧
      (∀ name ∈ S, name.head? = some '/' →
        ∃ i ct2, walltime_clock name_size name.length name ct = some (i, ct2) ∧
          (ct2.C[i]?).map Clock.name = some name) ∧
      ∀ name ∈ ct.C.map Clock.name,
        ∃ i, walltime_clock name_size name.length name ct = some (i, ct) ∧
          (ct.C[i]?).map Clock.name = some name := by
  obtain ⟨ct0, hinit, hinv0, hroot0⟩ := walltime_init_spec name_size S hroot hshort unused
  obtain ⟨ct, hfold, hinv, hmono, hall⟩ :=
    walltime_calls_spec name_size S hcard hroot hclosed hshort calls hcalls ct0 hinv0
  refine ⟨ct, by simp only [walltime_run, hinit]; exact hfold, hinv.1, hinv.2.1,
    hmono _ hroot0, hinv.2.2.1, hall, ?_, ?_⟩
  · intro name hS hhead
    obtain ⟨i, ct2, hc, _, hget, _⟩ :=
      walltime_clock_spec name_size S hcard hroot hclosed hshort name.length name ct hinv hS
        hhead le_rfl
    exact ⟨i, ct2, hc, hget⟩
  · intro name hname
    obtain ⟨i, hi⟩ := bsearch_clock_mem name ct.C hname
    refine ⟨i, ?_, bsearch_clock_some name ct.C i hi⟩
    have hcp := strcpy_fits name_size name (hshort name (hinv.2.2.2.2 name hname).1).2
    cases name.length <;> simp [walltime_clock, hcp, hi]

/-- Witness for C28 (amended), with 128 characters in the member `name`: after
`walltime_add("/a/b", 2)` and `walltime_clock("/c")` the table holds `/a/b`, `/c`
and the ancestors `/` and `/a`. -/
theorem clock_table_invariant_witness :
    ∃ ct, walltime_run 128 (fun _ => (0, 0)) example_calls = some ct ∧
      (ct.C.map Clock.name).Sorted (· < ·) ∧
      ['/', 'a'] ∈ ct.C.map Clock.name ∧ ['/', 'c'] ∈ ct.C.map Clock.name := by
  obtain ⟨ct, h1, h2, _, _, h5, h6, _⟩ := clock_table_invariant 128 (fun _ => (0, 0))
    example_calls example_names (by decide) (by decide) (by decide) (by decide) (by decide)
  refine ⟨ct, h1, h2, ?_, ?_⟩
  · exact h5 ['/', 'a', '/', 'b'] (h6 (walltime_call.add ['/', 'a', '/', 'b'] 2) (by
      simp [example_calls])) ['/', 'a'] (by decide)
  · exact h6 (walltime_call.clock ['/', 'c']) (by simp [example_calls])

end Uvbg
